import Mathlib

/-!
# Verification development for the `Database_Myfile` storage engine

Shallow embedding of `src/database.cpp` (coordinate codec) and
`src/database-myfile.{h,cpp}` (slab allocator, partition, engine).

Conventions of the embedding
* machine integers are `Int`/`Nat` with explicit wrap-around (`toInt16`,
  `toInt32`, `toUInt16`, `toUInt32`, `toUInt64`); signed overflow of `int`
  arithmetic is modelled as two's complement wrap-around;
* C integer division truncates towards zero (`cdiv`, `cmod`);
* bytes are `Int` values in `[0, 256)`; byte strings (`std::string`, file
  contents) are `List Int`, heap buffers are functions `Int → Int`;
* an operation returns `none` where the C++ code has undefined behaviour
  (out-of-bounds access, null dereference) or runs out of fuel;
* `assert` is compiled out (release build);
* the CRC-32 routine of the external library is a parameter `crc`.
-/

namespace Myfile

/-! ## Machine integers -/

/-- Conversion to `int16_t`. -/
@[irreducible] def toInt16 (v : Int) : Int := (v + 32768) % 65536 - 32768

/-- Conversion to `int32_t`. -/
@[irreducible] def toInt32 (v : Int) : Int := (v + 2147483648) % 4294967296 - 2147483648

/-- Conversion to `int64_t`. -/
@[irreducible] def toInt64 (v : Int) : Int :=
  (v + 9223372036854775808) % 18446744073709551616 - 9223372036854775808

/-- Conversion to `uint16_t`. -/
@[irreducible] def toUInt16 (v : Int) : Int := v % 65536

/-- Conversion to `uint32_t`. -/
@[irreducible] def toUInt32 (v : Int) : Int := v % 4294967296

/-- Conversion to `uint64_t`. -/
@[irreducible] def toUInt64 (v : Int) : Int := v % 18446744073709551616

/-- C division (truncation towards zero) by a positive divisor. -/
@[irreducible] def cdiv (a b : Int) : Int := if 0 ≤ a then a / b else -((-a) / b)

/-- C remainder (sign of the dividend) for a positive divisor. -/
@[irreducible] def cmod (a b : Int) : Int := if 0 ≤ a then a % b else -((-a) % b)

/-! ## Compile-time constants (`database-myfile.h`) -/

def MYSQL_BLOCK_TABLE_NUM : Int := 10

def MAX_NODE : Int := 14 * 104 * 1024

def MAX_CACHE : Int := cdiv (14 * 104 * 1024) 56

def MAX_CACHE_LENGTH : Int := 20 * 1024 * 1024

def MAX_DATA_LENGTH : Int := 65535

/-- The handle sentinel `(uint32_t)-1`. -/
def INVALID_HANDLE : Int := 4294967295

/-- The value of `sizeof(NodeHeader)` under `#pragma pack(1)`. -/
def sizeofNodeHeader : Int := 24

/-- The macro `ROUND(x, mod)` on `int` operands. -/
def ROUND (x m : Int) : Int := toInt32 (cdiv (x + m - 1) m * m)

/-! ## Coordinate codec (`database.cpp`) -/

/-- The helper `unsigned_to_signed(u16 i, u32 max_positive)`, result `s16`. -/
def unsigned_to_signed (i max_positive : Int) : Int :=
  if i < max_positive then toInt16 i
  else toInt16 (toUInt32 (i - toUInt32 (max_positive * 2)))

/-- The helper `pythonmodulo(s64 i, s32 mod)`. -/
def pythonmodulo (i m : Int) : Int :=
  if 0 ≤ i then cmod i m else toInt64 (m - cmod (toInt64 (-i)) m)

/-- The function `Database::getBlockAsInteger(int16_t x, int16_t y, int16_t z)`:
the sum is formed in `uint64_t` and returned as `int64_t`. -/
def getBlockAsInteger (x y z : Int) : Int :=
  toInt64 (toUInt64 (toUInt64 (toUInt64 (toUInt64 z * 0x1000000)
    + toUInt64 (toUInt64 y * 0x1000)) + toUInt64 x))

/-- The function `Database::getIntegerAsBlock(int64_t i, x, y, z)`; the three
out-parameters are returned as a triple. -/
def getIntegerAsBlock (i : Int) : Int × Int × Int :=
  let x := unsigned_to_signed (toUInt16 (pythonmodulo i 4096)) 2048
  let i1 := cdiv (toInt64 (i - x)) 4096
  let y := unsigned_to_signed (toUInt16 (pythonmodulo i1 4096)) 2048
  let i2 := cdiv (toInt64 (i1 - y)) 4096
  let z := unsigned_to_signed (toUInt16 (pythonmodulo i2 4096)) 2048
  (x, y, z)

/-- The function `MyfilePartition::getLocalIndex(int16_t x, int16_t y, int16_t z)`. -/
def getLocalIndex (x y z : Int) : Int :=
  if x < 0 ∨ z < 0 then -1
  else
    let local_x := toInt16 (cdiv x MYSQL_BLOCK_TABLE_NUM)
    let local_y := toInt16 (y + 14)
    let local_z := z
    if local_z < 0 ∨ local_z ≥ 1024 then -1
    else if local_y < 0 ∨ local_y ≥ 23 then -1
    else if local_x < 0 ∨ local_x ≥ 64 then -1
    else toInt32 (local_z + local_x * 2 ^ 10 + local_y * 2 ^ 16)

/-- The function `Database_Myfile::getTableIndex(int64_t x)`; `abs` is the
`int` overload applied to the `int64_t` remainder. -/
def getTableIndex (x : Int) : Int :=
  let r := toInt32 (cmod x MYSQL_BLOCK_TABLE_NUM)
  toInt32 (if r < 0 then -r else r)

/-- The function `MyfilePartition::getGlobalIndex(int32_t localindex)` of the
partition whose `m_index` is given. -/
def getGlobalIndex (m_index localindex : Int) : Int :=
  let z := toInt16 (localindex % 1024)
  let l1 := localindex / 1024
  let x := toInt16 (l1 % 64)
  let l2 := l1 / 64
  let y := toInt16 l2
  getBlockAsInteger (toInt16 (toInt32 (x * MYSQL_BLOCK_TABLE_NUM + m_index)))
    (toInt16 (y - 14)) z

/-- The range of `int16_t`. -/
def isInt16 (v : Int) : Prop := -32768 ≤ v ∧ v ≤ 32767

/-! ## Bytes, files and the record layout -/

/-- Pointwise update of a table (`a[i] = v`). -/
def setAt {α : Type} (f : Int → α) (i : Int) (v : α) : Int → α :=
  fun j => if j = i then v else f j

/-- Number of bytes of a string, buffer or file (`length()`, `st_size`). -/
def byteLen : List Int → Int
  | [] => 0
  | _ :: t => byteLen t + 1

/-- Little-endian bytes of a `uint32_t`. -/
def le32 (v : Int) : List Int :=
  [v % 256, v / 256 % 256, v / 65536 % 256, v / 16777216 % 256]

/-- Little-endian bytes of a `uint64_t`. -/
def le64 (v : Int) : List Int :=
  le32 (v % 4294967296) ++ le32 (v / 4294967296 % 4294967296)

/-- Read a little-endian `uint32_t` at offset `p` of a buffer. -/
@[irreducible] def rd32 (buf : Int → Int) (p : Int) : Int :=
  buf p % 256 + buf (p + 1) % 256 * 256 + buf (p + 2) % 256 * 65536
    + buf (p + 3) % 256 * 16777216

/-- Copy `bytes` to the start of a buffer (`memcpy(buf, bytes, n)`). -/
def overlay (buf : Int → Int) (bytes : List Int) : Int → Int :=
  fun k => if 0 ≤ k ∧ k < byteLen bytes then bytes.getD k.toNat 0 else buf k

/-- The `n` bytes of a buffer starting at offset `p`. -/
def bufSlice (buf : Int → Int) (p : Int) (n : Nat) : List Int :=
  (List.range n).map (fun k => buf (p + Int.ofNat k))

/-- The method `File::Read(offset, data, size)` (POSIX branch) on a file with the
given contents: the return value and the bytes stored at `data`. -/
def fileRead (file : List Int) (offset size : Int) : Int × List Int :=
  if size < 0 then (-1, [])
  else if offset < 0 then (-1, [])
  else (byteLen ((file.drop offset.toNat).take size.toNat),
    (file.drop offset.toNat).take size.toNat)

/-- Effect of `pwrite` at a non-negative offset; a gap past the end of the file
reads as zeros. -/
def pwrite (file : List Int) (offset : Nat) (bytes : List Int) : List Int :=
  file.take offset ++ List.replicate (offset - file.length) 0 ++ bytes
    ++ file.drop (offset + bytes.length)

/-- The method `File::Write(offset, data, size)` (POSIX branch), every `pwrite`
completing: the return value and the new file contents. -/
def fileWrite (file : List Int) (offset : Int) (bytes : List Int) : Int × List Int :=
  if offset < 0 then (-1, file)
  else (byteLen bytes, pwrite file offset.toNat bytes)

/-- The CRC field that `saveBlock` and `ProcessReadBuffer` compute for a payload;
`crc` stands for `boost::crc_32_type`, its result is a `uint32_t`. -/
def crcOf (crc : List Int → Int) (data : List Int) : Int :=
  if data = [] then 0 else toUInt32 (crc data)

/-- The first `capacity` bytes of `m_buffer` composed by `saveBlock`:
`NodeHeader`, payload, zero padding. -/
def composeRecord (crc : List Int → Int) (index : Int) (data : List Int) (rawtime : Int)
    (capacity : Nat) : List Int :=
  let body := le32 sizeofNodeHeader ++ le32 (crcOf crc data) ++ le32 (toUInt32 index)
    ++ le64 (toUInt64 rawtime) ++ le32 0xCDCDCDCD ++ data
  body ++ List.replicate (capacity - body.length) 0

/-- The sentinel string returned by `ProcessReadBuffer` on a rejected record. -/
def ERROR : List Int := [69, 82, 82, 79, 82]

/-! ## Slab allocator (`CacheValueAllocator`) -/

/-- The struct `CacheValue`; the null `data` pointer is the empty list. -/
structure CacheValue where
  refcount : Int
  len : Int
  data : List Int
deriving DecidableEq, Repr

/-- The constructor `CacheValue()`. -/
def CacheValue.new : CacheValue := ⟨0, 0, []⟩

/-- The class `CacheValueAllocator`; `m_alloced` maps a handle to the value it
points to (`none` is the null pointer). -/
structure CacheValueAllocator where
  m_initHandle : Int
  m_alloced : Int → Option CacheValue
  m_freelist : List (Int × CacheValue)

/-- The constructor `CacheValueAllocator()`. -/
def CacheValueAllocator.new : CacheValueAllocator := ⟨0, fun _ => none, []⟩

/-- The method `CacheValueAllocator::alloc()`. -/
def CacheValueAllocator.alloc (a : CacheValueAllocator) : Int × CacheValueAllocator :=
  match a.m_freelist with
  | (h, v) :: rest =>
    let a1 := { a with m_freelist := rest }
    if (a1.m_alloced h).isSome then (INVALID_HANDLE, a1)
    else (h, { a1 with m_alloced := setAt a1.m_alloced h (some v) })
  | [] =>
    if a.m_initHandle < MAX_CACHE then
      let h := a.m_initHandle
      let a1 := { a with m_initHandle := toUInt32 (h + 1) }
      if (a1.m_alloced h).isSome then (INVALID_HANDLE, a1)
      else (h, { a1 with m_alloced := setAt a1.m_alloced h (some CacheValue.new) })
    else (INVALID_HANDLE, a)

/-- The method `CacheValueAllocator::free(h)`. -/
def CacheValueAllocator.free (a : CacheValueAllocator) (h : Int) : CacheValueAllocator :=
  if h ≥ MAX_CACHE then a
  else
    match a.m_alloced h with
    | none => a
    | some v =>
      { a with m_freelist := a.m_freelist ++ [(h, v)], m_alloced := setAt a.m_alloced h none }

/-- The method `CacheValueAllocator::getValue(h)`. -/
def CacheValueAllocator.getValue (a : CacheValueAllocator) (h : Int) : Option CacheValue :=
  if h ≥ MAX_CACHE then none else a.m_alloced h

/-- Store through the pointer returned by `getValue(h)`. -/
def CacheValueAllocator.setValue (a : CacheValueAllocator) (h : Int) (v : CacheValue) :
    CacheValueAllocator :=
  { a with m_alloced := setAt a.m_alloced h (some v) }

/-! ## Partition (`MyfilePartition`) -/

/-- Modelled from the spec: the enum `CacheMode` of `database.h`, which is not among
the sources (`cacheMode ∈ {CACHE, APPEND}`). -/
inductive CacheMode where
  | CM_CACHE
  | CM_APPEND
deriving DecidableEq, Repr

/-- The struct `KeyNode`. -/
structure KeyNode where
  pos : Int
  capacity : Int
  len : Int
  flag0 : Int
  flag1 : Int
deriving DecidableEq, Repr

/-- The method `KeyNode::getPos()`: `pos * 1024` in `int`, widened to `int64_t`. -/
def KeyNode.getPos (n : KeyNode) : Int := toInt32 (n.pos * 1024)

/-- The method `KeyNode::setPos(pos_)`. -/
def KeyNode.setPos (n : KeyNode) (pos_ : Int) : KeyNode :=
  { n with pos := toInt32 (cdiv pos_ 1024) }

/-- State of a `MyfilePartition` between `Init` and `UnInit`: the members of the
object, the contents of the data file (`m_datafile`) and the mapped `MyfileHeader`
(`version`, `sequence`, `count`, `node`). -/
structure MyfilePartition where
  m_index : Int
  m_cacheMode : CacheMode
  m_cacheNodeCount : Int
  m_cacheMemoryByte : Int
  m_datafile : List Int
  version : Int
  sequence : Int
  count : Int
  node : Int → KeyNode
  m_buffer : Int → Int
  m_accessCacheFIFO : List Int
  m_prereadCacheFIFO : List Int
  m_cacheAllocator : CacheValueAllocator
  m_node : Option (Int → Int)
  m_metadataChanged : Bool

/-- The method `MyfilePartition::AllocCacheIndex()`: the returned slot index and
the state with the token popped. -/
def AllocCacheIndex (s : MyfilePartition) : Int × MyfilePartition :=
  if s.m_prereadCacheFIFO.length > 1024 then
    match s.m_prereadCacheFIFO with
    | i :: rest => (i, { s with m_prereadCacheFIFO := rest })
    | [] => (-1, s)
  else
    match s.m_accessCacheFIFO with
    | i :: rest => (i, { s with m_accessCacheFIFO := rest })
    | [] => (-1, s)

/-- The macro `CHECK_DELETE(m_node[i])`; indexing `m_node` outside
`[0, MAX_NODE)` is undefined. -/
def CHECK_DELETE (s : MyfilePartition) (i : Int) : Option MyfilePartition :=
  match s.m_node with
  | none => none
  | some nd =>
    if i < 0 ∨ i ≥ MAX_NODE then none
    else
      match s.m_cacheAllocator.getValue (nd i) with
      | none => some s
      | some cache =>
        if toInt64 (cache.refcount - 1) = 0 then
          some { s with
            m_cacheMemoryByte := toUInt32 (s.m_cacheMemoryByte - toUInt32 cache.len)
            m_cacheAllocator :=
              (s.m_cacheAllocator.setValue (nd i) ⟨0, 0, []⟩).free (nd i)
            m_node := some (setAt nd i INVALID_HANDLE)
            m_cacheNodeCount := toUInt32 (s.m_cacheNodeCount - 1) }
        else
          some { s with
            m_cacheAllocator := s.m_cacheAllocator.setValue (nd i)
              { cache with refcount := toInt64 (cache.refcount - 1) } }

/-- The loop condition of the eviction loop in `cacheBlock`. -/
def evictCond (s : MyfilePartition) : Bool :=
  decide (s.m_cacheNodeCount ≥ MAX_CACHE) || decide (s.m_cacheMemoryByte ≥ MAX_CACHE_LENGTH)

/-- The eviction loop of `cacheBlock`, at most `fuel` iterations. -/
def evictLoop : Nat → MyfilePartition → Option MyfilePartition
  | 0, s => if evictCond s then none else some s
  | fuel + 1, s =>
    if evictCond s then
      match CHECK_DELETE (AllocCacheIndex s).2 (AllocCacheIndex s).1 with
      | none => none
      | some s1 => evictLoop fuel s1
    else some s

/-- The part of `cacheBlock` after the handle `h` of slot `index` is known. -/
def cacheBlockStore (s : MyfilePartition) (index h : Int) (value : List Int)
    (rewrite_value is_pread : Bool) : Int × MyfilePartition :=
  match s.m_cacheAllocator.getValue h with
  | none => (-1, s)
  | some cacheV =>
    let mem1 := if rewrite_value then
        toUInt32 (toUInt32 (s.m_cacheMemoryByte - toUInt32 cacheV.len)
          + toUInt32 (toInt32 (byteLen value)))
      else s.m_cacheMemoryByte
    let v1 : CacheValue := if rewrite_value then
        { cacheV with data := value, len := toInt32 (byteLen value) }
      else cacheV
    if v1.refcount < 3 then
      (0, { s with
        m_cacheMemoryByte := mem1
        m_prereadCacheFIFO :=
          if is_pread then s.m_prereadCacheFIFO ++ [index] else s.m_prereadCacheFIFO
        m_accessCacheFIFO :=
          if is_pread then s.m_accessCacheFIFO else s.m_accessCacheFIFO ++ [index]
        m_cacheAllocator := s.m_cacheAllocator.setValue h
          { v1 with refcount := toInt64 (v1.refcount + 1) } })
    else
      (0, { s with
        m_cacheMemoryByte := mem1
        m_cacheAllocator := s.m_cacheAllocator.setValue h v1 })

/-- The method `MyfilePartition::cacheBlock(index, value, rewrite_value, is_pread)`
for `0 ≤ index < MAX_NODE`; the loop gets one unit of fuel per FIFO token plus
one, which suffices because every iteration pops a token or is undefined. -/
def cacheBlock (s : MyfilePartition) (index : Int) (value : List Int)
    (rewrite_value is_pread : Bool) : Option (Int × MyfilePartition) :=
  match s.m_node with
  | none => some (-1, s)
  | some _ =>
    if s.m_cacheMode ≠ CacheMode.CM_CACHE then some (-1, s)
    else
      match evictLoop (s.m_accessCacheFIFO.length + s.m_prereadCacheFIFO.length + 1) s with
      | none => none
      | some s1 =>
        match s1.m_node with
        | none => none
        | some nd =>
          let rewrite := rewrite_value || decide (nd index = INVALID_HANDLE)
          if nd index = INVALID_HANDLE then
            let s2 := { s1 with
              m_cacheAllocator := s1.m_cacheAllocator.alloc.2
              m_cacheNodeCount := toUInt32 (s1.m_cacheNodeCount + 1)
              m_node := some (setAt nd index s1.m_cacheAllocator.alloc.1) }
            some (cacheBlockStore s2 index s1.m_cacheAllocator.alloc.1 value rewrite is_pread)
          else if is_pread then some (-1, s1)
          else some (cacheBlockStore s1 index (nd index) value rewrite is_pread)

/-- The slot entry after `saveBlock` has stored `len` and the flags. -/
def savedNode (s : MyfilePartition) (index len : Int) (changed : Bool) : KeyNode :=
  { s.node index with len := toInt16 len, flag0 := if changed then 1 else 0, flag1 := 0 }

/-- The value of `header.count` after the test `node.len == 0 && len != 0`. -/
def savedCount (s : MyfilePartition) (index len : Int) : Int :=
  if (s.node index).len = 0 ∧ len ≠ 0 then toInt32 (s.count + 1) else s.count

/-- The in-place branch of `saveBlock`: `len` bytes of `m_buffer` are written at
`node.getPos()`; the value of `ret` and the state before `cacheBlock`. -/
def saveInPlace (crc : List Int → Int) (s : MyfilePartition) (index len capacity : Int)
    (data : List Int) (changed : Bool) (rawtime : Int) : Bool × MyfilePartition :=
  (decide ((fileWrite s.m_datafile (savedNode s index len changed).getPos
      ((composeRecord crc index data rawtime capacity.toNat).take len.toNat)).1 = len),
    { s with
      m_buffer := overlay s.m_buffer (composeRecord crc index data rawtime capacity.toNat)
      count := savedCount s index len
      node := setAt s.node index (savedNode s index len changed)
      m_datafile := (fileWrite s.m_datafile (savedNode s index len changed).getPos
        ((composeRecord crc index data rawtime capacity.toNat).take len.toNat)).2 })

/-- The slot entry of the append branch: new capacity, position at the end of the
data file. -/
def appendedNode (s : MyfilePartition) (index len capacity : Int) (changed : Bool) : KeyNode :=
  ({ savedNode s index len changed with capacity := toInt16 capacity }).setPos
    (byteLen s.m_datafile)

/-- The append branch of `saveBlock`: `capacity` bytes of `m_buffer` are written at
the end of the data file; the value of `ret` and the state before `cacheBlock`. -/
def saveAppend (crc : List Int → Int) (s : MyfilePartition) (index len capacity : Int)
    (data : List Int) (changed : Bool) (rawtime : Int) : Bool × MyfilePartition :=
  (decide ((fileWrite s.m_datafile (appendedNode s index len capacity changed).getPos
      (composeRecord crc index data rawtime capacity.toNat)).1 = capacity),
    { s with
      m_buffer := overlay s.m_buffer (composeRecord crc index data rawtime capacity.toNat)
      count := savedCount s index len
      node := setAt s.node index (appendedNode s index len capacity changed)
      m_datafile := (fileWrite s.m_datafile (appendedNode s index len capacity changed).getPos
        (composeRecord crc index data rawtime capacity.toNat)).2
      m_metadataChanged := true })

/-- The body of `saveBlock` from the `memset` of `m_buffer` to the computation of
`ret`, for the slot `index` and the `len` and `capacity` computed before: the
value of `ret` and the state before `cacheBlock` is called. -/
def saveWrite (crc : List Int → Int) (s : MyfilePartition) (index len capacity : Int)
    (data : List Int) (changed : Bool) (rawtime : Int) : Bool × MyfilePartition :=
  if (s.node index).capacity ≥ capacity ∧ s.m_cacheMode ≠ CacheMode.CM_APPEND then
    saveInPlace crc s index len capacity data changed rawtime
  else saveAppend crc s index len capacity data changed rawtime

/-- The method `MyfilePartition::saveBlock(x, y, z, data, changed)`; `rawtime` is
the value that `time()` returns during the call. A negative `capacity` makes the
`memset` of `m_buffer` undefined. -/
def saveBlock (crc : List Int → Int) (s : MyfilePartition) (x y z : Int) (data : List Int)
    (changed : Bool) (rawtime : Int) : Option (Bool × MyfilePartition) :=
  let index := getLocalIndex x y z
  if index < 0 ∨ index ≥ MAX_NODE then some (true, s)
  else
    let len := toInt32 (toUInt64 (byteLen data + sizeofNodeHeader))
    let capacity := ROUND len 1024
    if capacity ≥ MAX_DATA_LENGTH then some (true, s)
    else if capacity < 0 then none
    else
      let w := saveWrite crc s index len capacity data changed rawtime
      if w.1 then
        match cacheBlock w.2 index data true false with
        | none => none
        | some r => some (true, r.2)
      else some (false, w.2)

/-- The method `MyfilePartition::ProcessReadBuffer(readBytes, readPos, index)`
with at most `fuel` nested calls; reading outside the `MAX_DATA_LENGTH` bytes of
`m_buffer` or outside the slot table is undefined. -/
def ProcessReadBuffer (crc : List Int → Int) :
    Nat → MyfilePartition → Int → Int → Int → Option (List Int × MyfilePartition)
  | 0, _, _, _, _ => none
  | fuel + 1, s, readBytes, readPos, index =>
    if toUInt64 readBytes < sizeofNodeHeader then some (ERROR, s)
    else if readPos < 0 ∨ readPos + 4 > MAX_DATA_LENGTH then none
    else if rd32 s.m_buffer readPos ≠ sizeofNodeHeader then some (ERROR, s)
    else if readPos + 12 > MAX_DATA_LENGTH then none
    else if toUInt32 index ≠ rd32 s.m_buffer (readPos + 8) then some (ERROR, s)
    else if index < 0 ∨ index ≥ MAX_NODE then none
    else if readBytes < (s.node index).capacity then some (ERROR, s)
    else
      let n := toUInt32 ((s.node index).len - sizeofNodeHeader)
      if readPos + sizeofNodeHeader + n > MAX_DATA_LENGTH then none
      else
        let data := bufSlice s.m_buffer (readPos + sizeofNodeHeader) n.toNat
        if rd32 s.m_buffer (readPos + 4) ≠ crcOf crc data then some (ERROR, s)
        else
          match cacheBlock s index data true (decide (readPos ≠ 0)) with
          | none => none
          | some r =>
            match ProcessReadBuffer crc fuel r.2
                (toInt32 (readBytes - (s.node index).capacity))
                (toInt32 (readPos + (s.node index).capacity)) (toInt32 (index + 1)) with
            | none => none
            | some r2 => some (data, r2.2)

/-- The method `MyfilePartition::loadBlock(x, y, z, bCacheHit)`: the returned
string, the out-parameter `bCacheHit` and the new state. -/
def loadBlock (crc : List Int → Int) (s : MyfilePartition) (x y z : Int) :
    Option (List Int × Bool × MyfilePartition) :=
  let index := getLocalIndex x y z
  if index < 0 ∨ index ≥ MAX_NODE then some ([], true, s)
  else if (s.node index).len = 0 then some ([], true, s)
  else
    let miss : Option (List Int × Bool × MyfilePartition) :=
      let r := fileRead s.m_datafile (s.node index).getPos
        (ROUND (s.node index).capacity (4096 * 2))
      match ProcessReadBuffer crc (MAX_DATA_LENGTH.toNat + 1)
          { s with m_buffer := overlay s.m_buffer r.2 } r.1 0 index with
      | none => none
      | some p => some (p.1, false, p.2)
    match s.m_node with
    | none => miss
    | some nd =>
      if nd index ≠ INVALID_HANDLE then
        match s.m_cacheAllocator.getValue (nd index) with
        | none => none
        | some cache =>
          if cache.len < 0 ∨ byteLen cache.data < cache.len then none
          else
            match cacheBlock s index (cache.data.take cache.len.toNat) false false with
            | none => none
            | some r => some (cache.data.take cache.len.toNat, true, r.2)
      else miss

/-- The method `MyfilePartition::deleteBlock(x, y, z)`; the `return ""` of the
range check converts to `true`. -/
def deleteBlock (s : MyfilePartition) (x y z : Int) : Bool × MyfilePartition :=
  let index := getLocalIndex x y z
  if index < 0 ∨ index ≥ MAX_NODE then (true, s)
  else
    (true, { s with
      count := if (s.node index).len ≠ 0 then toInt32 (s.count - 1) else s.count
      node := setAt s.node index { s.node index with len := 0 } })

/-- The method `MyfilePartition::GetModifyList(v)`: the vector after the call. -/
def GetModifyList (s : MyfilePartition) (v : List Int) : List Int :=
  v ++ ((List.range MAX_NODE.toNat).filter (fun i => decide ((s.node (Int.ofNat i)).flag0 ≠ 0))).map
    (fun i => getGlobalIndex s.m_index (Int.ofNat i))

/-- The method `MyfilePartition::__directLoadBlock(x, y, z, changed)`. -/
def directLoadBlock (crc : List Int → Int) (s : MyfilePartition) (x y z : Int) :
    Option (List Int × Bool × MyfilePartition) :=
  match loadBlock crc s x y z with
  | none => none
  | some r =>
    if r.1 ≠ [] then
      if getLocalIndex x y z < 0 ∨ getLocalIndex x y z ≥ MAX_NODE then none
      else some (r.1, decide ((r.2.2.node (getLocalIndex x y z)).flag0 = 0), r.2.2)
    else some (r.1, false, r.2.2)

/-- The method `MyfilePartition::UnInit()` on an initialised partition: the cache
handles are handed back to the allocator, both FIFOs and the handle table are
dropped; the files keep their contents. -/
def UnInit (s : MyfilePartition) : MyfilePartition :=
  { s with
    m_cacheAllocator :=
      match s.m_node with
      | none => s.m_cacheAllocator
      | some nd =>
        (List.range MAX_NODE.toNat).foldl
          (fun a i => if nd (Int.ofNat i) ≠ INVALID_HANDLE then a.free (nd (Int.ofNat i)) else a)
          s.m_cacheAllocator
    m_accessCacheFIFO := []
    m_prereadCacheFIFO := []
    m_node := none }

/-- The method `MyfilePartition::Init(savedir, dbfile, i, cacheMode)` on a
partition object whose files exist with a non-empty meta file: `none` is the
return value -1, `fresh` is the content of the newly allocated `m_buffer`. -/
def Init (s : MyfilePartition) (i : Int) (cacheMode : CacheMode) (fresh : Int → Int) :
    Option MyfilePartition :=
  let s0 := UnInit s
  if s0.version ≠ 1 then none
  else
    some { s0 with
      m_buffer := fresh
      m_node := if cacheMode = CacheMode.CM_CACHE then some (fun _ => INVALID_HANDLE) else none
      m_cacheMode := cacheMode
      m_index := i }

/-- The state after `MyfilePartition()` and a first `Init` in an empty directory:
empty data file, zeroed header with `version = 1`. -/
def newPartition (i : Int) (cacheMode : CacheMode) (fresh : Int → Int) : MyfilePartition :=
  { m_index := i
    m_cacheMode := cacheMode
    m_cacheNodeCount := 0
    m_cacheMemoryByte := 0
    m_datafile := []
    version := 1
    sequence := 0
    count := 0
    node := fun _ => ⟨0, 0, 0, 0, 0⟩
    m_buffer := fresh
    m_accessCacheFIFO := []
    m_prereadCacheFIFO := []
    m_cacheAllocator := CacheValueAllocator.new
    m_node := if cacheMode = CacheMode.CM_CACHE then some (fun _ => INVALID_HANDLE) else none
    m_metadataChanged := false }

/-! ## Predicates used in the statements -/

/-- The part of a partition state that the cache code never writes: the mapped
header, the data file, the I/O buffer and the configuration. -/
def SameFiles (s t : MyfilePartition) : Prop :=
  t.node = s.node ∧ t.m_datafile = s.m_datafile ∧ t.count = s.count ∧
  t.m_buffer = s.m_buffer ∧ t.version = s.version ∧ t.m_cacheMode = s.m_cacheMode ∧
  t.m_index = s.m_index ∧ t.sequence = s.sequence

/-- The buffer holds the bytes `l` from offset `p` on. -/
def BufHas (buf : Int → Int) (p : Int) (l : List Int) : Prop :=
  ∀ k : Nat, k < l.length → buf (p + (k : Int)) = l.getD k 0

/-- Slot `idx` owns an extent inside the data file, and the extent starts with a
record whose header carries the checksum `c` (followed by the 12 bytes `rest` of
timestamp and reserved word) and whose payload is `d`. -/
def RecordOnDisk (s : MyfilePartition) (idx c : Int) (rest d : List Int) : Prop :=
  (s.node idx).len = byteLen d + 24 ∧
  (s.node idx).len ≤ (s.node idx).capacity ∧ (s.node idx).capacity ≤ 32767 ∧
  0 ≤ (s.node idx).getPos ∧
  (s.node idx).getPos + (s.node idx).capacity ≤ byteLen s.m_datafile ∧
  rest.length = 12 ∧ (0 ≤ c ∧ c < 4294967296) ∧
  (le32 24 ++ le32 c ++ le32 (toUInt32 idx) ++ rest ++ d)
    <+: s.m_datafile.drop (s.node idx).getPos.toNat

/-- Slot `idx` has no entry in the read cache. -/
def NotCached (s : MyfilePartition) (idx : Int) : Prop :=
  ∀ nd, s.m_node = some nd → nd idx = INVALID_HANDLE

/-- The state in which `loadBlock` calls `ProcessReadBuffer` on a miss of slot
`idx`: the I/O window has been read into `m_buffer`. -/
def afterRead (s : MyfilePartition) (idx : Int) : MyfilePartition :=
  { s with m_buffer := (overlay s.m_buffer
      (fileRead s.m_datafile (s.node idx).getPos (ROUND (s.node idx).capacity (4096 * 2))).2) }

/-- The 12 header bytes after the index field: timestamp and reserved word. -/
def hdrRest (rawtime : Int) : List Int := le64 (toUInt64 rawtime) ++ le32 0xCDCDCDCD

/-! ## Concrete scenarios -/

/-- A toy checksum standing in for the library CRC in the concrete scenarios. -/
def demoCrc (l : List Int) : Int := l.foldl (fun a b => (a * 31 + b) % 4294967296) 7

/-- The payload "hello". -/
def helloBytes : List Int := [104, 101, 108, 108, 111]

/-- The payload "world". -/
def worldBytes : List Int := [119, 111, 114, 108, 100]

/-- The fresh CACHE-mode partition 1 of the scenarios (zero-filled buffer). -/
def freshCache : MyfilePartition := newPartition 1 CacheMode.CM_CACHE (fun _ => 0)

/-- State after scenario S2: `save(1,0,0,"hello", changed=true)` on `freshCache`. -/
def afterS2 : MyfilePartition :=
  ((saveBlock demoCrc freshCache 1 0 0 helloBytes true 0).getD (false, freshCache)).2

/-- State after scenario S3: `save(1,0,0,"world", changed=false)` on `afterS2`. -/
def afterS3 : MyfilePartition :=
  ((saveBlock demoCrc afterS2 1 0 0 worldBytes false 0).getD (false, afterS2)).2

/-! ## Sequences of calls -/

/-- A call of `saveBlock` (with the time it reads) or of `deleteBlock`. -/
inductive Op where
  | save (x y z : Int) (data : List Int) (changed : Bool) (rawtime : Int)
  | delete (x y z : Int)

/-- The state after one call; `none` when the call is undefined. -/
def applyOp (crc : List Int → Int) (s : MyfilePartition) : Op → Option MyfilePartition
  | Op.save x y z data changed rawtime =>
    match saveBlock crc s x y z data changed rawtime with
    | none => none
    | some r => some r.2
  | Op.delete x y z => some (deleteBlock s x y z).2

/-- The state after a sequence of calls, first call first. -/
def runOps (crc : List Int → Int) : List Op → MyfilePartition → Option MyfilePartition
  | [], s => some s
  | op :: rest, s =>
    match applyOp crc s op with
    | none => none
    | some s1 => runOps crc rest s1

/-- Spec side of `GetModifyList`: a save is accepted when its slot index is in
range and its payload passes the size limit. -/
def specAccepted (x y z : Int) (data : List Int) : Prop :=
  (0 ≤ getLocalIndex x y z ∧ getLocalIndex x y z < MAX_NODE) ∧
  ROUND (toInt32 (toUInt64 (byteLen data + sizeofNodeHeader))) 1024 < MAX_DATA_LENGTH

instance (x y z : Int) (data : List Int) : Decidable (specAccepted x y z data) := by
  unfold specAccepted
  infer_instance

/-- Spec side of `GetModifyList`: the effect of one call on "the most recent
accepted save of slot `j` had `changed = true`"; a delete leaves it as it is. -/
def specStep (f : Int → Bool) : Op → Int → Bool
  | Op.save x y z data changed _ =>
    if specAccepted x y z data then fun j => if j = getLocalIndex x y z then changed else f j
    else f
  | Op.delete _ _ _ => f

/-- Spec side of `GetModifyList`: after the calls `ops` on a fresh partition, the
most recent accepted save of slot `j` had `changed = true`. -/
def specChanged (ops : List Op) : Int → Bool :=
  ops.foldl specStep (fun _ => false)

/-- State after scenario S2 followed by `delete(1,0,0)`. -/
def afterS2Delete : MyfilePartition := (deleteBlock afterS2 1 0 0).2

/-! ## A record whose capacity does not fit `KeyNode.capacity` -/

/-- A payload of 32000 bytes: the record takes 32024 bytes and a capacity of 32768. -/
def bigPayload : List Int := List.replicate 32000 1

/-- A fresh partition opened in `CM_APPEND` mode (no read cache). -/
def freshAppend : MyfilePartition := newPartition 1 CacheMode.CM_APPEND (fun _ => 0)

/-! ## Quantities of the header and the data file used in the invariants -/

/-- Number of slots of the table whose `node.len` is non-zero. -/
def liveSlots (s : MyfilePartition) : Nat :=
  ((List.range MAX_NODE.toNat).filter
    (fun j => decide ((s.node (Int.ofNat j)).len ≠ 0))).length

/-- The record length `data.length() + sizeof(NodeHeader)` of a call is below
`2^31`, so that it is representable in the `int` that `saveBlock` computes with. -/
def Op.payloadFits : Op → Prop
  | Op.save _ _ _ data _ _ => byteLen data + 24 < 2147483648
  | Op.delete _ _ _ => True

/-- The state after one call that returned true; `none` when the call is undefined
or returned false. -/
def applyOpOk (crc : List Int → Int) (s : MyfilePartition) : Op → Option MyfilePartition
  | Op.save x y z data changed rawtime =>
    match saveBlock crc s x y z data changed rawtime with
    | some (true, t) => some t
    | _ => none
  | Op.delete x y z => some (deleteBlock s x y z).2

/-- The state after a sequence of calls each of which returned true. -/
def runOpsOk (crc : List Int → Int) : List Op → MyfilePartition → Option MyfilePartition
  | [], s => some s
  | op :: rest, s =>
    match applyOpOk crc s op with
    | none => none
    | some s1 => runOpsOk crc rest s1

/-- Every extent is 1 KiB aligned and lies inside the data file, whose length is a
multiple of 1024. -/
def ExtentsAligned (s : MyfilePartition) : Prop :=
  byteLen s.m_datafile % 1024 = 0 ∧
  ∀ j, 0 < (s.node j).capacity →
    0 ≤ (s.node j).getPos ∧ (s.node j).getPos % 1024 = 0 ∧
    (s.node j).getPos + (s.node j).capacity ≤ byteLen s.m_datafile

/-! ## Engine (`Database_Myfile`) -/

/-- The struct `KvCommand`; `commandType` is the value of the enum `KVCommandType`. -/
structure KvCommand where
  commandType : Int
  mapId : Int
  seq : Int
  key : Int
  val : List Int
deriving DecidableEq, Repr

/-- The call `m.find(k)` on a `std::map` with `int64_t` keys, kept as the list of
its entries in key order; `none` is `m.end()`. -/
def mapFind {α : Type} : List (Int × α) → Int → Option α
  | [], _ => none
  | (k1, v1) :: rest, k => if k = k1 then some v1 else mapFind rest k

/-- The assignment `m[k] = v` on a `std::map` with `int64_t` keys. -/
def mapAssign {α : Type} : List (Int × α) → Int → α → List (Int × α)
  | [], k, v => [(k, v)]
  | (k1, v1) :: rest, k, v =>
    if k = k1 then (k, v) :: rest
    else if k < k1 then (k, v) :: (k1, v1) :: rest
    else (k1, v1) :: mapAssign rest k v

/-- State of a `Database_Myfile`: the ten partitions `m_stmt`, the write-absorbing
maps and the `std::atomic<int64_t>` counters. -/
structure Database_Myfile where
  m_stmt : Int → MyfilePartition
  m_modifyCommands : List (Int × KvCommand)
  m_valueCache : List (Int × List Int)
  m_totalLoadCount : Int
  m_cache1HitCount : Int
  m_cache2HitCount : Int
  m_tpsCounterR : Int
  m_tpsCounterW : Int

/-- The method `Database_Myfile::ProcessSetCommand(command)`. -/
def ProcessSetCommand (e : Database_Myfile) (command : KvCommand) : Bool × Database_Myfile :=
  (true, { e with
    m_tpsCounterW := toInt64 (e.m_tpsCounterW + 1)
    m_modifyCommands := mapAssign e.m_modifyCommands command.seq command
    m_valueCache := mapAssign e.m_valueCache command.key command.val })

/-- The method `Database_Myfile::ProcessDeleteCommand(command)`. -/
def ProcessDeleteCommand (e : Database_Myfile) (command : KvCommand) :
    Bool × Database_Myfile :=
  (true, { e with
    m_tpsCounterW := toInt64 (e.m_tpsCounterW + 1)
    m_modifyCommands := mapAssign e.m_modifyCommands command.seq command
    m_valueCache := mapAssign e.m_valueCache command.key [] })

/-- The lookup in `m_valueCache` at the start of `Database_Myfile::loadBlock(pos)`:
`none` when `cacheHit` stays false. -/
def valueCacheLookup (e : Database_Myfile) (pos : Int) : Option (List Int) :=
  if e.m_valueCache.isEmpty then none else mapFind e.m_valueCache pos

/-- The method `Database_Myfile::loadBlock(int64_t pos)`: the returned string and the
new engine state; `none` when the partition's `loadBlock` is undefined. -/
def Database_Myfile.loadBlock (crc : List Int → Int) (e : Database_Myfile) (pos : Int) :
    Option (List Int × Database_Myfile) :=
  let e1 := { e with
    m_tpsCounterR := toInt64 (e.m_tpsCounterR + 1)
    m_totalLoadCount := toInt64 (e.m_totalLoadCount + 1) }
  match valueCacheLookup e1 pos with
  | some ret => some (ret, { e1 with m_cache1HitCount := toInt64 (e1.m_cache1HitCount + 1) })
  | none =>
    let c := getIntegerAsBlock pos
    let index := getTableIndex c.1
    match Myfile.loadBlock crc (e1.m_stmt index) c.1 c.2.1 c.2.2 with
    | none => none
    | some r =>
      some (r.1, { e1 with
        m_stmt := setAt e1.m_stmt index r.2.2
        m_cache2HitCount :=
          if r.2.1 then toInt64 (e1.m_cache2HitCount + 1) else e1.m_cache2HitCount })

/-- A newly constructed engine over ten fresh CACHE-mode partitions. -/
def demoEngine : Database_Myfile :=
  { m_stmt := fun i => newPartition i CacheMode.CM_CACHE (fun _ => 0)
    m_modifyCommands := []
    m_valueCache := []
    m_totalLoadCount := 0
    m_cache1HitCount := 0
    m_cache2HitCount := 0
    m_tpsCounterR := 0
    m_tpsCounterW := 0 }

/-- The command `SET (1,0,0) := "hello"` with sequence number 1. -/
def demoSet : KvCommand := ⟨2, 0, 1, getBlockAsInteger 1 0 0, helloBytes⟩

/-! ## Reachable states of a partition and the cache invariant -/

/-- A call on a partition object: `Init` (again, with the content of the newly
allocated I/O buffer), `saveBlock` (with the time it reads), `loadBlock` or
`deleteBlock`. -/
inductive Call where
  | init (i : Int) (cacheMode : CacheMode) (fresh : Int → Int)
  | save (x y z : Int) (data : List Int) (changed : Bool) (rawtime : Int)
  | load (x y z : Int)
  | delete (x y z : Int)

/-- The state after one call; `none` when the call is undefined or `Init` fails. -/
def applyCall (crc : List Int → Int) (s : MyfilePartition) : Call → Option MyfilePartition
  | Call.init i cacheMode fresh => Init s i cacheMode fresh
  | Call.save x y z data changed rawtime =>
    match saveBlock crc s x y z data changed rawtime with
    | none => none
    | some r => some r.2
  | Call.load x y z =>
    match loadBlock crc s x y z with
    | none => none
    | some r => some r.2.2
  | Call.delete x y z => some (deleteBlock s x y z).2

/-- The state after a sequence of calls, first call first. -/
def runCalls (crc : List Int → Int) : List Call → MyfilePartition → Option MyfilePartition
  | [], s => some s
  | c :: rest, s =>
    match applyCall crc s c with
    | none => none
    | some s1 => runCalls crc rest s1

/-- Number of occurrences of slot `i` in the access FIFO plus the preread FIFO. -/
def tokens (s : MyfilePartition) (i : Int) : Nat :=
  s.m_accessCacheFIFO.count i + s.m_prereadCacheFIFO.count i

/-- Every live slab value has a handle below `MAX_CACHE` and a refcount in `[1, 3]`;
every value on the free list has a handle below `MAX_CACHE` and a refcount in
`[0, 3]`. -/
def AllocInv (a : CacheValueAllocator) : Prop :=
  (∀ h v, a.m_alloced h = some v → h < MAX_CACHE ∧ 1 ≤ v.refcount ∧ v.refcount ≤ 3) ∧
  (∀ p ∈ a.m_freelist, p.1 < MAX_CACHE ∧ 0 ≤ p.2.refcount ∧ p.2.refcount ≤ 3)

/-- The slot-to-handle table `nd`, the allocator and the token counts agree: a slot
without handle (or outside the table) has no token, a slot with a handle points to a
live value whose refcount bounds its tokens, and no two slots share a handle. -/
def CacheCore (a : CacheValueAllocator) (nd : Int → Int) (tok : Int → Nat) : Prop :=
  (∀ i, (i < 0 ∨ i ≥ MAX_NODE ∨ nd i = INVALID_HANDLE) → tok i = 0) ∧
  (∀ i, 0 ≤ i → i < MAX_NODE → nd i ≠ INVALID_HANDLE →
    ∃ v, a.m_alloced (nd i) = some v ∧ (tok i : Int) ≤ v.refcount) ∧
  (∀ i j, 0 ≤ i → i < MAX_NODE → 0 ≤ j → j < MAX_NODE → nd i ≠ INVALID_HANDLE →
    nd i = nd j → i = j)

/-- The cache invariant of a partition state. -/
def CacheInv (s : MyfilePartition) : Prop :=
  AllocInv s.m_cacheAllocator ∧
  (s.m_node = none → s.m_accessCacheFIFO = [] ∧ s.m_prereadCacheFIFO = []) ∧
  ∀ nd, s.m_node = some nd → CacheCore s.m_cacheAllocator nd (tokens s)

/-- State after scenario S2 followed by `save(1,0,1,"world", changed=true)`. -/
def afterTwo : MyfilePartition :=
  ((saveBlock demoCrc afterS2 1 0 1 worldBytes true 0).getD (false, afterS2)).2

/-! ## Accessors used in the statements about the cache -/

/-- The state that a call returning a flag and a state ends in; `d` when the call is
undefined. -/
def stateOfPair {σ : Type} (o : Option (Bool × σ)) (d : σ) : σ :=
  match o with
  | some r => r.2
  | none => d

/-- The state that a call returning a string, a flag and a state ends in; `d` when
the call is undefined. -/
def stateOfTriple {σ : Type} (o : Option (List Int × Bool × σ)) (d : σ) : σ :=
  match o with
  | some r => r.2.2
  | none => d

/-- The handle stored for slot `i`: `m_node[i]`, or `INVALID_HANDLE` when the table
is not allocated (`m_node == NULL`). -/
def slotHandle (s : MyfilePartition) (i : Int) : Int :=
  match s.m_node with
  | none => INVALID_HANDLE
  | some nd => nd i

/-- The slab value that slot `i` points to: `getValue(m_node[i])`. -/
def slotValue (s : MyfilePartition) (i : Int) : Option CacheValue :=
  s.m_cacheAllocator.getValue (slotHandle s i)

/-! ## Scenario S4 -/

/-- A payload of 2000 bytes `'a'`. -/
def aPayload : List Int := List.replicate 2000 97

/-- State after scenario S4: `save(1,0,0, 2000 × 'a', changed=true)` on `afterS2`. -/
def afterS4 : MyfilePartition :=
  stateOfPair (saveBlock demoCrc afterS2 1 0 0 aPayload true 0) afterS2

/-! ## Direct access of the engine to its partitions -/

/-- The method `Database_Myfile::__directSaveBlock(pos, data, changed)`; `rawtime`
is the value that `time()` returns during the call. -/
def Database_Myfile.directSaveBlock (crc : List Int → Int) (e : Database_Myfile) (pos : Int)
    (data : List Int) (changed : Bool) (rawtime : Int) : Option (Bool × Database_Myfile) :=
  let c := getIntegerAsBlock pos
  let index := getTableIndex c.1
  match saveBlock crc (e.m_stmt index) c.1 c.2.1 c.2.2 data changed rawtime with
  | none => none
  | some r => some (true, { e with m_stmt := setAt e.m_stmt index r.2 })

/-- The method `Database_Myfile::__directLoadBlock(pos, changed)`: the returned
string, the out-parameter `changed` and the new engine state. The method passes
`changed` to `MyfilePartition::loadBlock`, whose fourth parameter is `bCacheHit`. -/
def Database_Myfile.directLoadBlock (crc : List Int → Int) (e : Database_Myfile) (pos : Int) :
    Option (List Int × Bool × Database_Myfile) :=
  let c := getIntegerAsBlock pos
  let index := getTableIndex c.1
  match Myfile.loadBlock crc (e.m_stmt index) c.1 c.2.1 c.2.2 with
  | none => none
  | some r => some (r.1, r.2.1, { e with m_stmt := setAt e.m_stmt index r.2.2 })

/-- The engine after `__directSaveBlock(encode(1,0,0), "hello", changed=true)` on a
newly constructed engine. -/
def afterDirectSave : Database_Myfile :=
  stateOfPair (Database_Myfile.directSaveBlock demoCrc demoEngine (getBlockAsInteger 1 0 0)
    helloBytes true 0) demoEngine

/-! ## Sequences of calls on the slab allocator -/

/-- A call on a `CacheValueAllocator`: `alloc()` or `free(h)`. -/
inductive SlabCall where
  | alloc
  | free (h : Int)

/-- The allocator after one call. -/
def applySlab (a : CacheValueAllocator) : SlabCall → CacheValueAllocator
  | SlabCall.alloc => a.alloc.2
  | SlabCall.free h => a.free h

/-- The allocator after a sequence of calls, first call first. -/
def runSlab : List SlabCall → CacheValueAllocator → CacheValueAllocator
  | [], a => a
  | c :: rest, a => runSlab rest (applySlab a c)

/-- Number of live handles: the handles `h < MAX_CACHE` with `getValue(h)` non-null. -/
def liveHandles (a : CacheValueAllocator) : Nat :=
  ((List.range MAX_CACHE.toNat).filter (fun h => (a.getValue (Int.ofNat h)).isSome)).length

/-- The handles returned by `n` consecutive calls of `alloc()`, and the allocator
after them. -/
def allocN : Nat → CacheValueAllocator → List Int × CacheValueAllocator
  | 0, a => ([], a)
  | n + 1, a => (a.alloc.1 :: (allocN n a.alloc.2).1, (allocN n a.alloc.2).2)

/-- Invariant of an allocator that is only driven through `alloc()` and `free(h)`:
the watermark is at most `MAX_CACHE`, every handle below the watermark is either
live or exactly once on the free list, nothing else is, and every value is as its
constructor left it. -/
def SlabInv (a : CacheValueAllocator) : Prop :=
  (0 ≤ a.m_initHandle ∧ a.m_initHandle ≤ MAX_CACHE) ∧
  (∀ h v, a.m_alloced h = some v → 0 ≤ h ∧ h < a.m_initHandle ∧ v = CacheValue.new) ∧
  (∀ p ∈ a.m_freelist, 0 ≤ p.1 ∧ p.1 < a.m_initHandle ∧ a.m_alloced p.1 = none ∧
    p.2 = CacheValue.new) ∧
  (a.m_freelist.map Prod.fst).Nodup ∧
  (∀ h, 0 ≤ h → h < a.m_initHandle → a.m_alloced h ≠ none ∨ h ∈ a.m_freelist.map Prod.fst)

/-- The allocator after `alloc()`, `alloc()`, `free(0)` on a new allocator. -/
def demoSlab : CacheValueAllocator :=
  runSlab [SlabCall.alloc, SlabCall.alloc, SlabCall.free 0] CacheValueAllocator.new

/-! ## A slot whose `capacity` field is negative -/

/-- A CACHE-mode partition whose slot `(1,0,0)` has `pos = 0`, `capacity = -1` and
`len = 29` in the mapped header, with the record of "hello" for that slot in
`m_buffer`. -/
def negativeCapacityState : MyfilePartition :=
  { freshCache with
    node := setAt freshCache.node (getLocalIndex 1 0 0) ⟨0, -1, 29, 1, 0⟩
    m_buffer := overlay (fun _ => 0)
      (composeRecord demoCrc (getLocalIndex 1 0 0) helloBytes 0 1024) }

/-! ## Prefetch scenarios -/

/-- State after `save(1,0,0,"hello")`, `save(1,0,1,"world")` and `delete(1,0,1)` on
a fresh `CM_APPEND` partition. -/
def appendDeleted : MyfilePartition :=
  (runCalls demoCrc [Call.save 1 0 0 helloBytes true 0, Call.save 1 0 1 worldBytes true 0,
    Call.delete 1 0 1] freshAppend).getD freshAppend

/-- Only the slots listed in `S` hold a cache handle. -/
def OnlyCached (s : MyfilePartition) (S : List Int) : Prop :=
  ∀ i, i ∉ S → slotHandle s i = INVALID_HANDLE

/-! ## Restart of the same partition object -/

/-- State after scenario S2 followed by `Init` on the same object (CACHE mode,
zero-filled buffer): the handle 0 of slot `(1,0,0)` is back on the free list, with
the value as the cache left it. -/
def restartedS2 : MyfilePartition :=
  { afterS2 with
    m_cacheAllocator := afterS2.m_cacheAllocator.free 0
    m_accessCacheFIFO := []
    m_prereadCacheFIFO := []
    m_buffer := fun _ => 0
    m_node := some (fun _ => INVALID_HANDLE)
    m_cacheMode := CacheMode.CM_CACHE
    m_index := 1 }

/-- State after `save(1,0,0,"hello")` on `restartedS2`. -/
def afterRestartSave : MyfilePartition :=
  stateOfPair (saveBlock demoCrc restartedS2 1 0 0 helloBytes true 0) restartedS2

/-! ## A record that moved to a new extent -/

/-- The payload "WORLD". -/
def upperWorld : List Int := [87, 79, 82, 76, 68]

/-- State after `afterTwo` followed by `save(1,0,1, 2000 × 'a')`: slot `(1,0,1)`
moves to a new extent of 2048 bytes. -/
def afterThree : MyfilePartition :=
  stateOfPair (saveBlock demoCrc afterTwo 1 0 1 aPayload true 0) afterTwo

/-- State after `afterThree` followed by `save(1,0,1,"WORLD")`, written in place
into the new extent. -/
def afterFour : MyfilePartition :=
  stateOfPair (saveBlock demoCrc afterThree 1 0 1 upperWorld true 0) afterThree

/-- State after `afterFour` followed by `Init` on the same object (CACHE mode,
zero-filled buffer): the handles 0 and 1 are back on the free list. -/
def restartedFour : MyfilePartition :=
  { afterFour with
    m_cacheAllocator := (afterFour.m_cacheAllocator.free 0).free 1
    m_accessCacheFIFO := []
    m_prereadCacheFIFO := []
    m_buffer := fun _ => 0
    m_node := some (fun _ => INVALID_HANDLE)
    m_cacheMode := CacheMode.CM_CACHE
    m_index := 1 }

/-- State after `load(1,0,0)` on `restartedFour`. -/
def afterStaleLoad : MyfilePartition :=
  stateOfTriple (loadBlock demoCrc restartedFour 1 0 0) restartedFour

/-! ## Isolation of slots -/

/-- The slot that a call addresses. -/
def Op.slot : Op → Int
  | Op.save x y z _ _ _ => getLocalIndex x y z
  | Op.delete x y z => getLocalIndex x y z

/-- The byte ranges `[getPos(), getPos() + capacity)` of two distinct slots with
`capacity > 0` do not overlap. -/
def NonOverlap (s : MyfilePartition) : Prop :=
  ∀ j k, j ≠ k → 0 < (s.node j).capacity → 0 < (s.node k).capacity →
    (s.node j).getPos + (s.node j).capacity ≤ (s.node k).getPos ∨
    (s.node k).getPos + (s.node k).capacity ≤ (s.node j).getPos

/-! ## Cache counters against the handle table -/

/-- The slots in `[0, MAX_NODE)` that hold a valid cache handle. -/
def cachedSlotList (s : MyfilePartition) : List Nat :=
  (List.range MAX_NODE.toNat).filter
    (fun i => decide (slotHandle s (Int.ofNat i) ≠ INVALID_HANDLE))

/-- The number of slots that hold a valid cache handle. -/
def cachedSlots (s : MyfilePartition) : Int := (cachedSlotList s).length

/-- The sum of the `len` fields of the slab values that the valid handles of the
slots refer to. -/
def cachedBytes (s : MyfilePartition) : Int :=
  ((cachedSlotList s).map (fun i =>
    match slotValue s (Int.ofNat i) with
    | some v => v.len
    | none => 0)).sum

/-! ## A finite view of the cache and of the slot table

The cache code is run a second time on a finite description of the state. The
view covers the 65536 slots from slot `(1, 0, 0)` on; every table is packed into a
natural number with one field of fixed width per entry, payloads are represented by
their lengths, and the data file by the extents of the slots. -/

/-- Outcome of a step on the finite view: a new view (`ok`), a step on which the
code has no defined result (`undef`), or a step that the view does not describe
(`unknown`). -/
inductive Res (α : Type) where
  | ok (a : α)
  | undef
  | unknown

/-- Field `k` of a table packed with `w` bits per field. -/
def field (w t k : Nat) : Nat := Nat.mod (Nat.shiftRight t (Nat.mul w k)) (Nat.pow 2 w)

/-- The packed table with field `k` set to `v`. -/
def setField (w t k v : Nat) : Nat :=
  Nat.add (Nat.sub t (Nat.shiftLeft (field w t k) (Nat.mul w k))) (Nat.shiftLeft v (Nat.mul w k))

/-- A FIFO of 16-bit entries packed into a natural number: entry `i` (counted from
the front) is field `i` of `bits`. -/
structure NatQueue where
  bits : Nat
  len : Nat

/-- The entries of a packed FIFO, front first. -/
def NatQueue.toList (q : NatQueue) : List Nat :=
  (List.range q.len).map (fun i => field 16 q.bits i)

/-- The call `push_back(v)` on a packed FIFO. -/
def NatQueue.push (q : NatQueue) (v : Nat) : NatQueue :=
  ⟨Nat.add q.bits (Nat.shiftLeft v (Nat.mul 16 q.len)), Nat.add q.len 1⟩

/-- The calls `front()` and `pop_front()` on a packed FIFO. -/
def NatQueue.pop (q : NatQueue) : Option (Nat × NatQueue) :=
  bif Nat.beq q.len 0 then none
  else some (Nat.mod q.bits 65536, ⟨Nat.shiftRight q.bits 16, Nat.sub q.len 1⟩)

/-- The value of `MAX_CACHE` as a natural number. -/
def maxCache : Nat := 26624

/-- The value of `MAX_CACHE_LENGTH` as a natural number. -/
def maxCacheLength : Nat := 20971520

/-- The local index of the `k`-th slot of the view. -/
def slotOf (k : Nat) : Nat := 917504 + k

/-- The finite view of a CACHE-mode partition. `handles` is `m_node` (16-bit field
`k` is the handle of slot `slotOf k` plus one, 0 for `INVALID_HANDLE`); `values` is
`m_alloced` (64-bit field `h` is 0 for a handle that is not live and
`(refcount + 1) * 2^32 + len` for a live one); `freelist` holds the handles of the
free list, whose values are all `CacheValue()`; `slots` is the slot table (64-bit
field `k` is `pos * 2^32 + capacity * 2^16 + len` with `pos` in KiB); `fileKiB` is
the length of the data file in KiB. -/
structure CacheView where
  nodeCount : Nat
  memoryByte : Nat
  access : NatQueue
  preread : NatQueue
  handles : Nat
  values : Nat
  initHandle : Nat
  freelist : NatQueue
  slots : Nat
  fileKiB : Nat

/-- The view of a fresh partition. -/
def CacheView.new : CacheView := ⟨0, 0, ⟨0, 0⟩, ⟨0, 0⟩, 0, 0, 0, ⟨0, 0⟩, 0, 0⟩

/-- The same view with every field written as the result of an arithmetic
operation, so that a field left alone by a step is not evaluated again and again. -/
def CacheView.norm (a : CacheView) : CacheView :=
  ⟨Nat.add a.nodeCount 0, Nat.add a.memoryByte 0,
    ⟨Nat.add a.access.bits 0, Nat.add a.access.len 0⟩,
    ⟨Nat.add a.preread.bits 0, Nat.add a.preread.len 0⟩,
    Nat.add a.handles 0, Nat.add a.values 0, Nat.add a.initHandle 0,
    ⟨Nat.add a.freelist.bits 0, Nat.add a.freelist.len 0⟩,
    Nat.add a.slots 0, Nat.add a.fileKiB 0⟩

/-- The sum of all fields of the view. -/
def CacheView.weight (a : CacheView) : Nat :=
  Nat.add a.nodeCount (Nat.add a.memoryByte (Nat.add a.access.bits (Nat.add a.access.len
    (Nat.add a.preread.bits (Nat.add a.preread.len (Nat.add a.handles (Nat.add a.values
      (Nat.add a.initHandle (Nat.add a.freelist.bits (Nat.add a.freelist.len
        (Nat.add a.slots a.fileKiB)))))))))))

/-- The handle field of slot `slotOf k`: the handle plus one, 0 for none. -/
def CacheView.handle (a : CacheView) (k : Nat) : Nat := field 16 a.handles k

/-- The value field of the handle of slot `slotOf k`. -/
def CacheView.value (a : CacheView) (k : Nat) : Nat := field 64 a.values (a.handle k - 1)

/-- The view with the value field of the handle of slot `slotOf k` set to `e`. -/
def CacheView.setValue (a : CacheView) (k e : Nat) : CacheView :=
  { a with values := setField 64 a.values (a.handle k - 1) e }

/-- The capacity field of slot `slotOf k`. -/
def CacheView.capacity (a : CacheView) (k : Nat) : Nat := field 64 a.slots k / 65536 % 65536

/-- The len field of slot `slotOf k`. -/
def CacheView.len (a : CacheView) (k : Nat) : Nat := field 64 a.slots k % 65536

/-- The pos field of slot `slotOf k`. -/
def CacheView.pos (a : CacheView) (k : Nat) : Nat := field 64 a.slots k / 4294967296

/-- The method `AllocCacheIndex` on the view; `none` is the return value -1. -/
def viewAllocCacheIndex (a : CacheView) : Option (Nat × CacheView) :=
  bif Nat.ble 1025 a.preread.len then
    match a.preread.pop with
    | some p => some (p.1, { a with preread := p.2 })
    | none => none
  else
    match a.access.pop with
    | some p => some (p.1, { a with access := p.2 })
    | none => none

/-- The macro `CHECK_DELETE(m_node[slotOf k])` on the view. -/
def viewCHECK_DELETE (a : CacheView) (k : Nat) : Res CacheView :=
  bif Nat.beq (a.handle k) 0 then Res.ok a
  else bif Nat.ble maxCache (a.handle k - 1) then Res.unknown
  else bif Nat.beq (a.value k / 4294967296) 0 then Res.ok a
  else bif Nat.beq (a.value k / 4294967296) 2 then
    bif Nat.ble (a.value k % 4294967296) a.memoryByte && Nat.ble 1 a.nodeCount then
      Res.ok { a with
        memoryByte := a.memoryByte - a.value k % 4294967296
        values := setField 64 a.values (a.handle k - 1) 0
        freelist := a.freelist.push (a.handle k - 1)
        handles := setField 16 a.handles k 0
        nodeCount := a.nodeCount - 1 }
    else Res.unknown
  else bif Nat.ble 3 (a.value k / 4294967296) then Res.ok (a.setValue k (a.value k - 4294967296))
  else Res.unknown

/-- The loop condition of the eviction loop on the view. -/
def viewEvictCond (a : CacheView) : Bool :=
  Nat.ble maxCache a.nodeCount || Nat.ble maxCacheLength a.memoryByte

/-- One iteration of the body of the eviction loop on the view. -/
def viewEvictBody (a : CacheView) : Res CacheView :=
  match viewAllocCacheIndex a with
  | none => Res.undef
  | some p => viewCHECK_DELETE p.2 p.1

/-- The eviction loop on the view, at most `fuel` iterations. -/
def viewEvictLoop : Nat → CacheView → Res CacheView
  | 0, a => bif viewEvictCond a then Res.undef else Res.ok a
  | fuel + 1, a =>
    bif viewEvictCond a then
      match viewEvictBody a with
      | Res.ok a1 => viewEvictLoop fuel a1.norm
      | Res.undef => Res.undef
      | Res.unknown => Res.unknown
    else Res.ok a

/-- The method `alloc()` of the slab allocator on the view. -/
def viewAlloc (a : CacheView) : Option (Nat × CacheView) :=
  match a.freelist.pop with
  | some p =>
    bif Nat.ble maxCache p.1 || !(Nat.beq (field 64 a.values p.1) 0) then none
    else some (p.1, { a with freelist := p.2 })
  | none =>
    bif Nat.ble maxCache a.initHandle || !(Nat.beq (field 64 a.values a.initHandle) 0) then none
    else some (a.initHandle, { a with initHandle := a.initHandle + 1 })

/-- The part of `cacheBlock` after the eviction loop, on the view, for a payload of
`n` bytes. -/
def viewCacheStore (a : CacheView) (k n : Nat) (rewrite_value is_pread : Bool) :
    Res CacheView :=
  bif Nat.ble 65536 k || Nat.ble 2147483648 n then Res.unknown
  else bif Nat.beq (a.handle k) 0 then
    match viewAlloc a with
    | none => Res.unknown
    | some p =>
      bif Nat.ble 4294967295 a.nodeCount || Nat.ble 4294967296 (a.memoryByte + n) then
        Res.unknown
      else
        Res.ok { p.2 with
          nodeCount := a.nodeCount + 1
          handles := setField 16 a.handles k (p.1 + 1)
          memoryByte := a.memoryByte + n
          values := setField 64 a.values p.1 (2 * 4294967296 + n)
          preread := bif is_pread then a.preread.push k else a.preread
          access := bif is_pread then a.access else a.access.push k }
  else bif is_pread then Res.ok a
  else bif Nat.ble maxCache (a.handle k - 1) || Nat.beq (a.value k / 4294967296) 0 then Res.unknown
  else bif rewrite_value then
    bif !(Nat.ble (a.value k % 4294967296) a.memoryByte)
        || Nat.ble 4294967296 (a.memoryByte - a.value k % 4294967296 + n) then Res.unknown
    else bif Nat.ble 4 (a.value k / 4294967296) then
      Res.ok { a.setValue k (a.value k / 4294967296 * 4294967296 + n) with
        memoryByte := a.memoryByte - a.value k % 4294967296 + n }
    else
      Res.ok { a.setValue k ((a.value k / 4294967296 + 1) * 4294967296 + n) with
        memoryByte := a.memoryByte - a.value k % 4294967296 + n
        access := a.access.push k }
  else bif Nat.ble 4 (a.value k / 4294967296) then Res.ok a
  else Res.ok { a.setValue k (a.value k + 4294967296) with access := a.access.push k }

/-- The method `cacheBlock(slotOf k, value, rewrite_value, is_pread)` on the view,
for a payload of `n` bytes. -/
def viewCacheBlock (a : CacheView) (k n : Nat) (rewrite_value is_pread : Bool) :
    Res CacheView :=
  match viewEvictLoop (a.access.len + a.preread.len + 1) a with
  | Res.ok a1 => viewCacheStore a1 k n rewrite_value is_pread
  | Res.undef => Res.undef
  | Res.unknown => Res.unknown

/-- The method `saveBlock` on the view, for the slot `slotOf k` and a payload of `n`
bytes: covered are the saves that append a new extent of at most 31 KiB. -/
def viewSaveBlock (a : CacheView) (k n : Nat) : Res CacheView :=
  bif Nat.ble 65536 k || Nat.ble 31721 n then Res.unknown
  else bif Nat.ble ((n + 24 + 1023) / 1024 * 1024) (a.capacity k) then Res.unknown
  else bif Nat.ble 2097152 a.fileKiB then Res.unknown
  else
    viewCacheBlock
      { a with
        slots := setField 64 a.slots k
          (a.fileKiB * 4294967296 + (n + 24 + 1023) / 1024 * 1024 * 65536 + (n + 24))
        fileKiB := a.fileKiB + (n + 24 + 1023) / 1024 }
      k n true false

/-- The method `ProcessReadBuffer(readBytes, readPos, slotOf k)` on the view, with
at most `fuel` nested calls; `base` is the position in KiB of the window that was
read into `m_buffer`. Covered are the windows in which every record that is looked
at is the current record of its slot. -/
def viewProcessReadBuffer : Nat → CacheView → Nat → Nat → Nat → Nat → Res CacheView
  | 0, _, _, _, _, _ => Res.undef
  | fuel + 1, a, rb, rp, k, base =>
    bif Nat.blt rb 24 then Res.ok a
    else bif Nat.ble 65536 k || Nat.blt (a.len k) 24
        || !(Nat.beq (a.pos k * 1024) (base * 1024 + rp))
        || Nat.blt 32767 (rp + a.capacity k) then Res.unknown
    else bif Nat.blt rb (a.capacity k) then Res.ok a
    else
      match viewCacheBlock a k (a.len k - 24) true (!(Nat.beq rp 0)) with
      | Res.ok a1 =>
        viewProcessReadBuffer fuel a1.norm (rb - a.capacity k) (rp + a.capacity k) (k + 1) base
      | Res.undef => Res.undef
      | Res.unknown => Res.unknown

/-- The method `loadBlock` on the view, for the slot `slotOf k`: covered are the
loads of a slot without record and the misses. -/
def viewLoadBlock (a : CacheView) (k : Nat) : Res CacheView :=
  bif Nat.ble 65536 k then Res.unknown
  else bif Nat.beq (a.len k) 0 then Res.ok a
  else bif !(Nat.beq (a.handle k) 0) || Nat.blt a.fileKiB (a.pos k) then Res.unknown
  else
    viewProcessReadBuffer 65536 a
      (Nat.min ((a.capacity k + 8191) / 8192 * 8192) ((a.fileKiB - a.pos k) * 1024))
      0 k (a.pos k)

/-- A call on the view: `save k n` saves a payload of `n` bytes to slot `slotOf k`,
`load k` loads that slot. -/
inductive ViewCall where
  | save (k n : Nat)
  | load (k : Nat)

/-- One call on the view. -/
def viewCall (a : CacheView) : ViewCall → Res CacheView
  | ViewCall.save k n => viewSaveBlock a k n
  | ViewCall.load k => viewLoadBlock a k

/-- A sequence of calls on the view, first call first. -/
def viewRun : List ViewCall → CacheView → Res CacheView
  | [], a => Res.ok a
  | c :: rest, a =>
    match viewCall a c with
    | Res.ok a1 => bif Nat.blt a1.norm.weight 0 then Res.unknown else viewRun rest a1.norm
    | Res.undef => Res.undef
    | Res.unknown => Res.unknown

/-- Exactly `n` iterations of the body of the eviction loop on the view. -/
def viewEvictSteps : Nat → CacheView → Res CacheView
  | 0, a => Res.ok a
  | n + 1, a =>
    bif viewEvictCond a then
      match viewEvictBody a with
      | Res.ok a1 => viewEvictSteps n a1.norm
      | Res.undef => Res.undef
      | Res.unknown => Res.unknown
    else Res.unknown

/-- The view of an `ok` outcome. -/
def Res.get : Res CacheView → CacheView
  | Res.ok a => a
  | _ => CacheView.new

/-- The outcome is `ok`. -/
def Res.isOk : Res CacheView → Bool
  | Res.ok _ => true
  | _ => false

/-- The outcome is `undef`. -/
def Res.isUndef : Res CacheView → Bool
  | Res.undef => true
  | _ => false

/-! ## The run that drains the access FIFO -/

/-- Saves of "hello"-sized payloads (5 bytes) to the slots `0 .. 759` of the view:
760 records of 1 KiB, one after the other in the data file. -/
def smallSaves : List ViewCall := (List.range 760).map (fun k => ViewCall.save k 5)

/-- Saves of 31720-byte payloads to the slots `760 .. 1422`: the last one pushes the
cache over `MAX_CACHE_LENGTH` and evicts the slots `0 .. 759`. -/
def fillerSaves : List ViewCall :=
  (List.range 663).map (fun k => ViewCall.save (760 + k) 31720)

/-- Loads of the slots `0, 8, 16, .., 752`: every load misses and prefetches the
seven records behind its own. -/
def missLoads : List ViewCall := (List.range 95).map (fun g => ViewCall.load (8 * g))

/-- Saves of 31720-byte payloads to 662 of the prefetched slots. -/
def bigSaves : List ViewCall :=
  (List.range 662).map (fun m => ViewCall.save (8 * (m / 7) + m % 7 + 1) 31720)

/-- The 2180 calls after which the next `cacheBlock` drains the access FIFO. -/
def dryCalls : List ViewCall := smallSaves ++ fillerSaves ++ missLoads ++ bigSaves

/-- The view after `dryCalls`. -/
def dryView : CacheView := (viewRun dryCalls CacheView.new).get

/-- The view after `dryCalls` and 757 iterations of the eviction loop. -/
def drainedView : CacheView := (viewEvictSteps 757 dryView).get

/-! ## The view of a partition state -/

/-- A packed FIFO has no bits beyond its last entry. -/
def QueueWf (q : NatQueue) : Prop := q.bits < 2 ^ (16 * q.len)

/-- The local index of the `k`-th slot of the view, as the code sees it. -/
def slotInt (k : Nat) : Int := 917504 + (k : Int)

/-- The handle that the view gives to slot `i`. -/
def CacheView.handleAt (a : CacheView) (i : Int) : Int :=
  if 917504 ≤ i ∧ i < 983040 ∧ a.handle (i - 917504).toNat ≠ 0 then
    ((a.handle (i - 917504).toNat : Nat) : Int) - 1
  else INVALID_HANDLE

/-- Refcount and len that the view gives to the slab value of handle `h`. -/
def CacheView.valueAt (a : CacheView) (h : Int) : Option (Int × Int) :=
  if 0 ≤ h ∧ field 64 a.values h.toNat / 4294967296 ≠ 0 then
    some (((field 64 a.values h.toNat / 4294967296 : Nat) : Int) - 1,
      ((field 64 a.values h.toNat % 4294967296 : Nat) : Int))
  else none

/-- Refcount and len of a packed value field. -/
def decodeValue (e : Nat) : Option (Int × Int) :=
  if e / 4294967296 ≠ 0 then
    some (((e / 4294967296 : Nat) : Int) - 1, ((e % 4294967296 : Nat) : Int))
  else none

/-- The part of `cacheBlock` after the eviction loop, for the state `s1` in which the
loop ends and its slot-to-handle table `nd`. -/
def cacheBlockAfter (s1 : MyfilePartition) (nd : Int → Int) (index : Int) (value : List Int)
    (rewrite_value is_pread : Bool) : Option (Int × MyfilePartition) :=
  if nd index = INVALID_HANDLE then
    some (cacheBlockStore
      { s1 with
        m_cacheAllocator := s1.m_cacheAllocator.alloc.2
        m_cacheNodeCount := toUInt32 (s1.m_cacheNodeCount + 1)
        m_node := some (setAt nd index s1.m_cacheAllocator.alloc.1) }
      index s1.m_cacheAllocator.alloc.1 value
      (rewrite_value || decide (nd index = INVALID_HANDLE)) is_pread)
  else if is_pread then some (-1, s1)
  else some (cacheBlockStore s1 index (nd index) value
    (rewrite_value || decide (nd index = INVALID_HANDLE)) is_pread)

/-- The cache of the CACHE-mode state `s` is the one that the view `a` describes. -/
structure ViewCache (s : MyfilePartition) (a : CacheView) : Prop where
  mode : s.m_cacheMode = CacheMode.CM_CACHE
  nodeCount : s.m_cacheNodeCount = (a.nodeCount : Int)
  memoryByte : s.m_cacheMemoryByte = (a.memoryByte : Int)
  nodeCount_lt : a.nodeCount < 4294967296
  memoryByte_lt : a.memoryByte < 4294967296
  access : s.m_accessCacheFIFO = a.access.toList.map slotInt
  access_wf : QueueWf a.access
  preread : s.m_prereadCacheFIFO = a.preread.toList.map slotInt
  preread_wf : QueueWf a.preread
  node : s.m_node = some a.handleAt
  initHandle : s.m_cacheAllocator.m_initHandle = (a.initHandle : Int)
  freelist : s.m_cacheAllocator.m_freelist
    = a.freelist.toList.map (fun (h : Nat) => (Int.ofNat h, CacheValue.new))
  freelist_wf : QueueWf a.freelist
  alloced : ∀ h, (s.m_cacheAllocator.m_alloced h).map (fun v => (v.refcount, v.len))
    = a.valueAt h

/-- The slot table and the data file of the state `s` are the ones that the view
`a` describes: every slot of the view with `len ≠ 0` owns an extent at the
recorded position that starts with a valid record of the slot. -/
structure ViewDisk (crc : List Int → Int) (s : MyfilePartition) (a : CacheView) : Prop where
  file : byteLen s.m_datafile = 1024 * (a.fileKiB : Int)
  capacity : ∀ k, k < 65536 → (s.node (slotInt k)).capacity = (a.capacity k : Int)
  len : ∀ k, k < 65536 → (s.node (slotInt k)).len = (a.len k : Int)
  record : ∀ k, k < 65536 → a.len k ≠ 0 →
    (s.node (slotInt k)).getPos = 1024 * (a.pos k : Int) ∧
    ∃ rest d, RecordOnDisk s (slotInt k) (crcOf crc d) rest d

/-- The state `s` is the one that the view `a` describes. -/
def ViewOf (crc : List Int → Int) (s : MyfilePartition) (a : CacheView) : Prop :=
  ViewCache s a ∧ ViewDisk crc s a

/-- Exactly `n` iterations of the body of the eviction loop of `cacheBlock`. -/
def evictSteps : Nat → MyfilePartition → Option MyfilePartition
  | 0, s => some s
  | n + 1, s =>
    if evictCond s then
      match CHECK_DELETE (AllocCacheIndex s).2 (AllocCacheIndex s).1 with
      | none => none
      | some s1 => evictSteps n s1
    else none

/-- The call of the code for a call on the view: the coordinates of slot `slotOf k`
are `(1 + 10 (k / 1024), 0, k mod 1024)`, the payload is `n` zero bytes, `changed`
is true and the clock reads 0. -/
def ViewCall.toCall : ViewCall → Call
  | ViewCall.save k n =>
    Call.save (1 + 10 * ((k : Int) / 1024)) 0 ((k : Int) % 1024) (List.replicate n 0) true 0
  | ViewCall.load k => Call.load (1 + 10 * ((k : Int) / 1024)) 0 ((k : Int) % 1024)

/-! ## A prefetch while an eviction is pending -/

@[simp] theorem setAt_same {α : Type} (f : Int → α) (i : Int) (v : α) : setAt f i v i = v := by
  simp [setAt]

theorem setAt_other {α : Type} (f : Int → α) (i j : Int) (v : α) (h : j ≠ i) :
    setAt f i v j = f j := by
  simp [setAt, h]

@[simp] theorem setAt_setAt {α : Type} (f : Int → α) (i : Int) (v w : α) :
    setAt (setAt f i v) i w = setAt f i w := by
  funext j
  by_cases hj : j = i <;> simp [setAt, hj]

theorem byteLen_eq (l : List Int) : byteLen l = (l.length : Int) := by
  induction l with
  | nil => rfl
  | cons a t ih => simp only [byteLen, ih, List.length_cons]; push_cast; rfl

theorem byteLen_nonneg (l : List Int) : 0 ≤ byteLen l := by
  rw [byteLen_eq]
  omega

/-! ## Delete -/

/-- C5: a second `deleteBlock` of the same coordinate changes neither `header.count`
nor the slot table, and `loadBlock` then returns the empty string with
`bCacheHit = true`, in every partition state and whatever the read cache holds
(the delete leaves the handle table and the slab values untouched). -/
theorem deleteBlock_idempotent (crc : List Int → Int) (s : MyfilePartition) (x y z : Int) :
    (deleteBlock (deleteBlock s x y z).2 x y z).2.count = (deleteBlock s x y z).2.count ∧
    (deleteBlock (deleteBlock s x y z).2 x y z).2.node = (deleteBlock s x y z).2.node ∧
    (deleteBlock (deleteBlock s x y z).2 x y z).2.m_node = s.m_node ∧
    (deleteBlock (deleteBlock s x y z).2 x y z).2.m_cacheAllocator.m_alloced
      = s.m_cacheAllocator.m_alloced ∧
    loadBlock crc (deleteBlock (deleteBlock s x y z).2 x y z).2 x y z
      = some ([], true, (deleteBlock (deleteBlock s x y z).2 x y z).2) := by
  by_cases h : getLocalIndex x y z < 0 ∨ getLocalIndex x y z ≥ MAX_NODE
  · simp [deleteBlock, loadBlock, h]
  · simp [deleteBlock, loadBlock, h]

/-! ## Coordinate codec -/

theorem getBlockAsInteger_eq (x y z : Int) (hx : isInt16 x) (hy : isInt16 y) (hz : isInt16 z) :
    getBlockAsInteger x y z = z * 2 ^ 24 + y * 2 ^ 12 + x := by
  unfold isInt16 at *
  simp only [getBlockAsInteger, toInt64, toUInt64]
  omega

theorem field_split (q x : Int) (hq : -2 ^ 40 ≤ q ∧ q ≤ 2 ^ 40) (hx : -2048 ≤ x ∧ x < 2048) :
    unsigned_to_signed (toUInt16 (pythonmodulo (q * 4096 + x) 4096)) 2048 = x := by
  simp only [unsigned_to_signed, pythonmodulo, toInt64, toUInt16, toUInt32, toInt16, cmod]
  split_ifs <;> omega

theorem field_shift (q x : Int) (hq : -2 ^ 40 ≤ q ∧ q ≤ 2 ^ 40) :
    cdiv (toInt64 (q * 4096 + x - x)) 4096 = q := by
  simp only [toInt64, cdiv]
  split_ifs <;> omega

theorem getIntegerAsBlock_sum (x y z : Int) (hx : -2048 ≤ x ∧ x < 2048)
    (hy : -2048 ≤ y ∧ y < 2048) (hz : -2048 ≤ z ∧ z < 2048) :
    getIntegerAsBlock (z * 2 ^ 24 + y * 2 ^ 12 + x) = (x, y, z) := by
  have e1 : z * 2 ^ 24 + y * 2 ^ 12 + x = (z * 4096 + y) * 4096 + x := by ring
  have e3 : z = 0 * 4096 + z := by ring
  simp only [getIntegerAsBlock]
  rw [e1, field_split _ x (by omega) hx, field_shift _ x (by omega),
    field_split z y (by omega) hy, field_shift z y (by omega)]
  nth_rewrite 1 [e3]
  rw [field_split 0 z (by omega) hz]

/-- C7: for all `x, y, z` in `[-2048, 2048)`, `getBlockAsInteger` computes the
integer `z*2^24 + y*2^12 + x`, `getIntegerAsBlock` applied to it yields exactly
`(x, y, z)`, and hence encoding the decoded triple gives the same integer again. -/
theorem getIntegerAsBlock_getBlockAsInteger (x y z : Int) (hx : -2048 ≤ x ∧ x < 2048)
    (hy : -2048 ≤ y ∧ y < 2048) (hz : -2048 ≤ z ∧ z < 2048) :
    getBlockAsInteger x y z = z * 2 ^ 24 + y * 2 ^ 12 + x ∧
    getIntegerAsBlock (getBlockAsInteger x y z) = (x, y, z) ∧
    getBlockAsInteger (getIntegerAsBlock (getBlockAsInteger x y z)).1
      (getIntegerAsBlock (getBlockAsInteger x y z)).2.1
      (getIntegerAsBlock (getBlockAsInteger x y z)).2.2 = getBlockAsInteger x y z := by
  have h := getBlockAsInteger_eq x y z (by unfold isInt16; omega) (by unfold isInt16; omega)
    (by unfold isInt16; omega)
  have h2 : getIntegerAsBlock (getBlockAsInteger x y z) = (x, y, z) := by
    rw [h]; exact getIntegerAsBlock_sum x y z hx hy hz
  exact ⟨h, h2, by rw [h2]⟩

/-- Witness for C7 at the coordinate `(-2048, 2047, -1)`. -/
theorem getIntegerAsBlock_getBlockAsInteger_witness :
    getBlockAsInteger (-2048) 2047 (-1) = (-1) * 2 ^ 24 + 2047 * 2 ^ 12 + (-2048) ∧
    getIntegerAsBlock (getBlockAsInteger (-2048) 2047 (-1)) = (-2048, 2047, -1) ∧
    getBlockAsInteger (getIntegerAsBlock (getBlockAsInteger (-2048) 2047 (-1))).1
      (getIntegerAsBlock (getBlockAsInteger (-2048) 2047 (-1))).2.1
      (getIntegerAsBlock (getBlockAsInteger (-2048) 2047 (-1))).2.2
        = getBlockAsInteger (-2048) 2047 (-1) :=
  getIntegerAsBlock_getBlockAsInteger (-2048) 2047 (-1) (by decide) (by decide) (by decide)

/-! ## Local slot index -/

/-- C8: for `int16_t` arguments `getLocalIndex` returns -1 exactly when `x < 0`, or
`z < 0`, or `z ≥ 1024`, or `y + 14` is outside `[0, 23)`, or `x / 10 ≥ 64`; in every
other case it returns `z + ((x/10) << 10) + ((y+14) << 16)` (shifts written as
multiplications by `2^10` and `2^16`). -/
theorem getLocalIndex_spec (x y z : Int) (hx : isInt16 x) (hy : isInt16 y) (hz : isInt16 z) :
    (getLocalIndex x y z = -1 ↔
      (x < 0 ∨ z < 0 ∨ z ≥ 1024 ∨ y + 14 < 0 ∨ y + 14 ≥ 23 ∨ cdiv x 10 ≥ 64)) ∧
    (¬ (x < 0 ∨ z < 0 ∨ z ≥ 1024 ∨ y + 14 < 0 ∨ y + 14 ≥ 23 ∨ cdiv x 10 ≥ 64) →
      getLocalIndex x y z = z + cdiv x 10 * 2 ^ 10 + (y + 14) * 2 ^ 16) := by
  unfold isInt16 at *
  simp only [getLocalIndex, MYSQL_BLOCK_TABLE_NUM, toInt16, toInt32, cdiv]
  constructor
  · split_ifs <;> omega
  · intro h
    split_ifs <;> omega

/-- Witness for C8 at the coordinate `(25, -3, 7)`. -/
theorem getLocalIndex_spec_witness :
    (getLocalIndex 25 (-3) 7 = -1 ↔
      ((25 : Int) < 0 ∨ (7 : Int) < 0 ∨ (7 : Int) ≥ 1024 ∨ (-3 : Int) + 14 < 0 ∨
        (-3 : Int) + 14 ≥ 23 ∨ cdiv 25 10 ≥ 64)) ∧
    (¬ ((25 : Int) < 0 ∨ (7 : Int) < 0 ∨ (7 : Int) ≥ 1024 ∨ (-3 : Int) + 14 < 0 ∨
        (-3 : Int) + 14 ≥ 23 ∨ cdiv 25 10 ≥ 64) →
      getLocalIndex 25 (-3) 7 = 7 + cdiv 25 10 * 2 ^ 10 + ((-3) + 14) * 2 ^ 16) :=
  getLocalIndex_spec 25 (-3) 7 (by unfold isInt16; decide) (by unfold isInt16; decide)
    (by unfold isInt16; decide)

/-- Counterexample to C9: the coordinate `(630, 8, 1023)` lies in the documented
valid domain, yet its slot index 1507327 is not below `MAX_NODE = 1490944`. -/
theorem getLocalIndex_exceeds_MAX_NODE :
    (630 : Int) ≥ 0 ∧ (0 ≤ (1023 : Int) ∧ (1023 : Int) < 1024) ∧
    (0 ≤ cdiv 630 10 ∧ cdiv 630 10 < 64) ∧ (0 ≤ (8 : Int) + 14 ∧ (8 : Int) + 14 < 23) ∧
    getLocalIndex 630 8 1023 = 1507327 ∧ MAX_NODE = 1490944 ∧
    ¬ (0 ≤ getLocalIndex 630 8 1023 ∧ getLocalIndex 630 8 1023 < MAX_NODE) := by
  with_unfolding_all decide

/-- C9 (amended): for every coordinate in the documented valid domain the slot
index computed by `getLocalIndex` lies in `[0, 23 * 65536)`; it is below
`MAX_NODE = 14*104*1024`, so that `saveBlock`, `loadBlock` and `deleteBlock` accept
the coordinate, exactly when `y + 14 < 22` or `x / 10 < 48`. -/
theorem getLocalIndex_range (x y z : Int) (hx : 0 ≤ x) (hz : 0 ≤ z ∧ z < 1024)
    (hxl : 0 ≤ cdiv x 10 ∧ cdiv x 10 < 64) (hy : 0 ≤ y + 14 ∧ y + 14 < 23) :
    0 ≤ getLocalIndex x y z ∧ getLocalIndex x y z < 23 * 65536 ∧
    (getLocalIndex x y z < MAX_NODE ↔ (y + 14 < 22 ∨ cdiv x 10 < 48)) := by
  simp only [getLocalIndex, MYSQL_BLOCK_TABLE_NUM, MAX_NODE, toInt16, toInt32, cdiv] at *
  split_ifs at * <;> omega

/-- Witness for the amended C9 at the coordinate `(479, 8, 1023)`. -/
theorem getLocalIndex_range_witness :
    0 ≤ getLocalIndex 479 8 1023 ∧ getLocalIndex 479 8 1023 < 23 * 65536 ∧
    (getLocalIndex 479 8 1023 < MAX_NODE ↔ ((8 : Int) + 14 < 22 ∨ cdiv 479 10 < 48)) :=
  getLocalIndex_range 479 8 1023 (by decide) (by decide) (by with_unfolding_all decide)
    (by decide)

theorem getLocalIndex_accepted (x y z : Int) (hx : isInt16 x) (hy : isInt16 y) (hz : isInt16 z)
    (ha : getLocalIndex x y z ≠ -1) :
    0 ≤ x ∧ 0 ≤ z ∧ z < 1024 ∧ 0 ≤ y + 14 ∧ y + 14 < 23 ∧ x / 10 < 64 ∧
    getLocalIndex x y z = z + x / 10 * 1024 + (y + 14) * 65536 := by
  unfold isInt16 at *
  simp only [getLocalIndex, MYSQL_BLOCK_TABLE_NUM, toInt16, toInt32, cdiv] at *
  split_ifs at * <;> omega

/-- C10: two different `int16_t` coordinates that `getLocalIndex` both accepts
(result other than -1) and that are routed to the same partition
(`x1 % 10 == x2 % 10`) get different slot indices. -/
theorem getLocalIndex_injective (x1 y1 z1 x2 y2 z2 : Int)
    (h1 : isInt16 x1 ∧ isInt16 y1 ∧ isInt16 z1) (h2 : isInt16 x2 ∧ isInt16 y2 ∧ isInt16 z2)
    (hne : (x1, y1, z1) ≠ (x2, y2, z2))
    (ha1 : getLocalIndex x1 y1 z1 ≠ -1) (ha2 : getLocalIndex x2 y2 z2 ≠ -1)
    (hp : cmod x1 10 = cmod x2 10) :
    getLocalIndex x1 y1 z1 ≠ getLocalIndex x2 y2 z2 := by
  have hne2 : x1 ≠ x2 ∨ y1 ≠ y2 ∨ z1 ≠ z2 := by
    by_contra hc
    push_neg at hc
    exact hne (by rw [hc.1, hc.2.1, hc.2.2])
  have a1 := getLocalIndex_accepted x1 y1 z1 h1.1 h1.2.1 h1.2.2 ha1
  have a2 := getLocalIndex_accepted x2 y2 z2 h2.1 h2.2.1 h2.2.2 ha2
  rw [a1.2.2.2.2.2.2, a2.2.2.2.2.2.2]
  simp only [cmod] at hp
  split_ifs at hp <;> omega

/-- Witness for C10 at the coordinates `(10, 0, 0)` and `(20, 0, 0)` of scenario S6. -/
theorem getLocalIndex_injective_witness :
    getLocalIndex 10 0 0 ≠ getLocalIndex 20 0 0 :=
  getLocalIndex_injective 10 0 0 20 0 0 (by unfold isInt16; decide) (by unfold isInt16; decide)
    (by decide) (by with_unfolding_all decide) (by with_unfolding_all decide)
    (by with_unfolding_all decide)

/-! ## The cache without eviction -/

theorem evictLoop_of_not_cond (n : Nat) (s : MyfilePartition) (h : evictCond s = false) :
    evictLoop n s = some s := by
  cases n <;> simp [evictLoop, h]

theorem cacheBlock_of_not_cond (s : MyfilePartition) (nd : Int → Int) (index : Int)
    (value : List Int) (rw pr : Bool) (hn : s.m_node = some nd)
    (hm : s.m_cacheMode = CacheMode.CM_CACHE) (hc : evictCond s = false) :
    cacheBlock s index value rw pr =
      if nd index = INVALID_HANDLE then
        some (cacheBlockStore { s with
              m_cacheAllocator := s.m_cacheAllocator.alloc.2
              m_cacheNodeCount := toUInt32 (s.m_cacheNodeCount + 1)
              m_node := some (setAt nd index s.m_cacheAllocator.alloc.1) }
            index s.m_cacheAllocator.alloc.1 value true pr)
      else if pr then some (-1, s)
      else some (cacheBlockStore s index (nd index) value rw pr) := by
  unfold cacheBlock
  simp only [hn, hm, evictLoop_of_not_cond _ s hc]
  by_cases h : nd index = INVALID_HANDLE
  · simp [h]
  · simp [h]

/-- Length of the payload plus header as `saveBlock` computes it. -/
theorem saveLen_eq (d : List Int) (h : byteLen d + 24 ≤ 64512) :
    toInt32 (toUInt64 (byteLen d + sizeofNodeHeader)) = byteLen d + 24 := by
  have := byteLen_nonneg d
  simp only [toInt32, toUInt64, sizeofNodeHeader]
  omega

/-! ## The cache leaves the files alone -/

theorem SameFiles.refl (s : MyfilePartition) : SameFiles s s :=
  ⟨rfl, rfl, rfl, rfl, rfl, rfl, rfl, rfl⟩

theorem SameFiles.trans {s t u : MyfilePartition} (h1 : SameFiles s t) (h2 : SameFiles t u) :
    SameFiles s u := by
  obtain ⟨a1, a2, a3, a4, a5, a6, a7, a8⟩ := h1
  obtain ⟨b1, b2, b3, b4, b5, b6, b7, b8⟩ := h2
  exact ⟨b1.trans a1, b2.trans a2, b3.trans a3, b4.trans a4, b5.trans a5, b6.trans a6,
    b7.trans a7, b8.trans a8⟩

theorem AllocCacheIndex_sameFiles (s : MyfilePartition) : SameFiles s (AllocCacheIndex s).2 := by
  unfold AllocCacheIndex
  split_ifs
  · cases h : s.m_prereadCacheFIFO <;> exact ⟨rfl, rfl, rfl, rfl, rfl, rfl, rfl, rfl⟩
  · cases h : s.m_accessCacheFIFO <;> exact ⟨rfl, rfl, rfl, rfl, rfl, rfl, rfl, rfl⟩

theorem CHECK_DELETE_sameFiles (s t : MyfilePartition) (i : Int) (h : CHECK_DELETE s i = some t) :
    SameFiles s t := by
  unfold CHECK_DELETE at h
  cases hn : s.m_node with
  | none => simp [hn] at h
  | some nd =>
    simp only [hn] at h
    by_cases h1 : i < 0 ∨ i ≥ MAX_NODE
    · rw [if_pos h1] at h
      exact absurd h (by simp)
    · rw [if_neg h1] at h
      cases hv : s.m_cacheAllocator.getValue (nd i) with
      | none =>
        simp only [hv, Option.some.injEq] at h
        subst h
        exact SameFiles.refl s
      | some cache =>
        simp only [hv] at h
        by_cases h2 : toInt64 (cache.refcount - 1) = 0
        · rw [if_pos h2] at h
          simp only [Option.some.injEq] at h
          subst h
          exact ⟨rfl, rfl, rfl, rfl, rfl, rfl, rfl, rfl⟩
        · rw [if_neg h2] at h
          simp only [Option.some.injEq] at h
          subst h
          exact ⟨rfl, rfl, rfl, rfl, rfl, rfl, rfl, rfl⟩

theorem evictLoop_sameFiles (n : Nat) : ∀ (s t : MyfilePartition), evictLoop n s = some t →
    SameFiles s t := by
  induction n with
  | zero =>
    intro s t h
    unfold evictLoop at h
    split_ifs at h
    simp only [Option.some.injEq] at h
    subst h
    exact SameFiles.refl s
  | succ n ih =>
    intro s t h
    unfold evictLoop at h
    split_ifs at h
    · cases hc : CHECK_DELETE (AllocCacheIndex s).2 (AllocCacheIndex s).1 with
      | none => simp [hc] at h
      | some s1 =>
        simp only [hc] at h
        exact (AllocCacheIndex_sameFiles s).trans
          ((CHECK_DELETE_sameFiles _ _ _ hc).trans (ih s1 t h))
    · simp only [Option.some.injEq] at h
      subst h
      exact SameFiles.refl s

theorem cacheBlockStore_sameFiles (s : MyfilePartition) (index h : Int) (value : List Int)
    (rw pr : Bool) : SameFiles s (cacheBlockStore s index h value rw pr).2 := by
  unfold cacheBlockStore
  cases hv : s.m_cacheAllocator.getValue h with
  | none => exact SameFiles.refl s
  | some cv =>
    simp only
    split_ifs <;> exact ⟨rfl, rfl, rfl, rfl, rfl, rfl, rfl, rfl⟩

theorem cacheBlock_sameFiles (s : MyfilePartition) (index : Int) (value : List Int)
    (rw pr : Bool) (r : Int × MyfilePartition) (h : cacheBlock s index value rw pr = some r) :
    SameFiles s r.2 := by
  unfold cacheBlock at h
  cases hn : s.m_node with
  | none =>
    simp only [hn, Option.some.injEq] at h
    subst h
    exact SameFiles.refl s
  | some nd0 =>
    simp only [hn] at h
    by_cases hm : s.m_cacheMode ≠ CacheMode.CM_CACHE
    · rw [if_pos hm] at h
      simp only [Option.some.injEq] at h
      subst h
      exact SameFiles.refl s
    · rw [if_neg hm] at h
      cases he : evictLoop (s.m_accessCacheFIFO.length + s.m_prereadCacheFIFO.length + 1) s with
      | none => simp [he] at h
      | some s1 =>
        have hs1 := evictLoop_sameFiles _ s s1 he
        simp only [he] at h
        cases hn1 : s1.m_node with
        | none => simp [hn1] at h
        | some nd =>
          simp only [hn1] at h
          by_cases hi : nd index = INVALID_HANDLE
          · rw [if_pos hi] at h
            simp only [Option.some.injEq] at h
            subst h
            exact hs1.trans (SameFiles.trans ⟨rfl, rfl, rfl, rfl, rfl, rfl, rfl, rfl⟩
              (cacheBlockStore_sameFiles _ _ _ _ _ _))
          · rw [if_neg hi] at h
            by_cases hp : pr = true
            · rw [if_pos hp] at h
              simp only [Option.some.injEq] at h
              subst h
              exact hs1
            · rw [if_neg hp] at h
              simp only [Option.some.injEq] at h
              subst h
              exact hs1.trans (cacheBlockStore_sameFiles _ _ _ _ _ _)

/-! ## Bytes in files and buffers -/

theorem pwrite_length (file : List Int) (off : Nat) (bytes : List Int) :
    (pwrite file off bytes).length = max file.length (off + bytes.length) := by
  simp only [pwrite, List.length_append, List.length_take, List.length_replicate,
    List.length_drop]
  omega

theorem pwrite_drop (file : List Int) (off : Nat) (bytes : List Int) :
    (pwrite file off bytes).drop off = bytes ++ file.drop (off + bytes.length) := by
  have hl : (file.take off ++ List.replicate (off - file.length) 0).length = off := by
    simp only [List.length_append, List.length_take, List.length_replicate]
    omega
  unfold pwrite
  rw [List.append_assoc, List.drop_append_of_le_length (le_of_eq hl.symm)]
  rw [List.drop_of_length_le (le_of_eq hl)]
  simp

theorem BufHas_append (buf : Int → Int) (p : Int) (a b : List Int) :
    BufHas buf p (a ++ b) → BufHas buf p a ∧ BufHas buf (p + (a.length : Int)) b := by
  intro h
  constructor
  · intro k hk
    have := h k (by simp only [List.length_append]; omega)
    rw [this, List.getD_append _ _ _ _ hk]
  · intro k hk
    have := h (a.length + k) (by simp only [List.length_append]; omega)
    rw [List.getD_append_right _ _ _ _ (by omega)] at this
    simp only [Nat.cast_add, add_tsub_cancel_left] at this
    rw [← this]
    congr 1
    ring

theorem BufHas_overlay (buf : Int → Int) (bytes l : List Int) (h : l <+: bytes) :
    BufHas (overlay buf bytes) 0 l := by
  obtain ⟨t, rfl⟩ := h
  intro k hk
  have hk2 : (k : Int) < byteLen (l ++ t) := by
    rw [byteLen_eq, List.length_append]
    push_cast
    omega
  simp only [overlay, zero_add, Nat.cast_nonneg, hk2, and_self, if_true, Int.toNat_ofNat]
  exact List.getD_append _ _ _ _ hk

theorem bufSlice_of_BufHas (buf : Int → Int) (p : Int) (l : List Int) (h : BufHas buf p l) :
    bufSlice buf p l.length = l := by
  apply List.ext_getElem
  · simp [bufSlice]
  · intro k h1 h2
    simp only [bufSlice, List.getElem_map, List.getElem_range, Int.ofNat_eq_coe]
    rw [h k h2, List.getD_eq_getElem _ _ h2]

theorem rd32_of_BufHas (buf : Int → Int) (p v : Int) (hv : 0 ≤ v ∧ v < 4294967296)
    (h : BufHas buf p (le32 v)) : rd32 buf p = v := by
  have h0 := h 0 (by simp [le32])
  have h1 := h 1 (by simp [le32])
  have h2 := h 2 (by simp [le32])
  have h3 := h 3 (by simp [le32])
  simp only [le32, List.getD_cons_zero, List.getD_cons_succ, Nat.cast_zero, add_zero,
    Nat.cast_one, Nat.cast_ofNat] at h0 h1 h2 h3
  simp only [rd32, h0, h1, h2, h3]
  omega

/-! ## Validation of a record in the I/O buffer -/

theorem ProcessReadBuffer_outer (crc : List Int → Int) (fuel : Nat) (s : MyfilePartition)
    (rb idx c : Int) (rest d : List Int)
    (hbuf : BufHas s.m_buffer 0 (le32 24 ++ le32 c ++ le32 (toUInt32 idx) ++ rest ++ d))
    (hrest : rest.length = 12) (hrb : ¬ toUInt64 rb < 24)
    (hidx : 0 ≤ idx ∧ idx < MAX_NODE) (hlen : (s.node idx).len = byteLen d + 24)
    (hcap : ¬ rb < (s.node idx).capacity) (hd : byteLen d + 24 ≤ 65535)
    (hc : 0 ≤ c ∧ c < 4294967296) :
    ProcessReadBuffer crc (fuel + 1) s rb 0 idx =
      if c ≠ crcOf crc d then some (ERROR, s)
      else
        match cacheBlock s idx d true false with
        | none => none
        | some r =>
          match ProcessReadBuffer crc fuel r.2 (toInt32 (rb - (s.node idx).capacity))
              (toInt32 (0 + (s.node idx).capacity)) (toInt32 (idx + 1)) with
          | none => none
          | some r2 => some (d, r2.2) := by
  obtain ⟨h1, hdat⟩ := BufHas_append _ _ _ _ hbuf
  obtain ⟨h2, _⟩ := BufHas_append _ _ _ _ h1
  obtain ⟨h3, hI⟩ := BufHas_append _ _ _ _ h2
  obtain ⟨hH, hC⟩ := BufHas_append _ _ _ _ h3
  have eH : rd32 s.m_buffer 0 = 24 := rd32_of_BufHas _ _ _ (by omega) hH
  have eC : rd32 s.m_buffer 4 = c := by
    have := rd32_of_BufHas _ _ _ hc hC
    simpa [le32] using this
  have eI : rd32 s.m_buffer 8 = toUInt32 idx := by
    have := rd32_of_BufHas _ _ _ (by simp only [toUInt32]; omega) hI
    simpa [le32] using this
  have hnn := byteLen_nonneg d
  have eN : toUInt32 ((s.node idx).len - 24) = byteLen d := by
    simp only [hlen, toUInt32]
    omega
  have eT : (byteLen d).toNat = d.length := by
    rw [byteLen_eq]
    exact Int.toNat_ofNat _
  have eD : bufSlice s.m_buffer 24 d.length = d := by
    have := bufSlice_of_BufHas _ _ _ hdat
    simpa [le32, hrest] using this
  have e1 : ¬ toUInt64 rb < 24 := hrb
  have e4 : ¬ (idx < 0 ∨ idx ≥ MAX_NODE) := by omega
  have e5 : ¬ (rb < (s.node idx).capacity) := hcap
  have e6 : ¬ ((65535 : Int) < 24 + byteLen d) := by omega
  rw [ProcessReadBuffer]
  simp only [sizeofNodeHeader, MAX_DATA_LENGTH, zero_add, eH, eI, eC, eN, e1, e4, e5, e6,
    eT, eD, if_false, ne_eq, not_true_eq_false, lt_self_iff_false, false_or,
    gt_iff_lt, ite_not, show ¬ ((65535 : Int) < 4) by norm_num,
    show ¬ ((65535 : Int) < 12) by norm_num]
  split_ifs <;> rfl

/-! ## The miss path of `loadBlock` -/

theorem loadBlock_miss (crc : List Int → Int) (s : MyfilePartition) (x y z : Int)
    (hidx : ¬ (getLocalIndex x y z < 0 ∨ getLocalIndex x y z ≥ MAX_NODE))
    (hlen : (s.node (getLocalIndex x y z)).len ≠ 0) (hnc : NotCached s (getLocalIndex x y z)) :
    loadBlock crc s x y z =
      match ProcessReadBuffer crc (MAX_DATA_LENGTH.toNat + 1) (afterRead s (getLocalIndex x y z))
          (fileRead s.m_datafile (s.node (getLocalIndex x y z)).getPos
            (ROUND (s.node (getLocalIndex x y z)).capacity (4096 * 2))).1 0
          (getLocalIndex x y z) with
      | none => none
      | some p => some (p.1, false, p.2) := by
  unfold loadBlock afterRead
  simp only [hidx, hlen, if_false]
  cases hn : s.m_node with
  | none => rfl
  | some nd =>
    have := hnc nd hn
    simp only [this, ne_eq, not_true_eq_false, if_false]
    all_goals rfl

theorem fileRead_record (s : MyfilePartition) (idx c : Int) (rest d : List Int)
    (h : RecordOnDisk s idx c rest d) :
    BufHas (afterRead s idx).m_buffer 0
      (le32 24 ++ le32 c ++ le32 (toUInt32 idx) ++ rest ++ d) ∧
    (s.node idx).capacity ≤
      (fileRead s.m_datafile (s.node idx).getPos (ROUND (s.node idx).capacity (4096 * 2))).1 ∧
    (fileRead s.m_datafile (s.node idx).getPos (ROUND (s.node idx).capacity (4096 * 2))).1
      ≤ 32768 ∧
    (fileRead s.m_datafile (s.node idx).getPos (ROUND (s.node idx).capacity (4096 * 2))).1
      ≤ byteLen s.m_datafile - (s.node idx).getPos := by
  obtain ⟨h1, h2, h3, h4, h5, h6, h7, h8⟩ := h
  have hnn := byteLen_nonneg d
  have hR : (s.node idx).capacity ≤ ROUND (s.node idx).capacity (4096 * 2) ∧
      ROUND (s.node idx).capacity (4096 * 2) ≤ 32768 := by
    simp only [ROUND, toInt32, cdiv]
    split_ifs <;> omega
  have hL : ((le32 24 ++ le32 c ++ le32 (toUInt32 idx) ++ rest ++ d).length : Int)
      = byteLen d + 24 := by
    simp only [List.length_append, le32, List.length_cons, List.length_nil, h6, byteLen_eq]
    push_cast
    ring
  have hsz : ¬ ROUND (s.node idx).capacity (4096 * 2) < 0 := by omega
  have hof : ¬ (s.node idx).getPos < 0 := by omega
  simp only [afterRead, fileRead, hsz, hof, if_false, byteLen_eq, List.length_take,
    List.length_drop]
  rw [byteLen_eq] at h5
  refine ⟨?_, ?_, ?_, ?_⟩
  · apply BufHas_overlay
    rw [List.prefix_take_iff]
    refine ⟨h8, ?_⟩
    have : ((le32 24 ++ le32 c ++ le32 (toUInt32 idx) ++ rest ++ d).length : Int)
        ≤ ((ROUND (s.node idx).capacity (4096 * 2)).toNat : Int) := by
      rw [hL, Int.toNat_of_nonneg (by omega)]
      omega
    exact_mod_cast this
  · omega
  · omega
  · omega

theorem cacheBlock_defined (s : MyfilePartition) (index : Int) (value : List Int)
    (rw pr : Bool) (hc : evictCond s = false) :
    ∃ q, cacheBlock s index value rw pr = some q := by
  cases hn : s.m_node with
  | none => exact ⟨(-1, s), by simp [cacheBlock, hn]⟩
  | some nd =>
    by_cases hm : s.m_cacheMode = CacheMode.CM_CACHE
    · rw [cacheBlock_of_not_cond s nd index value rw pr hn hm hc]
      split_ifs <;> exact ⟨_, rfl⟩
    · exact ⟨(-1, s), by simp [cacheBlock, hn, hm]⟩

theorem ProcessReadBuffer_short (crc : List Int → Int) (fuel : Nat) (s : MyfilePartition)
    (rb rp idx : Int) (h : toUInt64 rb < 24) :
    ProcessReadBuffer crc (fuel + 1) s rb rp idx = some (ERROR, s) := by
  rw [ProcessReadBuffer]
  simp [sizeofNodeHeader, h]

/-- A record on disk whose stored checksum differs from the checksum of its
payload bytes is answered with "ERROR" on the miss path; the cache is not touched. -/
theorem loadBlock_crc_mismatch (crc : List Int → Int) (s : MyfilePartition) (x y z c : Int)
    (rest d : List Int)
    (hidx : 0 ≤ getLocalIndex x y z ∧ getLocalIndex x y z < MAX_NODE)
    (hrec : RecordOnDisk s (getLocalIndex x y z) c rest d)
    (hnc : NotCached s (getLocalIndex x y z)) (hcrc : c ≠ crcOf crc d) :
    loadBlock crc s x y z = some (ERROR, false, afterRead s (getLocalIndex x y z)) := by
  have hr := fileRead_record s _ c rest d hrec
  have hnn := byteLen_nonneg d
  obtain ⟨h1, h2, h3, h4, h5, h6, h7, h8⟩ := hrec
  rw [loadBlock_miss crc s x y z (by omega) (by omega) hnc]
  rw [ProcessReadBuffer_outer crc _ (afterRead s (getLocalIndex x y z)) _ _ c rest d hr.1 h6
    (by simp only [toUInt64]; have := hr.2.1; have := hr.2.2.1; omega) hidx h1
    (by have := hr.2.1; exact not_lt.mpr this) (by omega) h7]
  simp [hcrc]

/-- A valid record on disk is returned by the miss path whenever the call is
defined, and the call is defined when the cache has room and the I/O window ends
with the record. -/
theorem loadBlock_valid_record (crc : List Int → Int) (s : MyfilePartition) (x y z : Int)
    (rest d : List Int)
    (hidx : 0 ≤ getLocalIndex x y z ∧ getLocalIndex x y z < MAX_NODE)
    (hrec : RecordOnDisk s (getLocalIndex x y z) (crcOf crc d) rest d)
    (hnc : NotCached s (getLocalIndex x y z)) :
    (∀ r, loadBlock crc s x y z = some r → r.1 = d ∧ r.2.1 = false) ∧
    (evictCond s = false →
      byteLen s.m_datafile = (s.node (getLocalIndex x y z)).getPos
        + (s.node (getLocalIndex x y z)).capacity →
      ∃ t, loadBlock crc s x y z = some (d, false, t)) := by
  have hr := fileRead_record s _ _ rest d hrec
  have hnn := byteLen_nonneg d
  obtain ⟨h1, h2, h3, h4, h5, h6, h7, h8⟩ := hrec
  rw [loadBlock_miss crc s x y z (by omega) (by omega) hnc]
  rw [ProcessReadBuffer_outer crc _ (afterRead s (getLocalIndex x y z)) _ _ _ rest d hr.1 h6
    (by simp only [toUInt64]; have := hr.2.1; have := hr.2.2.1; omega) hidx h1
    (by have := hr.2.1; exact not_lt.mpr this) (by omega) h7]
  simp only [ne_eq, not_true_eq_false, if_false]
  constructor
  · intro r hr2
    cases hcb : cacheBlock (afterRead s (getLocalIndex x y z)) (getLocalIndex x y z) d true false
      with
    | none => simp [hcb] at hr2
    | some q =>
      simp only [hcb] at hr2
      generalize ProcessReadBuffer crc _ _ _ _ _ = pr at hr2
      cases pr with
      | none => simp at hr2
      | some r2 =>
        simp only [Option.some.injEq] at hr2
        subst hr2
        exact ⟨rfl, rfl⟩
  · intro hev hend
    obtain ⟨q, hq⟩ := cacheBlock_defined (afterRead s (getLocalIndex x y z))
      (getLocalIndex x y z) d true false hev
    rw [hq]
    simp only
    have hz : toInt32 ((fileRead s.m_datafile (s.node (getLocalIndex x y z)).getPos
        (ROUND (s.node (getLocalIndex x y z)).capacity (4096 * 2))).1
        - ((afterRead s (getLocalIndex x y z)).node (getLocalIndex x y z)).capacity) = 0 := by
      have e : ((afterRead s (getLocalIndex x y z)).node (getLocalIndex x y z)).capacity
          = (s.node (getLocalIndex x y z)).capacity := rfl
      rw [e]
      simp only [toInt32]
      omega
    rw [hz, show MAX_DATA_LENGTH.toNat = 65534 + 1 from rfl,
      ProcessReadBuffer_short crc _ _ 0 _ _ (by simp [toUInt64])]
    exact ⟨_, rfl⟩

/-! ## What a save writes -/

theorem ROUND_1k (l : Int) (h : 0 ≤ l ∧ l ≤ 64512) :
    l ≤ ROUND l 1024 ∧ ROUND l 1024 < l + 1024 ∧ ROUND l 1024 % 1024 = 0 ∧
    ROUND l 1024 = (l + 1023) / 1024 * 1024 := by
  simp only [ROUND, toInt32, cdiv]
  split_ifs <;> omega

theorem composeRecord_eq (crc : List Int → Int) (idx : Int) (d : List Int) (ts : Int) (cap : Nat)
    (h : d.length + 24 ≤ cap) :
    composeRecord crc idx d ts cap =
      (le32 24 ++ le32 (crcOf crc d) ++ le32 (toUInt32 idx) ++ hdrRest ts ++ d)
        ++ List.replicate (cap - (d.length + 24)) 0 ∧
    (composeRecord crc idx d ts cap).length = cap ∧
    (le32 24 ++ le32 (crcOf crc d) ++ le32 (toUInt32 idx) ++ hdrRest ts ++ d).length
      = d.length + 24 := by
  have hl : (le32 24 ++ le32 (crcOf crc d) ++ le32 (toUInt32 idx) ++ hdrRest ts ++ d).length
      = d.length + 24 := by
    simp only [List.length_append, le32, le64, hdrRest, List.length_cons, List.length_nil]
    omega
  have e : composeRecord crc idx d ts cap =
      (le32 24 ++ le32 (crcOf crc d) ++ le32 (toUInt32 idx) ++ hdrRest ts ++ d)
        ++ List.replicate (cap - (d.length + 24)) 0 := by
    simp only [composeRecord, sizeofNodeHeader, hdrRest, List.append_assoc]
    simp only [List.length_append, le32, le64, List.length_cons, List.length_nil]
    congr 7
    omega
  refine ⟨e, ?_, hl⟩
  rw [e, List.length_append, hl, List.length_replicate]
  omega

theorem saveBlock_success (crc : List Int → Int) (s s1 : MyfilePartition) (x y z : Int)
    (d : List Int) (changed : Bool) (ts : Int)
    (hidx : 0 ≤ getLocalIndex x y z ∧ getLocalIndex x y z < MAX_NODE)
    (hd : byteLen d + 24 ≤ 64512)
    (hsave : saveBlock crc s x y z d changed ts = some (true, s1)) :
    (saveWrite crc s (getLocalIndex x y z) (byteLen d + 24)
      (ROUND (byteLen d + 24) 1024) d changed ts).1 = true ∧
    ∃ r, cacheBlock (saveWrite crc s (getLocalIndex x y z) (byteLen d + 24)
      (ROUND (byteLen d + 24) 1024) d changed ts).2 (getLocalIndex x y z) d true false
        = some r ∧ r.2 = s1 := by
  have hnn := byteLen_nonneg d
  have hr := ROUND_1k (byteLen d + 24) (by omega)
  unfold saveBlock at hsave
  simp only [saveLen_eq d hd] at hsave
  rw [if_neg (by omega), if_neg (by simp only [MAX_DATA_LENGTH]; omega), if_neg (by omega)]
    at hsave
  by_cases hw : (saveWrite crc s (getLocalIndex x y z) (byteLen d + 24)
      (ROUND (byteLen d + 24) 1024) d changed ts).1 = true
  · rw [if_pos hw] at hsave
    refine ⟨hw, ?_⟩
    cases hcb : cacheBlock (saveWrite crc s (getLocalIndex x y z) (byteLen d + 24)
      (ROUND (byteLen d + 24) 1024) d changed ts).2 (getLocalIndex x y z) d true false
      with
    | none => simp [hcb] at hsave
    | some r =>
      simp only [hcb, Option.some.injEq, Prod.mk.injEq, true_and] at hsave
      exact ⟨r, rfl, hsave⟩
  · rw [if_neg hw] at hsave
    simp at hsave

theorem saveWrite_inplace (crc : List Int → Int) (s : MyfilePartition) (idx len cap : Int)
    (d : List Int) (changed : Bool) (ts : Int)
    (h : (s.node idx).capacity ≥ cap ∧ s.m_cacheMode ≠ CacheMode.CM_APPEND) (hlen : 0 ≤ len)
    (hw : (saveWrite crc s idx len cap d changed ts).1 = true) :
    0 ≤ (s.node idx).getPos ∧
    ((saveWrite crc s idx len cap d changed ts).2.node idx).pos = (s.node idx).pos ∧
    ((saveWrite crc s idx len cap d changed ts).2.node idx).capacity = (s.node idx).capacity ∧
    ((saveWrite crc s idx len cap d changed ts).2.node idx).len = toInt16 len ∧
    (saveWrite crc s idx len cap d changed ts).2.m_datafile =
      pwrite s.m_datafile (s.node idx).getPos.toNat
        ((composeRecord crc idx d ts cap.toNat).take len.toNat) := by
  unfold saveWrite at hw ⊢
  rw [if_pos h] at hw ⊢
  have hg : (savedNode s idx len changed).getPos = (s.node idx).getPos := rfl
  simp only [saveInPlace, hg, setAt_same, decide_eq_true_eq] at hw ⊢
  by_cases hp : (s.node idx).getPos < 0
  · simp only [fileWrite, hp, if_true] at hw
    omega
  · simp only [fileWrite, hp, if_false]
    refine ⟨by omega, ?_, ?_, ?_, trivial⟩ <;> rfl

theorem saveWrite_append (crc : List Int → Int) (s : MyfilePartition) (idx len cap : Int)
    (d : List Int) (changed : Bool) (ts : Int)
    (h : ¬ ((s.node idx).capacity ≥ cap ∧ s.m_cacheMode ≠ CacheMode.CM_APPEND))
    (hal : byteLen s.m_datafile % 1024 = 0)
    (hsz : byteLen s.m_datafile < 2147483648)
    (hcap : byteLen d + 24 ≤ cap) :
    (saveWrite crc s idx len cap d changed ts).1 = true ∧
    ((saveWrite crc s idx len cap d changed ts).2.node idx).getPos
      = byteLen s.m_datafile ∧
    ((saveWrite crc s idx len cap d changed ts).2.node idx).capacity = toInt16 cap ∧
    ((saveWrite crc s idx len cap d changed ts).2.node idx).len = toInt16 len ∧
    (saveWrite crc s idx len cap d changed ts).2.m_datafile =
      s.m_datafile ++ composeRecord crc idx d ts cap.toNat := by
  have hnd := byteLen_nonneg d
  have hnf := byteLen_nonneg s.m_datafile
  have hpos : toInt32 (toInt32 (cdiv (byteLen s.m_datafile) 1024) * 1024)
      = byteLen s.m_datafile := by
    simp only [toInt32, cdiv]
    split_ifs
    omega
  have hdl : d.length + 24 ≤ cap.toNat := by
    have := byteLen_eq d
    omega
  have hcl := (composeRecord_eq crc idx d ts cap.toNat hdl).2.1
  have hbl : byteLen (composeRecord crc idx d ts cap.toNat) = cap := by
    rw [byteLen_eq, hcl]
    omega
  have hft : (byteLen s.m_datafile).toNat = s.m_datafile.length := by
    rw [byteLen_eq]
    exact Int.toNat_ofNat _
  unfold saveWrite
  rw [if_neg h]
  have hg : (appendedNode s idx len cap changed).getPos = byteLen s.m_datafile := by
    simp only [appendedNode, KeyNode.setPos, KeyNode.getPos, hpos]
  have hnn : ¬ (byteLen s.m_datafile < 0) := by omega
  refine ⟨?_, ?_, ?_, ?_, ?_⟩
  · simp only [saveAppend, hg, fileWrite, hnn, if_false, hbl, decide_eq_true_eq]
  · simp only [saveAppend, setAt_same, hg]
  · simp only [saveAppend, setAt_same]
    rfl
  · simp only [saveAppend, setAt_same]
    rfl
  · simp only [saveAppend, hg, fileWrite, hnn, if_false, hft, pwrite,
      List.take_length, Nat.sub_self, List.replicate_zero, List.append_nil]
    rw [List.drop_of_length_le (by omega)]
    simp

/-! ## Capacity reuse -/

/-- C3: in CACHE mode, for a slot with stored capacity `c > 0`, a `saveBlock` that
takes the write path (slot index in range, `ceil_1k(|d|+24) < 65535`) and reports
success leaves `node.pos`, `node.capacity` and the data-file length unchanged when
`ceil_1k(|d|+24) ≤ c` (the slot's extent lying inside the file), and otherwise
puts the slot at the previous end of the data file and grows the file by exactly
`ceil_1k(|d|+24)` bytes (the file being 1 KiB aligned and below 2 GiB). -/
theorem saveBlock_capacity_reuse (crc : List Int → Int) (s s1 : MyfilePartition) (x y z : Int)
    (d : List Int) (changed : Bool) (ts : Int)
    (hmode : s.m_cacheMode = CacheMode.CM_CACHE)
    (hidx : 0 ≤ getLocalIndex x y z ∧ getLocalIndex x y z < MAX_NODE)
    (hd : (byteLen d + 24 + 1023) / 1024 * 1024 < 65535)
    (hc : 0 < (s.node (getLocalIndex x y z)).capacity)
    (hsave : saveBlock crc s x y z d changed ts = some (true, s1)) :
    (ROUND (byteLen d + 24) 1024 ≤ (s.node (getLocalIndex x y z)).capacity →
      (s.node (getLocalIndex x y z)).getPos + (s.node (getLocalIndex x y z)).capacity
        ≤ byteLen s.m_datafile →
      (s1.node (getLocalIndex x y z)).pos = (s.node (getLocalIndex x y z)).pos ∧
      (s1.node (getLocalIndex x y z)).capacity = (s.node (getLocalIndex x y z)).capacity ∧
      byteLen s1.m_datafile = byteLen s.m_datafile) ∧
    (ROUND (byteLen d + 24) 1024 > (s.node (getLocalIndex x y z)).capacity →
      byteLen s.m_datafile % 1024 = 0 → byteLen s.m_datafile < 2147483648 →
      (s1.node (getLocalIndex x y z)).getPos = byteLen s.m_datafile ∧
      byteLen s1.m_datafile = byteLen s.m_datafile + ROUND (byteLen d + 24) 1024) := by
  have hnd := byteLen_nonneg d
  have hnf := byteLen_nonneg s.m_datafile
  have hd2 : byteLen d + 24 ≤ 64512 := by omega
  obtain ⟨hw, r, hcb, hr⟩ := saveBlock_success crc s s1 x y z d changed ts hidx hd2 hsave
  obtain ⟨f1, f2, -⟩ := cacheBlock_sameFiles _ _ _ _ _ r hcb
  rw [hr] at f1 f2
  have hR := ROUND_1k (byteLen d + 24) (by omega)
  have hdl : d.length + 24 ≤ (ROUND (byteLen d + 24) 1024).toNat := by
    have := byteLen_eq d
    omega
  have hl := (composeRecord_eq crc (getLocalIndex x y z) d ts
    (ROUND (byteLen d + 24) 1024).toNat hdl).2.1
  constructor
  · intro hle hext
    obtain ⟨g0, g1, g2, -, g4⟩ := saveWrite_inplace crc s _ _ _ d changed ts
      ⟨hle, by rw [hmode]; decide⟩ (by omega) hw
    rw [f1, f2, g1, g2, g4]
    refine ⟨rfl, rfl, ?_⟩
    rw [byteLen_eq (pwrite _ _ _), pwrite_length, List.length_take, hl]
    have := byteLen_eq s.m_datafile
    omega
  · intro hgt hal hsz
    obtain ⟨-, g1, -, -, g4⟩ := saveWrite_append crc s (getLocalIndex x y z)
      (byteLen d + 24) (ROUND (byteLen d + 24) 1024) d changed ts
      (by intro hh; have := hh.1; omega) hal hsz (by omega)
    rw [f1, f2, g1, g4]
    refine ⟨rfl, ?_⟩
    rw [byteLen_eq (_ ++ _), List.length_append, hl]
    have := byteLen_eq s.m_datafile
    push_cast
    omega

/-! ## The value that a save leaves in the cache -/

theorem getValue_setValue (a : CacheValueAllocator) (h : Int) (v : CacheValue) :
    (a.setValue h v).getValue h = if h ≥ MAX_CACHE then none else some v := by
  simp [CacheValueAllocator.getValue, CacheValueAllocator.setValue]

theorem cacheBlockStore_m_node (s : MyfilePartition) (index h : Int) (value : List Int)
    (rw pr : Bool) : (cacheBlockStore s index h value rw pr).2.m_node = s.m_node := by
  unfold cacheBlockStore
  cases hg : s.m_cacheAllocator.getValue h with
  | none => rfl
  | some c0 =>
    simp only
    split_ifs <;> rfl

theorem cacheBlockStore_rewrite (s : MyfilePartition) (index h : Int) (value : List Int)
    (pr : Bool) (cv : CacheValue)
    (hv : (cacheBlockStore s index h value true pr).2.m_cacheAllocator.getValue h = some cv) :
    cv.data = value ∧ cv.len = toInt32 (byteLen value) := by
  unfold cacheBlockStore at hv
  cases hg : s.m_cacheAllocator.getValue h with
  | none =>
    simp only [hg] at hv
    exact absurd hv (by simp)
  | some c0 =>
    simp only [hg, if_true] at hv
    by_cases hr : c0.refcount < 3
    · simp only [hr, if_true, getValue_setValue] at hv
      split_ifs at hv
      simp only [Option.some.injEq] at hv
      subst hv
      exact ⟨rfl, rfl⟩
    · simp only [hr, if_false, getValue_setValue] at hv
      split_ifs at hv
      simp only [Option.some.injEq] at hv
      subst hv
      exact ⟨rfl, rfl⟩

theorem cacheBlock_stores (s : MyfilePartition) (index : Int) (value : List Int)
    (r : Int × MyfilePartition) (nd1 : Int → Int) (cv : CacheValue)
    (hm : s.m_cacheMode = CacheMode.CM_CACHE)
    (h : cacheBlock s index value true false = some r)
    (hn1 : r.2.m_node = some nd1)
    (hv : r.2.m_cacheAllocator.getValue (nd1 index) = some cv) :
    cv.data = value ∧ cv.len = toInt32 (byteLen value) := by
  unfold cacheBlock at h
  cases hn : s.m_node with
  | none =>
    simp only [hn, Option.some.injEq] at h
    subst h
    rw [hn] at hn1
    exact absurd hn1 (by simp)
  | some nd0 =>
    simp only [hn] at h
    rw [if_neg (by simp [hm])] at h
    cases he : evictLoop (s.m_accessCacheFIFO.length + s.m_prereadCacheFIFO.length + 1) s with
    | none => simp [he] at h
    | some s1 =>
      simp only [he] at h
      cases hs1 : s1.m_node with
      | none => simp [hs1] at h
      | some nd =>
        simp only [hs1, Bool.true_or] at h
        by_cases hi : nd index = INVALID_HANDLE
        · rw [if_pos hi] at h
          simp only [Option.some.injEq] at h
          subst h
          rw [cacheBlockStore_m_node] at hn1
          simp only [Option.some.injEq] at hn1
          subst hn1
          rw [setAt_same] at hv
          exact cacheBlockStore_rewrite _ _ _ _ _ _ hv
        · rw [if_neg hi] at h
          simp only [Bool.false_eq_true, if_false, Option.some.injEq] at h
          subst h
          rw [cacheBlockStore_m_node, hs1] at hn1
          simp only [Option.some.injEq] at hn1
          subst hn1
          exact cacheBlockStore_rewrite _ _ _ _ _ _ hv

/-- A load of a slot whose cache entry holds `d` returns `d` with `bCacheHit = true`
when the cache is below its eviction thresholds; neither the I/O buffer nor the
data file is touched. -/
theorem loadBlock_hit (crc : List Int → Int) (s : MyfilePartition) (x y z : Int)
    (nd : Int → Int) (cv : CacheValue)
    (hidx : 0 ≤ getLocalIndex x y z ∧ getLocalIndex x y z < MAX_NODE)
    (hlen : (s.node (getLocalIndex x y z)).len ≠ 0)
    (hn : s.m_node = some nd) (hm : s.m_cacheMode = CacheMode.CM_CACHE)
    (hh : nd (getLocalIndex x y z) ≠ INVALID_HANDLE)
    (hv : s.m_cacheAllocator.getValue (nd (getLocalIndex x y z)) = some cv)
    (hcl : cv.len = byteLen cv.data)
    (hc : evictCond s = false) :
    ∃ t, loadBlock crc s x y z = some (cv.data, true, t) ∧ t.m_buffer = s.m_buffer ∧
      t.m_datafile = s.m_datafile := by
  have hcb := cacheBlock_of_not_cond s nd (getLocalIndex x y z) cv.data false false hn hm hc
  rw [if_neg hh] at hcb
  simp only [Bool.false_eq_true, if_false] at hcb
  have hsf := cacheBlock_sameFiles _ _ _ _ _ _ hcb
  refine ⟨_, ?_, hsf.2.2.2.1, hsf.2.1⟩
  unfold loadBlock
  rw [if_neg (by omega), if_neg hlen]
  have hnn := byteLen_nonneg cv.data
  have ht : (byteLen cv.data).toNat = cv.data.length := by
    rw [byteLen_eq]
    exact Int.toNat_ofNat _
  simp only [hn, hh, ne_eq, not_false_eq_true, if_true, hv, hcl]
  rw [if_neg (by omega)]
  simp only [ht, List.take_length, hcb]

theorem saveWrite_cases (crc : List Int → Int) (s : MyfilePartition) (idx len cap : Int)
    (d : List Int) (changed : Bool) (ts : Int) :
    saveWrite crc s idx len cap d changed ts = saveInPlace crc s idx len cap d changed ts ∨
    saveWrite crc s idx len cap d changed ts = saveAppend crc s idx len cap d changed ts := by
  unfold saveWrite
  by_cases h : (s.node idx).capacity ≥ cap ∧ s.m_cacheMode ≠ CacheMode.CM_APPEND
  · left
    rw [if_pos h]
  · right
    rw [if_neg h]

theorem saveWrite_cache (crc : List Int → Int) (s : MyfilePartition) (idx len cap : Int)
    (d : List Int) (changed : Bool) (ts : Int) :
    (saveWrite crc s idx len cap d changed ts).2.m_node = s.m_node ∧
    (saveWrite crc s idx len cap d changed ts).2.m_cacheMode = s.m_cacheMode ∧
    (saveWrite crc s idx len cap d changed ts).2.m_cacheNodeCount = s.m_cacheNodeCount ∧
    (saveWrite crc s idx len cap d changed ts).2.m_cacheMemoryByte = s.m_cacheMemoryByte ∧
    (saveWrite crc s idx len cap d changed ts).2.m_cacheAllocator = s.m_cacheAllocator ∧
    (saveWrite crc s idx len cap d changed ts).2.m_accessCacheFIFO = s.m_accessCacheFIFO ∧
    (saveWrite crc s idx len cap d changed ts).2.m_prereadCacheFIFO = s.m_prereadCacheFIFO ∧
    (saveWrite crc s idx len cap d changed ts).2.version = s.version ∧
    (saveWrite crc s idx len cap d changed ts).2.m_index = s.m_index := by
  rcases saveWrite_cases crc s idx len cap d changed ts with h | h <;> rw [h]
  · refine ⟨?_, ?_, ?_, ?_, ?_, ?_, ?_, ?_, ?_⟩ <;> simp only [saveInPlace]
  · refine ⟨?_, ?_, ?_, ?_, ?_, ?_, ?_, ?_, ?_⟩ <;> simp only [saveAppend]

theorem evictCond_false_iff (s : MyfilePartition) :
    evictCond s = false ↔
      s.m_cacheNodeCount < MAX_CACHE ∧ s.m_cacheMemoryByte < MAX_CACHE_LENGTH := by
  simp [evictCond]

theorem MAX_CACHE_eq : MAX_CACHE = 26624 := by with_unfolding_all decide

theorem MAX_CACHE_LENGTH_eq : MAX_CACHE_LENGTH = 20971520 := by decide

/-- After the write step of a successful `saveBlock` of a payload with
`|d| + 24 ≤ 31744`, on a 1 KiB aligned data file below 2 GiB whose slot extent (when
large enough to be reused) lies inside the file, the slot owns an extent of the data
file that starts with the record just composed. -/
theorem saveWrite_recordOnDisk (crc : List Int → Int) (s : MyfilePartition) (idx : Int)
    (d : List Int) (changed : Bool) (ts : Int)
    (hd : byteLen d + 24 ≤ 31744)
    (hal : byteLen s.m_datafile % 1024 = 0) (hsz : byteLen s.m_datafile < 2147483648)
    (hcap : (s.node idx).capacity ≤ 32767)
    (hext : ROUND (byteLen d + 24) 1024 ≤ (s.node idx).capacity →
      (s.node idx).getPos + (s.node idx).capacity ≤ byteLen s.m_datafile)
    (hw : (saveWrite crc s idx (byteLen d + 24) (ROUND (byteLen d + 24) 1024) d changed
      ts).1 = true) :
    RecordOnDisk (saveWrite crc s idx (byteLen d + 24) (ROUND (byteLen d + 24) 1024) d
      changed ts).2 idx (crcOf crc d) (hdrRest ts) d := by
  have hnd := byteLen_nonneg d
  have hnf := byteLen_nonneg s.m_datafile
  have hR := ROUND_1k (byteLen d + 24) (by omega)
  have hdl : d.length + 24 ≤ (ROUND (byteLen d + 24) 1024).toNat := by
    have := byteLen_eq d
    omega
  obtain ⟨hce, hcl, hbl⟩ := composeRecord_eq crc idx d ts
    (ROUND (byteLen d + 24) 1024).toNat hdl
  have hrest : (hdrRest ts).length = 12 := by simp [hdrRest, le64, le32]
  have hcrc : 0 ≤ crcOf crc d ∧ crcOf crc d < 4294967296 := by
    unfold crcOf
    split_ifs
    · omega
    · simp only [toUInt32]
      omega
  have h16 : toInt16 (byteLen d + 24) = byteLen d + 24 := by
    simp only [toInt16]
    omega
  by_cases h : (s.node idx).capacity ≥ ROUND (byteLen d + 24) 1024 ∧
      s.m_cacheMode ≠ CacheMode.CM_APPEND
  · obtain ⟨g0, g1, g2, g3, g4⟩ := saveWrite_inplace crc s idx _ _ d changed ts h
      (by omega) hw
    have hgp : ((saveWrite crc s idx (byteLen d + 24) (ROUND (byteLen d + 24) 1024) d changed
        ts).2.node idx).getPos = (s.node idx).getPos := by
      simp only [KeyNode.getPos, g1]
    have hext2 := hext h.1
    have htk : List.take (byteLen d + 24).toNat (composeRecord crc idx d ts
        (ROUND (byteLen d + 24) 1024).toNat)
        = le32 24 ++ le32 (crcOf crc d) ++ le32 (toUInt32 idx) ++ hdrRest ts ++ d := by
      rw [hce]
      have e : (byteLen d + 24).toNat
          = (le32 24 ++ le32 (crcOf crc d) ++ le32 (toUInt32 idx) ++ hdrRest ts ++ d).length := by
        rw [hbl]
        have := byteLen_eq d
        omega
      rw [e, List.take_left']
      rfl
    refine ⟨by rw [g3, h16], by rw [g3, g2, h16]; omega, by rw [g2]; exact hcap,
      by rw [hgp]; exact g0, ?_, hrest, hcrc, ?_⟩
    · rw [hgp, g2, g4, byteLen_eq (pwrite _ _ _), pwrite_length]
      have := byteLen_eq s.m_datafile
      omega
    · rw [hgp, g4, pwrite_drop, htk]
      exact List.prefix_append _ _
  · obtain ⟨g0, g1, g2, g3, g4⟩ := saveWrite_append crc s idx (byteLen d + 24)
      (ROUND (byteLen d + 24) 1024) d changed ts h hal hsz (by omega)
    have h16c : toInt16 (ROUND (byteLen d + 24) 1024) = ROUND (byteLen d + 24) 1024 := by
      simp only [toInt16]
      omega
    have hft : (byteLen s.m_datafile).toNat = s.m_datafile.length := by
      rw [byteLen_eq]
      exact Int.toNat_ofNat _
    refine ⟨by rw [g3, h16], by rw [g3, g2, h16, h16c]; omega, by rw [g2, h16c]; omega,
      by rw [g1]; exact hnf, ?_, hrest, hcrc, ?_⟩
    · rw [g1, g2, h16c, g4, byteLen_eq (_ ++ _), List.length_append, hcl]
      have := byteLen_eq s.m_datafile
      push_cast
      omega
    · rw [g1, g4, hft, List.drop_left', hce]
      · exact List.prefix_append _ _
      · rfl

/-! ## Restart -/

theorem Init_fields (s s2 : MyfilePartition) (i : Int) (fresh : Int → Int)
    (h : Init s i CacheMode.CM_CACHE fresh = some s2) :
    s2.node = s.node ∧ s2.m_datafile = s.m_datafile ∧ s2.count = s.count ∧
    s2.m_node = some (fun _ => INVALID_HANDLE) ∧ s2.m_cacheMode = CacheMode.CM_CACHE ∧
    s2.m_cacheNodeCount = s.m_cacheNodeCount ∧ s2.m_cacheMemoryByte = s.m_cacheMemoryByte ∧
    s2.m_accessCacheFIFO = [] ∧ s2.m_prereadCacheFIFO = [] ∧ s2.m_buffer = fresh := by
  unfold Init at h
  by_cases hv : (UnInit s).version ≠ 1
  · rw [if_pos hv] at h
    exact absurd h (by simp)
  · rw [if_neg hv] at h
    simp only [Option.some.injEq] at h
    subst h
    refine ⟨?_, ?_, ?_, ?_, ?_, ?_, ?_, ?_, ?_, ?_⟩ <;> simp only [UnInit, if_true]

theorem RecordOnDisk_congr (s t : MyfilePartition) (idx c : Int) (rest d : List Int)
    (hn : t.node = s.node) (hf : t.m_datafile = s.m_datafile)
    (h : RecordOnDisk s idx c rest d) : RecordOnDisk t idx c rest d := by
  unfold RecordOnDisk at *
  rw [hn, hf]
  exact h

theorem loadBlock_hit_value (crc : List Int → Int) (s : MyfilePartition) (x y z : Int)
    (nd : Int → Int) (cv : CacheValue)
    (hidx : 0 ≤ getLocalIndex x y z ∧ getLocalIndex x y z < MAX_NODE)
    (hn : s.m_node = some nd)
    (hh : nd (getLocalIndex x y z) ≠ INVALID_HANDLE)
    (hv : s.m_cacheAllocator.getValue (nd (getLocalIndex x y z)) = some cv)
    (hcl : cv.len = byteLen cv.data)
    (r : List Int × Bool × MyfilePartition) (hr : loadBlock crc s x y z = some r) :
    r.1 = cv.data ∨ (r.1 = [] ∧ (s.node (getLocalIndex x y z)).len = 0) := by
  have hnn := byteLen_nonneg cv.data
  have ht : (byteLen cv.data).toNat = cv.data.length := by
    rw [byteLen_eq]
    exact Int.toNat_ofNat _
  unfold loadBlock at hr
  rw [if_neg (by omega)] at hr
  by_cases hl : (s.node (getLocalIndex x y z)).len = 0
  · rw [if_pos hl] at hr
    simp only [Option.some.injEq] at hr
    subst hr
    exact Or.inr ⟨rfl, hl⟩
  · rw [if_neg hl] at hr
    simp only [hn, hh, ne_eq, not_false_eq_true, if_true, hv, hcl] at hr
    rw [if_neg (by omega)] at hr
    simp only [ht, List.take_length] at hr
    cases hcb : cacheBlock s (getLocalIndex x y z) cv.data false false with
    | none => simp [hcb] at hr
    | some q =>
      simp only [hcb, Option.some.injEq] at hr
      subst hr
      exact Or.inl rfl

theorem loadBlock_dangling (crc : List Int → Int) (s : MyfilePartition) (x y z : Int)
    (nd : Int → Int)
    (hidx : 0 ≤ getLocalIndex x y z ∧ getLocalIndex x y z < MAX_NODE)
    (hlen : (s.node (getLocalIndex x y z)).len ≠ 0)
    (hn : s.m_node = some nd)
    (hh : nd (getLocalIndex x y z) ≠ INVALID_HANDLE)
    (hv : s.m_cacheAllocator.getValue (nd (getLocalIndex x y z)) = none) :
    loadBlock crc s x y z = none := by
  unfold loadBlock
  rw [if_neg (by omega), if_neg hlen]
  simp only [hn, hh, ne_eq, not_false_eq_true, if_true, hv]

/-! ## Round trip -/

/-- Round trip without operations in between: let `saveBlock(x,y,z,d,changed)`
succeed on a CACHE-mode partition for a slot index in `[0, MAX_NODE)` and a payload with
`|d| + 24 ≤ 31744` (record length and capacity fit the 16-bit `KeyNode` fields),
the data file being 1 KiB aligned and below 2 GiB and a reused extent lying inside
it. Then every `loadBlock(x,y,z)` issued right after the save that returns at all
returns `d`; it does return `d`, as a cache hit, when the slot holds a live cache
entry and the cache is below its eviction thresholds; and after `UnInit` + `Init`
every `loadBlock(x,y,z)` that returns at all returns `d`, which it does, from the
data file, when the cache counters are below the thresholds and the slot's extent
ends the data file. -/
theorem saveBlock_loadBlock_roundtrip (crc : List Int → Int) (s s1 : MyfilePartition)
    (x y z : Int) (d : List Int) (changed : Bool) (ts : Int)
    (hidx : 0 ≤ getLocalIndex x y z ∧ getLocalIndex x y z < MAX_NODE)
    (hd : byteLen d + 24 ≤ 31744)
    (hmode : s.m_cacheMode = CacheMode.CM_CACHE)
    (hal : byteLen s.m_datafile % 1024 = 0) (hsz : byteLen s.m_datafile < 2147483648)
    (hcap : (s.node (getLocalIndex x y z)).capacity ≤ 32767)
    (hext : ROUND (byteLen d + 24) 1024 ≤ (s.node (getLocalIndex x y z)).capacity →
      (s.node (getLocalIndex x y z)).getPos + (s.node (getLocalIndex x y z)).capacity
        ≤ byteLen s.m_datafile)
    (hsave : saveBlock crc s x y z d changed ts = some (true, s1)) :
    (∀ r, loadBlock crc s1 x y z = some r → r.1 = d) ∧
    (evictCond s1 = false → ∀ nd cv, s1.m_node = some nd →
      nd (getLocalIndex x y z) ≠ INVALID_HANDLE →
      s1.m_cacheAllocator.getValue (nd (getLocalIndex x y z)) = some cv →
      ∃ t, loadBlock crc s1 x y z = some (d, true, t)) ∧
    (∀ i fresh s2, Init s1 i CacheMode.CM_CACHE fresh = some s2 →
      (∀ r, loadBlock crc s2 x y z = some r → r.1 = d) ∧
      (evictCond s1 = false →
        byteLen s1.m_datafile = (s1.node (getLocalIndex x y z)).getPos
          + (s1.node (getLocalIndex x y z)).capacity →
        ∃ t, loadBlock crc s2 x y z = some (d, false, t))) := by
  have hnd := byteLen_nonneg d
  obtain ⟨hw, r, hcb, hr⟩ := saveBlock_success crc s s1 x y z d changed ts hidx (by omega)
    hsave
  have hrw := saveWrite_recordOnDisk crc s (getLocalIndex x y z) d changed ts hd hal hsz
    hcap hext hw
  have hsf := cacheBlock_sameFiles _ _ _ _ _ r hcb
  rw [hr] at hsf
  have hrec : RecordOnDisk s1 (getLocalIndex x y z) (crcOf crc d) (hdrRest ts) d :=
    RecordOnDisk_congr _ _ _ _ _ _ hsf.1 hsf.2.1 hrw
  have hwm := (saveWrite_cache crc s (getLocalIndex x y z) (byteLen d + 24)
    (ROUND (byteLen d + 24) 1024) d changed ts).2.1
  have hm1 : s1.m_cacheMode = CacheMode.CM_CACHE := hsf.2.2.2.2.2.1.trans (hwm.trans hmode)
  have h32 : toInt32 (byteLen d) = byteLen d := by
    simp only [toInt32]
    omega
  have hlen1 : (s1.node (getLocalIndex x y z)).len ≠ 0 := by
    rw [hrec.1]
    omega
  have hcached : ∀ nd cv, s1.m_node = some nd →
      s1.m_cacheAllocator.getValue (nd (getLocalIndex x y z)) = some cv →
      cv.data = d ∧ cv.len = byteLen cv.data := by
    intro nd cv hn hv
    rw [← hr] at hn hv
    have := cacheBlock_stores _ _ _ _ nd cv (hwm.trans hmode) hcb hn hv
    exact ⟨this.1, by rw [this.2, this.1, h32]⟩
  refine ⟨?_, ?_, ?_⟩
  · intro q hq
    cases hn : s1.m_node with
    | none =>
      exact ((loadBlock_valid_record crc s1 x y z _ d hidx hrec
        (fun nd hnd2 => by rw [hn] at hnd2; exact absurd hnd2 (by simp))).1 q hq).1
    | some nd =>
      by_cases hi : nd (getLocalIndex x y z) = INVALID_HANDLE
      · exact ((loadBlock_valid_record crc s1 x y z _ d hidx hrec
          (fun nd2 hnd2 => by
            rw [hn] at hnd2
            simp only [Option.some.injEq] at hnd2
            rw [← hnd2]
            exact hi)).1 q hq).1
      · cases hv : s1.m_cacheAllocator.getValue (nd (getLocalIndex x y z)) with
        | none =>
          rw [loadBlock_dangling crc s1 x y z nd hidx hlen1 hn hi hv] at hq
          exact absurd hq (by simp)
        | some cv =>
          obtain ⟨c1, c2⟩ := hcached nd cv hn hv
          rcases loadBlock_hit_value crc s1 x y z nd cv hidx hn hi hv c2 q hq with h1 | h1
          · rw [h1, c1]
          · exact absurd h1.2 hlen1
  · intro hroom nd cv hn hi hv
    obtain ⟨c1, c2⟩ := hcached nd cv hn hv
    obtain ⟨t, ht, -⟩ := loadBlock_hit crc s1 x y z nd cv hidx hlen1 hn hm1 hi hv c2 hroom
    rw [c1] at ht
    exact ⟨t, ht⟩
  · intro i fresh s2 hinit
    obtain ⟨i1, i2, -, i4, i5, i6, i7, -, -, -⟩ := Init_fields s1 s2 i fresh hinit
    have hrec2 : RecordOnDisk s2 (getLocalIndex x y z) (crcOf crc d) (hdrRest ts) d :=
      RecordOnDisk_congr _ _ _ _ _ _ i1 i2 hrec
    have hnc : NotCached s2 (getLocalIndex x y z) := by
      intro nd hn
      rw [i4] at hn
      simp only [Option.some.injEq] at hn
      rw [← hn]
    obtain ⟨v1, v2⟩ := loadBlock_valid_record crc s2 x y z _ d hidx hrec2 hnc
    refine ⟨fun q hq => (v1 q hq).1, ?_⟩
    intro hroom hend
    apply v2
    · rw [evictCond_false_iff] at hroom ⊢
      rw [i6, i7]
      exact hroom
    · rw [i1, i2]
      exact hend

/-! ## Concrete runs -/

theorem option_eq_some_getD {α : Type} (o : Option α) (d : α) (h : o.isSome = true) :
    o = some (o.getD d) := by
  cases o with
  | none => simp at h
  | some a => rfl

theorem option_pair_eq {α : Type} (o : Option (Bool × α)) (d : Bool × α)
    (h1 : o.isSome = true) (h2 : (o.getD d).1 = true) : o = some (true, (o.getD d).2) := by
  cases o with
  | none => simp at h1
  | some a =>
    simp only [Option.getD_some] at h2 ⊢
    rw [← h2]

theorem saveBlock_afterS2 :
    saveBlock demoCrc freshCache 1 0 0 helloBytes true 0 = some (true, afterS2) :=
  option_pair_eq _ (false, freshCache) (by decide!) (by decide!)

theorem saveBlock_afterS3 :
    saveBlock demoCrc afterS2 1 0 0 worldBytes false 0 = some (true, afterS3) :=
  option_pair_eq _ (false, afterS2) (by decide!) (by decide!)

/-- Scenario S2 on the fresh partition, followed by a load from the cache. -/
theorem saveBlock_loadBlock_roundtrip_witness :
    byteLen helloBytes + 24 ≤ 31744 ∧
    saveBlock demoCrc freshCache 1 0 0 helloBytes true 0 = some (true, afterS2) ∧
    ∃ t, loadBlock demoCrc afterS2 1 0 0 = some (helloBytes, true, t) :=
  ⟨by decide!, saveBlock_afterS2,
    (saveBlock_loadBlock_roundtrip demoCrc freshCache afterS2 1 0 0 helloBytes true 0
      (by decide!) (by decide!) (by decide!) (by decide!) (by decide!) (by decide!)
      (by decide!) saveBlock_afterS2).2.1 (by decide!)
      (afterS2.m_node.getD (fun _ => INVALID_HANDLE)) ⟨1, 5, helloBytes⟩
      (option_eq_some_getD _ _ (by decide!)) (by decide!) (by decide!)⟩

/-- The size guard below `|d| + 24 < 65535`: a payload of 64976 bytes satisfies that
bound, but `saveBlock` rejects it (its capacity rounds up to 65536), so that a following
`loadBlock` on the fresh partition returns the empty string instead of `d`. -/
theorem saveBlock_rejects_64976_bytes :
    byteLen (List.replicate 64976 0) + 24 < 65535 ∧
    (0 ≤ getLocalIndex 1 0 0 ∧ getLocalIndex 1 0 0 < MAX_NODE) ∧
    saveBlock demoCrc freshCache 1 0 0 (List.replicate 64976 0) true 0
      = some (true, freshCache) ∧
    loadBlock demoCrc freshCache 1 0 0 = some ([], true, freshCache) ∧
    List.replicate 64976 (0 : Int) ≠ [] := by
  have hl : byteLen (List.replicate 64976 0) = 64976 := by
    rw [byteLen_eq, List.length_replicate]
    rfl
  refine ⟨by rw [hl]; decide, by decide!, ?_, ?_, ?_⟩
  · simp only [saveBlock, hl]
    rw [if_neg (by decide!), if_pos (by decide!)]
  · simp only [loadBlock]
    rw [if_neg (by decide!), if_pos (by decide!)]
  · intro h
    have h2 := congrArg List.length h
    rw [List.length_replicate] at h2
    exact absurd h2 (by decide)

/-- Witness for C3: scenario S3, the in-place overwrite of "hello" by "world". -/
theorem saveBlock_capacity_reuse_witness :
    0 < (afterS2.node (getLocalIndex 1 0 0)).capacity ∧
    saveBlock demoCrc afterS2 1 0 0 worldBytes false 0 = some (true, afterS3) ∧
    (afterS3.node (getLocalIndex 1 0 0)).pos = (afterS2.node (getLocalIndex 1 0 0)).pos ∧
    (afterS3.node (getLocalIndex 1 0 0)).capacity
      = (afterS2.node (getLocalIndex 1 0 0)).capacity ∧
    byteLen afterS3.m_datafile = byteLen afterS2.m_datafile :=
  ⟨by decide!, saveBlock_afterS3,
    (saveBlock_capacity_reuse demoCrc afterS2 afterS3 1 0 0 worldBytes false 0 (by decide!)
      (by decide!) (by decide!) (by decide!) saveBlock_afterS3).1 (by decide!) (by decide!)⟩

/-! ## The modify list -/

theorem savedNode_flag0 (s : MyfilePartition) (idx len : Int) (changed : Bool) :
    (savedNode s idx len changed).flag0 = if changed then 1 else 0 := rfl

theorem appendedNode_flag0 (s : MyfilePartition) (idx len cap : Int) (changed : Bool) :
    (appendedNode s idx len cap changed).flag0 = if changed then 1 else 0 := rfl

theorem saveWrite_flag0 (crc : List Int → Int) (s : MyfilePartition) (idx len cap : Int)
    (d : List Int) (changed : Bool) (ts : Int) (j : Int) :
    ((saveWrite crc s idx len cap d changed ts).2.node j).flag0 =
      if j = idx then (if changed then 1 else 0) else (s.node j).flag0 := by
  rcases saveWrite_cases crc s idx len cap d changed ts with h | h <;> rw [h]
  · simp only [saveInPlace, setAt]
    by_cases hj : j = idx
    · rw [if_pos hj, if_pos hj]
      exact savedNode_flag0 _ _ _ _
    · rw [if_neg hj, if_neg hj]
  · simp only [saveAppend, setAt]
    by_cases hj : j = idx
    · rw [if_pos hj, if_pos hj]
      exact appendedNode_flag0 _ _ _ _ _
    · rw [if_neg hj, if_neg hj]

theorem saveBlock_flag0 (crc : List Int → Int) (s : MyfilePartition) (x y z : Int)
    (d : List Int) (changed : Bool) (ts : Int) (r : Bool × MyfilePartition)
    (h : saveBlock crc s x y z d changed ts = some r) (j : Int) :
    r.2.m_index = s.m_index ∧
    ((r.2.node j).flag0 ≠ 0 ↔
      if specAccepted x y z d then
        (if j = getLocalIndex x y z then changed = true else (s.node j).flag0 ≠ 0)
      else (s.node j).flag0 ≠ 0) := by
  unfold saveBlock at h
  by_cases h1 : getLocalIndex x y z < 0 ∨ getLocalIndex x y z ≥ MAX_NODE
  · rw [if_pos h1] at h
    simp only [Option.some.injEq] at h
    subst h
    have : ¬ specAccepted x y z d := by
      unfold specAccepted
      omega
    simp only [this, if_false, and_self]
  · rw [if_neg h1] at h
    simp only at h
    by_cases h2 : ROUND (toInt32 (toUInt64 (byteLen d + sizeofNodeHeader))) 1024
        ≥ MAX_DATA_LENGTH
    · rw [if_pos h2] at h
      simp only [Option.some.injEq] at h
      subst h
      have : ¬ specAccepted x y z d := by
        unfold specAccepted
        omega
      simp only [this, if_false, and_self]
    · rw [if_neg h2] at h
      have hacc : specAccepted x y z d := by
        unfold specAccepted
        omega
      simp only [hacc, if_true]
      by_cases h3 : ROUND (toInt32 (toUInt64 (byteLen d + sizeofNodeHeader))) 1024 < 0
      · rw [if_pos h3] at h
        exact absurd h (by simp)
      · rw [if_neg h3] at h
        have hfl := saveWrite_flag0 crc s (getLocalIndex x y z)
          (toInt32 (toUInt64 (byteLen d + sizeofNodeHeader)))
          (ROUND (toInt32 (toUInt64 (byteLen d + sizeofNodeHeader))) 1024) d changed ts j
        have hix := (saveWrite_cache crc s (getLocalIndex x y z)
          (toInt32 (toUInt64 (byteLen d + sizeofNodeHeader)))
          (ROUND (toInt32 (toUInt64 (byteLen d + sizeofNodeHeader))) 1024) d changed
          ts).2.2.2.2.2.2.2.2
        have key : ∀ t : MyfilePartition, t.m_index = (saveWrite crc s (getLocalIndex x y z)
            (toInt32 (toUInt64 (byteLen d + sizeofNodeHeader)))
            (ROUND (toInt32 (toUInt64 (byteLen d + sizeofNodeHeader))) 1024) d changed
            ts).2.m_index →
            t.node = (saveWrite crc s (getLocalIndex x y z)
            (toInt32 (toUInt64 (byteLen d + sizeofNodeHeader)))
            (ROUND (toInt32 (toUInt64 (byteLen d + sizeofNodeHeader))) 1024) d changed
            ts).2.node →
            t.m_index = s.m_index ∧ ((t.node j).flag0 ≠ 0 ↔
              if j = getLocalIndex x y z then changed = true else (s.node j).flag0 ≠ 0) := by
          intro t e1 e2
          refine ⟨e1.trans hix, ?_⟩
          rw [e2, hfl]
          by_cases hj : j = getLocalIndex x y z
          · simp only [hj, if_true]
            cases changed <;> simp
          · simp only [hj, if_false]
        by_cases hw : (saveWrite crc s (getLocalIndex x y z)
            (toInt32 (toUInt64 (byteLen d + sizeofNodeHeader)))
            (ROUND (toInt32 (toUInt64 (byteLen d + sizeofNodeHeader))) 1024) d changed
            ts).1 = true
        · rw [if_pos hw] at h
          cases hcb : cacheBlock (saveWrite crc s (getLocalIndex x y z)
            (toInt32 (toUInt64 (byteLen d + sizeofNodeHeader)))
            (ROUND (toInt32 (toUInt64 (byteLen d + sizeofNodeHeader))) 1024) d changed
            ts).2 (getLocalIndex x y z) d true false with
          | none => simp [hcb] at h
          | some q =>
            simp only [hcb, Option.some.injEq] at h
            subst h
            have hsf := cacheBlock_sameFiles _ _ _ _ _ _ hcb
            exact key q.2 hsf.2.2.2.2.2.2.1 hsf.1
        · rw [if_neg hw] at h
          simp only [Option.some.injEq] at h
          subst h
          exact key _ rfl rfl

theorem deleteBlock_flag0 (s : MyfilePartition) (x y z j : Int) :
    (deleteBlock s x y z).2.m_index = s.m_index ∧
    ((deleteBlock s x y z).2.node j).flag0 = (s.node j).flag0 := by
  unfold deleteBlock
  by_cases h : getLocalIndex x y z < 0 ∨ getLocalIndex x y z ≥ MAX_NODE
  · rw [if_pos h]
    exact ⟨rfl, rfl⟩
  · rw [if_neg h]
    refine ⟨rfl, ?_⟩
    simp only [setAt]
    by_cases hj : j = getLocalIndex x y z
    · rw [if_pos hj, hj]
    · rw [if_neg hj]

theorem runOps_flags (crc : List Int → Int) (ops : List Op) :
    ∀ (s t : MyfilePartition) (f : Int → Bool),
      (∀ j, (s.node j).flag0 ≠ 0 ↔ f j = true) → runOps crc ops s = some t →
      (∀ j, (t.node j).flag0 ≠ 0 ↔ ops.foldl specStep f j = true) ∧
      t.m_index = s.m_index := by
  induction ops with
  | nil =>
    intro s t f hf h
    simp only [runOps, Option.some.injEq] at h
    subst h
    exact ⟨hf, rfl⟩
  | cons op rest ih =>
    intro s t f hf h
    simp only [runOps] at h
    cases ha : applyOp crc s op with
    | none => simp [ha] at h
    | some s1 =>
      simp only [ha] at h
      have hstep : (∀ j, (s1.node j).flag0 ≠ 0 ↔ specStep f op j = true) ∧
          s1.m_index = s.m_index := by
        cases op with
        | save x y z d changed ts =>
          simp only [applyOp] at ha
          cases hs : saveBlock crc s x y z d changed ts with
          | none => simp [hs] at ha
          | some r =>
            simp only [hs, Option.some.injEq] at ha
            subst ha
            refine ⟨fun j => ?_, (saveBlock_flag0 crc s x y z d changed ts r hs 0).1⟩
            have h2 := (saveBlock_flag0 crc s x y z d changed ts r hs j).2
            rw [h2]
            simp only [specStep]
            by_cases hacc : specAccepted x y z d
            · simp only [hacc, if_true]
              by_cases hj : j = getLocalIndex x y z
              · simp only [hj, if_true]
              · simp only [hj, if_false]
                exact hf j
            · simp only [hacc, if_false]
              exact hf j
        | delete x y z =>
          simp only [applyOp, Option.some.injEq] at ha
          subst ha
          refine ⟨fun j => ?_, (deleteBlock_flag0 s x y z 0).1⟩
          rw [(deleteBlock_flag0 s x y z j).2]
          exact hf j
      obtain ⟨r1, r2⟩ := ih s1 t (specStep f op) hstep.1 h
      exact ⟨fun j => by simpa only [List.foldl_cons] using r1 j, r2.trans hstep.2⟩

/-- C6 (amended): after any sequence of `saveBlock`/`deleteBlock` calls on a
partition freshly initialised in an empty directory, every call returning,
`GetModifyList` appends exactly the global ids
`getGlobalIndex(slot)` of the slots whose most recent accepted save had
`changed = true`, each once and in slot order; a `deleteBlock` after that save does
not take the slot off the list. -/
theorem GetModifyList_after_runOps (crc : List Int → Int) (i : Int) (mode : CacheMode)
    (fresh : Int → Int) (ops : List Op) (s : MyfilePartition)
    (h : runOps crc ops (newPartition i mode fresh) = some s) :
    GetModifyList s [] =
      ((List.range MAX_NODE.toNat).filter (fun j => specChanged ops (Int.ofNat j))).map
        (fun j => getGlobalIndex i (Int.ofNat j)) := by
  obtain ⟨h1, h2⟩ := runOps_flags crc ops (newPartition i mode fresh) s (fun _ => false)
    (fun j => by simp [newPartition]) h
  have hi : s.m_index = i := h2
  unfold GetModifyList specChanged
  rw [List.nil_append, hi]
  refine congrArg (List.map _) ?_
  apply List.filter_congr
  intro j _
  by_cases hc : List.foldl specStep (fun _ => false) ops (Int.ofNat j) = true
  · rw [hc]
    exact decide_eq_true ((h1 _).2 hc)
  · have hn : ¬ (s.node (Int.ofNat j)).flag0 ≠ 0 := fun hh => hc ((h1 _).1 hh)
    rw [Bool.not_eq_true] at hc
    rw [hc]
    exact decide_eq_false hn

theorem runOps_afterS2Delete :
    runOps demoCrc [Op.save 1 0 0 helloBytes true 0, Op.delete 1 0 0] freshCache
      = some afterS2Delete := by
  simp only [runOps, applyOp, saveBlock_afterS2]
  rfl

/-- Witness for the amended C6: scenario S2 followed by `delete(1,0,0)`. -/
theorem GetModifyList_after_runOps_witness :
    runOps demoCrc [Op.save 1 0 0 helloBytes true 0, Op.delete 1 0 0] freshCache
      = some afterS2Delete ∧
    GetModifyList afterS2Delete [] =
      ((List.range MAX_NODE.toNat).filter (fun j =>
        specChanged [Op.save 1 0 0 helloBytes true 0, Op.delete 1 0 0] (Int.ofNat j))).map
        (fun j => getGlobalIndex 1 (Int.ofNat j)) :=
  ⟨runOps_afterS2Delete,
    GetModifyList_after_runOps demoCrc 1 CacheMode.CM_CACHE (fun _ => 0) _ afterS2Delete
      runOps_afterS2Delete⟩

/-- Counterexample to C6: after `save(1,0,0,"hello",changed=true)` and
`delete(1,0,0)` on the fresh partition the slot is empty (`len = 0`, deleted since
its last save), yet `GetModifyList` still lists its global id. -/
theorem GetModifyList_lists_deleted_slot :
    runOps demoCrc [Op.save 1 0 0 helloBytes true 0, Op.delete 1 0 0] freshCache
      = some afterS2Delete ∧
    (afterS2Delete.node (getLocalIndex 1 0 0)).len = 0 ∧
    getBlockAsInteger 1 0 0 ∈ GetModifyList afterS2Delete [] := by
  refine ⟨runOps_afterS2Delete, by decide!, ?_⟩
  unfold GetModifyList
  rw [List.nil_append, List.mem_map]
  refine ⟨917504, ?_, by decide!⟩
  rw [List.mem_filter, List.mem_range]
  exact ⟨by decide!, by decide!⟩

/-! ## Records whose capacity does not fit the 16-bit field -/

theorem ProcessReadBuffer_negative_readPos (crc : List Int → Int) (fuel : Nat)
    (s : MyfilePartition) (rb rp idx : Int) (hrb : ¬ toUInt64 rb < 24) (hrp : rp < 0) :
    ProcessReadBuffer crc (fuel + 1) s rb rp idx = none := by
  have e1 : ¬ toUInt64 rb < sizeofNodeHeader := hrb
  rw [ProcessReadBuffer, if_neg e1, if_pos (Or.inl hrp)]

theorem crcOf_range (crc : List Int → Int) (d : List Int) :
    0 ≤ crcOf crc d ∧ crcOf crc d < 4294967296 := by
  unfold crcOf
  split_ifs
  · omega
  · simp only [toUInt32]
    omega

theorem overlay_nil (buf : Int → Int) : overlay buf [] = buf := by
  funext k
  simp only [overlay, byteLen]
  rw [if_neg (by omega)]

theorem cacheBlock_no_cache (s : MyfilePartition) (idx : Int) (v : List Int) (rw pr : Bool)
    (hn : s.m_node = none) : cacheBlock s idx v rw pr = some (-1, s) := by
  simp only [cacheBlock, hn]

theorem loadBlock_negative_capacity (crc : List Int → Int) (t : MyfilePartition) (x y z c : Int)
    (rest d : List Int)
    (hidx : 0 ≤ getLocalIndex x y z ∧ getLocalIndex x y z < MAX_NODE)
    (hn : t.m_node = none)
    (hcap : (t.node (getLocalIndex x y z)).capacity = -32768)
    (hlen : (t.node (getLocalIndex x y z)).len = byteLen d + 24)
    (hd : byteLen d + 24 ≤ 65535)
    (hbuf : BufHas t.m_buffer 0
      (le32 24 ++ le32 c ++ le32 (toUInt32 (getLocalIndex x y z)) ++ rest ++ d))
    (hrest : rest.length = 12) (hc : 0 ≤ c ∧ c < 4294967296) (hcrc : c = crcOf crc d) :
    loadBlock crc t x y z = none := by
  have hnn := byteLen_nonneg d
  have hR : ROUND (-32768) (4096 * 2) = -24576 := by
    simp only [ROUND, cdiv, toInt32]
    decide
  have hfr : fileRead t.m_datafile (t.node (getLocalIndex x y z)).getPos
      (ROUND (t.node (getLocalIndex x y z)).capacity (4096 * 2)) = (-1, []) := by
    rw [hcap, hR]
    unfold fileRead
    rw [if_pos (by omega)]
  have hnc : NotCached t (getLocalIndex x y z) := by
    intro nd h
    rw [hn] at h
    cases h
  rw [loadBlock_miss crc t x y z (by omega) (by omega) hnc]
  have hab : (afterRead t (getLocalIndex x y z)).m_buffer = t.m_buffer := by
    unfold afterRead
    rw [hfr]
    exact overlay_nil _
  have hnode : (afterRead t (getLocalIndex x y z)).node = t.node := rfl
  have hmn : (afterRead t (getLocalIndex x y z)).m_node = none := hn
  have hrb : ¬ toUInt64 (-1) < 24 := by
    simp only [toUInt64]
    decide
  rw [hfr, ProcessReadBuffer_outer crc MAX_DATA_LENGTH.toNat (afterRead t (getLocalIndex x y z))
    (-1) (getLocalIndex x y z) c rest d (by rw [hab]; exact hbuf) hrest hrb hidx
    (by rw [hnode]; exact hlen) (by rw [hnode, hcap]; omega) hd hc]
  rw [if_neg (by rw [hcrc]; exact fun h => h rfl),
    cacheBlock_no_cache _ _ _ _ _ hmn]
  have hfuel : MAX_DATA_LENGTH.toNat = 65534 + 1 := rfl
  have hrp : toInt32 (0 + ((afterRead t (getLocalIndex x y z)).node
      (getLocalIndex x y z)).capacity) < 0 := by
    rw [hnode, hcap]
    simp only [toInt32]
    decide
  have hrb2 : ¬ toUInt64 (toInt32 (-1 - ((afterRead t (getLocalIndex x y z)).node
      (getLocalIndex x y z)).capacity)) < 24 := by
    rw [hnode, hcap]
    simp only [toInt32, toUInt64]
    decide
  simp only [hfuel]
  rw [ProcessReadBuffer_negative_readPos crc 65534 _ _ _ _ hrb2 hrp]

theorem saveBlock_capacity_wraps (crc : List Int → Int) (s : MyfilePartition) (x y z : Int)
    (d : List Int) (changed : Bool) (ts : Int)
    (hidx : 0 ≤ getLocalIndex x y z ∧ getLocalIndex x y z < MAX_NODE)
    (hn : s.m_node = none) (hm : s.m_cacheMode = CacheMode.CM_APPEND)
    (hal : byteLen s.m_datafile % 1024 = 0) (hsz : byteLen s.m_datafile < 2147483648)
    (hd : 31744 < byteLen d + 24 ∧ byteLen d + 24 ≤ 32767) :
    ∃ s1, saveBlock crc s x y z d changed ts = some (true, s1) ∧
      (s1.node (getLocalIndex x y z)).capacity = -32768 ∧
      ∀ f, loadBlock crc { s1 with m_datafile := f } x y z = none := by
  have hnn := byteLen_nonneg d
  have hr := ROUND_1k (byteLen d + 24) (by omega)
  have hR : ROUND (byteLen d + 24) 1024 = 32768 := by omega
  have hbr : ¬ ((s.node (getLocalIndex x y z)).capacity ≥ 32768 ∧
      s.m_cacheMode ≠ CacheMode.CM_APPEND) := fun h => h.2 hm
  have hsw : saveWrite crc s (getLocalIndex x y z) (byteLen d + 24) 32768 d changed ts
      = saveAppend crc s (getLocalIndex x y z) (byteLen d + 24) 32768 d changed ts := by
    unfold saveWrite
    rw [if_neg hbr]
  have ha := saveWrite_append crc s (getLocalIndex x y z) (byteLen d + 24) 32768 d changed ts
    hbr hal hsz (by omega)
  rw [hsw] at ha
  obtain ⟨ha1, _, ha3, ha4, _⟩ := ha
  have hmn : (saveAppend crc s (getLocalIndex x y z) (byteLen d + 24) 32768 d changed ts).2.m_node
      = none := by
    simp only [saveAppend]
    exact hn
  have hbuf : (saveAppend crc s (getLocalIndex x y z) (byteLen d + 24) 32768 d changed
      ts).2.m_buffer = overlay s.m_buffer
        (composeRecord crc (getLocalIndex x y z) d ts (32768 : Int).toNat) := by
    simp only [saveAppend]
  have hcap : ((saveAppend crc s (getLocalIndex x y z) (byteLen d + 24) 32768 d changed
      ts).2.node (getLocalIndex x y z)).capacity = -32768 := by
    rw [ha3]
    simp only [toInt16]
    decide
  have hlen : ((saveAppend crc s (getLocalIndex x y z) (byteLen d + 24) 32768 d changed
      ts).2.node (getLocalIndex x y z)).len = byteLen d + 24 := by
    rw [ha4]
    simp only [toInt16]
    omega
  refine ⟨(saveAppend crc s (getLocalIndex x y z) (byteLen d + 24) 32768 d changed ts).2,
    ?_, hcap, ?_⟩
  · unfold saveBlock
    simp only [saveLen_eq d (by omega)]
    rw [if_neg (by omega), hR, if_neg (by simp only [MAX_DATA_LENGTH]; omega),
      if_neg (by omega), hsw, if_pos ha1, cacheBlock_no_cache _ _ _ _ _ hmn]
  · intro f
    have hdl : d.length + 24 ≤ (32768 : Int).toNat := by
      have := byteLen_eq d
      have h2 : (32768 : Int).toNat = 32768 := rfl
      omega
    have hce := (composeRecord_eq crc (getLocalIndex x y z) d ts (32768 : Int).toNat hdl).1
    have hco := crcOf_range crc d
    refine loadBlock_negative_capacity crc _ x y z (crcOf crc d) (hdrRest ts) d hidx hmn hcap
      hlen (by omega) ?_ (by simp [hdrRest, le64, le32]) hco rfl
    show BufHas (saveAppend crc s (getLocalIndex x y z) (byteLen d + 24) 32768 d changed
      ts).2.m_buffer 0 _
    rw [hbuf]
    apply BufHas_overlay
    rw [hce]
    exact List.prefix_append _ _

theorem byteLen_bigPayload : byteLen bigPayload = 32000 := by
  rw [byteLen_eq, bigPayload, List.length_replicate]
  rfl

/-- C4 (failing input): on a fresh `CM_APPEND` partition `saveBlock(1, 0, 0, d, true)`
with a payload of 32000 bytes succeeds and leaves `capacity = -32768` in the slot
(32768 does not fit the 16-bit field). The following `loadBlock(1, 0, 0)` asks
`File::Read` for a negative size, which fails with `-1` whatever the data file holds;
`ProcessReadBuffer` then accepts the record still lying in `m_buffer` and continues
at offset `-32768` of the buffer, so the call never answers `"ERROR"`, however the
bytes on disk were altered. -/
theorem loadBlock_after_32000_byte_save :
    ∃ s1, saveBlock demoCrc freshAppend 1 0 0 bigPayload true 0 = some (true, s1) ∧
      (s1.node (getLocalIndex 1 0 0)).capacity = -32768 ∧
      (∀ f, fileRead f (s1.node (getLocalIndex 1 0 0)).getPos
        (ROUND (s1.node (getLocalIndex 1 0 0)).capacity (4096 * 2)) = (-1, [])) ∧
      (∀ f, loadBlock demoCrc { s1 with m_datafile := f } 1 0 0 = none) ∧
      ∀ f t, loadBlock demoCrc { s1 with m_datafile := f } 1 0 0 ≠ some (ERROR, false, t) := by
  have hb := byteLen_bigPayload
  obtain ⟨s1, h1, h2, h3⟩ := saveBlock_capacity_wraps demoCrc freshAppend 1 0 0 bigPayload
    true 0 (by decide!) rfl rfl (by decide) (by decide) (by rw [hb]; decide)
  refine ⟨s1, h1, h2, ?_, h3, ?_⟩
  · intro f
    rw [h2]
    have hR : ROUND (-32768) (4096 * 2) = -24576 := by
      simp only [ROUND, cdiv, toInt32]
      decide
    rw [hR]
    unfold fileRead
    rw [if_pos (by decide)]
  · intro f t h
    rw [h3 f] at h
    cases h

/-! ## Global ids and partition routing -/

theorem getGlobalIndex_eq (x y z : Int) (hx : isInt16 x) (hy : isInt16 y) (hz : isInt16 z)
    (ha : getLocalIndex x y z ≠ -1) :
    getGlobalIndex (x % 10) (getLocalIndex x y z) = getBlockAsInteger x y z := by
  obtain ⟨h1, h2, h3, h4, h5, h6, h7⟩ := getLocalIndex_accepted x y z hx hy hz ha
  unfold isInt16 at *
  have hA : getLocalIndex x y z / 1024 = x / 10 + (y + 14) * 64 := by omega
  have hB : getLocalIndex x y z / 1024 % 64 = x / 10 := by omega
  have hC : getLocalIndex x y z / 1024 / 64 = y + 14 := by omega
  have hD : getLocalIndex x y z % 1024 = z := by omega
  have e1 : toInt16 (toInt32 (toInt16 (getLocalIndex x y z / 1024 % 64) * MYSQL_BLOCK_TABLE_NUM
      + x % 10)) = x := by
    rw [hB]
    simp only [toInt16, toInt32, MYSQL_BLOCK_TABLE_NUM]
    omega
  have e2 : toInt16 (toInt16 (getLocalIndex x y z / 1024 / 64) - 14) = y := by
    rw [hC]
    simp only [toInt16]
    omega
  have e3 : toInt16 (getLocalIndex x y z % 1024) = z := by
    rw [hD]
    simp only [toInt16]
    omega
  simp only [getGlobalIndex]
  rw [e1, e2, e3]

theorem getTableIndex_eq (x : Int) :
    getTableIndex x = |x| % 10 ∧ 0 ≤ getTableIndex x ∧ getTableIndex x < 10 := by
  have habs : |x| = if 0 ≤ x then x else -x := by
    split_ifs with h
    · exact abs_of_nonneg h
    · exact abs_of_neg (by omega)
  rw [habs]
  simp only [getTableIndex, MYSQL_BLOCK_TABLE_NUM, toInt32, cmod]
  split_ifs <;> omega

/-- C11: for every `int16_t` coordinate `(x, y, z)` accepted by `getLocalIndex`, in
the partition with `m_index = x mod 10` the global id of the slot is
`getBlockAsInteger(x, y, z)`; decoding that id with `getIntegerAsBlock` gives back
`(x, y, z)`, which is routed by `getTableIndex` to the partition `x mod 10` and by
`getLocalIndex` to the same slot. -/
theorem getGlobalIndex_getLocalIndex (x y z : Int) (hx : isInt16 x) (hy : isInt16 y)
    (hz : isInt16 z) (ha : getLocalIndex x y z ≠ -1) :
    getGlobalIndex (x % 10) (getLocalIndex x y z) = getBlockAsInteger x y z ∧
    getIntegerAsBlock (getGlobalIndex (x % 10) (getLocalIndex x y z)) = (x, y, z) ∧
    getTableIndex (getIntegerAsBlock (getGlobalIndex (x % 10) (getLocalIndex x y z))).1
      = x % 10 ∧
    getLocalIndex (getIntegerAsBlock (getGlobalIndex (x % 10) (getLocalIndex x y z))).1
      (getIntegerAsBlock (getGlobalIndex (x % 10) (getLocalIndex x y z))).2.1
      (getIntegerAsBlock (getGlobalIndex (x % 10) (getLocalIndex x y z))).2.2
      = getLocalIndex x y z := by
  have hg := getGlobalIndex_eq x y z hx hy hz ha
  obtain ⟨h1, h2, h3, h4, h5, h6, -⟩ := getLocalIndex_accepted x y z hx hy hz ha
  have hd : getIntegerAsBlock (getGlobalIndex (x % 10) (getLocalIndex x y z)) = (x, y, z) := by
    rw [hg, getBlockAsInteger_eq x y z hx hy hz]
    exact getIntegerAsBlock_sum x y z (by omega) (by omega) (by omega)
  refine ⟨hg, hd, ?_, ?_⟩
  · rw [hd, (getTableIndex_eq x).1, abs_of_nonneg h1]
  · rw [hd]

/-- Witness for C11 at the coordinate `(25, -3, 7)`, partition 5. -/
theorem getGlobalIndex_getLocalIndex_witness :
    getGlobalIndex (25 % 10) (getLocalIndex 25 (-3) 7) = getBlockAsInteger 25 (-3) 7 ∧
    getIntegerAsBlock (getGlobalIndex (25 % 10) (getLocalIndex 25 (-3) 7)) = (25, -3, 7) ∧
    getTableIndex (getIntegerAsBlock (getGlobalIndex (25 % 10) (getLocalIndex 25 (-3) 7))).1
      = 25 % 10 ∧
    getLocalIndex (getIntegerAsBlock (getGlobalIndex (25 % 10) (getLocalIndex 25 (-3) 7))).1
      (getIntegerAsBlock (getGlobalIndex (25 % 10) (getLocalIndex 25 (-3) 7))).2.1
      (getIntegerAsBlock (getGlobalIndex (25 % 10) (getLocalIndex 25 (-3) 7))).2.2
      = getLocalIndex 25 (-3) 7 :=
  getGlobalIndex_getLocalIndex 25 (-3) 7 (by unfold isInt16; decide) (by unfold isInt16; decide)
    (by unfold isInt16; decide) (by decide!)

/-- C12: for every integer `x` (in particular every `int16_t`, positive, zero or
negative) `Database_Myfile::getTableIndex(x)` equals `|x| mod 10` and lies in
`[0, 10)`, the index range of the partition array `m_stmt`. -/
theorem getTableIndex_spec (x : Int) :
    getTableIndex x = |x| % MYSQL_BLOCK_TABLE_NUM ∧
    0 ≤ getTableIndex x ∧ getTableIndex x < MYSQL_BLOCK_TABLE_NUM :=
  getTableIndex_eq x

/-! ## Rejected calls -/

/-- C13: for every coordinate whose `getLocalIndex` lies outside `[0, MAX_NODE)`,
`saveBlock` returns true, `deleteBlock` returns true and `loadBlock` returns the empty
string with `bCacheHit = true`; each of the three leaves the whole partition state
(slot table, `header.count`, data file, cache and FIFOs included) as it was. -/
theorem out_of_range_is_noop (crc : List Int → Int) (s : MyfilePartition) (x y z : Int)
    (d : List Int) (changed : Bool) (ts : Int)
    (h : getLocalIndex x y z < 0 ∨ getLocalIndex x y z ≥ MAX_NODE) :
    saveBlock crc s x y z d changed ts = some (true, s) ∧
    deleteBlock s x y z = (true, s) ∧
    loadBlock crc s x y z = some ([], true, s) := by
  refine ⟨?_, ?_, ?_⟩
  · unfold saveBlock
    rw [if_pos h]
  · unfold deleteBlock
    rw [if_pos h]
  · unfold loadBlock
    rw [if_pos h]

/-- Witness for C13: the coordinate `(630, 8, 1023)` (slot index 1507327) on the
state after scenario S2. -/
theorem out_of_range_is_noop_witness :
    (getLocalIndex 630 8 1023 < 0 ∨ getLocalIndex 630 8 1023 ≥ MAX_NODE) ∧
    saveBlock demoCrc afterS2 630 8 1023 helloBytes true 0 = some (true, afterS2) ∧
    deleteBlock afterS2 630 8 1023 = (true, afterS2) ∧
    loadBlock demoCrc afterS2 630 8 1023 = some ([], true, afterS2) :=
  ⟨by decide!, out_of_range_is_noop demoCrc afterS2 630 8 1023 helloBytes true 0 (by decide!)⟩

theorem saveLen_int (d : List Int) (h : byteLen d + 24 ≤ 2147482624) :
    toInt32 (toUInt64 (byteLen d + sizeofNodeHeader)) = byteLen d + 24 ∧
    ROUND (byteLen d + 24) 1024 = (byteLen d + 24 + 1023) / 1024 * 1024 := by
  have := byteLen_nonneg d
  simp only [ROUND, toInt32, toUInt64, sizeofNodeHeader, cdiv]
  constructor
  · omega
  · split_ifs <;> omega

theorem saveWrite_effect (crc : List Int → Int) (s : MyfilePartition) (idx len cap : Int)
    (d : List Int) (changed : Bool) (ts : Int) :
    ((saveWrite crc s idx len cap d changed ts).2.node idx).len = toInt16 len ∧
    (saveWrite crc s idx len cap d changed ts).2.m_buffer
      = overlay s.m_buffer (composeRecord crc idx d ts cap.toNat) ∧
    ((saveWrite crc s idx len cap d changed ts).2.m_datafile
        = (fileWrite s.m_datafile (savedNode s idx len changed).getPos
            ((composeRecord crc idx d ts cap.toNat).take len.toNat)).2 ∨
      (saveWrite crc s idx len cap d changed ts).2.m_datafile
        = (fileWrite s.m_datafile (appendedNode s idx len cap changed).getPos
            (composeRecord crc idx d ts cap.toNat)).2) := by
  rcases saveWrite_cases crc s idx len cap d changed ts with h | h
  · rw [h]
    refine ⟨?_, ?_, Or.inl ?_⟩ <;> simp only [saveInPlace, setAt, if_true, savedNode]
  · rw [h]
    refine ⟨?_, ?_, Or.inr ?_⟩ <;>
      simp only [saveAppend, setAt, if_true, appendedNode, savedNode, KeyNode.setPos]

/-- The size test of `saveBlock`: for an in-range coordinate and a payload `d` whose
record length fits an `int` with room for the rounding (`|d| + 24 ≤ 2^31 - 1024`),
`saveBlock` rejects `d`
(returns true, state unchanged) when `|d| + 24` rounded up to a multiple of 1024 is
at least 65535; below that limit it takes the write path: the record is composed in
`m_buffer`, the slot's `len` becomes `|d| + 24` (as `int16_t`), `File::Write` is
called with the record in place or at the end of the data file, and the call returns
the outcome of that write (after `cacheBlock` when the write succeeded). -/
theorem saveBlock_size_limit (crc : List Int → Int) (s : MyfilePartition) (x y z : Int)
    (d : List Int) (changed : Bool) (ts : Int)
    (hidx : 0 ≤ getLocalIndex x y z ∧ getLocalIndex x y z < MAX_NODE)
    (hlen : byteLen d + 24 ≤ 2147482624) :
    (65535 ≤ (byteLen d + 24 + 1023) / 1024 * 1024 →
      saveBlock crc s x y z d changed ts = some (true, s)) ∧
    ((byteLen d + 24 + 1023) / 1024 * 1024 < 65535 →
      saveBlock crc s x y z d changed ts =
        (if (saveWrite crc s (getLocalIndex x y z) (byteLen d + 24)
            ((byteLen d + 24 + 1023) / 1024 * 1024) d changed ts).1 = true then
          match cacheBlock (saveWrite crc s (getLocalIndex x y z) (byteLen d + 24)
            ((byteLen d + 24 + 1023) / 1024 * 1024) d changed ts).2
            (getLocalIndex x y z) d true false with
          | none => none
          | some r => some (true, r.2)
        else some (false, (saveWrite crc s (getLocalIndex x y z) (byteLen d + 24)
            ((byteLen d + 24 + 1023) / 1024 * 1024) d changed ts).2)) ∧
      ((saveWrite crc s (getLocalIndex x y z) (byteLen d + 24)
          ((byteLen d + 24 + 1023) / 1024 * 1024) d changed ts).2.node
            (getLocalIndex x y z)).len = toInt16 (byteLen d + 24) ∧
      (saveWrite crc s (getLocalIndex x y z) (byteLen d + 24)
          ((byteLen d + 24 + 1023) / 1024 * 1024) d changed ts).2.m_buffer
        = overlay s.m_buffer (composeRecord crc (getLocalIndex x y z) d ts
            ((byteLen d + 24 + 1023) / 1024 * 1024).toNat) ∧
      ((saveWrite crc s (getLocalIndex x y z) (byteLen d + 24)
          ((byteLen d + 24 + 1023) / 1024 * 1024) d changed ts).2.m_datafile
        = (fileWrite s.m_datafile
            (savedNode s (getLocalIndex x y z) (byteLen d + 24) changed).getPos
            ((composeRecord crc (getLocalIndex x y z) d ts
              ((byteLen d + 24 + 1023) / 1024 * 1024).toNat).take
                (byteLen d + 24).toNat)).2 ∨
       (saveWrite crc s (getLocalIndex x y z) (byteLen d + 24)
          ((byteLen d + 24 + 1023) / 1024 * 1024) d changed ts).2.m_datafile
        = (fileWrite s.m_datafile
            (appendedNode s (getLocalIndex x y z) (byteLen d + 24)
              ((byteLen d + 24 + 1023) / 1024 * 1024) changed).getPos
            (composeRecord crc (getLocalIndex x y z) d ts
              ((byteLen d + 24 + 1023) / 1024 * 1024).toNat)).2)) := by
  have hnn := byteLen_nonneg d
  obtain ⟨hL, hR⟩ := saveLen_int d hlen
  constructor
  · intro hbig
    unfold saveBlock
    simp only [hL]
    rw [if_neg (by omega), hR, if_pos (by simp only [MAX_DATA_LENGTH]; omega)]
  · intro hsmall
    refine ⟨?_, saveWrite_effect crc s _ _ _ d changed ts⟩
    unfold saveBlock
    simp only [hL]
    rw [if_neg (by omega), hR, if_neg (by simp only [MAX_DATA_LENGTH]; omega),
      if_neg (by omega)]
    all_goals (split_ifs <;> rfl)

/-- The size test at "hello" on the fresh partition, which is below the limit. -/
theorem saveBlock_size_limit_witness :
    (0 ≤ getLocalIndex 1 0 0 ∧ getLocalIndex 1 0 0 < MAX_NODE) ∧
    byteLen helloBytes + 24 ≤ 2147482624 ∧
    (byteLen helloBytes + 24 + 1023) / 1024 * 1024 < 65535 ∧
    saveBlock demoCrc freshCache 1 0 0 helloBytes true 0 =
      (if (saveWrite demoCrc freshCache (getLocalIndex 1 0 0) (byteLen helloBytes + 24)
          ((byteLen helloBytes + 24 + 1023) / 1024 * 1024) helloBytes true 0).1 = true then
        match cacheBlock (saveWrite demoCrc freshCache (getLocalIndex 1 0 0)
          (byteLen helloBytes + 24) ((byteLen helloBytes + 24 + 1023) / 1024 * 1024)
          helloBytes true 0).2 (getLocalIndex 1 0 0) helloBytes true false with
        | none => none
        | some r => some (true, r.2)
      else some (false, (saveWrite demoCrc freshCache (getLocalIndex 1 0 0)
          (byteLen helloBytes + 24) ((byteLen helloBytes + 24 + 1023) / 1024 * 1024)
          helloBytes true 0).2)) :=
  ⟨by decide!, by decide!, by decide!,
    ((saveBlock_size_limit demoCrc freshCache 1 0 0 helloBytes true 0 (by decide!)
      (by decide!)).2 (by decide!)).1⟩

/-! ## The outcomes of `saveBlock` -/

theorem MAX_NODE_eq : MAX_NODE = 1490944 := by decide

theorem saveBlock_cases (crc : List Int → Int) (s : MyfilePartition) (x y z : Int)
    (d : List Int) (changed : Bool) (ts : Int) (r : Bool × MyfilePartition)
    (h : saveBlock crc s x y z d changed ts = some r) :
    r = (true, s) ∨
    ((0 ≤ getLocalIndex x y z ∧ getLocalIndex x y z < MAX_NODE) ∧
      (0 ≤ ROUND (toInt32 (toUInt64 (byteLen d + sizeofNodeHeader))) 1024 ∧
        ROUND (toInt32 (toUInt64 (byteLen d + sizeofNodeHeader))) 1024 < 65535) ∧
      (((saveWrite crc s (getLocalIndex x y z)
            (toInt32 (toUInt64 (byteLen d + sizeofNodeHeader)))
            (ROUND (toInt32 (toUInt64 (byteLen d + sizeofNodeHeader))) 1024) d changed ts).1
          = false ∧
        r = (false, (saveWrite crc s (getLocalIndex x y z)
            (toInt32 (toUInt64 (byteLen d + sizeofNodeHeader)))
            (ROUND (toInt32 (toUInt64 (byteLen d + sizeofNodeHeader))) 1024) d changed ts).2)) ∨
       ((saveWrite crc s (getLocalIndex x y z)
            (toInt32 (toUInt64 (byteLen d + sizeofNodeHeader)))
            (ROUND (toInt32 (toUInt64 (byteLen d + sizeofNodeHeader))) 1024) d changed ts).1
          = true ∧
        ∃ q, cacheBlock (saveWrite crc s (getLocalIndex x y z)
            (toInt32 (toUInt64 (byteLen d + sizeofNodeHeader)))
            (ROUND (toInt32 (toUInt64 (byteLen d + sizeofNodeHeader))) 1024) d changed ts).2
            (getLocalIndex x y z) d true false = some q ∧ r = (true, q.2)))) := by
  unfold saveBlock at h
  by_cases h1 : getLocalIndex x y z < 0 ∨ getLocalIndex x y z ≥ MAX_NODE
  · rw [if_pos h1] at h
    simp only [Option.some.injEq] at h
    exact Or.inl h.symm
  · rw [if_neg h1] at h
    simp only at h
    by_cases h2 : ROUND (toInt32 (toUInt64 (byteLen d + sizeofNodeHeader))) 1024
        ≥ MAX_DATA_LENGTH
    · rw [if_pos h2] at h
      simp only [Option.some.injEq] at h
      exact Or.inl h.symm
    · rw [if_neg h2] at h
      by_cases h3 : ROUND (toInt32 (toUInt64 (byteLen d + sizeofNodeHeader))) 1024 < 0
      · rw [if_pos h3] at h
        exact absurd h (by simp)
      · rw [if_neg h3] at h
        right
        refine ⟨by omega, ⟨by omega, by simp only [MAX_DATA_LENGTH] at h2; omega⟩, ?_⟩
        by_cases hw : (saveWrite crc s (getLocalIndex x y z)
            (toInt32 (toUInt64 (byteLen d + sizeofNodeHeader)))
            (ROUND (toInt32 (toUInt64 (byteLen d + sizeofNodeHeader))) 1024) d changed
            ts).1 = true
        · rw [if_pos hw] at h
          right
          refine ⟨hw, ?_⟩
          cases hcb : cacheBlock (saveWrite crc s (getLocalIndex x y z)
            (toInt32 (toUInt64 (byteLen d + sizeofNodeHeader)))
            (ROUND (toInt32 (toUInt64 (byteLen d + sizeofNodeHeader))) 1024) d changed
            ts).2 (getLocalIndex x y z) d true false with
          | none => simp [hcb] at h
          | some q =>
            simp only [hcb, Option.some.injEq] at h
            exact ⟨q, rfl, h.symm⟩
        · rw [if_neg hw] at h
          simp only [Option.some.injEq] at h
          left
          exact ⟨by simpa using hw, h.symm⟩

theorem saveBlock_files (crc : List Int → Int) (s : MyfilePartition) (x y z : Int)
    (d : List Int) (changed : Bool) (ts : Int) (r : Bool × MyfilePartition)
    (h : saveBlock crc s x y z d changed ts = some r) :
    r = (true, s) ∨
    ((0 ≤ getLocalIndex x y z ∧ getLocalIndex x y z < MAX_NODE) ∧
      (0 ≤ ROUND (toInt32 (toUInt64 (byteLen d + sizeofNodeHeader))) 1024 ∧
        ROUND (toInt32 (toUInt64 (byteLen d + sizeofNodeHeader))) 1024 < 65535) ∧
      r.1 = (saveWrite crc s (getLocalIndex x y z)
            (toInt32 (toUInt64 (byteLen d + sizeofNodeHeader)))
            (ROUND (toInt32 (toUInt64 (byteLen d + sizeofNodeHeader))) 1024) d changed ts).1 ∧
      SameFiles (saveWrite crc s (getLocalIndex x y z)
            (toInt32 (toUInt64 (byteLen d + sizeofNodeHeader)))
            (ROUND (toInt32 (toUInt64 (byteLen d + sizeofNodeHeader))) 1024) d changed ts).2
        r.2) := by
  rcases saveBlock_cases crc s x y z d changed ts r h with h0 | ⟨h1, h2, h3 | h3⟩
  · exact Or.inl h0
  · right
    obtain ⟨hw, hr⟩ := h3
    refine ⟨h1, h2, ?_, ?_⟩
    · rw [hr, hw]
    · rw [hr]
      exact SameFiles.refl _
  · right
    obtain ⟨hw, q, hq, hr⟩ := h3
    refine ⟨h1, h2, ?_, ?_⟩
    · rw [hr, hw]
    · rw [hr]
      exact cacheBlock_sameFiles _ _ _ _ _ _ hq

/-! ## The count of occupied slots -/

theorem filter_range_agree (p q : Nat → Bool) (n : Nat) (h : ∀ j, j < n → p j = q j) :
    ((List.range n).filter p).length = ((List.range n).filter q).length := by
  congr 1
  apply List.filter_congr
  intro j hj
  exact h j (List.mem_range.mp hj)

theorem filter_range_update (p q : Nat → Bool) (i : Nat) (a b : Bool) (ha : p i = a)
    (hb : q i = b) (h : ∀ j, j ≠ i → p j = q j) :
    ∀ n, i < n →
      ((List.range n).filter q).length + a.toNat
        = ((List.range n).filter p).length + b.toNat := by
  intro n
  induction n with
  | zero => intro hi; omega
  | succ n ih =>
    intro hi
    rw [List.range_succ, List.filter_append, List.filter_append, List.length_append,
      List.length_append]
    by_cases hin : i = n
    · subst hin
      have := filter_range_agree p q i (fun j hj => h j (by omega))
      rw [this]
      simp only [List.filter_cons, List.filter_nil, ha, hb]
      cases a <;> cases b <;> simp
    · have := ih (by omega)
      have hn : p n = q n := h n (fun e => hin e.symm)
      simp only [List.filter_cons, List.filter_nil, hn]
      omega

theorem filter_range_le (p : Nat → Bool) (n : Nat) :
    ((List.range n).filter p).length ≤ n := by
  have := List.length_filter_le p (List.range n)
  rwa [List.length_range] at this

theorem liveSlots_le (s : MyfilePartition) : (liveSlots s : Int) ≤ MAX_NODE := by
  have hN : MAX_NODE.toNat = 1490944 := by rw [MAX_NODE_eq]; rfl
  have l1 : liveSlots s ≤ MAX_NODE.toNat := filter_range_le _ _
  rw [MAX_NODE_eq]
  omega

theorem liveSlots_update (s t : MyfilePartition) (idx : Int)
    (hidx : 0 ≤ idx ∧ idx < MAX_NODE) (h : ∀ j, j ≠ idx → t.node j = s.node j) :
    (liveSlots t : Int) + (if (s.node idx).len ≠ 0 then 1 else 0)
      = (liveSlots s : Int) + (if (t.node idx).len ≠ 0 then 1 else 0) := by
  have hN : MAX_NODE.toNat = 1490944 := by rw [MAX_NODE_eq]; rfl
  have hM := MAX_NODE_eq
  have hi : (Int.ofNat idx.toNat) = idx := Int.toNat_of_nonneg hidx.1
  have key : liveSlots t + (decide ((s.node idx).len ≠ 0)).toNat
      = liveSlots s + (decide ((t.node idx).len ≠ 0)).toNat :=
    filter_range_update
      (fun j => decide ((s.node (Int.ofNat j)).len ≠ 0))
      (fun j => decide ((t.node (Int.ofNat j)).len ≠ 0)) idx.toNat _ _
      (by simp only [hi]) (by simp only [hi])
      (fun j hj => by
        have : Int.ofNat j ≠ idx := by
          intro e
          apply hj
          rw [← e]
          rfl
        simp only [h _ this])
      MAX_NODE.toNat (by omega)
  by_cases a : (s.node idx).len ≠ 0 <;> by_cases b : (t.node idx).len ≠ 0
  · rw [if_pos a, if_pos b]
    rw [decide_eq_true a, decide_eq_true b] at key
    simp only [Bool.toNat_true] at key
    omega
  · rw [if_pos a, if_neg b]
    rw [decide_eq_true a, decide_eq_false b] at key
    simp only [Bool.toNat_true, Bool.toNat_false] at key
    omega
  · rw [if_neg a, if_pos b]
    rw [decide_eq_false a, decide_eq_true b] at key
    simp only [Bool.toNat_true, Bool.toNat_false] at key
    omega
  · rw [if_neg a, if_neg b]
    rw [decide_eq_false a, decide_eq_false b] at key
    simp only [Bool.toNat_false] at key
    omega

theorem saveWrite_header (crc : List Int → Int) (s : MyfilePartition) (idx len cap : Int)
    (d : List Int) (changed : Bool) (ts : Int) :
    (saveWrite crc s idx len cap d changed ts).2.count = savedCount s idx len ∧
    (∀ j, j ≠ idx → (saveWrite crc s idx len cap d changed ts).2.node j = s.node j) ∧
    ((saveWrite crc s idx len cap d changed ts).2.node idx).len = toInt16 len := by
  rcases saveWrite_cases crc s idx len cap d changed ts with h | h <;> rw [h]
  · refine ⟨?_, ?_, ?_⟩
    · simp only [saveInPlace]
    · intro j hj
      simp only [saveInPlace, setAt]
      rw [if_neg hj]
    · simp only [saveInPlace, setAt, if_true, savedNode]
  · refine ⟨?_, ?_, ?_⟩
    · simp only [saveAppend]
    · intro j hj
      simp only [saveAppend, setAt]
      rw [if_neg hj]
    · simp only [saveAppend, setAt, if_true, appendedNode, savedNode, KeyNode.setPos]

theorem accepted_len_ne_zero (d : List Int) (hfit : byteLen d + 24 < 4294967296)
    (hC : 0 ≤ ROUND (toInt32 (toUInt64 (byteLen d + sizeofNodeHeader))) 1024 ∧
      ROUND (toInt32 (toUInt64 (byteLen d + sizeofNodeHeader))) 1024 < 65535) :
    toInt32 (toUInt64 (byteLen d + sizeofNodeHeader)) ≠ 0 ∧
    toInt16 (toInt32 (toUInt64 (byteLen d + sizeofNodeHeader))) ≠ 0 := by
  have hnn := byteLen_nonneg d
  have e1 : toUInt64 (byteLen d + sizeofNodeHeader) = byteLen d + 24 := by
    simp only [toUInt64, sizeofNodeHeader]
    omega
  rw [e1] at hC ⊢
  by_cases hA : byteLen d + 24 < 2147483648
  · have e2 : toInt32 (byteLen d + 24) = byteLen d + 24 := by
      simp only [toInt32]
      omega
    rw [e2] at hC ⊢
    have hq : byteLen d + 24 ≤ 64512 := by
      simp only [ROUND, cdiv] at hC
      rw [if_pos (by omega)] at hC
      by_cases hB : (byteLen d + 24 + 1024 - 1) / 1024 * 1024 < 2147483648
      · have e3 : toInt32 ((byteLen d + 24 + 1024 - 1) / 1024 * 1024)
            = (byteLen d + 24 + 1024 - 1) / 1024 * 1024 := by
          simp only [toInt32]
          omega
        rw [e3] at hC
        omega
      · have e3 : toInt32 ((byteLen d + 24 + 1024 - 1) / 1024 * 1024) < 0 := by
          simp only [toInt32]
          omega
        omega
    refine ⟨by omega, ?_⟩
    simp only [toInt16]
    omega
  · have e2 : toInt32 (byteLen d + 24) = byteLen d + 24 - 4294967296 := by
      simp only [toInt32]
      omega
    rw [e2] at hC ⊢
    refine ⟨by omega, ?_⟩
    have hm : -2046 ≤ byteLen d + 24 - 4294967296 := by
      by_contra hcon
      have e3 : ROUND (byteLen d + 24 - 4294967296) 1024 < 0 := by
        simp only [ROUND, cdiv]
        rw [if_neg (by omega)]
        simp only [toInt32]
        omega
      omega
    simp only [toInt16]
    omega

theorem saveBlock_count (crc : List Int → Int) (s : MyfilePartition) (x y z : Int)
    (d : List Int) (changed : Bool) (ts : Int) (r : Bool × MyfilePartition)
    (hfit : byteLen d + 24 < 2147483648)
    (h : saveBlock crc s x y z d changed ts = some r)
    (hinv : s.count = (liveSlots s : Int)) : r.2.count = (liveSlots r.2 : Int) := by
  rcases saveBlock_files crc s x y z d changed ts r h with h0 | ⟨h1, h2, -, hsf⟩
  · rw [h0]
    exact hinv
  · obtain ⟨hL, hne⟩ := accepted_len_ne_zero d (by omega) h2
    obtain ⟨hc, hn, hl⟩ := saveWrite_header crc s (getLocalIndex x y z)
      (toInt32 (toUInt64 (byteLen d + sizeofNodeHeader)))
      (ROUND (toInt32 (toUInt64 (byteLen d + sizeofNodeHeader))) 1024) d changed ts
    have hnode : ∀ j, j ≠ getLocalIndex x y z → r.2.node j = s.node j := by
      intro j hj
      rw [hsf.1]
      exact hn j hj
    have hlen : (r.2.node (getLocalIndex x y z)).len ≠ 0 := by
      rw [hsf.1, hl]
      exact hne
    have hcount : r.2.count = savedCount s (getLocalIndex x y z)
        (toInt32 (toUInt64 (byteLen d + sizeofNodeHeader))) := by
      rw [hsf.2.2.1]
      exact hc
    have hu := liveSlots_update s r.2 (getLocalIndex x y z) h1 hnode
    have hb := liveSlots_le r.2
    have hM := MAX_NODE_eq
    have hnn := byteLen_nonneg d
    rw [if_pos hlen] at hu
    rw [hcount]
    unfold savedCount
    by_cases he : (s.node (getLocalIndex x y z)).len = 0
    · rw [if_neg (by omega)] at hu
      rw [if_pos ⟨he, hL⟩]
      simp only [toInt32]
      omega
    · rw [if_pos he] at hu
      rw [if_neg (fun hh => he hh.1)]
      omega

theorem liveSlots_congr (s t : MyfilePartition) (h : t.node = s.node) :
    liveSlots t = liveSlots s := by
  unfold liveSlots
  rw [h]

theorem deleteBlock_count (s : MyfilePartition) (x y z : Int)
    (hinv : s.count = (liveSlots s : Int)) :
    (deleteBlock s x y z).2.count = (liveSlots (deleteBlock s x y z).2 : Int) := by
  by_cases h : getLocalIndex x y z < 0 ∨ getLocalIndex x y z ≥ MAX_NODE
  · unfold deleteBlock
    rw [if_pos h]
    exact hinv
  · have hnode : (deleteBlock s x y z).2.node = setAt s.node (getLocalIndex x y z)
        { s.node (getLocalIndex x y z) with len := 0 } := by
      unfold deleteBlock
      rw [if_neg h]
    have hcount : (deleteBlock s x y z).2.count =
        if (s.node (getLocalIndex x y z)).len ≠ 0 then toInt32 (s.count - 1) else s.count := by
      unfold deleteBlock
      rw [if_neg h]
    have hu := liveSlots_update s (deleteBlock s x y z).2 (getLocalIndex x y z) (by omega)
      (fun j hj => by rw [hnode]; simp only [setAt]; rw [if_neg hj])
    have hz : ((deleteBlock s x y z).2.node (getLocalIndex x y z)).len = 0 := by
      rw [hnode]
      simp only [setAt, if_true]
    have hz2 : ¬ ((deleteBlock s x y z).2.node (getLocalIndex x y z)).len ≠ 0 :=
      fun hh => hh hz
    rw [if_neg hz2] at hu
    have hb := liveSlots_le s
    have hM := MAX_NODE_eq
    rw [hcount]
    by_cases he : (s.node (getLocalIndex x y z)).len ≠ 0
    · rw [if_pos he] at hu ⊢
      simp only [toInt32]
      omega
    · rw [if_neg he] at hu ⊢
      omega

theorem liveSlots_newPartition (i : Int) (mode : CacheMode) (fresh : Int → Int) :
    liveSlots (newPartition i mode fresh) = 0 := by
  unfold liveSlots
  rw [List.length_eq_zero, List.filter_eq_nil_iff]
  intro j _
  simp [newPartition]

theorem runOps_count (crc : List Int → Int) (ops : List Op) :
    ∀ (s t : MyfilePartition), (∀ op ∈ ops, op.payloadFits) →
      s.count = (liveSlots s : Int) → runOps crc ops s = some t →
      t.count = (liveSlots t : Int) := by
  induction ops with
  | nil =>
    intro s t _ hinv h
    simp only [runOps, Option.some.injEq] at h
    subst h
    exact hinv
  | cons op rest ih =>
    intro s t hfit hinv h
    simp only [runOps] at h
    cases ha : applyOp crc s op with
    | none => simp [ha] at h
    | some s1 =>
      simp only [ha] at h
      have hrest : ∀ o ∈ rest, o.payloadFits := fun o ho => hfit o (List.mem_cons_of_mem _ ho)
      have hop : op.payloadFits := hfit op (List.mem_cons_self _ _)
      refine ih s1 t hrest ?_ h
      cases op with
      | save x y z d changed ts =>
        simp only [applyOp] at ha
        cases hs : saveBlock crc s x y z d changed ts with
        | none => simp [hs] at ha
        | some r =>
          simp only [hs, Option.some.injEq] at ha
          subst ha
          exact saveBlock_count crc s x y z d changed ts r hop hs hinv
      | delete x y z =>
        simp only [applyOp, Option.some.injEq] at ha
        subst ha
        exact deleteBlock_count s x y z hinv

/-- C15: starting from the fresh (all-zero) header of a first `Init`, after any
sequence of `saveBlock` and `deleteBlock` calls (accepted or rejected, every record
length below `2^31`), `header.count` equals the number of slots whose `node.len` is
non-zero. -/
theorem count_eq_liveSlots (crc : List Int → Int) (i : Int) (mode : CacheMode)
    (fresh : Int → Int) (ops : List Op) (s : MyfilePartition)
    (hfit : ∀ op ∈ ops, op.payloadFits)
    (h : runOps crc ops (newPartition i mode fresh) = some s) :
    s.count = (liveSlots s : Int) :=
  runOps_count crc ops (newPartition i mode fresh) s hfit
    (by rw [liveSlots_newPartition]; rfl) h

/-- Witness for C15: scenario S2 followed by `delete(1,0,0)`. -/
theorem count_eq_liveSlots_witness :
    (∀ op ∈ [Op.save 1 0 0 helloBytes true 0, Op.delete 1 0 0], op.payloadFits) ∧
    runOps demoCrc [Op.save 1 0 0 helloBytes true 0, Op.delete 1 0 0] freshCache
      = some afterS2Delete ∧
    afterS2Delete.count = (liveSlots afterS2Delete : Int) :=
  have hfit : ∀ op ∈ [Op.save 1 0 0 helloBytes true 0, Op.delete 1 0 0], op.payloadFits := by
    intro op hop
    simp only [List.mem_cons, List.mem_singleton, List.not_mem_nil, or_false] at hop
    rcases hop with e | e <;> rw [e]
    · show byteLen helloBytes + 24 < 2147483648
      decide
    · trivial
  ⟨hfit, runOps_afterS2Delete,
    count_eq_liveSlots demoCrc 1 CacheMode.CM_CACHE (fun _ => 0) _ afterS2Delete hfit
      runOps_afterS2Delete⟩

/-! ## Extents of the data file -/

theorem accepted_len (d : List Int) (hfit : byteLen d + 24 < 2147483648)
    (hC : 0 ≤ ROUND (toInt32 (toUInt64 (byteLen d + sizeofNodeHeader))) 1024 ∧
      ROUND (toInt32 (toUInt64 (byteLen d + sizeofNodeHeader))) 1024 < 65535) :
    toInt32 (toUInt64 (byteLen d + sizeofNodeHeader)) = byteLen d + 24 ∧
    byteLen d + 24 ≤ 64512 ∧
    ROUND (byteLen d + 24) 1024 = (byteLen d + 24 + 1023) / 1024 * 1024 := by
  have hnn := byteLen_nonneg d
  have e1 : toInt32 (toUInt64 (byteLen d + sizeofNodeHeader)) = byteLen d + 24 := by
    simp only [toInt32, toUInt64, sizeofNodeHeader]
    omega
  rw [e1] at hC
  have hq : byteLen d + 24 ≤ 64512 := by
    simp only [ROUND, cdiv] at hC
    rw [if_pos (by omega)] at hC
    by_cases hB : (byteLen d + 24 + 1024 - 1) / 1024 * 1024 < 2147483648
    · have e3 : toInt32 ((byteLen d + 24 + 1024 - 1) / 1024 * 1024)
          = (byteLen d + 24 + 1024 - 1) / 1024 * 1024 := by
        simp only [toInt32]
        omega
      rw [e3] at hC
      omega
    · have e3 : toInt32 ((byteLen d + 24 + 1024 - 1) / 1024 * 1024) < 0 := by
        simp only [toInt32]
        omega
      omega
  exact ⟨e1, hq, (ROUND_1k _ (by omega)).2.2.2⟩

theorem saveWrite_inplace_file (crc : List Int → Int) (s : MyfilePartition) (idx len cap : Int)
    (d : List Int) (changed : Bool) (ts : Int)
    (h : (s.node idx).capacity ≥ cap ∧ s.m_cacheMode ≠ CacheMode.CM_APPEND)
    (hlen : 0 ≤ len ∧ len ≤ cap) (hd : byteLen d + 24 ≤ cap)
    (hext : 0 ≤ (s.node idx).getPos ∧
      (s.node idx).getPos + (s.node idx).capacity ≤ byteLen s.m_datafile) :
    byteLen (saveWrite crc s idx len cap d changed ts).2.m_datafile = byteLen s.m_datafile ∧
    (∀ j, ((saveWrite crc s idx len cap d changed ts).2.node j).capacity = (s.node j).capacity ∧
      ((saveWrite crc s idx len cap d changed ts).2.node j).getPos = (s.node j).getPos) := by
  have hnd := byteLen_nonneg d
  unfold saveWrite
  rw [if_pos h]
  have hg : (savedNode s idx len changed).getPos = (s.node idx).getPos := rfl
  constructor
  · simp only [saveInPlace, hg, fileWrite]
    rw [if_neg (by omega)]
    have hcl := (composeRecord_eq crc idx d ts cap.toNat (by
      have := byteLen_eq d
      omega)).2.1
    rw [byteLen_eq (pwrite _ _ _), pwrite_length, List.length_take, hcl, byteLen_eq s.m_datafile]
    have := byteLen_eq s.m_datafile
    omega
  · intro j
    simp only [saveInPlace, setAt]
    by_cases hj : j = idx
    · rw [if_pos hj, hj]
      exact ⟨rfl, rfl⟩
    · rw [if_neg hj]
      exact ⟨rfl, rfl⟩

theorem saveWrite_append_file (crc : List Int → Int) (s : MyfilePartition) (idx len cap : Int)
    (d : List Int) (changed : Bool) (ts : Int)
    (h : ¬ ((s.node idx).capacity ≥ cap ∧ s.m_cacheMode ≠ CacheMode.CM_APPEND))
    (hal : byteLen s.m_datafile % 1024 = 0)
    (hsz : byteLen s.m_datafile < 4294967296)
    (hcap : byteLen d + 24 ≤ cap)
    (hw : (saveWrite crc s idx len cap d changed ts).1 = true) :
    byteLen s.m_datafile < 2147483648 ∧
    byteLen (saveWrite crc s idx len cap d changed ts).2.m_datafile
      = byteLen s.m_datafile + cap ∧
    ((saveWrite crc s idx len cap d changed ts).2.node idx).getPos = byteLen s.m_datafile ∧
    ((saveWrite crc s idx len cap d changed ts).2.node idx).capacity = toInt16 cap ∧
    (∀ j, j ≠ idx → (saveWrite crc s idx len cap d changed ts).2.node j = s.node j) := by
  have hnd := byteLen_nonneg d
  have hnf := byteLen_nonneg s.m_datafile
  have hlt : byteLen s.m_datafile < 2147483648 := by
    by_contra hcon
    have hpos : (appendedNode s idx len cap changed).getPos < 0 := by
      simp only [appendedNode, KeyNode.setPos, KeyNode.getPos, toInt32, cdiv]
      rw [if_pos hnf]
      omega
    unfold saveWrite at hw
    rw [if_neg h] at hw
    simp only [saveAppend, fileWrite, decide_eq_true_eq] at hw
    rw [if_pos hpos] at hw
    simp only at hw
    omega
  obtain ⟨-, a2, a3, -, a5⟩ := saveWrite_append crc s idx len cap d changed ts h hal hlt hcap
  refine ⟨hlt, ?_, a2, a3, (saveWrite_header crc s idx len cap d changed ts).2.1⟩
  rw [a5]
  have hdl : d.length + 24 ≤ cap.toNat := by
    have := byteLen_eq d
    omega
  have hcl := (composeRecord_eq crc idx d ts cap.toNat hdl).2.1
  rw [byteLen_eq (_ ++ _), List.length_append, hcl, byteLen_eq s.m_datafile]
  push_cast
  omega

theorem saveBlock_extents (crc : List Int → Int) (s t : MyfilePartition) (x y z : Int)
    (d : List Int) (changed : Bool) (ts : Int)
    (hfit : byteLen d + 24 < 2147483648)
    (h : saveBlock crc s x y z d changed ts = some (true, t))
    (hinv : ExtentsAligned s) (hsz : byteLen s.m_datafile < 2147483648 + 65536) :
    ExtentsAligned t ∧ byteLen t.m_datafile < 2147483648 + 65536 := by
  rcases saveBlock_files crc s x y z d changed ts _ h with h0 | ⟨h1, h2, hw, hsf⟩
  · have : t = s := congrArg Prod.snd h0
    rw [this]
    exact ⟨hinv, hsz⟩
  · obtain ⟨hL, hle, hR⟩ := accepted_len d hfit h2
    have hnn := byteLen_nonneg d
    have hr := ROUND_1k (byteLen d + 24) (by omega)
    rw [hL] at hw hsf h2
    have hw1 : (saveWrite crc s (getLocalIndex x y z) (byteLen d + 24)
        (ROUND (byteLen d + 24) 1024) d changed ts).1 = true := hw.symm
    obtain ⟨hn, hf, -⟩ := hsf
    obtain ⟨hal, hext⟩ := hinv
    unfold ExtentsAligned
    rw [hn, hf]
    by_cases hb : (s.node (getLocalIndex x y z)).capacity ≥ ROUND (byteLen d + 24) 1024 ∧
        s.m_cacheMode ≠ CacheMode.CM_APPEND
    · have he := hext (getLocalIndex x y z) (by omega)
      obtain ⟨f1, f2⟩ := saveWrite_inplace_file crc s (getLocalIndex x y z) (byteLen d + 24)
        (ROUND (byteLen d + 24) 1024) d changed ts hb (by omega) (by omega) ⟨he.1, he.2.2⟩
      rw [f1]
      refine ⟨⟨hal, ?_⟩, hsz⟩
      intro j hj
      rw [(f2 j).1] at hj
      rw [(f2 j).1, (f2 j).2]
      exact hext j hj
    · obtain ⟨g1, g2, g3, g4, g5⟩ := saveWrite_append_file crc s (getLocalIndex x y z)
        (byteLen d + 24) (ROUND (byteLen d + 24) 1024) d changed ts hb hal (by omega)
        (by omega) hw1
      rw [g2]
      refine ⟨⟨by omega, ?_⟩, by omega⟩
      intro j hj
      by_cases hjx : j = getLocalIndex x y z
      · rw [hjx] at hj ⊢
        rw [g4] at hj ⊢
        rw [g3]
        have hnf := byteLen_nonneg s.m_datafile
        simp only [toInt16] at hj ⊢
        omega
      · rw [g5 j hjx] at hj ⊢
        have := hext j hj
        omega

theorem deleteBlock_extents (s : MyfilePartition) (x y z : Int) (hinv : ExtentsAligned s) :
    ExtentsAligned (deleteBlock s x y z).2 ∧
    (deleteBlock s x y z).2.m_datafile = s.m_datafile := by
  unfold deleteBlock
  by_cases h : getLocalIndex x y z < 0 ∨ getLocalIndex x y z ≥ MAX_NODE
  · rw [if_pos h]
    exact ⟨hinv, rfl⟩
  · rw [if_neg h]
    refine ⟨⟨hinv.1, ?_⟩, rfl⟩
    intro j
    simp only [setAt]
    by_cases hj : j = getLocalIndex x y z
    · rw [if_pos hj, ← hj]
      exact hinv.2 j
    · rw [if_neg hj]
      exact hinv.2 j

theorem runOpsOk_extents (crc : List Int → Int) (ops : List Op) :
    ∀ (s t : MyfilePartition), (∀ op ∈ ops, op.payloadFits) →
      ExtentsAligned s → byteLen s.m_datafile < 2147483648 + 65536 →
      runOpsOk crc ops s = some t →
      ExtentsAligned t ∧ byteLen t.m_datafile < 2147483648 + 65536 := by
  induction ops with
  | nil =>
    intro s t _ hinv hsz h
    simp only [runOpsOk, Option.some.injEq] at h
    subst h
    exact ⟨hinv, hsz⟩
  | cons op rest ih =>
    intro s t hfit hinv hsz h
    simp only [runOpsOk] at h
    cases ha : applyOpOk crc s op with
    | none => simp [ha] at h
    | some s1 =>
      simp only [ha] at h
      have hrest : ∀ o ∈ rest, o.payloadFits := fun o ho => hfit o (List.mem_cons_of_mem _ ho)
      have hop : op.payloadFits := hfit op (List.mem_cons_self _ _)
      have hstep : ExtentsAligned s1 ∧ byteLen s1.m_datafile < 2147483648 + 65536 := by
        cases op with
        | save x y z d changed ts =>
          simp only [applyOpOk] at ha
          cases hs : saveBlock crc s x y z d changed ts with
          | none => simp [hs] at ha
          | some r =>
            obtain ⟨b, u⟩ := r
            cases b with
            | false => simp [hs] at ha
            | true =>
              simp only [hs, Option.some.injEq] at ha
              subst ha
              exact saveBlock_extents crc s u x y z d changed ts hop hs hinv hsz
        | delete x y z =>
          simp only [applyOpOk, Option.some.injEq] at ha
          subst ha
          have hd := deleteBlock_extents s x y z hinv
          refine ⟨hd.1, ?_⟩
          rw [hd.2]
          exact hsz
      exact ih s1 t hrest hstep.1 hstep.2 h

/-- C17: starting from the empty data file and fresh header of a first `Init`, after
any sequence of `saveBlock` calls that returned true (and `deleteBlock` calls; every
record length below `2^31`) the data-file length is a multiple of 1024, and every
slot with `capacity > 0` has a byte offset `getPos()` that is non-negative, a multiple
of 1024, and satisfies `getPos() + capacity ≤` data-file length. -/
theorem extents_aligned (crc : List Int → Int) (i : Int) (mode : CacheMode)
    (fresh : Int → Int) (ops : List Op) (s : MyfilePartition)
    (hfit : ∀ op ∈ ops, op.payloadFits)
    (h : runOpsOk crc ops (newPartition i mode fresh) = some s) :
    byteLen s.m_datafile % 1024 = 0 ∧
    ∀ j, 0 < (s.node j).capacity →
      0 ≤ (s.node j).getPos ∧ (s.node j).getPos % 1024 = 0 ∧
      (s.node j).getPos + (s.node j).capacity ≤ byteLen s.m_datafile :=
  (runOpsOk_extents crc ops (newPartition i mode fresh) s hfit
    ⟨by simp [newPartition, byteLen], fun j hj => absurd hj (by simp [newPartition])⟩
    (by simp [newPartition, byteLen]) h).1

theorem runOpsOk_afterS2 :
    runOpsOk demoCrc [Op.save 1 0 0 helloBytes true 0] freshCache = some afterS2 := by
  simp only [runOpsOk, applyOpOk, saveBlock_afterS2]

/-- Witness for C17: scenario S2. -/
theorem extents_aligned_witness :
    (∀ op ∈ [Op.save 1 0 0 helloBytes true 0], op.payloadFits) ∧
    runOpsOk demoCrc [Op.save 1 0 0 helloBytes true 0] freshCache = some afterS2 ∧
    byteLen afterS2.m_datafile % 1024 = 0 ∧
    ∀ j, 0 < (afterS2.node j).capacity →
      0 ≤ (afterS2.node j).getPos ∧ (afterS2.node j).getPos % 1024 = 0 ∧
      (afterS2.node j).getPos + (afterS2.node j).capacity ≤ byteLen afterS2.m_datafile :=
  have hfit : ∀ op ∈ [Op.save 1 0 0 helloBytes true 0], op.payloadFits := by
    intro op hop
    simp only [List.mem_singleton] at hop
    rw [hop]
    show byteLen helloBytes + 24 < 2147483648
    decide
  ⟨hfit, runOpsOk_afterS2,
    extents_aligned demoCrc 1 CacheMode.CM_CACHE (fun _ => 0) _ afterS2 hfit runOpsOk_afterS2⟩

/-- C16 (failing input): on a fresh partition `saveBlock(1, 0, 0, d, true)` with a
payload of 32000 bytes is accepted and returns true; the record needs 32024 bytes
and a capacity of `ceil_1k(32024) = 32768`, but the slot then holds `len = 32024`
and `capacity = -32768` (read as `int16_t`), so that neither `len ≤ capacity` nor
`capacity ≥ ceil_1k(|d| + 24)` holds. -/
theorem saveBlock_32000_bytes_len_exceeds_capacity :
    ∃ s1, saveBlock demoCrc freshAppend 1 0 0 bigPayload true 0 = some (true, s1) ∧
      (byteLen bigPayload + 24 + 1023) / 1024 * 1024 = 32768 ∧
      (s1.node (getLocalIndex 1 0 0)).len = 32024 ∧
      (s1.node (getLocalIndex 1 0 0)).capacity = -32768 ∧
      ¬ ((s1.node (getLocalIndex 1 0 0)).len ≤ (s1.node (getLocalIndex 1 0 0)).capacity) ∧
      ¬ ((byteLen bigPayload + 24 + 1023) / 1024 * 1024
          ≤ (s1.node (getLocalIndex 1 0 0)).capacity) := by
  have hb := byteLen_bigPayload
  obtain ⟨s1, h1, h2, -⟩ := saveBlock_capacity_wraps demoCrc freshAppend 1 0 0 bigPayload
    true 0 (by decide!) rfl rfl (by decide) (by decide) (by rw [hb]; decide)
  have hlen : (s1.node (getLocalIndex 1 0 0)).len = 32024 := by
    rcases saveBlock_files demoCrc freshAppend 1 0 0 bigPayload true 0 _ h1 with
      h0 | ⟨-, -, -, hsf⟩
    · have e : s1 = freshAppend := congrArg Prod.snd h0
      rw [e] at h2
      exact absurd h2 (by decide)
    · have hn : s1.node = _ := hsf.1
      rw [hn, (saveWrite_header demoCrc freshAppend _ _ _ bigPayload true 0).2.2, hb]
      simp only [toInt16, toInt32, toUInt64, sizeofNodeHeader]
      decide
  refine ⟨s1, h1, by rw [hb]; decide, hlen, h2, ?_, ?_⟩
  · rw [hlen, h2]
    decide
  · rw [hb, h2]
    decide

/-! ## Read-your-writes at the engine -/

theorem mapFind_mapAssign {α : Type} (m : List (Int × α)) (k : Int) (v : α) :
    mapFind (mapAssign m k v) k = some v ∧ (mapAssign m k v).isEmpty = false := by
  induction m with
  | nil => simp [mapAssign, mapFind]
  | cons a rest ih =>
    obtain ⟨k1, v1⟩ := a
    simp only [mapAssign]
    by_cases h1 : k = k1
    · rw [if_pos h1]
      simp [mapFind]
    · rw [if_neg h1]
      by_cases h2 : k < k1
      · rw [if_pos h2]
        simp [mapFind]
      · rw [if_neg h2]
        simp only [mapFind, if_neg h1, List.isEmpty_cons, and_true]
        exact ih.1

theorem loadBlock_valueCache_hit (crc : List Int → Int) (e : Database_Myfile) (pos : Int)
    (v : List Int) (hf : mapFind e.m_valueCache pos = some v)
    (hne : e.m_valueCache.isEmpty = false) :
    Database_Myfile.loadBlock crc e pos = some (v, { e with
      m_tpsCounterR := toInt64 (e.m_tpsCounterR + 1)
      m_totalLoadCount := toInt64 (e.m_totalLoadCount + 1)
      m_cache1HitCount := toInt64 (e.m_cache1HitCount + 1) }) := by
  simp only [Database_Myfile.loadBlock, valueCacheLookup, hne, hf, Bool.false_eq_true,
    if_false]

/-- C20: for every engine state whose load counters are below the `int64_t` maximum,
after `ProcessSetCommand(c)` the call `Database_Myfile::loadBlock(c.key)` returns
`c.val`, and after `ProcessDeleteCommand(c)` it returns the empty string; in both
cases the result is the same whatever the partitions hold, the partitions are left
as they were, `cache1HitCount` and `totalLoadCount` each grow by exactly 1 and
`cache2HitCount` is unchanged. -/
theorem loadBlock_reads_own_write (crc : List Int → Int) (e : Database_Myfile) (c : KvCommand)
    (ht : -9223372036854775808 ≤ e.m_totalLoadCount ∧ e.m_totalLoadCount < 9223372036854775807)
    (h1 : -9223372036854775808 ≤ e.m_cache1HitCount ∧
      e.m_cache1HitCount < 9223372036854775807) :
    (∃ e2, Database_Myfile.loadBlock crc (ProcessSetCommand e c).2 c.key = some (c.val, e2) ∧
      e2.m_stmt = e.m_stmt ∧
      e2.m_cache1HitCount = e.m_cache1HitCount + 1 ∧
      e2.m_totalLoadCount = e.m_totalLoadCount + 1 ∧
      e2.m_cache2HitCount = e.m_cache2HitCount ∧
      ∀ st, (Database_Myfile.loadBlock crc { (ProcessSetCommand e c).2 with m_stmt := st }
        c.key).map Prod.fst = some c.val) ∧
    (∃ e2, Database_Myfile.loadBlock crc (ProcessDeleteCommand e c).2 c.key = some ([], e2) ∧
      e2.m_stmt = e.m_stmt ∧
      e2.m_cache1HitCount = e.m_cache1HitCount + 1 ∧
      e2.m_totalLoadCount = e.m_totalLoadCount + 1 ∧
      e2.m_cache2HitCount = e.m_cache2HitCount ∧
      ∀ st, (Database_Myfile.loadBlock crc { (ProcessDeleteCommand e c).2 with m_stmt := st }
        c.key).map Prod.fst = some []) := by
  have et : toInt64 (e.m_totalLoadCount + 1) = e.m_totalLoadCount + 1 := by
    simp only [toInt64]
    omega
  have e1 : toInt64 (e.m_cache1HitCount + 1) = e.m_cache1HitCount + 1 := by
    simp only [toInt64]
    omega
  constructor
  · obtain ⟨hf, hne⟩ := mapFind_mapAssign e.m_valueCache c.key c.val
    refine ⟨_, loadBlock_valueCache_hit crc (ProcessSetCommand e c).2 c.key c.val hf hne,
      rfl, e1, et, rfl, ?_⟩
    intro st
    rw [loadBlock_valueCache_hit crc { (ProcessSetCommand e c).2 with m_stmt := st } c.key
      c.val hf hne]
    rfl
  · obtain ⟨hf, hne⟩ := mapFind_mapAssign e.m_valueCache c.key ([] : List Int)
    refine ⟨_, loadBlock_valueCache_hit crc (ProcessDeleteCommand e c).2 c.key [] hf hne,
      rfl, e1, et, rfl, ?_⟩
    intro st
    rw [loadBlock_valueCache_hit crc { (ProcessDeleteCommand e c).2 with m_stmt := st } c.key
      [] hf hne]
    rfl

/-- Witness for C20: the command `SET (1,0,0) := "hello"` on a new engine. -/
theorem loadBlock_reads_own_write_witness :
    (-9223372036854775808 ≤ demoEngine.m_totalLoadCount ∧
      demoEngine.m_totalLoadCount < 9223372036854775807) ∧
    (-9223372036854775808 ≤ demoEngine.m_cache1HitCount ∧
      demoEngine.m_cache1HitCount < 9223372036854775807) ∧
    ∃ e2, Database_Myfile.loadBlock demoCrc (ProcessSetCommand demoEngine demoSet).2
        demoSet.key = some (demoSet.val, e2) ∧
      e2.m_stmt = demoEngine.m_stmt ∧
      e2.m_cache1HitCount = demoEngine.m_cache1HitCount + 1 ∧
      e2.m_totalLoadCount = demoEngine.m_totalLoadCount + 1 ∧
      e2.m_cache2HitCount = demoEngine.m_cache2HitCount ∧
      ∀ st, (Database_Myfile.loadBlock demoCrc
        { (ProcessSetCommand demoEngine demoSet).2 with m_stmt := st }
        demoSet.key).map Prod.fst = some demoSet.val :=
  ⟨by decide, by decide,
    (loadBlock_reads_own_write demoCrc demoEngine demoSet (by decide) (by decide)).1⟩

/-! ## The cache invariant -/

theorem INVALID_HANDLE_ge : MAX_CACHE ≤ INVALID_HANDLE := by
  rw [MAX_CACHE_eq]
  decide

theorem toInt64_small (v : Int) (h : -4 ≤ v ∧ v ≤ 4) : toInt64 v = v := by
  simp only [toInt64]
  omega

theorem AllocInv_new : AllocInv CacheValueAllocator.new :=
  ⟨fun h v hv => by simp [CacheValueAllocator.new] at hv,
    fun p hp => by simp [CacheValueAllocator.new] at hp⟩

theorem AllocInv_free (a : CacheValueAllocator) (h : Int) (hinv : AllocInv a) :
    AllocInv (a.free h) := by
  unfold CacheValueAllocator.free
  by_cases h1 : h ≥ MAX_CACHE
  · rw [if_pos h1]
    exact hinv
  · rw [if_neg h1]
    cases hv : a.m_alloced h with
    | none => exact hinv
    | some v =>
      simp only
      obtain ⟨i1, i2⟩ := hinv
      constructor
      · intro h2 v2 hv2
        simp only [setAt] at hv2
        by_cases e : h2 = h
        · rw [if_pos e] at hv2
          cases hv2
        · rw [if_neg e] at hv2
          exact i1 h2 v2 hv2
      · intro p hp
        simp only [List.mem_append, List.mem_singleton] at hp
        rcases hp with hp | hp
        · exact i2 p hp
        · rw [hp]
          have := i1 h v hv
          exact ⟨this.1, by show 0 ≤ v.refcount; omega, by show v.refcount ≤ 3; omega⟩

theorem alloc_spec (a : CacheValueAllocator) (hinv : AllocInv a) :
    (a.alloc.1 = INVALID_HANDLE ∧ a.alloc.2.m_alloced = a.m_alloced ∧
      (∀ p ∈ a.alloc.2.m_freelist, p ∈ a.m_freelist)) ∨
    (∃ v, a.alloc.1 < MAX_CACHE ∧ a.m_alloced a.alloc.1 = none ∧
      a.alloc.2.m_alloced = setAt a.m_alloced a.alloc.1 (some v) ∧
      0 ≤ v.refcount ∧ v.refcount ≤ 3 ∧
      (∀ p ∈ a.alloc.2.m_freelist, p ∈ a.m_freelist)) := by
  unfold CacheValueAllocator.alloc
  cases hf : a.m_freelist with
  | nil =>
    by_cases h1 : a.m_initHandle < MAX_CACHE
    · rw [if_pos h1]
      simp only
      cases hv : a.m_alloced a.m_initHandle with
      | some v =>
        left
        simp [hv, hf]
      | none =>
        right
        refine ⟨CacheValue.new, ?_⟩
        simp [hv, hf, h1, CacheValue.new]
    · rw [if_neg h1]
      left
      simp [hf]
  | cons p rest =>
    obtain ⟨h, v⟩ := p
    simp only
    have hp := hinv.2 (h, v) (by rw [hf]; exact List.mem_cons_self _ _)
    cases hv : a.m_alloced h with
    | some v2 =>
      left
      simp only [hv, Option.isSome_some, if_true, true_and]
      intro p hp2
      exact List.mem_cons_of_mem _ hp2
    | none =>
      right
      refine ⟨v, ?_⟩
      simp only [hv, Option.isSome_none, Bool.false_eq_true, if_false, true_and]
      exact ⟨hp.1, hp.2.1, hp.2.2, fun p hp2 => List.mem_cons_of_mem _ hp2⟩

theorem count_cons_int (i j : Int) (l : List Int) :
    (i :: l).count j = l.count j + (if j = i then 1 else 0) := by
  rw [List.count_cons]
  by_cases h : j = i
  · rw [if_pos h, h]
    simp
  · rw [if_neg h]
    have : (i == j) = false := by
      rw [beq_eq_false_iff_ne]
      exact fun e => h e.symm
    simp [this]

theorem AllocCacheIndex_tokens (s : MyfilePartition) :
    (AllocCacheIndex s).1 = -1 ∨
    ((AllocCacheIndex s).2.m_node = s.m_node ∧
      (AllocCacheIndex s).2.m_cacheAllocator = s.m_cacheAllocator ∧
      ∀ j, tokens (AllocCacheIndex s).2 j + (if j = (AllocCacheIndex s).1 then 1 else 0)
        = tokens s j) := by
  unfold AllocCacheIndex
  by_cases h : s.m_prereadCacheFIFO.length > 1024
  · rw [if_pos h]
    cases hp : s.m_prereadCacheFIFO with
    | nil => exact Or.inl rfl
    | cons i rest =>
      right
      refine ⟨rfl, rfl, fun j => ?_⟩
      simp only [tokens, hp, count_cons_int]
      omega
  · rw [if_neg h]
    cases hp : s.m_accessCacheFIFO with
    | nil => exact Or.inl rfl
    | cons i rest =>
      right
      refine ⟨rfl, rfl, fun j => ?_⟩
      simp only [tokens, hp, count_cons_int]
      omega

theorem CacheCore_mono (a : CacheValueAllocator) (nd : Int → Int) (tok tok2 : Int → Nat)
    (h : CacheCore a nd tok) (hle : ∀ i, tok2 i ≤ tok i) : CacheCore a nd tok2 := by
  obtain ⟨c1, c2, c3⟩ := h
  refine ⟨fun i hi => ?_, fun i h0 h1 h2 => ?_, c3⟩
  · have := c1 i hi
    have := hle i
    omega
  · obtain ⟨v, hv, hr⟩ := c2 i h0 h1 h2
    refine ⟨v, hv, ?_⟩
    have := hle i
    omega

/-- One pop of a token of slot `i` whose value keeps a positive refcount. -/
theorem CacheCore_dec (a : CacheValueAllocator) (nd : Int → Int) (tok tok2 : Int → Nat)
    (i : Int) (c : CacheValue) (hi : 0 ≤ i ∧ i < MAX_NODE) (hc : a.m_alloced (nd i) = some c)
    (hnd : nd i ≠ INVALID_HANDLE)
    (h : CacheCore a nd tok) (hle : ∀ j, tok2 j + (if j = i then 1 else 0) = tok j) :
    CacheCore (a.setValue (nd i) { c with refcount := c.refcount - 1 }) nd tok2 := by
  obtain ⟨c1, c2, c3⟩ := h
  refine ⟨fun j hj => ?_, fun j h0 h1 h2 => ?_, c3⟩
  · have := c1 j hj
    have := hle j
    omega
  · obtain ⟨v, hv, hr⟩ := c2 j h0 h1 h2
    have hl := hle j
    simp only [CacheValueAllocator.setValue, setAt]
    by_cases e : nd j = nd i
    · rw [if_pos e]
      have hji : j = i := (c3 i j hi.1 hi.2 h0 h1 hnd e.symm).symm
      rw [e, hc] at hv
      cases hv
      refine ⟨_, rfl, ?_⟩
      rw [if_pos hji] at hl
      show (tok2 j : Int) ≤ c.refcount - 1
      omega
    · rw [if_neg e]
      refine ⟨v, hv, ?_⟩
      split_ifs at hl <;> omega

/-- One pop of the last token of slot `i`: the value is reset and freed, the slot
loses its handle. -/
theorem CacheCore_free (a : CacheValueAllocator) (nd : Int → Int) (tok tok2 : Int → Nat)
    (i : Int) (c : CacheValue) (hi : 0 ≤ i ∧ i < MAX_NODE) (hc : a.m_alloced (nd i) = some c)
    (hnd : nd i ≠ INVALID_HANDLE) (hr1 : c.refcount = 1)
    (h : CacheCore a nd tok) (hle : ∀ j, tok2 j + (if j = i then 1 else 0) = tok j) :
    CacheCore ((a.setValue (nd i) ⟨0, 0, []⟩).free (nd i)) (setAt nd i INVALID_HANDLE) tok2 := by
  obtain ⟨c1, c2, c3⟩ := h
  have hal : ∀ h2, h2 ≠ nd i →
      ((a.setValue (nd i) ⟨0, 0, []⟩).free (nd i)).m_alloced h2 = a.m_alloced h2 := by
    intro h2 hne
    have hs : (a.setValue (nd i) ⟨0, 0, []⟩).m_alloced (nd i) = some ⟨0, 0, []⟩ := by
      simp only [CacheValueAllocator.setValue, setAt, if_true]
    unfold CacheValueAllocator.free
    by_cases g : nd i ≥ MAX_CACHE
    · rw [if_pos g]
      simp only [CacheValueAllocator.setValue, setAt]
      rw [if_neg hne]
    · rw [if_neg g, hs]
      simp only [CacheValueAllocator.setValue, setAt]
      rw [if_neg hne, if_neg hne]
  refine ⟨fun j hj => ?_, fun j h0 h1 h2 => ?_, fun j k hj0 hj1 hk0 hk1 hne he => ?_⟩
  · have hl := hle j
    by_cases e : j = i
    · subst e
      rw [if_pos rfl] at hl
      obtain ⟨v, hv, hr⟩ := c2 j hi.1 hi.2 hnd
      rw [hc] at hv
      cases hv
      omega
    · simp only [setAt] at hj
      rw [if_neg e] at hj hl
      have := c1 j hj
      omega
  · have hl := hle j
    simp only [setAt] at h2 ⊢
    by_cases e : j = i
    · rw [if_pos e] at h2
      exact absurd rfl h2
    · rw [if_neg e] at h2 hl ⊢
      obtain ⟨v, hv, hr⟩ := c2 j h0 h1 h2
      have hne : nd j ≠ nd i := fun e2 => e ((c3 i j hi.1 hi.2 h0 h1 hnd e2.symm).symm)
      rw [hal _ hne]
      exact ⟨v, hv, by omega⟩
  · simp only [setAt] at hne he
    by_cases e : j = i
    · rw [if_pos e] at hne
      exact absurd rfl hne
    · rw [if_neg e] at hne he
      by_cases e2 : k = i
      · rw [if_pos e2] at he
        exact absurd he hne
      · rw [if_neg e2] at he
        exact c3 j k hj0 hj1 hk0 hk1 hne he

theorem AllocInv_setValue (a : CacheValueAllocator) (h : Int) (v : CacheValue)
    (hh : h < MAX_CACHE) (hv : 1 ≤ v.refcount ∧ v.refcount ≤ 3) (hinv : AllocInv a) :
    AllocInv (a.setValue h v) := by
  refine ⟨fun h2 v2 hv2 => ?_, hinv.2⟩
  simp only [CacheValueAllocator.setValue, setAt] at hv2
  by_cases e : h2 = h
  · rw [if_pos e] at hv2
    cases hv2
    rw [e]
    exact ⟨hh, hv.1, hv.2⟩
  · rw [if_neg e] at hv2
    exact hinv.1 h2 v2 hv2

theorem AllocInv_reset_free (a : CacheValueAllocator) (h : Int) (hh : h < MAX_CACHE)
    (hinv : AllocInv a) : AllocInv ((a.setValue h ⟨0, 0, []⟩).free h) := by
  have hs : (a.setValue h ⟨0, 0, []⟩).m_alloced h = some ⟨0, 0, []⟩ := by
    simp only [CacheValueAllocator.setValue, setAt, if_true]
  unfold CacheValueAllocator.free
  rw [if_neg (by omega), hs]
  constructor
  · intro h2 v2 hv2
    simp only [CacheValueAllocator.setValue, setAt] at hv2
    by_cases e : h2 = h
    · rw [if_pos e] at hv2
      cases hv2
    · rw [if_neg e, if_neg e] at hv2
      exact hinv.1 h2 v2 hv2
  · intro p hp
    simp only [CacheValueAllocator.setValue, List.mem_append, List.mem_singleton] at hp
    rcases hp with hp | hp
    · exact hinv.2 p hp
    · rw [hp]
      exact ⟨hh, by show (0 : Int) ≤ 0; decide, by show (0 : Int) ≤ 3; decide⟩

theorem getValue_some (a : CacheValueAllocator) (h : Int) (v : CacheValue)
    (hv : a.getValue h = some v) : h < MAX_CACHE ∧ a.m_alloced h = some v := by
  unfold CacheValueAllocator.getValue at hv
  by_cases g : h ≥ MAX_CACHE
  · rw [if_pos g] at hv
    cases hv
  · rw [if_neg g] at hv
    exact ⟨by omega, hv⟩

theorem getValue_of_alloced (a : CacheValueAllocator) (h : Int) (v : CacheValue)
    (hinv : AllocInv a) (hv : a.m_alloced h = some v) : a.getValue h = some v := by
  unfold CacheValueAllocator.getValue
  rw [if_neg (by have := (hinv.1 h v hv).1; omega)]
  exact hv

theorem CHECK_DELETE_inv (s s1 : MyfilePartition) (i : Int) (tok0 : Int → Nat)
    (nd : Int → Int) (hA : AllocInv s.m_cacheAllocator) (hn : s.m_node = some nd)
    (hcore : CacheCore s.m_cacheAllocator nd tok0)
    (hle : ∀ j, tokens s j + (if j = i then 1 else 0) = tok0 j)
    (h : CHECK_DELETE s i = some s1) : CacheInv s1 := by
  have hmono : ∀ j, tokens s j ≤ tok0 j := fun j => by
    have := hle j
    omega
  unfold CHECK_DELETE at h
  rw [hn] at h
  simp only at h
  by_cases hi : i < 0 ∨ i ≥ MAX_NODE
  · rw [if_pos hi] at h
    cases h
  · rw [if_neg hi] at h
    cases hg : s.m_cacheAllocator.getValue (nd i) with
    | none =>
      rw [hg] at h
      simp only [Option.some.injEq] at h
      subst h
      refine ⟨hA, fun h0 => ?_, fun nd2 h2 => ?_⟩
      · rw [hn] at h0
        cases h0
      · rw [hn] at h2
        cases h2
        exact CacheCore_mono _ _ _ _ hcore hmono
    | some cache =>
      rw [hg] at h
      simp only at h
      obtain ⟨hlt, hal⟩ := getValue_some _ _ _ hg
      have hne : nd i ≠ INVALID_HANDLE := by
        have := INVALID_HANDLE_ge
        omega
      obtain ⟨-, r1, r3⟩ := hA.1 _ _ hal
      have e64 : toInt64 (cache.refcount - 1) = cache.refcount - 1 :=
        toInt64_small _ (by omega)
      rw [e64] at h
      by_cases hz : cache.refcount - 1 = 0
      · rw [if_pos hz] at h
        simp only [Option.some.injEq] at h
        subst h
        refine ⟨AllocInv_reset_free _ _ hlt hA, (fun h0 => by cases h0), fun nd2 h2 => ?_⟩
        simp only [Option.some.injEq] at h2
        subst h2
        exact CacheCore_free _ _ _ _ i cache (by omega) hal hne (by omega) hcore hle
      · rw [if_neg hz] at h
        simp only [Option.some.injEq] at h
        subst h
        refine ⟨AllocInv_setValue _ _ _ hlt ⟨by show 1 ≤ cache.refcount - 1; omega,
          by show cache.refcount - 1 ≤ 3; omega⟩ hA, (fun h0 => by cases h0),
          fun nd2 h2 => ?_⟩
        simp only [Option.some.injEq] at h2
        subst h2
        exact CacheCore_dec _ _ _ _ i cache (by omega) hal hne hcore hle

theorem evictLoop_inv (fuel : Nat) :
    ∀ (s s1 : MyfilePartition), CacheInv s → (∃ nd, s.m_node = some nd) →
      evictLoop fuel s = some s1 → CacheInv s1 ∧ ∃ nd, s1.m_node = some nd := by
  induction fuel with
  | zero =>
    intro s s1 hinv hn h
    simp only [evictLoop] at h
    by_cases hc : evictCond s = true
    · rw [if_pos hc] at h
      cases h
    · rw [if_neg hc] at h
      simp only [Option.some.injEq] at h
      subst h
      exact ⟨hinv, hn⟩
  | succ fuel ih =>
    intro s s1 hinv hn h
    simp only [evictLoop] at h
    by_cases hc : evictCond s = true
    · rw [if_pos hc] at h
      cases hcd : CHECK_DELETE (AllocCacheIndex s).2 (AllocCacheIndex s).1 with
      | none => simp [hcd] at h
      | some s2 =>
        simp only [hcd] at h
        obtain ⟨nd, hnd⟩ := hn
        have h2 : CacheInv s2 ∧ ∃ nd2, s2.m_node = some nd2 := by
          rcases AllocCacheIndex_tokens s with hm | ⟨a1, a2, a3⟩
          · unfold CHECK_DELETE at hcd
            rw [hm] at hcd
            cases hx : (AllocCacheIndex s).2.m_node with
            | none => simp [hx] at hcd
            | some ndx =>
              simp only [hx] at hcd
              rw [if_pos (Or.inl (by decide))] at hcd
              cases hcd
          · have hinv2 := CHECK_DELETE_inv (AllocCacheIndex s).2 s2 (AllocCacheIndex s).1
              (tokens s) nd (by rw [a2]; exact hinv.1) (by rw [a1]; exact hnd)
              (by rw [a2]; exact hinv.2.2 nd hnd) a3 hcd
            refine ⟨hinv2, ?_⟩
            unfold CHECK_DELETE at hcd
            rw [a1, hnd] at hcd
            simp only at hcd
            split_ifs at hcd
            all_goals first
              | cases hcd
              | (cases hg : (AllocCacheIndex s).2.m_cacheAllocator.getValue
                    (nd (AllocCacheIndex s).1) with
                | none =>
                  rw [hg] at hcd
                  simp only [Option.some.injEq] at hcd
                  subst hcd
                  exact ⟨nd, by rw [a1]; exact hnd⟩
                | some cache =>
                  rw [hg] at hcd
                  simp only at hcd
                  split_ifs at hcd <;>
                    (simp only [Option.some.injEq] at hcd; subst hcd; exact ⟨_, rfl⟩))
        exact ih s2 s1 h2.1 h2.2 h
    · rw [if_neg hc] at h
      simp only [Option.some.injEq] at h
      subst h
      exact ⟨hinv, hn⟩

theorem CacheCore_congr (a a2 : CacheValueAllocator) (nd : Int → Int) (tok : Int → Nat)
    (h : a2.m_alloced = a.m_alloced) (hc : CacheCore a nd tok) : CacheCore a2 nd tok := by
  unfold CacheCore at *
  rw [h]
  exact hc

theorem CacheCore_setValue (a : CacheValueAllocator) (nd : Int → Int) (tok tok2 : Int → Nat)
    (index : Int) (v2 : CacheValue) (hidx : 0 ≤ index ∧ index < MAX_NODE)
    (hnd : nd index ≠ INVALID_HANDLE) (hc : CacheCore a nd tok)
    (hother : ∀ j, j ≠ index → tok2 j = tok j) (hself : (tok2 index : Int) ≤ v2.refcount) :
    CacheCore (a.setValue (nd index) v2) nd tok2 := by
  obtain ⟨c1, c2, c3⟩ := hc
  refine ⟨fun j hj => ?_, fun j h0 h1 h2 => ?_, c3⟩
  · have hne : j ≠ index := by
      intro e
      rw [e] at hj
      rcases hj with hj | hj | hj
      · omega
      · omega
      · exact hnd hj
    rw [hother j hne]
    exact c1 j hj
  · simp only [CacheValueAllocator.setValue, setAt]
    by_cases e : nd j = nd index
    · rw [if_pos e]
      have hji : j = index := (c3 index j hidx.1 hidx.2 h0 h1 hnd e.symm).symm
      rw [hji]
      exact ⟨v2, rfl, hself⟩
    · rw [if_neg e]
      have hne : j ≠ index := fun e2 => e (by rw [e2])
      rw [hother j hne]
      exact c2 j h0 h1 h2

theorem CacheCore_alloc (a a2 : CacheValueAllocator) (nd : Int → Int) (tok : Int → Nat)
    (index h : Int) (v : CacheValue)
    (hnd : nd index = INVALID_HANDLE) (hnone : a.m_alloced h = none)
    (ha2 : a2.m_alloced = setAt a.m_alloced h (some v)) (hr : 0 ≤ v.refcount)
    (hc : CacheCore a nd tok) : CacheCore a2 (setAt nd index h) tok := by
  obtain ⟨c1, c2, c3⟩ := hc
  have ht : tok index = 0 := c1 index (Or.inr (Or.inr hnd))
  refine ⟨fun j hj => ?_, fun j h0 h1 h2 => ?_, fun j k hj0 hj1 hk0 hk1 hne he => ?_⟩
  · simp only [setAt] at hj
    by_cases e : j = index
    · rw [e]
      exact ht
    · rw [if_neg e] at hj
      exact c1 j hj
  · simp only [setAt] at h2 ⊢
    rw [ha2]
    by_cases e : j = index
    · rw [if_pos e, e, ht]
      simp only [setAt, if_true]
      exact ⟨v, rfl, by simpa using hr⟩
    · rw [if_neg e] at h2 ⊢
      obtain ⟨w, hw, hle⟩ := c2 j h0 h1 h2
      have hne : nd j ≠ h := by
        intro e2
        rw [e2, hnone] at hw
        cases hw
      simp only [setAt]
      rw [if_neg hne]
      exact ⟨w, hw, hle⟩
  · by_cases e : j = index
    · by_cases e2 : k = index
      · rw [e, e2]
      · exfalso
        have hne2 : h ≠ INVALID_HANDLE := by simpa [setAt, e] using hne
        have he2 : h = nd k := by simpa [setAt, e, e2] using he
        have hk : nd k ≠ INVALID_HANDLE := by
          rw [← he2]
          exact hne2
        obtain ⟨w, hw, -⟩ := c2 k hk0 hk1 hk
        rw [← he2, hnone] at hw
        cases hw
    · have hne2 : nd j ≠ INVALID_HANDLE := by simpa [setAt, e] using hne
      by_cases e2 : k = index
      · exfalso
        have he2 : nd j = h := by simpa [setAt, e, e2] using he
        obtain ⟨w, hw, -⟩ := c2 j hj0 hj1 hne2
        rw [he2, hnone] at hw
        cases hw
      · have he2 : nd j = nd k := by simpa [setAt, e, e2] using he
        exact c3 j k hj0 hj1 hk0 hk1 hne2 he2

theorem AllocInv_setValue_at (a : CacheValueAllocator) (h : Int) (v : CacheValue)
    (hh : h < MAX_CACHE) (hv : 1 ≤ v.refcount ∧ v.refcount ≤ 3)
    (hoth : ∀ h2 w, h2 ≠ h → a.m_alloced h2 = some w →
      h2 < MAX_CACHE ∧ 1 ≤ w.refcount ∧ w.refcount ≤ 3)
    (hfree : ∀ p ∈ a.m_freelist, p.1 < MAX_CACHE ∧ 0 ≤ p.2.refcount ∧ p.2.refcount ≤ 3) :
    AllocInv (a.setValue h v) := by
  refine ⟨fun h2 v2 hv2 => ?_, hfree⟩
  simp only [CacheValueAllocator.setValue, setAt] at hv2
  by_cases e : h2 = h
  · rw [if_pos e] at hv2
    cases hv2
    rw [e]
    exact ⟨hh, hv.1, hv.2⟩
  · rw [if_neg e] at hv2
    exact hoth h2 v2 e hv2

theorem count_append_singleton (l : List Int) (i j : Int) :
    (l ++ [i]).count j = l.count j + (if j = i then 1 else 0) := by
  rw [List.count_append, count_cons_int]
  simp

theorem cacheBlockStore_inv (s : MyfilePartition) (index h : Int) (value : List Int)
    (rw pr : Bool) (nd : Int → Int) (c : CacheValue)
    (hidx : 0 ≤ index ∧ index < MAX_NODE) (hn : s.m_node = some nd) (hh : nd index = h)
    (hlt : h < MAX_CACHE) (hc : s.m_cacheAllocator.m_alloced h = some c)
    (hr : 0 ≤ c.refcount ∧ c.refcount ≤ 3)
    (hoth : ∀ h2 w, h2 ≠ h → s.m_cacheAllocator.m_alloced h2 = some w →
      h2 < MAX_CACHE ∧ 1 ≤ w.refcount ∧ w.refcount ≤ 3)
    (hfree : ∀ p ∈ s.m_cacheAllocator.m_freelist,
      p.1 < MAX_CACHE ∧ 0 ≤ p.2.refcount ∧ p.2.refcount ≤ 3)
    (hcore : CacheCore s.m_cacheAllocator nd (tokens s)) :
    CacheInv (cacheBlockStore s index h value rw pr).2 := by
  have hne : nd index ≠ INVALID_HANDLE := by
    have := INVALID_HANDLE_ge
    omega
  have hg : s.m_cacheAllocator.getValue h = some c := by
    unfold CacheValueAllocator.getValue
    rw [if_neg (by omega)]
    exact hc
  have htok : (tokens s index : Int) ≤ c.refcount := by
    obtain ⟨w, hw, hle⟩ := hcore.2.1 index hidx.1 hidx.2 hne
    rw [hh, hc] at hw
    cases hw
    exact hle
  unfold cacheBlockStore
  rw [hg]
  simp only
  have hv1 : (if rw = true then
      ({ c with data := value, len := toInt32 (byteLen value) } : CacheValue) else c).refcount
      = c.refcount := by
    split_ifs <;> rfl
  rw [hv1]
  by_cases h3 : c.refcount < 3
  · rw [if_pos h3]
    have e64 : toInt64 (c.refcount + 1) = c.refcount + 1 := toInt64_small _ (by omega)
    refine ⟨?_, (fun h0 => ?_), fun nd2 h2 => ?_⟩
    · exact AllocInv_setValue_at _ _ _ hlt
        ⟨by show 1 ≤ toInt64 (c.refcount + 1); rw [e64]; omega,
          by show toInt64 (c.refcount + 1) ≤ 3; rw [e64]; omega⟩ hoth hfree
    · rw [hn] at h0
      cases h0
    · have e2 : nd2 = nd := by
        have : some nd2 = some nd := h2.symm.trans hn
        exact (Option.some.inj this)
      rw [e2, ← hh]
      apply CacheCore_setValue _ _ (tokens s) _ index _ hidx hne hcore
      · intro j hj
        simp only [tokens]
        cases pr <;> simp [count_append_singleton, hj]
      · simp only [tokens] at htok ⊢
        rw [e64]
        cases pr <;>
          simp only [if_true, if_false, Bool.false_eq_true, count_append_singleton] <;>
          push_cast <;> omega
  · rw [if_neg h3]
    refine ⟨?_, (fun h0 => ?_), fun nd2 h2 => ?_⟩
    · exact AllocInv_setValue_at _ _ _ hlt
        ⟨by rw [hv1]; omega, by rw [hv1]; omega⟩ hoth hfree
    · rw [hn] at h0
      cases h0
    · have e2 : nd2 = nd := by
        have : some nd2 = some nd := h2.symm.trans hn
        exact (Option.some.inj this)
      rw [e2, ← hh]
      apply CacheCore_setValue _ _ (tokens s) _ index _ hidx hne hcore
      · intro j hj
        rfl
      · rw [hv1]
        exact htok

theorem cacheBlock_inv (s : MyfilePartition) (index : Int) (value : List Int)
    (rw pr : Bool) (q : Int × MyfilePartition) (hidx : 0 ≤ index ∧ index < MAX_NODE)
    (hinv : CacheInv s) (h : cacheBlock s index value rw pr = some q) : CacheInv q.2 := by
  unfold cacheBlock at h
  cases hn : s.m_node with
  | none =>
    simp only [hn, Option.some.injEq] at h
    subst h
    exact hinv
  | some nd0 =>
    simp only [hn] at h
    by_cases hm : s.m_cacheMode ≠ CacheMode.CM_CACHE
    · rw [if_pos hm] at h
      simp only [Option.some.injEq] at h
      subst h
      exact hinv
    · rw [if_neg hm] at h
      cases he : evictLoop (s.m_accessCacheFIFO.length + s.m_prereadCacheFIFO.length + 1) s with
      | none => simp [he] at h
      | some s1 =>
        simp only [he] at h
        obtain ⟨hinv1, nd, hn1⟩ := evictLoop_inv _ s s1 hinv ⟨nd0, hn⟩ he
        simp only [hn1] at h
        obtain ⟨hA, -, hC⟩ := hinv1
        have hcore := hC nd hn1
        by_cases hx : nd index = INVALID_HANDLE
        · rw [if_pos hx] at h
          simp only [Option.some.injEq] at h
          subst h
          rcases alloc_spec s1.m_cacheAllocator hA with ⟨f1, f2, f3⟩ | ⟨v, g1, g2, g3, g4, g5, g6⟩
          · have hgn : s1.m_cacheAllocator.alloc.2.getValue s1.m_cacheAllocator.alloc.1 = none := by
              unfold CacheValueAllocator.getValue
              rw [f1, if_pos INVALID_HANDLE_ge]
            unfold cacheBlockStore
            simp only [hgn]
            refine ⟨⟨?_, ?_⟩, (fun h0 => by cases h0), fun nd2 h2 => ?_⟩
            · intro h2 v2 hv2
              rw [f2] at hv2
              exact hA.1 h2 v2 hv2
            · intro p hp
              exact hA.2 p (f3 p hp)
            · simp only [Option.some.injEq] at h2
              subst h2
              have e : setAt nd index s1.m_cacheAllocator.alloc.1 = nd := by
                funext j
                simp only [setAt]
                by_cases ej : j = index
                · rw [if_pos ej, f1, ej, hx]
                · rw [if_neg ej]
              rw [e]
              exact CacheCore_congr _ _ _ _ f2 hcore
          · apply cacheBlockStore_inv _ index _ value _ pr (setAt nd index s1.m_cacheAllocator.alloc.1)
              v hidx rfl (by simp only [setAt, if_true]) g1
            · show s1.m_cacheAllocator.alloc.2.m_alloced s1.m_cacheAllocator.alloc.1 = some v
              rw [g3]
              simp only [setAt, if_true]
            · exact ⟨g4, g5⟩
            · intro h2 w hne hw
              have hw2 : s1.m_cacheAllocator.alloc.2.m_alloced h2 = some w := hw
              rw [g3] at hw2
              simp only [setAt] at hw2
              rw [if_neg hne] at hw2
              exact hA.1 h2 w hw2
            · intro p hp
              exact hA.2 p (g6 p hp)
            · exact CacheCore_alloc s1.m_cacheAllocator _ nd (tokens s1) index _ v hx g2 g3 g4
                hcore
        · rw [if_neg hx] at h
          cases pr with
          | true =>
            simp only [if_true, Option.some.injEq] at h
            subst h
            exact ⟨hA, (fun h0 => by rw [hn1] at h0; cases h0), hC⟩
          | false =>
            simp only [Bool.false_eq_true, if_false, Option.some.injEq] at h
            subst h
            obtain ⟨c, hc, -⟩ := hcore.2.1 index hidx.1 hidx.2 hx
            obtain ⟨c1, c2, c3⟩ := hA.1 _ _ hc
            exact cacheBlockStore_inv s1 index (nd index) value _ false nd c hidx hn1 rfl c1 hc
              ⟨by omega, c3⟩ (fun h2 w _ hw => hA.1 h2 w hw) hA.2 hcore

theorem CacheInv_congr (s t : MyfilePartition)
    (h1 : t.m_cacheAllocator = s.m_cacheAllocator) (h2 : t.m_node = s.m_node)
    (h3 : t.m_accessCacheFIFO = s.m_accessCacheFIFO)
    (h4 : t.m_prereadCacheFIFO = s.m_prereadCacheFIFO) (h : CacheInv s) : CacheInv t := by
  unfold CacheInv tokens at *
  rw [h1, h2, h3, h4]
  exact h

theorem ProcessReadBuffer_inv (crc : List Int → Int) (fuel : Nat) :
    ∀ (s : MyfilePartition) (rb rp index : Int) (r : List Int × MyfilePartition),
      CacheInv s → ProcessReadBuffer crc fuel s rb rp index = some r → CacheInv r.2 := by
  induction fuel with
  | zero =>
    intro s rb rp index r _ h
    simp only [ProcessReadBuffer] at h
    cases h
  | succ fuel ih =>
    intro s rb rp index r hinv h
    rw [ProcessReadBuffer] at h
    by_cases c1 : toUInt64 rb < sizeofNodeHeader
    · rw [if_pos c1] at h
      simp only [Option.some.injEq] at h
      subst h
      exact hinv
    rw [if_neg c1] at h
    by_cases c2 : rp < 0 ∨ rp + 4 > MAX_DATA_LENGTH
    · rw [if_pos c2] at h
      cases h
    rw [if_neg c2] at h
    by_cases c3 : rd32 s.m_buffer rp ≠ sizeofNodeHeader
    · rw [if_pos c3] at h
      simp only [Option.some.injEq] at h
      subst h
      exact hinv
    rw [if_neg c3] at h
    by_cases c4 : rp + 12 > MAX_DATA_LENGTH
    · rw [if_pos c4] at h
      cases h
    rw [if_neg c4] at h
    by_cases c5 : toUInt32 index ≠ rd32 s.m_buffer (rp + 8)
    · rw [if_pos c5] at h
      simp only [Option.some.injEq] at h
      subst h
      exact hinv
    rw [if_neg c5] at h
    by_cases c6 : index < 0 ∨ index ≥ MAX_NODE
    · rw [if_pos c6] at h
      cases h
    rw [if_neg c6] at h
    by_cases c7 : rb < (s.node index).capacity
    · rw [if_pos c7] at h
      simp only [Option.some.injEq] at h
      subst h
      exact hinv
    rw [if_neg c7] at h
    simp only at h
    by_cases c8 : rp + sizeofNodeHeader + toUInt32 ((s.node index).len - sizeofNodeHeader)
        > MAX_DATA_LENGTH
    · rw [if_pos c8] at h
      cases h
    rw [if_neg c8] at h
    by_cases c9 : rd32 s.m_buffer (rp + 4) ≠ crcOf crc (bufSlice s.m_buffer
        (rp + sizeofNodeHeader) (toUInt32 ((s.node index).len - sizeofNodeHeader)).toNat)
    · rw [if_pos c9] at h
      simp only [Option.some.injEq] at h
      subst h
      exact hinv
    rw [if_neg c9] at h
    generalize hcb : cacheBlock s index _ _ _ = cb at h
    cases cb with
    | none => simp at h
    | some q =>
      simp only at h
      have hq := cacheBlock_inv s index _ _ _ q (by omega) hinv hcb
      generalize hrec : ProcessReadBuffer crc fuel q.2 _ _ _ = pr at h
      cases pr with
      | none => simp at h
      | some r2 =>
        simp only [Option.some.injEq] at h
        subst h
        exact ih q.2 _ _ _ r2 hq hrec

theorem loadBlock_inv (crc : List Int → Int) (s : MyfilePartition) (x y z : Int)
    (r : List Int × Bool × MyfilePartition) (hinv : CacheInv s)
    (h : loadBlock crc s x y z = some r) : CacheInv r.2.2 := by
  by_cases c1 : getLocalIndex x y z < 0 ∨ getLocalIndex x y z ≥ MAX_NODE
  · unfold loadBlock at h
    rw [if_pos c1] at h
    simp only [Option.some.injEq] at h
    subst h
    exact hinv
  by_cases c2 : (s.node (getLocalIndex x y z)).len = 0
  · unfold loadBlock at h
    rw [if_neg c1, if_pos c2] at h
    simp only [Option.some.injEq] at h
    subst h
    exact hinv
  by_cases hnc : NotCached s (getLocalIndex x y z)
  · rw [loadBlock_miss crc s x y z c1 c2 hnc] at h
    generalize hp : ProcessReadBuffer crc _ _ _ _ _ = pr at h
    cases pr with
    | none => simp at h
    | some p =>
      simp only [Option.some.injEq] at h
      subst h
      exact ProcessReadBuffer_inv crc _ _ _ _ _ p
        (CacheInv_congr s (afterRead s (getLocalIndex x y z)) rfl rfl rfl rfl hinv) hp
  · unfold NotCached at hnc
    push_neg at hnc
    obtain ⟨nd, hn, c3⟩ := hnc
    unfold loadBlock at h
    rw [if_neg c1, if_neg c2] at h
    simp only [hn] at h
    rw [if_pos c3] at h
    cases hg : s.m_cacheAllocator.getValue (nd (getLocalIndex x y z)) with
    | none => simp [hg] at h
    | some cache =>
      simp only [hg] at h
      by_cases c4 : cache.len < 0 ∨ byteLen cache.data < cache.len
      · rw [if_pos c4] at h
        cases h
      · rw [if_neg c4] at h
        generalize hcb : cacheBlock s _ _ _ _ = cb at h
        cases cb with
        | none => simp at h
        | some q =>
          simp only [Option.some.injEq] at h
          subst h
          exact cacheBlock_inv s _ _ _ _ q (by omega) hinv hcb

theorem saveBlock_inv (crc : List Int → Int) (s : MyfilePartition) (x y z : Int)
    (d : List Int) (changed : Bool) (ts : Int) (r : Bool × MyfilePartition)
    (hinv : CacheInv s) (h : saveBlock crc s x y z d changed ts = some r) : CacheInv r.2 := by
  have hw := saveWrite_cache crc s (getLocalIndex x y z)
    (toInt32 (toUInt64 (byteLen d + sizeofNodeHeader)))
    (ROUND (toInt32 (toUInt64 (byteLen d + sizeofNodeHeader))) 1024) d changed ts
  have hinv2 := CacheInv_congr s _ hw.2.2.2.2.1 hw.1 hw.2.2.2.2.2.1 hw.2.2.2.2.2.2.1 hinv
  rcases saveBlock_cases crc s x y z d changed ts r h with h0 | ⟨h1, -, h3 | h3⟩
  · rw [h0]
    exact hinv
  · rw [h3.2]
    exact hinv2
  · obtain ⟨-, q, hq, hr⟩ := h3
    rw [hr]
    exact cacheBlock_inv _ _ _ _ _ q h1 hinv2 hq

theorem deleteBlock_inv (s : MyfilePartition) (x y z : Int) (hinv : CacheInv s) :
    CacheInv (deleteBlock s x y z).2 := by
  unfold deleteBlock
  by_cases h : getLocalIndex x y z < 0 ∨ getLocalIndex x y z ≥ MAX_NODE
  · rw [if_pos h]
    exact hinv
  · rw [if_neg h]
    exact CacheInv_congr s _ rfl rfl rfl rfl hinv

theorem foldl_free_inv (nd : Int → Int) (l : List Nat) :
    ∀ a : CacheValueAllocator, AllocInv a →
      AllocInv (l.foldl
        (fun a i => if nd (Int.ofNat i) ≠ INVALID_HANDLE then a.free (nd (Int.ofNat i)) else a)
        a) := by
  induction l with
  | nil => intro a ha; exact ha
  | cons i rest ih =>
    intro a ha
    simp only [List.foldl_cons]
    apply ih
    split_ifs
    · exact AllocInv_free _ _ ha
    · exact ha

theorem UnInit_inv (s : MyfilePartition) (hinv : CacheInv s) :
    AllocInv (UnInit s).m_cacheAllocator ∧ (UnInit s).m_node = none ∧
    (UnInit s).m_accessCacheFIFO = [] ∧ (UnInit s).m_prereadCacheFIFO = [] := by
  refine ⟨?_, rfl, rfl, rfl⟩
  unfold UnInit
  simp only
  cases hn : s.m_node with
  | none => exact hinv.1
  | some nd => exact foldl_free_inv nd _ _ hinv.1

theorem CacheCore_empty (a : CacheValueAllocator) (tok : Int → Nat) (h : ∀ i, tok i = 0) :
    CacheCore a (fun _ => INVALID_HANDLE) tok :=
  ⟨fun i _ => h i, fun _ _ _ hne => absurd rfl hne, fun _ _ _ _ _ _ hne _ => absurd rfl hne⟩

theorem Init_inv (s s2 : MyfilePartition) (i : Int) (mode : CacheMode) (fresh : Int → Int)
    (hinv : CacheInv s) (h : Init s i mode fresh = some s2) : CacheInv s2 := by
  obtain ⟨u1, u2, u3, u4⟩ := UnInit_inv s hinv
  unfold Init at h
  by_cases hv : (UnInit s).version ≠ 1
  · rw [if_pos hv] at h
    cases h
  · rw [if_neg hv] at h
    simp only [Option.some.injEq] at h
    subst h
    refine ⟨u1, (fun _ => ⟨u3, u4⟩), fun nd hnd => ?_⟩
    simp only at hnd
    by_cases hm : mode = CacheMode.CM_CACHE
    · rw [if_pos hm] at hnd
      simp only [Option.some.injEq] at hnd
      subst hnd
      apply CacheCore_empty
      intro j
      show List.count j (UnInit s).m_accessCacheFIFO + List.count j (UnInit s).m_prereadCacheFIFO
        = 0
      rw [u3, u4]
      rfl
    · rw [if_neg hm] at hnd
      cases hnd

theorem runCalls_inv (crc : List Int → Int) (calls : List Call) :
    ∀ (s t : MyfilePartition), CacheInv s → runCalls crc calls s = some t → CacheInv t := by
  induction calls with
  | nil =>
    intro s t hinv h
    simp only [runCalls, Option.some.injEq] at h
    subst h
    exact hinv
  | cons c rest ih =>
    intro s t hinv h
    simp only [runCalls] at h
    cases ha : applyCall crc s c with
    | none => simp [ha] at h
    | some s1 =>
      simp only [ha] at h
      refine ih s1 t ?_ h
      cases c with
      | init i mode fresh =>
        exact Init_inv s s1 i mode fresh hinv ha
      | save x y z d changed ts =>
        simp only [applyCall] at ha
        cases hs : saveBlock crc s x y z d changed ts with
        | none => simp [hs] at ha
        | some r =>
          simp only [hs, Option.some.injEq] at ha
          subst ha
          exact saveBlock_inv crc s x y z d changed ts r hinv hs
      | load x y z =>
        simp only [applyCall] at ha
        cases hs : loadBlock crc s x y z with
        | none => simp [hs] at ha
        | some r =>
          simp only [hs, Option.some.injEq] at ha
          subst ha
          exact loadBlock_inv crc s x y z r hinv hs
      | delete x y z =>
        simp only [applyCall, Option.some.injEq] at ha
        subst ha
        exact deleteBlock_inv s x y z hinv

theorem CacheInv_start (s0 : MyfilePartition)
    (h0 : s0.m_cacheAllocator = CacheValueAllocator.new)
    (h1 : s0.m_accessCacheFIFO = []) (h2 : s0.m_prereadCacheFIFO = [])
    (h3 : s0.m_node = none ∨ s0.m_node = some (fun _ => INVALID_HANDLE)) : CacheInv s0 := by
  refine ⟨by rw [h0]; exact AllocInv_new, (fun _ => ⟨h1, h2⟩), fun nd hnd => ?_⟩
  rcases h3 with h3 | h3
  · rw [h3] at hnd
    cases hnd
  · rw [h3] at hnd
    simp only [Option.some.injEq] at hnd
    subst hnd
    apply CacheCore_empty
    intro j
    simp only [tokens, h1, h2]
    rfl

theorem CacheInv_bounds (s : MyfilePartition) (hinv : CacheInv s) :
    (∀ h v, s.m_cacheAllocator.getValue h = some v → 0 ≤ v.refcount ∧ v.refcount ≤ 3) ∧
    (∀ j, s.m_accessCacheFIFO.count j + s.m_prereadCacheFIFO.count j ≤ 3) := by
  obtain ⟨hA, hN, hC⟩ := hinv
  constructor
  · intro h v hv
    have := hA.1 h v (getValue_some _ _ _ hv).2
    omega
  · intro j
    cases hn : s.m_node with
    | none =>
      obtain ⟨e1, e2⟩ := hN hn
      rw [e1, e2]
      simp
    | some nd =>
      obtain ⟨c1, c2, -⟩ := hC nd hn
      by_cases hj : j < 0 ∨ j ≥ MAX_NODE ∨ nd j = INVALID_HANDLE
      · have := c1 j hj
        unfold tokens at this
        omega
      · obtain ⟨v, hv, hle⟩ := c2 j (by omega) (by omega) (fun e => hj (Or.inr (Or.inr e)))
        have := hA.1 _ _ hv
        unfold tokens at hle
        omega

/-- C19: in every state reached from a newly constructed partition object (new
allocator, empty FIFOs, no handle table or a cleared one) by `Init`, `saveBlock`,
`loadBlock` and `deleteBlock` calls, every live slab value has `0 ≤ refcount ≤ 3`,
and every slot index occurs at most 3 times in the access FIFO and the preread FIFO
together. -/
theorem refcount_at_most_three (crc : List Int → Int) (s0 s : MyfilePartition)
    (calls : List Call)
    (h0 : s0.m_cacheAllocator = CacheValueAllocator.new)
    (h1 : s0.m_accessCacheFIFO = []) (h2 : s0.m_prereadCacheFIFO = [])
    (h3 : s0.m_node = none ∨ s0.m_node = some (fun _ => INVALID_HANDLE))
    (h : runCalls crc calls s0 = some s) :
    (∀ h v, s.m_cacheAllocator.getValue h = some v → 0 ≤ v.refcount ∧ v.refcount ≤ 3) ∧
    (∀ j, s.m_accessCacheFIFO.count j + s.m_prereadCacheFIFO.count j ≤ 3) :=
  CacheInv_bounds s (runCalls_inv crc calls s0 s (CacheInv_start s0 h0 h1 h2 h3) h)

/-- Witness for C19: on the fresh CACHE-mode partition, "hello" is saved at
`(1,0,0)` and loaded four times. -/
theorem refcount_at_most_three_witness :
    ∃ s, runCalls demoCrc [Call.save 1 0 0 helloBytes true 0, Call.load 1 0 0,
        Call.load 1 0 0, Call.load 1 0 0, Call.load 1 0 0] freshCache = some s ∧
      (∀ h v, s.m_cacheAllocator.getValue h = some v → 0 ≤ v.refcount ∧ v.refcount ≤ 3) ∧
      (∀ j, s.m_accessCacheFIFO.count j + s.m_prereadCacheFIFO.count j ≤ 3) := by
  have hs : (runCalls demoCrc [Call.save 1 0 0 helloBytes true 0, Call.load 1 0 0,
      Call.load 1 0 0, Call.load 1 0 0, Call.load 1 0 0] freshCache).isSome = true := by
    decide!
  obtain ⟨s, hs2⟩ := Option.isSome_iff_exists.mp hs
  exact ⟨s, hs2, refcount_at_most_three demoCrc freshCache s _ rfl rfl rfl (Or.inr rfl) hs2⟩

/-! ## Prefetch of a deleted neighbour -/

theorem loadBlock_deleted_neighbour (crc : List Int → Int) (s : MyfilePartition) (x y z : Int)
    (rest d : List Int) (c2 : Int)
    (hidx : 0 ≤ getLocalIndex x y z ∧ getLocalIndex x y z + 1 < MAX_NODE)
    (hrec : RecordOnDisk s (getLocalIndex x y z) (crcOf crc d) rest d)
    (hnc : NotCached s (getLocalIndex x y z))
    (hlen2 : (s.node (getLocalIndex x y z + 1)).len = 0)
    (hcap2 : 24 ≤ (s.node (getLocalIndex x y z + 1)).capacity)
    (hread : (s.node (getLocalIndex x y z)).capacity
        + (s.node (getLocalIndex x y z + 1)).capacity
      ≤ (fileRead s.m_datafile (s.node (getLocalIndex x y z)).getPos
          (ROUND (s.node (getLocalIndex x y z)).capacity (4096 * 2))).1)
    (hbuf : BufHas (afterRead s (getLocalIndex x y z)).m_buffer
      (s.node (getLocalIndex x y z)).capacity
      (le32 24 ++ le32 c2 ++ le32 (toUInt32 (getLocalIndex x y z + 1)))) :
    loadBlock crc s x y z = none := by
  have hr := fileRead_record s _ _ rest d hrec
  have hnn := byteLen_nonneg d
  have hM := MAX_NODE_eq
  obtain ⟨h1, h2, h3, h4, h5, h6, h7, h8⟩ := hrec
  rw [loadBlock_miss crc s x y z (by omega) (by omega) hnc]
  rw [ProcessReadBuffer_outer crc _ (afterRead s (getLocalIndex x y z)) _ _ _ rest d hr.1 h6
    (by simp only [toUInt64]; have := hr.2.1; have := hr.2.2.1; omega) (by omega) h1
    (by have := hr.2.1; exact not_lt.mpr this) (by omega) h7]
  simp only [ne_eq, not_true_eq_false, if_false]
  generalize hcb : cacheBlock _ _ _ _ _ = cb
  cases cb with
  | none => rfl
  | some q =>
    simp only
    have hsf := cacheBlock_sameFiles _ _ _ _ _ _ hcb
    have hnode : q.2.node = s.node := hsf.1
    have hb : q.2.m_buffer = (afterRead s (getLocalIndex x y z)).m_buffer := hsf.2.2.2.1
    have ecap : ((afterRead s (getLocalIndex x y z)).node (getLocalIndex x y z)).capacity
        = (s.node (getLocalIndex x y z)).capacity := rfl
    rw [ecap]
    have hR1 := hr.2.2.1
    have e1 : toInt32 ((fileRead s.m_datafile (s.node (getLocalIndex x y z)).getPos
        (ROUND (s.node (getLocalIndex x y z)).capacity (4096 * 2))).1
        - (s.node (getLocalIndex x y z)).capacity)
        = (fileRead s.m_datafile (s.node (getLocalIndex x y z)).getPos
        (ROUND (s.node (getLocalIndex x y z)).capacity (4096 * 2))).1
        - (s.node (getLocalIndex x y z)).capacity := by
      simp only [toInt32]
      omega
    have e2 : toInt32 (0 + (s.node (getLocalIndex x y z)).capacity)
        = (s.node (getLocalIndex x y z)).capacity := by
      simp only [toInt32]
      omega
    have e3 : toInt32 (getLocalIndex x y z + 1) = getLocalIndex x y z + 1 := by
      simp only [toInt32]
      omega
    rw [e1, e2, e3]
    obtain ⟨hb1, hI⟩ := BufHas_append _ _ _ _ hbuf
    obtain ⟨hH, hC⟩ := BufHas_append _ _ _ _ hb1
    have eH : rd32 q.2.m_buffer (s.node (getLocalIndex x y z)).capacity = 24 := by
      rw [hb]
      exact rd32_of_BufHas _ _ _ (by omega) hH
    have eI : rd32 q.2.m_buffer ((s.node (getLocalIndex x y z)).capacity + 8)
        = toUInt32 (getLocalIndex x y z + 1) := by
      rw [hb]
      have := rd32_of_BufHas _ _ _ (by simp only [toUInt32]; omega) hI
      simpa [le32] using this
    have hfuel : MAX_DATA_LENGTH.toNat = 65534 + 1 := rfl
    rw [hfuel, ProcessReadBuffer]
    rw [if_neg (by simp only [toUInt64, sizeofNodeHeader]; omega),
      if_neg (by simp only [MAX_DATA_LENGTH]; omega),
      if_neg (by rw [eH]; exact fun hh => hh rfl),
      if_neg (by simp only [MAX_DATA_LENGTH]; omega),
      if_neg (by rw [eI]; exact fun hh => hh rfl),
      if_neg (by omega),
      if_neg (by rw [hnode]; omega)]
    simp only
    rw [if_pos (by
      rw [hnode, hlen2]
      simp only [toUInt32, sizeofNodeHeader, MAX_DATA_LENGTH]
      omega)]

theorem RecordOnDisk_congr_at (s t : MyfilePartition) (idx c : Int) (rest d : List Int)
    (hn : t.node idx = s.node idx) (hf : t.m_datafile = s.m_datafile)
    (h : RecordOnDisk s idx c rest d) : RecordOnDisk t idx c rest d := by
  unfold RecordOnDisk at *
  rw [hn, hf]
  exact h

theorem deleteBlock_fields (s : MyfilePartition) (x y z : Int)
    (h : 0 ≤ getLocalIndex x y z ∧ getLocalIndex x y z < MAX_NODE) :
    (deleteBlock s x y z).2.node = setAt s.node (getLocalIndex x y z)
      { s.node (getLocalIndex x y z) with len := 0 } ∧
    (deleteBlock s x y z).2.m_datafile = s.m_datafile ∧
    (deleteBlock s x y z).2.m_buffer = s.m_buffer ∧
    (deleteBlock s x y z).2.m_node = s.m_node ∧
    (deleteBlock s x y z).2.m_cacheMode = s.m_cacheMode := by
  unfold deleteBlock
  rw [if_neg (by omega)]
  exact ⟨rfl, rfl, rfl, rfl, rfl⟩

theorem saveBlock_afterTwo :
    saveBlock demoCrc afterS2 1 0 1 worldBytes true 0 = some (true, afterTwo) :=
  option_pair_eq _ (false, afterS2) (by decide!) (by decide!)

theorem loadBlock_afterTwo_restarted (sC : MyfilePartition)
    (hn0 : sC.node (getLocalIndex 1 0 0) = afterTwo.node (getLocalIndex 1 0 0))
    (hn1 : sC.node (getLocalIndex 1 0 0 + 1)
      = { afterTwo.node (getLocalIndex 1 0 1) with len := 0 })
    (hf : sC.m_datafile = afterTwo.m_datafile) (hbf : sC.m_buffer = fun _ => 0)
    (hm : sC.m_node = some (fun _ => INVALID_HANDLE)) :
    loadBlock demoCrc sC 1 0 0 = none := by
  apply loadBlock_deleted_neighbour demoCrc _ 1 0 0 (hdrRest 0) helloBytes
    (crcOf demoCrc worldBytes) (by decide!)
  · apply RecordOnDisk_congr_at afterTwo _ _ _ _ _ hn0 hf
    unfold RecordOnDisk
    decide!
  · intro nd hnd
    rw [hm] at hnd
    simp only [Option.some.injEq] at hnd
    rw [← hnd]
  · rw [hn1]
  · rw [hn1]
    decide!
  · rw [hn0, hn1, hf]
    decide!
  · simp only [afterRead]
    rw [hbf, hf, hn0]
    unfold BufHas
    decide!

theorem restart_delete_fields (sB : MyfilePartition)
    (hB : Init afterTwo 1 CacheMode.CM_CACHE (fun _ => 0) = some sB) :
    (deleteBlock sB 1 0 1).2.node (getLocalIndex 1 0 0) = afterTwo.node (getLocalIndex 1 0 0) ∧
    (deleteBlock sB 1 0 1).2.node (getLocalIndex 1 0 0 + 1)
      = { afterTwo.node (getLocalIndex 1 0 1) with len := 0 } ∧
    (deleteBlock sB 1 0 1).2.m_datafile = afterTwo.m_datafile ∧
    (deleteBlock sB 1 0 1).2.m_buffer = (fun _ => 0) ∧
    (deleteBlock sB 1 0 1).2.m_node = some (fun _ => INVALID_HANDLE) ∧
    (deleteBlock sB 1 0 1).2.m_cacheMode = CacheMode.CM_CACHE := by
  obtain ⟨b1, b2, -, b4, b5, -, -, -, -, b10⟩ := Init_fields afterTwo sB 1 (fun _ => 0) hB
  obtain ⟨d1, d2, d3, d4, d5⟩ := deleteBlock_fields sB 1 0 1 (by decide!)
  have e01 : getLocalIndex 1 0 1 = getLocalIndex 1 0 0 + 1 := by decide!
  refine ⟨?_, ?_, d2.trans b2, d3.trans b10, d4.trans b4, d5.trans b5⟩
  · rw [d1, b1]
    simp only [setAt]
    rw [if_neg (by decide!)]
  · rw [d1, b1, ← e01]
    simp only [setAt, if_true]

theorem runCalls_append (crc : List Int → Int) (l1 l2 : List Call) :
    ∀ s, runCalls crc (l1 ++ l2) s =
      match runCalls crc l1 s with
      | none => none
      | some t => runCalls crc l2 t := by
  induction l1 with
  | nil => intro s; rfl
  | cons c rest ih =>
    intro s
    simp only [List.cons_append, runCalls]
    cases applyCall crc s c with
    | none => rfl
    | some s1 => exact ih s1

theorem Init_afterTwo : ∃ sB, Init afterTwo 1 CacheMode.CM_CACHE (fun _ => 0) = some sB := by
  unfold Init
  rw [if_neg (by decide!)]
  exact ⟨_, rfl⟩

/-- C18 (failing input): "hello" is saved at `(1,0,0)` and "world" at `(1,0,1)` on a
fresh CACHE-mode partition, the partition is initialised again (restart), and
`(1,0,1)` is deleted. The following `loadBlock(1,0,0)` misses the cache, reads both
records into the I/O buffer and, in the prefetch of slot `(1,0,1)` whose `len` is 0,
takes a payload of `(uint32_t)(0 - 24)` bytes from the buffer: the call does not
complete. -/
theorem loadBlock_after_restart_and_delete_is_undefined :
    ∃ sC, runCalls demoCrc [Call.save 1 0 0 helloBytes true 0,
        Call.save 1 0 1 worldBytes true 0, Call.init 1 CacheMode.CM_CACHE (fun _ => 0),
        Call.delete 1 0 1] freshCache = some sC ∧
      sC.m_cacheMode = CacheMode.CM_CACHE ∧
      (sC.node (getLocalIndex 1 0 0 + 1)).len = 0 ∧
      loadBlock demoCrc sC 1 0 0 = none ∧
      runCalls demoCrc [Call.save 1 0 0 helloBytes true 0,
        Call.save 1 0 1 worldBytes true 0, Call.init 1 CacheMode.CM_CACHE (fun _ => 0),
        Call.delete 1 0 1, Call.load 1 0 0] freshCache = none := by
  obtain ⟨sB, hB⟩ := Init_afterTwo
  obtain ⟨f1, f2, f3, f4, f5, f6⟩ := restart_delete_fields sB hB
  have hload := loadBlock_afterTwo_restarted _ f1 f2 f3 f4 f5
  have hrun : runCalls demoCrc [Call.save 1 0 0 helloBytes true 0,
      Call.save 1 0 1 worldBytes true 0, Call.init 1 CacheMode.CM_CACHE (fun _ => 0),
      Call.delete 1 0 1] freshCache = some (deleteBlock sB 1 0 1).2 := by
    simp only [runCalls, applyCall, saveBlock_afterS2, saveBlock_afterTwo, hB]
  refine ⟨(deleteBlock sB 1 0 1).2, hrun, f6, ?_, hload, ?_⟩
  · rw [f2]
  · have hl := runCalls_append demoCrc [Call.save 1 0 0 helloBytes true 0,
      Call.save 1 0 1 worldBytes true 0, Call.init 1 CacheMode.CM_CACHE (fun _ => 0),
      Call.delete 1 0 1] [Call.load 1 0 0] freshCache
    rw [hrun] at hl
    rw [List.cons_append, List.cons_append, List.cons_append, List.cons_append,
      List.nil_append] at hl
    rw [hl]
    show runCalls demoCrc [Call.load 1 0 0] (deleteBlock sB 1 0 1).2 = none
    simp only [runCalls, applyCall, hload]

/-! ## Extent positions -/

theorem getPos_setPos_below_2GiB (n : KeyNode) (p : Int) (h0 : 0 ≤ p) (h1 : p < 2147483648)
    (ha : p % 1024 = 0) : (n.setPos p).getPos = p := by
  simp only [KeyNode.setPos, KeyNode.getPos, toInt32, cdiv, if_pos h0]
  omega

/-- C27 (failing input): the byte offset `p = 2^31` (2 GiB) is 1 KiB aligned and its
KiB number `2^21` fits the 32-bit `pos` field, but `setPos(p)` followed by `getPos()`
returns `-2^31`: `getPos` multiplies `pos * 1024` in `int` before widening to
`int64_t`. -/
theorem getPos_setPos_wraps_at_2GiB (n : KeyNode) :
    (2147483648 : Int) % 1024 = 0 ∧ 0 ≤ (2147483648 : Int) / 1024 ∧
    (2147483648 : Int) / 1024 < 2 ^ 31 ∧
    (n.setPos 2147483648).pos = 2097152 ∧
    (n.setPos 2147483648).getPos = -2147483648 ∧
    (n.setPos 2147483648).getPos ≠ 2147483648 := by
  have e : (n.setPos 2147483648).getPos = -2147483648 := by
    simp only [KeyNode.setPos, KeyNode.getPos, toInt32, cdiv]
    decide
  refine ⟨by decide, by decide, by decide, ?_, e, ?_⟩
  · simp only [KeyNode.setPos, toInt32, cdiv]
    decide
  · rw [e]
    decide

/-! ## Prefetch of a slot that is already cached -/

theorem slotHandle_some (s : MyfilePartition) (i : Int) (h : slotHandle s i ≠ INVALID_HANDLE) :
    ∃ nd, s.m_node = some nd ∧ nd i = slotHandle s i := by
  unfold slotHandle at *
  cases hn : s.m_node with
  | none => rw [hn] at h; exact absurd rfl h
  | some nd => exact ⟨nd, rfl, rfl⟩

theorem stateOfPair_eq {σ : Type} (o : Option (Bool × σ)) (d : σ)
    (h : o.map (fun r => r.1) = some true) : o = some (true, stateOfPair o d) := by
  cases o with
  | none => cases h
  | some r =>
    obtain ⟨r1, t⟩ := r
    simp only [Option.map_some', Option.some.injEq] at h
    rw [h]
    rfl

theorem stateOfTriple_eq {σ : Type} (o : Option (List Int × Bool × σ)) (d : σ) (x : List Int)
    (b : Bool) (h : o.map (fun r => (r.1, r.2.1)) = some (x, b)) :
    o = some (x, b, stateOfTriple o d) := by
  cases o with
  | none => cases h
  | some r =>
    obtain ⟨r1, r2, t⟩ := r
    simp only [Option.map_some', Option.some.injEq, Prod.mk.injEq] at h
    rw [h.1, h.2]
    rfl

theorem option_triple_exists {α : Type} (o : Option (List Int × Bool × α)) (d : List Int)
    (b : Bool) (h : o.map (fun r => (r.1, r.2.1)) = some (d, b)) : ∃ t, o = some (d, b, t) := by
  cases o with
  | none => cases h
  | some r =>
    obtain ⟨r1, r2, t⟩ := r
    simp only [Option.map_some', Option.some.injEq, Prod.mk.injEq] at h
    exact ⟨t, by rw [h.1, h.2]⟩

theorem afterS4_facts :
    (saveBlock demoCrc afterS2 1 0 0 aPayload true 0).map (fun r => r.1) = some true ∧
    ROUND (byteLen aPayload + 24) 1024 = 2048 ∧
    byteLen afterS2.m_datafile = 1024 ∧ byteLen afterS4.m_datafile = 3072 ∧
    (loadBlock demoCrc afterS4 1 0 0).map (fun r => (r.1, r.2.1)) = some (aPayload, true) := by
  decide!

theorem saveBlock_afterS4 :
    saveBlock demoCrc afterS2 1 0 0 aPayload true 0 = some (true, afterS4) :=
  stateOfPair_eq _ afterS2 afterS4_facts.1

/-- C22 (amended): scenario S4. On the fresh CACHE-mode partition, after
`save(1,0,0,"hello",true)` the data file is 1024 bytes long; the call
`save(1,0,0, 2000 × 'a', true)` is accepted, appends a new extent of
`ROUND(2000 + 24, 1024) = 2048` bytes, so that the data file grows by exactly 2048
bytes (to 3072 bytes in total), and a following `load(1,0,0)` returns the 2000-byte
payload. -/
theorem saveBlock_grow_appends_2048 :
    saveBlock demoCrc freshCache 1 0 0 helloBytes true 0 = some (true, afterS2) ∧
    saveBlock demoCrc afterS2 1 0 0 aPayload true 0 = some (true, afterS4) ∧
    ROUND (byteLen aPayload + 24) 1024 = 2048 ∧
    byteLen afterS4.m_datafile = byteLen afterS2.m_datafile + 2048 ∧
    byteLen afterS4.m_datafile = 3072 ∧
    ∃ t, loadBlock demoCrc afterS4 1 0 0 = some (aPayload, true, t) := by
  obtain ⟨-, h2, h3, h4, h5⟩ := afterS4_facts
  refine ⟨saveBlock_afterS2, saveBlock_afterS4, h2, ?_, h4, option_triple_exists _ _ _ h5⟩
  rw [h3, h4]
  rfl

/-- Counterexample to C22: in scenario S4 the accepted save of 2000 bytes `'a'` does
not make the data file grow by 3072 bytes: no result of the call has a data file
3072 bytes longer than before (3072 is the length of the file after the call). -/
theorem saveBlock_grow_not_3072 :
    ¬ ∃ s1, saveBlock demoCrc afterS2 1 0 0 aPayload true 0 = some (true, s1) ∧
      byteLen s1.m_datafile = byteLen afterS2.m_datafile + 3072 := by
  rintro ⟨s1, h1, h2⟩
  rw [saveBlock_afterS4] at h1
  simp only [Option.some.injEq, Prod.mk.injEq, true_and] at h1
  rw [← h1, afterS4_facts.2.2.1, afterS4_facts.2.2.2.1] at h2
  exact absurd h2 (by decide)

/-! ## The out-parameter of the engine's direct load -/

theorem afterDirectSave_facts :
    (Database_Myfile.directSaveBlock demoCrc demoEngine (getBlockAsInteger 1 0 0) helloBytes
      true 0).map (fun r => r.1) = some true ∧
    ((afterDirectSave.m_stmt 1).node (getLocalIndex 1 0 0)).flag0 = 1 ∧
    (Database_Myfile.directLoadBlock demoCrc afterDirectSave (getBlockAsInteger 1 0 0)).map
      (fun r => (r.1, r.2.1)) = some (helloBytes, true) ∧
    (directLoadBlock demoCrc (afterDirectSave.m_stmt 1) 1 0 0).map
      (fun r => (r.1, r.2.1)) = some (helloBytes, false) ∧
    (Database_Myfile.directLoadBlock demoCrc afterDirectSave (getBlockAsInteger 1 0 1)).map
      (fun r => (r.1, r.2.1)) = some ([], true) := by
  decide!

/-- C29 (failing input): on a newly constructed engine,
`__directSaveBlock(encode(1,0,0), "hello", changed = true)` leaves `flag[0] = 1` in
the slot. `Database_Myfile::__directLoadBlock(encode(1,0,0), changed)` then returns
"hello" with `changed = true`, the cache-hit flag of `MyfilePartition::loadBlock`,
where `flag[0] == 0` is false; `MyfilePartition::__directLoadBlock`, which the engine
does not call, returns `changed = false` on the same partition. For the position
`encode(1,0,1)` that was never saved the engine returns the empty string with
`changed = true`. -/
theorem directLoadBlock_returns_cache_hit_flag :
    Database_Myfile.directSaveBlock demoCrc demoEngine (getBlockAsInteger 1 0 0) helloBytes
      true 0 = some (true, afterDirectSave) ∧
    ((afterDirectSave.m_stmt 1).node (getLocalIndex 1 0 0)).flag0 = 1 ∧
    (∃ e2, Database_Myfile.directLoadBlock demoCrc afterDirectSave (getBlockAsInteger 1 0 0)
      = some (helloBytes, true, e2)) ∧
    (∃ t, directLoadBlock demoCrc (afterDirectSave.m_stmt 1) 1 0 0
      = some (helloBytes, false, t)) ∧
    (∃ e3, Database_Myfile.directLoadBlock demoCrc afterDirectSave (getBlockAsInteger 1 0 1)
      = some ([], true, e3)) := by
  obtain ⟨h1, h2, h3, h4, h5⟩ := afterDirectSave_facts
  exact ⟨stateOfPair_eq _ demoEngine h1, h2, option_triple_exists _ _ _ h3,
    option_triple_exists _ _ _ h4, option_triple_exists _ _ _ h5⟩

/-! ## The slab allocator under `alloc()` and `free(h)` -/

theorem SlabInv_new : SlabInv CacheValueAllocator.new := by
  refine ⟨⟨le_refl _, by rw [MAX_CACHE_eq]; decide⟩, ?_, ?_, ?_, ?_⟩
  · intro h v hv
    cases hv
  · intro p hp
    cases hp
  · exact List.nodup_nil
  · intro h h0 h1
    exact absurd h1 (not_lt.mpr h0)

theorem SlabInv_free (a : CacheValueAllocator) (h : Int) (hinv : SlabInv a) :
    SlabInv (a.free h) := by
  unfold CacheValueAllocator.free
  by_cases h1 : h ≥ MAX_CACHE
  · rw [if_pos h1]
    exact hinv
  · rw [if_neg h1]
    cases hv : a.m_alloced h with
    | none => exact hinv
    | some v =>
      obtain ⟨i1, i2, i3, i4, i5⟩ := hinv
      have hb := i2 h v hv
      have hnot : h ∉ a.m_freelist.map Prod.fst := by
        intro hm
        obtain ⟨p, hp, e⟩ := List.mem_map.mp hm
        have := (i3 p hp).2.2.1
        rw [e, hv] at this
        cases this
      refine ⟨i1, ?_, ?_, ?_, ?_⟩
      · intro h2 v2 hv2
        simp only [setAt] at hv2
        by_cases e : h2 = h
        · rw [if_pos e] at hv2
          cases hv2
        · rw [if_neg e] at hv2
          exact i2 h2 v2 hv2
      · intro p hp
        simp only [List.mem_append, List.mem_singleton] at hp
        rcases hp with hp | hp
        · have := i3 p hp
          have e : p.1 ≠ h := by
            intro e
            have h3 := this.2.2.1
            rw [e, hv] at h3
            cases h3
          refine ⟨this.1, this.2.1, ?_, this.2.2.2⟩
          simp only [setAt]
          rw [if_neg e]
          exact this.2.2.1
        · rw [hp]
          refine ⟨hb.1, hb.2.1, ?_, hb.2.2⟩
          simp only [setAt, if_true]
      · simp only [List.map_append, List.map_cons, List.map_nil]
        rw [List.nodup_append]
        refine ⟨i4, List.nodup_singleton _, ?_⟩
        intro x hx hx2
        rw [List.mem_singleton] at hx2
        rw [hx2] at hx
        exact hnot hx
      · intro h2 h20 h21
        simp only [List.map_append, List.map_cons, List.map_nil, List.mem_append,
          List.mem_singleton, setAt]
        by_cases e : h2 = h
        · right
          right
          exact e
        · rw [if_neg e]
          rcases i5 h2 h20 h21 with h5 | h5
          · left
            exact h5
          · right
            left
            exact h5

theorem alloc_cases (a : CacheValueAllocator) (hinv : SlabInv a) :
    (a.m_freelist = [] ∧ a.m_initHandle = MAX_CACHE ∧ a.alloc = (INVALID_HANDLE, a)) ∨
    (∃ v, 0 ≤ a.alloc.1 ∧ a.alloc.1 < MAX_CACHE ∧ a.m_alloced a.alloc.1 = none ∧
      a.alloc.2.m_alloced = setAt a.m_alloced a.alloc.1 (some v) ∧ v = CacheValue.new ∧
      ((∃ rest, a.m_freelist = (a.alloc.1, v) :: rest ∧ a.alloc.2.m_freelist = rest ∧
          a.alloc.2.m_initHandle = a.m_initHandle) ∨
        (a.m_freelist = [] ∧ a.alloc.1 = a.m_initHandle ∧ a.alloc.2.m_freelist = [] ∧
          a.alloc.2.m_initHandle = a.m_initHandle + 1))) := by
  obtain ⟨i1, i2, i3, i4, i5⟩ := hinv
  cases hf : a.m_freelist with
  | nil =>
    by_cases h1 : a.m_initHandle < MAX_CACHE
    · right
      have hn : a.m_alloced a.m_initHandle = none := by
        cases hv : a.m_alloced a.m_initHandle with
        | none => rfl
        | some v => exact absurd (i2 _ v hv).2.1 (lt_irrefl _)
      have hM := MAX_CACHE_eq
      have hu : toUInt32 (a.m_initHandle + 1) = a.m_initHandle + 1 := by
        simp only [toUInt32]
        omega
      have he : a.alloc = (a.m_initHandle,
          { a with m_initHandle := a.m_initHandle + 1,
                   m_alloced := setAt a.m_alloced a.m_initHandle (some CacheValue.new) }) := by
        unfold CacheValueAllocator.alloc
        rw [hf]
        simp only [if_pos h1, hn, Option.isSome_none, Bool.false_eq_true, if_false, hu]
      rw [he]
      exact ⟨CacheValue.new, i1.1, h1, hn, rfl, rfl, Or.inr ⟨rfl, rfl, hf, rfl⟩⟩
    · left
      refine ⟨rfl, le_antisymm i1.2 (not_lt.mp h1), ?_⟩
      unfold CacheValueAllocator.alloc
      rw [hf]
      simp only [if_neg h1]
  | cons p rest =>
    obtain ⟨h, v⟩ := p
    right
    have hp := i3 (h, v) (by rw [hf]; exact List.mem_cons_self _ _)
    have hn : a.m_alloced h = none := hp.2.2.1
    have he : a.alloc = (h,
        { a with m_freelist := rest, m_alloced := setAt a.m_alloced h (some v) }) := by
      unfold CacheValueAllocator.alloc
      rw [hf]
      simp only [hn, Option.isSome_none, Bool.false_eq_true, if_false]
    rw [he]
    exact ⟨v, hp.1, lt_of_lt_of_le hp.2.1 i1.2, hn, rfl, hp.2.2.2, Or.inl ⟨rest, rfl, rfl, rfl⟩⟩

theorem SlabInv_alloc (a : CacheValueAllocator) (hinv : SlabInv a) : SlabInv a.alloc.2 := by
  rcases alloc_cases a hinv with ⟨-, -, h3⟩ | ⟨v, h0, h1, hn, ha, hv, hc⟩
  · rw [h3]
    exact hinv
  · obtain ⟨i1, i2, i3, i4, i5⟩ := hinv
    rcases hc with ⟨rest, hf, hf2, hi⟩ | ⟨hf, hh, hf2, hi⟩
    · have hp := i3 (a.alloc.1, v) (by rw [hf]; exact List.mem_cons_self _ _)
      rw [hf, List.map_cons, List.nodup_cons] at i4
      refine ⟨by rw [hi]; exact i1, ?_, ?_, ?_, ?_⟩
      · intro h2 v2 hv2
        rw [ha] at hv2
        rw [hi]
        simp only [setAt] at hv2
        by_cases e : h2 = a.alloc.1
        · rw [if_pos e] at hv2
          rw [e]
          exact ⟨hp.1, hp.2.1, by rw [← Option.some.inj hv2]; exact hv⟩
        · rw [if_neg e] at hv2
          exact i2 h2 v2 hv2
      · intro p hp2
        rw [hf2] at hp2
        have hp3 := i3 p (by rw [hf]; exact List.mem_cons_of_mem _ hp2)
        have e : p.1 ≠ a.alloc.1 := by
          intro e
          apply i4.1
          rw [← e]
          exact List.mem_map_of_mem _ hp2
        rw [hi, ha]
        refine ⟨hp3.1, hp3.2.1, ?_, hp3.2.2.2⟩
        simp only [setAt]
        rw [if_neg e]
        exact hp3.2.2.1
      · rw [hf2]
        exact i4.2
      · intro h2 h20 h21
        rw [hi] at h21
        rw [ha, hf2]
        simp only [setAt]
        by_cases e : h2 = a.alloc.1
        · left
          rw [if_pos e]
          exact fun hh => by cases hh
        · rw [if_neg e]
          rcases i5 h2 h20 h21 with h5 | h5
          · left
            exact h5
          · right
            rw [hf, List.map_cons, List.mem_cons] at h5
            rcases h5 with h5 | h5
            · exact absurd h5 e
            · exact h5
    · have hM := MAX_CACHE_eq
      refine ⟨by rw [hi]; omega, ?_, ?_, ?_, ?_⟩
      · intro h2 v2 hv2
        rw [ha] at hv2
        rw [hi]
        simp only [setAt] at hv2
        by_cases e : h2 = a.alloc.1
        · rw [if_pos e] at hv2
          rw [e]
          exact ⟨h0, by omega, by rw [← Option.some.inj hv2]; exact hv⟩
        · rw [if_neg e] at hv2
          have := i2 h2 v2 hv2
          exact ⟨this.1, by omega, this.2.2⟩
      · intro p hp2
        rw [hf2] at hp2
        cases hp2
      · rw [hf2]
        exact List.nodup_nil
      · intro h2 h20 h21
        rw [hi] at h21
        rw [ha]
        left
        simp only [setAt]
        by_cases e : h2 = a.alloc.1
        · rw [if_pos e]
          exact fun hh => by cases hh
        · rw [if_neg e]
          rcases i5 h2 h20 (by omega) with h5 | h5
          · exact h5
          · rw [hf] at h5
            cases h5

theorem SlabInv_runSlab (calls : List SlabCall) :
    ∀ a, SlabInv a → SlabInv (runSlab calls a) := by
  induction calls with
  | nil => intro a h; exact h
  | cons c rest ih =>
    intro a h
    cases c with
    | alloc => exact ih _ (SlabInv_alloc a h)
    | free h2 => exact ih _ (SlabInv_free a h2 h)

theorem liveHandles_full_iff (a : CacheValueAllocator) :
    liveHandles a = MAX_CACHE.toNat ↔
      ∀ h : Int, 0 ≤ h → h < MAX_CACHE → (a.getValue h).isSome = true := by
  have hM := MAX_CACHE_eq
  unfold liveHandles
  constructor
  · intro hl h h0 h1
    have hl2 : ((List.range MAX_CACHE.toNat).filter
        (fun h => (a.getValue (Int.ofNat h)).isSome)).length
        = (List.range MAX_CACHE.toNat).length := by
      rw [hl, List.length_range]
    rw [List.filter_length_eq_length] at hl2
    have := hl2 h.toNat (by rw [List.mem_range]; omega)
    simp only [Int.ofNat_eq_coe, Int.toNat_of_nonneg h0] at this
    exact this
  · intro hall
    have : ((List.range MAX_CACHE.toNat).filter
        (fun h => (a.getValue (Int.ofNat h)).isSome)).length
        = (List.range MAX_CACHE.toNat).length := by
      rw [List.filter_length_eq_length]
      intro k hk
      rw [List.mem_range] at hk
      exact hall (Int.ofNat k) (Int.ofNat_nonneg k) (by simp only [Int.ofNat_eq_coe]; omega)
    rw [this, List.length_range]

/-- C21: for the allocator `a` reached from a new `CacheValueAllocator` by any
sequence of `alloc()`/`free(h)` calls, `alloc()` returns `INVALID_HANDLE` exactly
when `MAX_CACHE` handles are live; otherwise it returns a handle `h < MAX_CACHE`
that was not live before the call, is live afterwards, differs from every handle
that was live, and the call leaves every other handle as it was. -/
theorem alloc_returns_fresh_handle (calls : List SlabCall) (a : CacheValueAllocator)
    (ha : runSlab calls CacheValueAllocator.new = a) :
    (a.alloc.1 = INVALID_HANDLE ↔ liveHandles a = MAX_CACHE.toNat) ∧
    (a.alloc.1 ≠ INVALID_HANDLE →
      0 ≤ a.alloc.1 ∧ a.alloc.1 < MAX_CACHE ∧ a.getValue a.alloc.1 = none ∧
      (a.alloc.2.getValue a.alloc.1).isSome = true ∧
      (∀ h, (a.getValue h).isSome = true → h ≠ a.alloc.1) ∧
      ∀ h, h ≠ a.alloc.1 → a.alloc.2.getValue h = a.getValue h) := by
  have hinv : SlabInv a := by
    rw [← ha]
    exact SlabInv_runSlab calls _ SlabInv_new
  have hI := INVALID_HANDLE_ge
  have hgv : ∀ h, 0 ≤ h → h < MAX_CACHE → a.getValue h = a.m_alloced h := by
    intro h _ h1
    unfold CacheValueAllocator.getValue
    rw [if_neg (not_le.mpr h1)]
  rcases alloc_cases a hinv with ⟨h1, h2, h3⟩ | ⟨v, h0, h1, hn, hal, hv, hc⟩
  · have e1 : a.alloc.1 = INVALID_HANDLE := by rw [h3]
    refine ⟨⟨fun _ => ?_, fun _ => e1⟩, fun hne => absurd e1 hne⟩
    rw [liveHandles_full_iff]
    intro h h0 hlt
    rw [hgv h h0 hlt]
    rcases hinv.2.2.2.2 h h0 (by rw [h2]; exact hlt) with h5 | h5
    · cases hm : a.m_alloced h with
      | none => exact absurd hm h5
      | some v => rfl
    · rw [h1] at h5
      cases h5
  · have hne : a.alloc.1 ≠ INVALID_HANDLE := by omega
    have hg0 : a.getValue a.alloc.1 = none := by rw [hgv _ h0 h1, hn]
    refine ⟨⟨fun e => absurd e hne, fun hl => ?_⟩, fun _ => ⟨h0, h1, hg0, ?_, ?_, ?_⟩⟩
    · rw [liveHandles_full_iff] at hl
      have := hl a.alloc.1 h0 h1
      rw [hg0] at this
      cases this
    · unfold CacheValueAllocator.getValue
      rw [if_neg (not_le.mpr h1), hal, setAt_same]
      rfl
    · intro h hs e
      rw [e, hg0] at hs
      cases hs
    · intro h e
      unfold CacheValueAllocator.getValue
      by_cases hge : h ≥ MAX_CACHE
      · rw [if_pos hge, if_pos hge]
      · rw [if_neg hge, if_neg hge, hal]
        simp only [setAt]
        rw [if_neg e]

/-- Witness for C21: the allocator after `alloc()`, `alloc()`, `free(0)`. -/
theorem alloc_returns_fresh_handle_witness :
    (demoSlab.alloc.1 = INVALID_HANDLE ↔ liveHandles demoSlab = MAX_CACHE.toNat) ∧
    (demoSlab.alloc.1 ≠ INVALID_HANDLE →
      0 ≤ demoSlab.alloc.1 ∧ demoSlab.alloc.1 < MAX_CACHE ∧
      demoSlab.getValue demoSlab.alloc.1 = none ∧
      (demoSlab.alloc.2.getValue demoSlab.alloc.1).isSome = true ∧
      (∀ h, (demoSlab.getValue h).isSome = true → h ≠ demoSlab.alloc.1) ∧
      ∀ h, h ≠ demoSlab.alloc.1 → demoSlab.alloc.2.getValue h = demoSlab.getValue h) :=
  alloc_returns_fresh_handle [SlabCall.alloc, SlabCall.alloc, SlabCall.free 0] demoSlab rfl

/-! ## Recycling of freed handles -/

theorem allocN_freelist (n : Nat) : ∀ a : CacheValueAllocator, SlabInv a →
    a.m_freelist.length = n →
    (allocN n a).1 = a.m_freelist.map Prod.fst ∧
    (allocN n a).2.m_initHandle = a.m_initHandle ∧ (allocN n a).2.m_freelist = [] := by
  induction n with
  | zero =>
    intro a _ hl
    have : a.m_freelist = [] := List.length_eq_zero.mp hl
    simp only [allocN, this, List.map_nil, and_self]
  | succ n ih =>
    intro a hinv hl
    rcases alloc_cases a hinv with ⟨h1, -, -⟩ | ⟨v, -, -, -, -, -, hc⟩
    · rw [h1] at hl
      cases hl
    · rcases hc with ⟨rest, hf, hf2, hi⟩ | ⟨hf, -, -, -⟩
      · have hl2 : a.alloc.2.m_freelist.length = n := by
          rw [hf2]
          rw [hf, List.length_cons] at hl
          omega
        obtain ⟨j1, j2, j3⟩ := ih a.alloc.2 (SlabInv_alloc a hinv) hl2
        simp only [allocN]
        refine ⟨?_, by rw [j2, hi], j3⟩
        rw [j1, hf2]
        conv_rhs => rw [hf]
        rfl
      · rw [hf] at hl
        cases hl

/-- C28: for the allocator `a` reached from a new `CacheValueAllocator` by any
sequence of `alloc()`/`free(h)` calls: `free(h)` on a live handle whose value has
refcount 0 makes `getValue(h)` null and appends `h` (with its value) to the free
list, leaving the watermark and every other handle alone; the next
`|free list|` calls of `alloc()` return the handles of the free list in the order
of the list, the oldest free first, without moving the watermark, and only an
`alloc()` on an empty free list takes the watermark as the new handle; `free(h)`
leaves the allocator as it is when `h >= MAX_CACHE` (`INVALID_HANDLE` included) or
`h` is not live; `getValue(h)` is null for every `h >= MAX_CACHE`. -/
theorem free_recycles_in_order (calls : List SlabCall) (a : CacheValueAllocator)
    (ha : runSlab calls CacheValueAllocator.new = a) :
    (∀ h v, a.getValue h = some v → v.refcount = 0 →
      (a.free h).getValue h = none ∧ (a.free h).m_freelist = a.m_freelist ++ [(h, v)] ∧
      (a.free h).m_initHandle = a.m_initHandle ∧
      ∀ h2, h2 ≠ h → (a.free h).getValue h2 = a.getValue h2) ∧
    ((allocN a.m_freelist.length a).1 = a.m_freelist.map Prod.fst ∧
      (allocN a.m_freelist.length a).2.m_initHandle = a.m_initHandle ∧
      (allocN a.m_freelist.length a).2.m_freelist = []) ∧
    (a.m_freelist = [] → a.m_initHandle < MAX_CACHE →
      a.alloc.1 = a.m_initHandle ∧ a.alloc.2.m_initHandle = a.m_initHandle + 1) ∧
    (∀ h, (h ≥ MAX_CACHE ∨ a.getValue h = none) → a.free h = a) ∧
    (∀ h, h ≥ MAX_CACHE → a.getValue h = none) ∧ INVALID_HANDLE ≥ MAX_CACHE := by
  have hinv : SlabInv a := by
    rw [← ha]
    exact SlabInv_runSlab calls _ SlabInv_new
  refine ⟨?_, allocN_freelist _ a hinv rfl, ?_, ?_, ?_, INVALID_HANDLE_ge⟩
  · intro h v hv _
    unfold CacheValueAllocator.getValue at hv
    by_cases hge : h ≥ MAX_CACHE
    · rw [if_pos hge] at hv
      cases hv
    · rw [if_neg hge] at hv
      have hf : a.free h = ⟨a.m_initHandle, setAt a.m_alloced h none,
          a.m_freelist ++ [(h, v)]⟩ := by
        unfold CacheValueAllocator.free
        rw [if_neg hge, hv]
      rw [hf]
      refine ⟨?_, rfl, rfl, ?_⟩
      · unfold CacheValueAllocator.getValue
        rw [if_neg hge]
        exact setAt_same _ _ _
      · intro h2 e
        unfold CacheValueAllocator.getValue
        by_cases hge2 : h2 ≥ MAX_CACHE
        · rw [if_pos hge2, if_pos hge2]
        · rw [if_neg hge2, if_neg hge2]
          simp only [setAt]
          rw [if_neg e]
  · intro hf hlt
    rcases alloc_cases a hinv with ⟨-, h2, -⟩ | ⟨v, -, -, -, -, -, hc⟩
    · rw [h2] at hlt
      exact absurd hlt (lt_irrefl _)
    · rcases hc with ⟨rest, hf2, -, -⟩ | ⟨-, h1, -, h2⟩
      · rw [hf] at hf2
        cases hf2
      · exact ⟨h1, h2⟩
  · intro h hc
    unfold CacheValueAllocator.free
    by_cases hge : h ≥ MAX_CACHE
    · rw [if_pos hge]
    · rw [if_neg hge]
      rcases hc with hc | hc
      · exact absurd hc hge
      · unfold CacheValueAllocator.getValue at hc
        rw [if_neg hge] at hc
        rw [hc]
  · intro h hge
    unfold CacheValueAllocator.getValue
    rw [if_pos hge]

/-- Witness for C28: the allocator after `alloc()`, `alloc()`, `free(0)`. -/
theorem free_recycles_in_order_witness :
    (∀ h v, demoSlab.getValue h = some v → v.refcount = 0 →
      (demoSlab.free h).getValue h = none ∧
      (demoSlab.free h).m_freelist = demoSlab.m_freelist ++ [(h, v)] ∧
      (demoSlab.free h).m_initHandle = demoSlab.m_initHandle ∧
      ∀ h2, h2 ≠ h → (demoSlab.free h).getValue h2 = demoSlab.getValue h2) ∧
    ((allocN demoSlab.m_freelist.length demoSlab).1 = demoSlab.m_freelist.map Prod.fst ∧
      (allocN demoSlab.m_freelist.length demoSlab).2.m_initHandle = demoSlab.m_initHandle ∧
      (allocN demoSlab.m_freelist.length demoSlab).2.m_freelist = []) ∧
    (demoSlab.m_freelist = [] → demoSlab.m_initHandle < MAX_CACHE →
      demoSlab.alloc.1 = demoSlab.m_initHandle ∧
      demoSlab.alloc.2.m_initHandle = demoSlab.m_initHandle + 1) ∧
    (∀ h, (h ≥ MAX_CACHE ∨ demoSlab.getValue h = none) → demoSlab.free h = demoSlab) ∧
    (∀ h, h ≥ MAX_CACHE → demoSlab.getValue h = none) ∧ INVALID_HANDLE ≥ MAX_CACHE :=
  free_recycles_in_order [SlabCall.alloc, SlabCall.alloc, SlabCall.free 0] demoSlab rfl

/-! ## Validation of a record after a failed read -/

/-- C24 (failing input, general form): a negative `readBytes` passes the test
`readBytes < sizeof(NodeHeader)`, which compares as unsigned. When the slot's
`capacity` is at most `readBytes`, the record in `m_buffer` is accepted: the outer
`ProcessReadBuffer(readBytes, 0, idx)` calls `cacheBlock` and returns the payload,
not "ERROR". -/
theorem ProcessReadBuffer_accepts_negative_readBytes (crc : List Int → Int) (fuel : Nat)
    (s : MyfilePartition) (rb idx : Int) (rest d : List Int)
    (hrb : -2147483648 ≤ rb ∧ rb < 0)
    (hbuf : BufHas s.m_buffer 0
      (le32 24 ++ le32 (crcOf crc d) ++ le32 (toUInt32 idx) ++ rest ++ d))
    (hrest : rest.length = 12) (hidx : 0 ≤ idx ∧ idx < MAX_NODE)
    (hlen : (s.node idx).len = byteLen d + 24) (hd : byteLen d + 24 ≤ 65535)
    (hcap : (s.node idx).capacity ≤ rb) (hnext : rb - (s.node idx).capacity < 24)
    (hev : evictCond s = false) :
    ∃ q, cacheBlock s idx d true false = some q ∧
      ProcessReadBuffer crc (fuel + 2) s rb 0 idx = some (d, q.2) := by
  obtain ⟨q, hq⟩ := cacheBlock_defined s idx d true false hev
  refine ⟨q, hq, ?_⟩
  rw [ProcessReadBuffer_outer crc (fuel + 1) s rb idx (crcOf crc d) rest d hbuf hrest
    (by simp only [toUInt64]; omega) hidx hlen (not_lt.mpr hcap) hd (crcOf_range crc d)]
  rw [if_neg (fun h => h rfl), hq]
  simp only
  rw [ProcessReadBuffer_short crc fuel q.2 _ _ _ (by simp only [toInt32, toUInt64]; omega)]

/-- Witness for C24 (failing input): `ProcessReadBuffer(-1, 0, idx)` on the state whose
slot `(1,0,0)` has `capacity = -1` and whose buffer holds the record of "hello": the
slot is not cached before the call, the call inserts it and returns "hello". -/
theorem ProcessReadBuffer_accepts_negative_readBytes_witness :
    slotHandle negativeCapacityState (getLocalIndex 1 0 0) = INVALID_HANDLE ∧
    (negativeCapacityState.node (getLocalIndex 1 0 0)).capacity = -1 ∧
    ∃ q, cacheBlock negativeCapacityState (getLocalIndex 1 0 0) helloBytes true false = some q ∧
      slotHandle q.2 (getLocalIndex 1 0 0) ≠ INVALID_HANDLE ∧
      ProcessReadBuffer demoCrc (0 + 2) negativeCapacityState (-1) 0 (getLocalIndex 1 0 0)
        = some (helloBytes, q.2) := by
  obtain ⟨q, h1, h2⟩ := ProcessReadBuffer_accepts_negative_readBytes demoCrc 0
    negativeCapacityState (-1) (getLocalIndex 1 0 0) (hdrRest 0) helloBytes (by decide)
    (by unfold BufHas; decide!) (by decide!) (by decide!) (by decide!) (by decide!)
    (by decide!) (by decide!) (by decide!)
  refine ⟨by decide!, by decide!, q, h1, ?_, h2⟩
  have e : (cacheBlock negativeCapacityState (getLocalIndex 1 0 0) helloBytes true false).map
      (fun r => slotHandle r.2 (getLocalIndex 1 0 0)) = some 0 := by decide!
  rw [h1] at e
  simp only [Option.map_some', Option.some.injEq] at e
  rw [e]
  decide

/-- With a non-negative `readBytes`, the outer `ProcessReadBuffer(readBytes, 0, idx)`
answers "ERROR" and leaves the state as it is whenever one of the five tests fails. -/
theorem ProcessReadBuffer_rejects (crc : List Int → Int) (fuel : Nat) (s : MyfilePartition)
    (rb idx : Int) (hrb : 0 ≤ rb) (hidx : 0 ≤ idx ∧ idx < MAX_NODE)
    (hlen : 24 ≤ (s.node idx).len ∧ (s.node idx).len ≤ 32767)
    (h : rb < 24 ∨ rd32 s.m_buffer 0 ≠ 24 ∨ toUInt32 idx ≠ rd32 s.m_buffer 8 ∨
      rb < (s.node idx).capacity ∨
      rd32 s.m_buffer 4 ≠ crcOf crc
        (bufSlice s.m_buffer 24 (toUInt32 ((s.node idx).len - 24)).toNat)) :
    ProcessReadBuffer crc (fuel + 1) s rb 0 idx = some (ERROR, s) := by
  rw [ProcessReadBuffer]
  by_cases h1 : toUInt64 rb < sizeofNodeHeader
  · rw [if_pos h1]
  rw [if_neg h1, if_neg (by simp only [MAX_DATA_LENGTH]; omega)]
  by_cases h2 : rd32 s.m_buffer 0 ≠ sizeofNodeHeader
  · rw [if_pos h2]
  rw [if_neg h2, if_neg (by simp only [MAX_DATA_LENGTH]; omega)]
  by_cases h3 : toUInt32 idx ≠ rd32 s.m_buffer (0 + 8)
  · rw [if_pos h3]
  rw [if_neg h3, if_neg (by omega)]
  by_cases h4 : rb < (s.node idx).capacity
  · rw [if_pos h4]
  rw [if_neg h4]
  simp only [zero_add, sizeofNodeHeader] at h1 h2 h3 ⊢
  have h5 : rd32 s.m_buffer 4 ≠ crcOf crc
      (bufSlice s.m_buffer 24 (toUInt32 ((s.node idx).len - 24)).toNat) := by
    rcases h with h | h | h | h | h
    · exact absurd (show toUInt64 rb < 24 by simp only [toUInt64]; omega) h1
    · exact absurd h h2
    · exact absurd h h3
    · exact absurd h h4
    · exact h
  by_cases h6 : 24 + toUInt32 ((s.node idx).len - 24) > MAX_DATA_LENGTH
  · exfalso
    simp only [toUInt32, MAX_DATA_LENGTH] at h6
    omega
  · rw [if_neg h6, if_pos h5]

/-! ## Prefetch of a deleted neighbour without a cache -/

theorem appendDeleted_facts :
    (runCalls demoCrc [Call.save 1 0 0 helloBytes true 0, Call.save 1 0 1 worldBytes true 0,
      Call.delete 1 0 1] freshAppend).isSome = true ∧
    appendDeleted.m_cacheMode = CacheMode.CM_APPEND ∧
    (appendDeleted.node (getLocalIndex 1 0 0)).capacity = 1024 ∧
    (appendDeleted.node (getLocalIndex 1 0 0 + 1)).len = 0 ∧
    (appendDeleted.node (getLocalIndex 1 0 0 + 1)).capacity = 1024 ∧
    (fileRead appendDeleted.m_datafile (appendDeleted.node (getLocalIndex 1 0 0)).getPos
      (ROUND (appendDeleted.node (getLocalIndex 1 0 0)).capacity (4096 * 2))).1 = 2048 ∧
    toUInt32 ((appendDeleted.node (getLocalIndex 1 0 0 + 1)).len - sizeofNodeHeader)
      = 4294967272 ∧
    (ProcessReadBuffer demoCrc MAX_DATA_LENGTH.toNat
      (afterRead appendDeleted (getLocalIndex 1 0 0)) 1024 1024
      (getLocalIndex 1 0 0 + 1)).isNone = true ∧
    (loadBlock demoCrc appendDeleted 1 0 0).isNone = true := by
  decide!

/-- C25 (failing input): on a fresh `CM_APPEND` partition (every load reads the data
file), "hello" is saved at `(1,0,0)`, "world" at `(1,0,1)`, and `(1,0,1)` is deleted.
`loadBlock(1,0,0)` reads both extents (2048 bytes) into the I/O buffer; the nested
`ProcessReadBuffer(1024, 1024, idx + 1)` finds the header of the deleted record,
passes every test with `node[idx + 1].len = 0 < 24`, and takes a payload of
`(uint32_t)(0 - 24) = 4294967272` bytes from the 65535-byte buffer: neither the
nested call nor the load completes. -/
theorem prefetch_of_deleted_slot_is_undefined :
    runCalls demoCrc [Call.save 1 0 0 helloBytes true 0, Call.save 1 0 1 worldBytes true 0,
      Call.delete 1 0 1] freshAppend = some appendDeleted ∧
    appendDeleted.m_cacheMode = CacheMode.CM_APPEND ∧
    (appendDeleted.node (getLocalIndex 1 0 0)).capacity = 1024 ∧
    (appendDeleted.node (getLocalIndex 1 0 0 + 1)).len = 0 ∧
    (appendDeleted.node (getLocalIndex 1 0 0 + 1)).capacity = 1024 ∧
    (fileRead appendDeleted.m_datafile (appendDeleted.node (getLocalIndex 1 0 0)).getPos
      (ROUND (appendDeleted.node (getLocalIndex 1 0 0)).capacity (4096 * 2))).1 = 2048 ∧
    toUInt32 ((appendDeleted.node (getLocalIndex 1 0 0 + 1)).len - sizeofNodeHeader)
      = 4294967272 ∧
    ProcessReadBuffer demoCrc MAX_DATA_LENGTH.toNat
      (afterRead appendDeleted (getLocalIndex 1 0 0)) 1024 1024 (getLocalIndex 1 0 0 + 1)
      = none ∧
    loadBlock demoCrc appendDeleted 1 0 0 = none := by
  obtain ⟨h1, h2, h3, h4, h5, h6, h7, h8, h9⟩ := appendDeleted_facts
  exact ⟨option_eq_some_getD _ _ h1, h2, h3, h4, h5, h6, h7,
    Option.isNone_iff_eq_none.mp h8, Option.isNone_iff_eq_none.mp h9⟩

/-! ## Which slots hold a handle -/

theorem AllocCacheIndex_m_node (s : MyfilePartition) : (AllocCacheIndex s).2.m_node = s.m_node := by
  unfold AllocCacheIndex
  split_ifs
  · cases s.m_prereadCacheFIFO <;> rfl
  · cases s.m_accessCacheFIFO <;> rfl

theorem slotHandle_congr (s t : MyfilePartition) (h : t.m_node = s.m_node) (k : Int) :
    slotHandle t k = slotHandle s k := by
  unfold slotHandle
  rw [h]

theorem CHECK_DELETE_slots (s t : MyfilePartition) (i : Int) (h : CHECK_DELETE s i = some t)
    (k : Int) (hk : slotHandle s k = INVALID_HANDLE) : slotHandle t k = INVALID_HANDLE := by
  unfold CHECK_DELETE at h
  cases hn : s.m_node with
  | none =>
    rw [hn] at h
    cases h
  | some nd =>
    have hk2 : nd k = INVALID_HANDLE := by
      unfold slotHandle at hk
      rw [hn] at hk
      exact hk
    simp only [hn] at h
    by_cases h1 : i < 0 ∨ i ≥ MAX_NODE
    · rw [if_pos h1] at h
      cases h
    · rw [if_neg h1] at h
      cases hv : s.m_cacheAllocator.getValue (nd i) with
      | none =>
        simp only [hv, Option.some.injEq] at h
        rw [← h]
        exact hk
      | some cache =>
        simp only [hv] at h
        by_cases h2 : toInt64 (cache.refcount - 1) = 0
        · rw [if_pos h2] at h
          simp only [Option.some.injEq] at h
          rw [← h]
          simp only [slotHandle, setAt]
          split_ifs
          · rfl
          · exact hk2
        · rw [if_neg h2] at h
          simp only [Option.some.injEq] at h
          rw [← h]
          simp only [slotHandle, hn]
          exact hk2

theorem evictLoop_slots (n : Nat) : ∀ (s t : MyfilePartition), evictLoop n s = some t →
    ∀ k, slotHandle s k = INVALID_HANDLE → slotHandle t k = INVALID_HANDLE := by
  induction n with
  | zero =>
    intro s t h k hk
    unfold evictLoop at h
    split_ifs at h
    rw [← Option.some.inj h]
    exact hk
  | succ n ih =>
    intro s t h k hk
    unfold evictLoop at h
    split_ifs at h
    · cases hc : CHECK_DELETE (AllocCacheIndex s).2 (AllocCacheIndex s).1 with
      | none =>
        rw [hc] at h
        cases h
      | some s1 =>
        simp only [hc] at h
        refine ih s1 t h k (CHECK_DELETE_slots _ _ _ hc k ?_)
        rw [slotHandle_congr s _ (AllocCacheIndex_m_node s)]
        exact hk
    · rw [← Option.some.inj h]
      exact hk

theorem cacheBlock_slots (s : MyfilePartition) (index : Int) (value : List Int) (rw pr : Bool)
    (r : Int × MyfilePartition) (h : cacheBlock s index value rw pr = some r)
    (k : Int) (hne : k ≠ index) (hk : slotHandle s k = INVALID_HANDLE) :
    slotHandle r.2 k = INVALID_HANDLE := by
  unfold cacheBlock at h
  cases hn : s.m_node with
  | none =>
    simp only [hn, Option.some.injEq] at h
    rw [← h]
    exact hk
  | some nd0 =>
    simp only [hn] at h
    by_cases hm : s.m_cacheMode ≠ CacheMode.CM_CACHE
    · rw [if_pos hm] at h
      rw [← Option.some.inj h]
      exact hk
    · rw [if_neg hm] at h
      cases he : evictLoop (s.m_accessCacheFIFO.length + s.m_prereadCacheFIFO.length + 1) s with
      | none =>
        rw [he] at h
        cases h
      | some s1 =>
        have hk1 := evictLoop_slots _ s s1 he k hk
        simp only [he] at h
        cases hs1 : s1.m_node with
        | none =>
          rw [hs1] at h
          cases h
        | some nd =>
          have hk2 : nd k = INVALID_HANDLE := by
            unfold slotHandle at hk1
            rw [hs1] at hk1
            exact hk1
          simp only [hs1] at h
          by_cases hi : nd index = INVALID_HANDLE
          · rw [if_pos hi] at h
            rw [← Option.some.inj h]
            unfold slotHandle
            rw [cacheBlockStore_m_node]
            simp only [setAt]
            rw [if_neg hne]
            exact hk2
          · rw [if_neg hi] at h
            by_cases hp : pr = true
            · rw [if_pos hp] at h
              rw [← Option.some.inj h]
              exact hk1
            · rw [if_neg hp] at h
              rw [← Option.some.inj h]
              unfold slotHandle
              rw [cacheBlockStore_m_node, hs1]
              exact hk2

theorem saveBlock_slots (crc : List Int → Int) (s : MyfilePartition) (x y z : Int)
    (d : List Int) (changed : Bool) (ts : Int) (r : Bool × MyfilePartition)
    (h : saveBlock crc s x y z d changed ts = some r)
    (k : Int) (hne : k ≠ getLocalIndex x y z) (hk : slotHandle s k = INVALID_HANDLE) :
    slotHandle r.2 k = INVALID_HANDLE := by
  rcases saveBlock_cases crc s x y z d changed ts r h with h1 | ⟨-, -, h1⟩
  · rw [h1]
    exact hk
  · have hw := (saveWrite_cache crc s (getLocalIndex x y z)
      (toInt32 (toUInt64 (byteLen d + sizeofNodeHeader)))
      (ROUND (toInt32 (toUInt64 (byteLen d + sizeofNodeHeader))) 1024) d changed ts).1
    rcases h1 with ⟨-, h2⟩ | ⟨-, q, hq, h2⟩
    · rw [h2]
      rw [slotHandle_congr s _ hw]
      exact hk
    · rw [h2]
      refine cacheBlock_slots _ _ _ _ _ q hq k hne ?_
      rw [slotHandle_congr s _ hw]
      exact hk

theorem OnlyCached_save (crc : List Int → Int) (s : MyfilePartition) (S : List Int)
    (x y z : Int) (d : List Int) (changed : Bool) (ts : Int) (r : Bool × MyfilePartition)
    (hs : OnlyCached s S) (h : saveBlock crc s x y z d changed ts = some r) :
    OnlyCached r.2 (getLocalIndex x y z :: S) := by
  intro i hi
  rw [List.mem_cons, not_or] at hi
  exact saveBlock_slots crc s x y z d changed ts r h i hi.1 (hs i hi.2)

theorem OnlyCached_freshCache : OnlyCached freshCache [] := by
  intro i _
  rfl

/-! ## The handles that `UnInit` hands back -/

theorem foldl_free_skip (nd : Int → Int) (l : List Nat) (a : CacheValueAllocator)
    (h : ∀ i ∈ l, nd (Int.ofNat i) = INVALID_HANDLE) :
    l.foldl
      (fun a i => if nd (Int.ofNat i) ≠ INVALID_HANDLE then a.free (nd (Int.ofNat i)) else a) a
      = a := by
  induction l with
  | nil => rfl
  | cons i rest ih =>
    rw [List.foldl_cons, if_neg (fun hh => hh (h i (List.mem_cons_self _ _)))]
    exact ih (fun j hj => h j (List.mem_cons_of_mem _ hj))

theorem range'_split (s n k : Nat) (h1 : s ≤ k) (h2 : k < s + n) :
    List.range' s n = List.range' s (k - s) ++ k :: List.range' (k + 1) (s + n - k - 1) := by
  have e1 : n = (s + n - k - 1 + 1) + (k - s) := by omega
  have e2 : s + (k - s) = k := by omega
  conv_lhs => rw [e1, ← List.range'_append_1, e2, List.range'_succ]

theorem foldl_free_two (nd : Int → Int) (a : CacheValueAllocator) (n k1 k2 : Nat)
    (h12 : k1 < k2) (h2n : k2 < n)
    (hrest : ∀ i, i < n → i ≠ k1 → i ≠ k2 → nd (Int.ofNat i) = INVALID_HANDLE)
    (h1 : nd (Int.ofNat k1) ≠ INVALID_HANDLE) (h2 : nd (Int.ofNat k2) ≠ INVALID_HANDLE) :
    (List.range n).foldl
      (fun a i => if nd (Int.ofNat i) ≠ INVALID_HANDLE then a.free (nd (Int.ofNat i)) else a) a
      = (a.free (nd (Int.ofNat k1))).free (nd (Int.ofNat k2)) := by
  rw [List.range_eq_range', range'_split 0 n k1 (Nat.zero_le _) (by omega),
    range'_split (k1 + 1) (0 + n - k1 - 1) k2 (by omega) (by omega)]
  rw [List.foldl_append, List.foldl_cons, List.foldl_append, List.foldl_cons]
  rw [foldl_free_skip nd (List.range' 0 (k1 - 0)) a (by
    intro i hi
    rw [List.mem_range'_1] at hi
    exact hrest i (by omega) (by omega) (by omega))]
  rw [if_pos h1]
  rw [foldl_free_skip nd (List.range' (k1 + 1) (k2 - (k1 + 1))) _ (by
    intro i hi
    rw [List.mem_range'_1] at hi
    exact hrest i (by omega) (by omega) (by omega))]
  rw [if_pos h2]
  exact foldl_free_skip nd _ _ (by
    intro i hi
    rw [List.mem_range'_1] at hi
    exact hrest i (by omega) (by omega) (by omega))

theorem foldl_free_one (nd : Int → Int) (a : CacheValueAllocator) (n k1 : Nat) (h1n : k1 < n)
    (hrest : ∀ i, i < n → i ≠ k1 → nd (Int.ofNat i) = INVALID_HANDLE)
    (h1 : nd (Int.ofNat k1) ≠ INVALID_HANDLE) :
    (List.range n).foldl
      (fun a i => if nd (Int.ofNat i) ≠ INVALID_HANDLE then a.free (nd (Int.ofNat i)) else a) a
      = a.free (nd (Int.ofNat k1)) := by
  rw [List.range_eq_range', range'_split 0 n k1 (Nat.zero_le _) (by omega)]
  rw [List.foldl_append, List.foldl_cons]
  rw [foldl_free_skip nd (List.range' 0 (k1 - 0)) a (by
    intro i hi
    rw [List.mem_range'_1] at hi
    exact hrest i (by omega) (by omega))]
  rw [if_pos h1]
  exact foldl_free_skip nd _ _ (by
    intro i hi
    rw [List.mem_range'_1] at hi
    exact hrest i (by omega) (by omega))

theorem OnlyCached_nd (s : MyfilePartition) (S : List Int) (nd : Int → Int)
    (h : OnlyCached s S) (hn : s.m_node = some nd) (i : Int) (hi : i ∉ S) :
    nd i = INVALID_HANDLE := by
  have := h i hi
  unfold slotHandle at this
  rw [hn] at this
  exact this

theorem slotHandle_nd (s : MyfilePartition) (nd : Int → Int) (hn : s.m_node = some nd)
    (i : Int) : nd i = slotHandle s i := by
  unfold slotHandle
  rw [hn]

/-- The allocator after `UnInit` when exactly the slots `k1` and `k2` hold a handle:
the two handles are freed in the order of the slots. -/
theorem UnInit_two_cached (s : MyfilePartition) (k1 k2 : Nat) (h12 : k1 < k2)
    (h2n : k2 < MAX_NODE.toNat) (hs : OnlyCached s [Int.ofNat k1, Int.ofNat k2])
    (h1 : slotHandle s (Int.ofNat k1) ≠ INVALID_HANDLE)
    (h2 : slotHandle s (Int.ofNat k2) ≠ INVALID_HANDLE) :
    (UnInit s).m_cacheAllocator = (s.m_cacheAllocator.free (slotHandle s (Int.ofNat k1))).free
      (slotHandle s (Int.ofNat k2)) := by
  obtain ⟨nd, hn, e1⟩ := slotHandle_some s _ h1
  have e2 := slotHandle_nd s nd hn (Int.ofNat k2)
  unfold UnInit
  simp only [hn]
  rw [foldl_free_two nd _ _ k1 k2 h12 h2n ?_ (by rw [e1]; exact h1) (by rw [e2]; exact h2),
    e1, e2]
  intro i _ hi1 hi2
  apply OnlyCached_nd s _ nd hs hn
  simp only [List.mem_cons, List.mem_singleton, List.not_mem_nil, or_false, not_or,
    Int.ofNat_eq_coe, Nat.cast_inj]
  exact ⟨hi1, hi2⟩

/-- The allocator after `UnInit` when exactly the slot `k1` holds a handle. -/
theorem UnInit_one_cached (s : MyfilePartition) (k1 : Nat)
    (h1n : k1 < MAX_NODE.toNat) (hs : OnlyCached s [Int.ofNat k1])
    (h1 : slotHandle s (Int.ofNat k1) ≠ INVALID_HANDLE) :
    (UnInit s).m_cacheAllocator = s.m_cacheAllocator.free (slotHandle s (Int.ofNat k1)) := by
  obtain ⟨nd, hn, e1⟩ := slotHandle_some s _ h1
  unfold UnInit
  simp only [hn]
  rw [foldl_free_one nd _ _ k1 h1n ?_ (by rw [e1]; exact h1), e1]
  intro i _ hi1
  apply OnlyCached_nd s _ nd hs hn
  simp only [List.mem_singleton, Int.ofNat_eq_coe, Nat.cast_inj]
  exact hi1

/-! ## Refcounts after a restart of the same object -/

theorem Init_eq (s : MyfilePartition) (i : Int) (fresh : Int → Int) (hv : s.version = 1) :
    Init s i CacheMode.CM_CACHE fresh = some { s with
      m_cacheAllocator := (UnInit s).m_cacheAllocator
      m_accessCacheFIFO := []
      m_prereadCacheFIFO := []
      m_buffer := fresh
      m_node := some (fun _ => INVALID_HANDLE)
      m_cacheMode := CacheMode.CM_CACHE
      m_index := i } := by
  unfold Init
  rw [if_neg (fun h => h hv)]
  rfl

theorem getLocalIndex_100 : getLocalIndex 1 0 0 = Int.ofNat 917504 := by decide!

theorem getLocalIndex_101 : getLocalIndex 1 0 1 = Int.ofNat 917505 := by decide!

theorem OnlyCached_afterS2 : OnlyCached afterS2 [Int.ofNat 917504] := by
  rw [← getLocalIndex_100]
  exact OnlyCached_save demoCrc freshCache [] 1 0 0 helloBytes true 0 (true, afterS2)
    OnlyCached_freshCache saveBlock_afterS2

theorem restartedS2_facts :
    (slotHandle afterS2 (Int.ofNat 917504) = 0 ∧ afterS2.version = 1) ∧
    (saveBlock demoCrc restartedS2 1 0 0 helloBytes true 0).map (fun r => r.1) = some true ∧
    restartedS2.m_cacheAllocator.m_freelist = [(0, ⟨1, 5, helloBytes⟩)] ∧
    slotHandle afterRestartSave (getLocalIndex 1 0 0) = 0 ∧
    slotHandle afterRestartSave (getLocalIndex 1 0 0) ≠ INVALID_HANDLE ∧
    slotValue afterRestartSave (getLocalIndex 1 0 0) = some ⟨2, 5, helloBytes⟩ ∧
    afterRestartSave.m_accessCacheFIFO = [getLocalIndex 1 0 0] ∧
    afterRestartSave.m_prereadCacheFIFO = [] ∧
    tokens afterRestartSave (getLocalIndex 1 0 0) = 1 := by
  decide!

theorem Init_afterS2 :
    Init afterS2 1 CacheMode.CM_CACHE (fun _ => 0) = some restartedS2 := by
  obtain ⟨h0, h2⟩ := restartedS2_facts.1
  have hU := UnInit_one_cached afterS2 917504 (by decide) OnlyCached_afterS2
    (by rw [h0]; decide)
  rw [h0] at hU
  rw [Init_eq afterS2 1 (fun _ => 0) h2, hU]
  rfl

theorem runCalls_cons (crc : List Int → Int) (c : Call) (rest : List Call)
    (s s1 : MyfilePartition) (h : applyCall crc s c = some s1) :
    runCalls crc (c :: rest) s = runCalls crc rest s1 := by
  simp only [runCalls, h]

theorem applyCall_save (crc : List Int → Int) (s t : MyfilePartition) (x y z : Int)
    (d : List Int) (changed b : Bool) (ts : Int)
    (h : saveBlock crc s x y z d changed ts = some (b, t)) :
    applyCall crc s (Call.save x y z d changed ts) = some t := by
  simp only [applyCall, h]

theorem applyCall_load (crc : List Int → Int) (s t : MyfilePartition) (x y z : Int)
    (d : List Int) (b : Bool) (h : loadBlock crc s x y z = some (d, b, t)) :
    applyCall crc s (Call.load x y z) = some t := by
  simp only [applyCall, h]

theorem applyCall_init (crc : List Int → Int) (s t : MyfilePartition) (i : Int)
    (mode : CacheMode) (fresh : Int → Int) (h : Init s i mode fresh = some t) :
    applyCall crc s (Call.init i mode fresh) = some t := by
  simp only [applyCall, h]

/-- C23 (failing input): on the fresh CACHE-mode partition, `save(1,0,0,"hello")`,
then `Init` on the same object, then `save(1,0,0,"hello")` again. `UnInit` hands the
handle of the slot back with its refcount still 1 and drops both FIFOs; the second
save gets the same value from the free list and counts it up: the slot holds a valid
handle whose value has refcount 2, with a single token for the slot in the FIFOs. -/
theorem refcount_exceeds_tokens_after_restart :
    runCalls demoCrc [Call.save 1 0 0 helloBytes true 0,
      Call.init 1 CacheMode.CM_CACHE (fun _ => 0),
      Call.save 1 0 0 helloBytes true 0] freshCache = some afterRestartSave ∧
    restartedS2.m_cacheAllocator.m_freelist = [(0, ⟨1, 5, helloBytes⟩)] ∧
    slotHandle afterRestartSave (getLocalIndex 1 0 0) = 0 ∧
    slotHandle afterRestartSave (getLocalIndex 1 0 0) ≠ INVALID_HANDLE ∧
    slotValue afterRestartSave (getLocalIndex 1 0 0) = some ⟨2, 5, helloBytes⟩ ∧
    afterRestartSave.m_accessCacheFIFO = [getLocalIndex 1 0 0] ∧
    afterRestartSave.m_prereadCacheFIFO = [] ∧
    tokens afterRestartSave (getLocalIndex 1 0 0) = 1 := by
  obtain ⟨-, h1, h2⟩ := restartedS2_facts
  refine ⟨?_, h2⟩
  rw [runCalls_cons _ _ _ _ _ (applyCall_save _ _ _ _ _ _ _ _ _ _ saveBlock_afterS2),
    runCalls_cons _ _ _ _ _ (applyCall_init _ _ _ _ _ _ Init_afterS2),
    runCalls_cons _ _ _ _ _ (applyCall_save _ _ _ _ _ _ _ _ _ _
      (stateOfPair_eq _ restartedS2 h1))]
  rfl

/-! ## A prefetch that finds the old extent of a record -/

theorem staleChain_facts :
    (saveBlock demoCrc afterTwo 1 0 1 aPayload true 0).map (fun r => r.1) = some true ∧
    (saveBlock demoCrc afterThree 1 0 1 upperWorld true 0).map (fun r => r.1) = some true ∧
    (slotHandle afterFour (Int.ofNat 917504) = 0 ∧
      slotHandle afterFour (Int.ofNat 917505) = 1 ∧ afterFour.version = 1) ∧
    (loadBlock demoCrc restartedFour 1 0 0).map (fun r => (r.1, r.2.1))
      = some (helloBytes, false) ∧
    (afterStaleLoad.node (getLocalIndex 1 0 1)).len = 29 ∧
    slotHandle afterStaleLoad (getLocalIndex 1 0 1) ≠ INVALID_HANDLE ∧
    slotValue afterStaleLoad (getLocalIndex 1 0 1) = some ⟨3, 5, worldBytes⟩ ∧
    (loadBlock demoCrc afterStaleLoad 1 0 1).map (fun r => (r.1, r.2.1))
      = some (worldBytes, true) := by
  decide!

theorem saveBlock_afterThree :
    saveBlock demoCrc afterTwo 1 0 1 aPayload true 0 = some (true, afterThree) :=
  stateOfPair_eq _ afterTwo staleChain_facts.1

theorem saveBlock_afterFour :
    saveBlock demoCrc afterThree 1 0 1 upperWorld true 0 = some (true, afterFour) :=
  stateOfPair_eq _ afterThree staleChain_facts.2.1

theorem OnlyCached_mono (s : MyfilePartition) (S T : List Int) (h : OnlyCached s S)
    (hst : ∀ i, i ∈ S → i ∈ T) : OnlyCached s T :=
  fun i hi => h i (fun hs => hi (hst i hs))

theorem OnlyCached_afterFour : OnlyCached afterFour [Int.ofNat 917504, Int.ofNat 917505] := by
  have h2 := OnlyCached_save demoCrc afterS2 _ 1 0 1 worldBytes true 0 (true, afterTwo)
    OnlyCached_afterS2 saveBlock_afterTwo
  have h3 := OnlyCached_save demoCrc afterTwo _ 1 0 1 aPayload true 0 (true, afterThree)
    h2 saveBlock_afterThree
  have h4 := OnlyCached_save demoCrc afterThree _ 1 0 1 upperWorld true 0 (true, afterFour)
    h3 saveBlock_afterFour
  rw [getLocalIndex_101] at h4
  apply OnlyCached_mono _ _ _ h4
  intro i hi
  simp only [List.mem_cons, List.mem_singleton, List.not_mem_nil, or_false] at hi ⊢
  rcases hi with hi | hi | hi | hi
  · exact Or.inr hi
  · exact Or.inr hi
  · exact Or.inr hi
  · exact Or.inl hi

theorem Init_afterFour :
    Init afterFour 1 CacheMode.CM_CACHE (fun _ => 0) = some restartedFour := by
  obtain ⟨h0, h1, h2⟩ := staleChain_facts.2.2.1
  have hU := UnInit_two_cached afterFour 917504 917505 (by decide) (by decide)
    OnlyCached_afterFour (by rw [h0]; decide) (by rw [h1]; decide)
  rw [h0, h1] at hU
  rw [Init_eq afterFour 1 (fun _ => 0) h2, hU]
  rfl

theorem loadBlock_restartedFour :
    loadBlock demoCrc restartedFour 1 0 0 = some (helloBytes, false, afterStaleLoad) :=
  stateOfTriple_eq _ restartedFour _ _ staleChain_facts.2.2.2.1

theorem runCalls_afterFour_restart :
    runCalls demoCrc [Call.save 1 0 0 helloBytes true 0, Call.save 1 0 1 worldBytes true 0,
      Call.save 1 0 1 aPayload true 0, Call.save 1 0 1 upperWorld true 0,
      Call.init 1 CacheMode.CM_CACHE (fun _ => 0), Call.load 1 0 0] freshCache
      = some afterStaleLoad := by
  rw [runCalls_cons _ _ _ _ _ (applyCall_save _ _ _ _ _ _ _ _ _ _ saveBlock_afterS2),
    runCalls_cons _ _ _ _ _ (applyCall_save _ _ _ _ _ _ _ _ _ _ saveBlock_afterTwo),
    runCalls_cons _ _ _ _ _ (applyCall_save _ _ _ _ _ _ _ _ _ _ saveBlock_afterThree),
    runCalls_cons _ _ _ _ _ (applyCall_save _ _ _ _ _ _ _ _ _ _ saveBlock_afterFour),
    runCalls_cons _ _ _ _ _ (applyCall_init _ _ _ _ _ _ Init_afterFour),
    runCalls_cons _ _ _ _ _ (applyCall_load _ _ _ _ _ _ _ _ loadBlock_restartedFour)]
  rfl

/-- C30 (failing input): on the fresh CACHE-mode partition, "hello" is saved at
`(1,0,0)` and "world" at `(1,0,1)`; `(1,0,1)` is saved again with 2000 bytes, which
moves it to a new extent, and then with "WORLD", written in place (every payload has
`|d| + 24 <= 31744`, every save returns true). After `Init` on the same object,
`load(1,0,0)` misses the cache and its prefetch finds the old extent of `(1,0,1)`
behind the record: header, index and checksum of "world" match and the slot's `len`
is that of "WORLD", so "world" is inserted for slot `(1,0,1)`. The slot then has
`node.len != 0` and a valid handle whose cached bytes are "world", and
`load(1,0,1)` answers "world" from the cache, not the payload "WORLD" of the most
recent save. -/
theorem prefetch_caches_older_version :
    saveBlock demoCrc afterTwo 1 0 1 aPayload true 0 = some (true, afterThree) ∧
    saveBlock demoCrc afterThree 1 0 1 upperWorld true 0 = some (true, afterFour) ∧
    runCalls demoCrc [Call.save 1 0 0 helloBytes true 0, Call.save 1 0 1 worldBytes true 0,
      Call.save 1 0 1 aPayload true 0, Call.save 1 0 1 upperWorld true 0,
      Call.init 1 CacheMode.CM_CACHE (fun _ => 0), Call.load 1 0 0] freshCache
      = some afterStaleLoad ∧
    (afterStaleLoad.node (getLocalIndex 1 0 1)).len = 29 ∧
    slotHandle afterStaleLoad (getLocalIndex 1 0 1) ≠ INVALID_HANDLE ∧
    slotValue afterStaleLoad (getLocalIndex 1 0 1) = some ⟨3, 5, worldBytes⟩ ∧
    worldBytes ≠ upperWorld ∧
    ∃ t, loadBlock demoCrc afterStaleLoad 1 0 1 = some (worldBytes, true, t) :=
  ⟨saveBlock_afterThree, saveBlock_afterFour, runCalls_afterFour_restart,
    staleChain_facts.2.2.2.2.1, staleChain_facts.2.2.2.2.2.1, staleChain_facts.2.2.2.2.2.2.1,
    by decide, option_triple_exists _ _ _ staleChain_facts.2.2.2.2.2.2.2⟩

/-! ## Isolation of slots -/

theorem pwrite_getElem_outside (file : List Int) (off : Nat) (bytes : List Int) (k : Nat)
    (hin : off + bytes.length ≤ file.length) (hk : k < off ∨ off + bytes.length ≤ k) :
    (pwrite file off bytes)[k]? = file[k]? := by
  have e : pwrite file off bytes = file.take off ++ (bytes ++ file.drop (off + bytes.length)) := by
    unfold pwrite
    rw [show off - file.length = 0 by omega]
    simp
  have hl : (file.take off).length = off := by
    rw [List.length_take]
    omega
  rw [e]
  rcases hk with hk | hk
  · rw [List.getElem?_append_left (by omega), List.getElem?_take_of_lt hk]
  · rw [List.getElem?_append_right (by omega), hl,
      List.getElem?_append_right (by omega), List.getElem?_drop]
    congr 1
    omega

theorem append_getElem_inside (file bytes : List Int) (k : Nat) (hk : k < file.length) :
    (file ++ bytes)[k]? = file[k]? :=
  List.getElem?_append_left hk

theorem pwrite_at_end (file bytes : List Int) :
    pwrite file file.length bytes = file ++ bytes := by
  unfold pwrite
  simp

theorem saveWrite_frame (crc : List Int → Int) (s : MyfilePartition) (idx len cap : Int)
    (d : List Int) (changed : Bool) (ts : Int)
    (hlen : 0 ≤ len ∧ len ≤ cap) (hcap : 0 < cap) (hd : byteLen d + 24 ≤ cap)
    (hinv : ExtentsAligned s) (hsz : byteLen s.m_datafile < 2147483648 + 65536)
    (hno : NonOverlap s) (j : Int) (hj : j ≠ idx) (hc : 0 < (s.node j).capacity)
    (k : Nat) (hk1 : (s.node j).getPos ≤ (k : Int))
    (hk2 : (k : Int) < (s.node j).getPos + (s.node j).capacity) :
    (saveWrite crc s idx len cap d changed ts).2.m_datafile[k]? = s.m_datafile[k]? := by
  obtain ⟨hal, hext⟩ := hinv
  have hnd := byteLen_nonneg d
  have hnf := byteLen_nonneg s.m_datafile
  have hfl := byteLen_eq s.m_datafile
  have hej := hext j hc
  unfold saveWrite
  by_cases hb : (s.node idx).capacity ≥ cap ∧ s.m_cacheMode ≠ CacheMode.CM_APPEND
  · rw [if_pos hb]
    have he := hext idx (by omega)
    have hg : (savedNode s idx len changed).getPos = (s.node idx).getPos := rfl
    have hdl : d.length + 24 ≤ cap.toNat := by
      have := byteLen_eq d
      omega
    have hcl := (composeRecord_eq crc idx d ts cap.toNat hdl).2.1
    have htl : ((composeRecord crc idx d ts cap.toNat).take len.toNat).length = len.toNat := by
      rw [List.length_take, hcl]
      omega
    have hdis := hno j idx hj hc (by omega)
    simp only [saveInPlace, hg, fileWrite]
    rw [if_neg (by omega)]
    apply pwrite_getElem_outside
    · rw [htl]
      omega
    · rw [htl]
      omega
  · rw [if_neg hb]
    simp only [saveAppend, fileWrite]
    by_cases hpos : (appendedNode s idx len cap changed).getPos < 0
    · rw [if_pos hpos]
    · rw [if_neg hpos]
      have hlt : byteLen s.m_datafile < 2147483648 := by
        by_contra hcon
        apply hpos
        simp only [appendedNode, KeyNode.setPos, KeyNode.getPos, toInt32, cdiv]
        rw [if_pos hnf]
        omega
      have hp : (appendedNode s idx len cap changed).getPos = byteLen s.m_datafile :=
        getPos_setPos_below_2GiB _ _ hnf hlt hal
      rw [hp, hfl, Int.toNat_ofNat, pwrite_at_end]
      exact List.getElem?_append_left (by omega)

theorem saveBlock_frame (crc : List Int → Int) (s : MyfilePartition) (x y z : Int)
    (d : List Int) (changed : Bool) (ts : Int) (r : Bool × MyfilePartition)
    (hfit : byteLen d + 24 < 2147483648)
    (h : saveBlock crc s x y z d changed ts = some r)
    (hinv : ExtentsAligned s) (hsz : byteLen s.m_datafile < 2147483648 + 65536)
    (hno : NonOverlap s) (j : Int) (hj : j ≠ getLocalIndex x y z) :
    r.2.node j = s.node j ∧
    (0 < (s.node j).capacity → ∀ k : Nat, (s.node j).getPos ≤ (k : Int) →
      (k : Int) < (s.node j).getPos + (s.node j).capacity →
      r.2.m_datafile[k]? = s.m_datafile[k]?) := by
  rcases saveBlock_files crc s x y z d changed ts r h with h0 | ⟨h1, h2, hw, hsf⟩
  · rw [h0]
    exact ⟨rfl, fun _ k _ _ => rfl⟩
  · obtain ⟨hL, hle, hR⟩ := accepted_len d hfit h2
    have hnn := byteLen_nonneg d
    have hr := ROUND_1k (byteLen d + 24) (by omega)
    rw [hL] at hsf
    obtain ⟨hn, hf, -⟩ := hsf
    rw [hn, hf]
    refine ⟨(saveWrite_header crc s (getLocalIndex x y z) (byteLen d + 24)
      (ROUND (byteLen d + 24) 1024) d changed ts).2.1 j hj, fun hc k hk1 hk2 => ?_⟩
    exact saveWrite_frame crc s (getLocalIndex x y z) (byteLen d + 24)
      (ROUND (byteLen d + 24) 1024) d changed ts (by omega) (by omega) (by omega)
      hinv hsz hno j hj hc k hk1 hk2

theorem saveBlock_nonOverlap (crc : List Int → Int) (s t : MyfilePartition) (x y z : Int)
    (d : List Int) (changed : Bool) (ts : Int)
    (hfit : byteLen d + 24 < 2147483648)
    (h : saveBlock crc s x y z d changed ts = some (true, t))
    (hinv : ExtentsAligned s) (hsz : byteLen s.m_datafile < 2147483648 + 65536)
    (hno : NonOverlap s) : NonOverlap t := by
  rcases saveBlock_files crc s x y z d changed ts _ h with h0 | ⟨h1, h2, hw, hsf⟩
  · have : t = s := congrArg Prod.snd h0
    rw [this]
    exact hno
  · obtain ⟨hL, hle, hR⟩ := accepted_len d hfit h2
    have hnn := byteLen_nonneg d
    have hr := ROUND_1k (byteLen d + 24) (by omega)
    rw [hL] at hw hsf h2
    have hw1 : (saveWrite crc s (getLocalIndex x y z) (byteLen d + 24)
        (ROUND (byteLen d + 24) 1024) d changed ts).1 = true := hw.symm
    obtain ⟨hn, -, -⟩ := hsf
    obtain ⟨hal, hext⟩ := hinv
    unfold NonOverlap
    rw [hn]
    by_cases hb : (s.node (getLocalIndex x y z)).capacity ≥ ROUND (byteLen d + 24) 1024 ∧
        s.m_cacheMode ≠ CacheMode.CM_APPEND
    · have he := hext (getLocalIndex x y z) (by omega)
      obtain ⟨-, f2⟩ := saveWrite_inplace_file crc s (getLocalIndex x y z) (byteLen d + 24)
        (ROUND (byteLen d + 24) 1024) d changed ts hb (by omega) (by omega) ⟨he.1, he.2.2⟩
      intro j k hjk hj hk
      rw [(f2 j).1] at hj
      rw [(f2 k).1] at hk
      rw [(f2 j).1, (f2 j).2, (f2 k).1, (f2 k).2]
      exact hno j k hjk hj hk
    · obtain ⟨g1, g2, g3, g4, g5⟩ := saveWrite_append_file crc s (getLocalIndex x y z)
        (byteLen d + 24) (ROUND (byteLen d + 24) 1024) d changed ts hb hal
        (by omega) (by omega) hw1
      intro j k hjk hj hk
      by_cases hjx : j = getLocalIndex x y z
      · have hkx : k ≠ getLocalIndex x y z := fun e => hjk (hjx.trans e.symm)
        rw [g5 k hkx] at hk ⊢
        rw [hjx, g3]
        right
        exact (hext k hk).2.2
      · rw [g5 j hjx] at hj ⊢
        by_cases hkx : k = getLocalIndex x y z
        · rw [hkx, g3]
          left
          exact (hext j hj).2.2
        · rw [g5 k hkx] at hk ⊢
          exact hno j k hjk hj hk

theorem deleteBlock_frame (s : MyfilePartition) (x y z : Int) :
    (deleteBlock s x y z).2.m_datafile = s.m_datafile ∧
    (∀ j, j ≠ getLocalIndex x y z → (deleteBlock s x y z).2.node j = s.node j) ∧
    (∀ j, ((deleteBlock s x y z).2.node j).capacity = (s.node j).capacity ∧
      ((deleteBlock s x y z).2.node j).getPos = (s.node j).getPos) := by
  unfold deleteBlock
  by_cases h : getLocalIndex x y z < 0 ∨ getLocalIndex x y z ≥ MAX_NODE
  · rw [if_pos h]
    exact ⟨rfl, fun _ _ => rfl, fun _ => ⟨rfl, rfl⟩⟩
  · rw [if_neg h]
    refine ⟨rfl, ?_, ?_⟩
    · intro j hj
      simp only [setAt]
      rw [if_neg hj]
    · intro j
      simp only [setAt]
      by_cases hj : j = getLocalIndex x y z
      · rw [if_pos hj, ← hj]
        exact ⟨rfl, rfl⟩
      · rw [if_neg hj]
        exact ⟨rfl, rfl⟩

theorem deleteBlock_nonOverlap (s : MyfilePartition) (x y z : Int) (hno : NonOverlap s) :
    NonOverlap (deleteBlock s x y z).2 := by
  obtain ⟨-, -, f⟩ := deleteBlock_frame s x y z
  intro j k hjk hj hk
  rw [(f j).1] at hj
  rw [(f k).1] at hk
  rw [(f j).1, (f j).2, (f k).1, (f k).2]
  exact hno j k hjk hj hk

theorem runOpsOk_nonOverlap (crc : List Int → Int) (ops : List Op) :
    ∀ (s t : MyfilePartition), (∀ op ∈ ops, op.payloadFits) →
      ExtentsAligned s → byteLen s.m_datafile < 2147483648 + 65536 → NonOverlap s →
      runOpsOk crc ops s = some t → NonOverlap t := by
  induction ops with
  | nil =>
    intro s t _ _ _ hno h
    simp only [runOpsOk, Option.some.injEq] at h
    subst h
    exact hno
  | cons op rest ih =>
    intro s t hfit hinv hsz hno h
    have hrest : ∀ o ∈ rest, o.payloadFits := fun o ho => hfit o (List.mem_cons_of_mem _ ho)
    have hop : op.payloadFits := hfit op (List.mem_cons_self _ _)
    simp only [runOpsOk] at h
    cases ha : applyOpOk crc s op with
    | none => simp [ha] at h
    | some s1 =>
      simp only [ha] at h
      have hext := runOpsOk_extents crc [op] s s1
        (fun o ho => by rw [List.mem_singleton.mp ho]; exact hop) hinv hsz
        (by simp only [runOpsOk, ha])
      have hstep : NonOverlap s1 := by
        cases op with
        | save x y z d changed ts =>
          simp only [applyOpOk] at ha
          cases hs : saveBlock crc s x y z d changed ts with
          | none => simp [hs] at ha
          | some r =>
            obtain ⟨b, u⟩ := r
            cases b with
            | false => simp [hs] at ha
            | true =>
              simp only [hs, Option.some.injEq] at ha
              subst ha
              exact saveBlock_nonOverlap crc s u x y z d changed ts hop hs hinv hsz hno
        | delete x y z =>
          simp only [applyOpOk, Option.some.injEq] at ha
          subst ha
          exact deleteBlock_nonOverlap s x y z hno
      exact ih s1 t hrest hext.1 hext.2 hstep h

/-- C33: starting from the empty data file and fresh header of a first `Init`, after
any sequence of `saveBlock` calls that returned true and `deleteBlock` calls (every
record length below `2^31`), the byte ranges `[getPos(), getPos() + capacity)` of two
distinct slots with `capacity > 0` do not overlap; and a further `saveBlock` (whatever
it returns) or `deleteBlock` on a slot leaves the `KeyNode` of every other slot `j`
unchanged and, when `j` has `capacity > 0`, every data-file byte inside the extent of
`j` unchanged (`deleteBlock` does not write the data file at all). -/
theorem slot_isolation (crc : List Int → Int) (i : Int) (mode : CacheMode)
    (fresh : Int → Int) (ops : List Op) (s : MyfilePartition)
    (hfit : ∀ op ∈ ops, op.payloadFits)
    (h : runOpsOk crc ops (newPartition i mode fresh) = some s) :
    NonOverlap s ∧
    (∀ (x y z : Int) (d : List Int) (changed : Bool) (ts : Int) (r : Bool × MyfilePartition),
      byteLen d + 24 < 2147483648 → saveBlock crc s x y z d changed ts = some r →
      ∀ j, j ≠ getLocalIndex x y z →
        r.2.node j = s.node j ∧
        (0 < (s.node j).capacity → ∀ k : Nat, (s.node j).getPos ≤ (k : Int) →
          (k : Int) < (s.node j).getPos + (s.node j).capacity →
          r.2.m_datafile[k]? = s.m_datafile[k]?)) ∧
    (∀ (x y z : Int),
      (deleteBlock s x y z).2.m_datafile = s.m_datafile ∧
      ∀ j, j ≠ getLocalIndex x y z → (deleteBlock s x y z).2.node j = s.node j) := by
  have h0 : ExtentsAligned (newPartition i mode fresh) :=
    ⟨by simp [newPartition, byteLen], fun j hj => absurd hj (by simp [newPartition])⟩
  have hs0 : byteLen (newPartition i mode fresh).m_datafile < 2147483648 + 65536 := by
    simp [newPartition, byteLen]
  have hn0 : NonOverlap (newPartition i mode fresh) :=
    fun j _ _ hj _ => absurd hj (by simp [newPartition])
  obtain ⟨hinv, hsz⟩ := runOpsOk_extents crc ops (newPartition i mode fresh) s hfit h0 hs0 h
  have hno := runOpsOk_nonOverlap crc ops (newPartition i mode fresh) s hfit h0 hs0 hn0 h
  refine ⟨hno, ?_, ?_⟩
  · intro x y z d changed ts r hd hr j hj
    exact saveBlock_frame crc s x y z d changed ts r hd hr hinv hsz hno j hj
  · intro x y z
    exact ⟨(deleteBlock_frame s x y z).1, (deleteBlock_frame s x y z).2.1⟩

/-- Witness for C33: scenario S2. -/
theorem slot_isolation_witness :
    (∀ op ∈ [Op.save 1 0 0 helloBytes true 0], op.payloadFits) ∧
    runOpsOk demoCrc [Op.save 1 0 0 helloBytes true 0] freshCache = some afterS2 ∧
    NonOverlap afterS2 ∧
    (∀ (x y z : Int) (d : List Int) (changed : Bool) (ts : Int) (r : Bool × MyfilePartition),
      byteLen d + 24 < 2147483648 → saveBlock demoCrc afterS2 x y z d changed ts = some r →
      ∀ j, j ≠ getLocalIndex x y z →
        r.2.node j = afterS2.node j ∧
        (0 < (afterS2.node j).capacity → ∀ k : Nat, (afterS2.node j).getPos ≤ (k : Int) →
          (k : Int) < (afterS2.node j).getPos + (afterS2.node j).capacity →
          r.2.m_datafile[k]? = afterS2.m_datafile[k]?)) ∧
    (∀ (x y z : Int),
      (deleteBlock afterS2 x y z).2.m_datafile = afterS2.m_datafile ∧
      ∀ j, j ≠ getLocalIndex x y z → (deleteBlock afterS2 x y z).2.node j = afterS2.node j) :=
  have hfit : ∀ op ∈ [Op.save 1 0 0 helloBytes true 0], op.payloadFits := by
    intro op hop
    simp only [List.mem_singleton] at hop
    subst hop
    simp only [Op.payloadFits, helloBytes, byteLen]
    decide
  ⟨hfit, runOpsOk_afterS2,
    slot_isolation demoCrc 1 CacheMode.CM_CACHE (fun _ => 0)
      [Op.save 1 0 0 helloBytes true 0] afterS2 hfit runOpsOk_afterS2⟩

/-! ## Cache counters after a restart of the same object -/

theorem cachedSlotList_nil (s : MyfilePartition) (h : ∀ i, slotHandle s i = INVALID_HANDLE) :
    cachedSlotList s = [] := by
  unfold cachedSlotList
  rw [List.filter_eq_nil_iff]
  intro i _
  simp only [h, ne_eq, not_true_eq_false, decide_False, Bool.false_eq_true, not_false_eq_true]

theorem restartedS2_counters :
    restartedS2.m_cacheNodeCount = 1 ∧ restartedS2.m_cacheMemoryByte = 5 ∧
    restartedS2.m_cacheAllocator.alloc.1 = 0 ∧
    restartedS2.m_cacheAllocator.alloc.2.getValue 0 = some ⟨1, 5, helloBytes⟩ := by
  decide!

/-- C32 (failing input): on the fresh CACHE-mode partition, `save(1,0,0,"hello")`
followed by `Init` on the same object. After the restart no slot holds a valid cache
handle, so the number of cached slots and the sum of their value lengths are 0, but
`cacheNodeCount` is 1 and `cacheMemoryByte` is 5; and the next `alloc()` hands out
handle 0 with a value whose refcount is 1 and whose len is 5. -/
theorem counters_survive_restart :
    runCalls demoCrc [Call.save 1 0 0 helloBytes true 0,
      Call.init 1 CacheMode.CM_CACHE (fun _ => 0)] freshCache = some restartedS2 ∧
    (∀ i, slotHandle restartedS2 i = INVALID_HANDLE) ∧
    cachedSlots restartedS2 = 0 ∧ cachedBytes restartedS2 = 0 ∧
    restartedS2.m_cacheNodeCount = 1 ∧ restartedS2.m_cacheMemoryByte = 5 ∧
    restartedS2.m_cacheAllocator.alloc.1 = 0 ∧
    restartedS2.m_cacheAllocator.alloc.2.getValue 0 = some ⟨1, 5, helloBytes⟩ := by
  have hall : ∀ i, slotHandle restartedS2 i = INVALID_HANDLE := fun _ => rfl
  have hnil := cachedSlotList_nil restartedS2 hall
  refine ⟨?_, hall, ?_, ?_, restartedS2_counters⟩
  · rw [runCalls_cons _ _ _ _ _ (applyCall_save _ _ _ _ _ _ _ _ _ _ saveBlock_afterS2),
      runCalls_cons _ _ _ _ _ (applyCall_init _ _ _ _ _ _ Init_afterS2)]
    rfl
  · unfold cachedSlots
    rw [hnil]
    rfl
  · unfold cachedBytes
    rw [hnil]
    rfl

/-! ## Packed tables -/

theorem field_eq (w t k : Nat) : field w t k = t / 2 ^ (w * k) % 2 ^ w := by
  show (t >>> (w * k)) % 2 ^ w = _
  rw [Nat.shiftRight_eq_div_pow]

theorem setField_eq (w t k v : Nat) :
    setField w t k v = t - field w t k * 2 ^ (w * k) + v * 2 ^ (w * k) := by
  show (t - field w t k <<< (w * k)) + v <<< (w * k) = _
  rw [Nat.shiftLeft_eq, Nat.shiftLeft_eq]

theorem field_lt (w t k : Nat) : field w t k < 2 ^ w := by
  rw [field_eq]
  exact Nat.mod_lt _ (Nat.pos_pow_of_pos _ (by norm_num))

theorem field_zero (w k : Nat) : field w 0 k = 0 := by
  rw [field_eq]
  simp

/-- The fields of `lo + 2^(w k) (x + 2^w hi)` with `lo < 2^(w k)` and `x < 2^w`: field
`k` is `x`, the others do not depend on `x`. -/
theorem field_parts (w lo hi x k j : Nat) (hlo : lo < 2 ^ (w * k)) (hx : x < 2 ^ w) :
    field w (lo + 2 ^ (w * k) * (x + 2 ^ w * hi)) j =
      if j = k then x else field w (lo + 2 ^ (w * k) * (0 + 2 ^ w * hi)) j := by
  have hP : 0 < 2 ^ (w * k) := Nat.pos_pow_of_pos _ (by norm_num)
  have hB : 0 < 2 ^ w := Nat.pos_pow_of_pos _ (by norm_num)
  rw [field_eq, field_eq]
  rcases Nat.lt_trichotomy j k with hjk | hjk | hjk
  · rw [if_neg (by omega)]
    obtain ⟨e, rfl⟩ : ∃ e, k = j + 1 + e := ⟨k - j - 1, by omega⟩
    have hsplit : 2 ^ (w * (j + 1 + e)) = 2 ^ (w * j) * (2 ^ w * 2 ^ (w * e)) := by
      rw [← pow_add, ← pow_add]
      congr 1
      ring
    have hQ : 0 < 2 ^ (w * j) := Nat.pos_pow_of_pos _ (by norm_num)
    have h1 : ∀ y, (lo + 2 ^ (w * j) * (2 ^ w * 2 ^ (w * e)) * y) / 2 ^ (w * j) % 2 ^ w
        = lo / 2 ^ (w * j) % 2 ^ w := by
      intro y
      rw [Nat.mul_assoc, Nat.add_mul_div_left _ _ hQ, Nat.mul_assoc,
        Nat.add_mul_mod_self_left]
    rw [hsplit, h1, h1]
  · rw [if_pos hjk, hjk, Nat.add_mul_div_left _ _ hP, Nat.div_eq_of_lt hlo, Nat.zero_add,
      Nat.add_mul_mod_self_left, Nat.mod_eq_of_lt hx]
  · rw [if_neg (by omega)]
    obtain ⟨e, rfl⟩ : ∃ e, j = k + 1 + e := ⟨j - k - 1, by omega⟩
    have hsplit : 2 ^ (w * (k + 1 + e)) = 2 ^ (w * k) * (2 ^ w * 2 ^ (w * e)) := by
      rw [← pow_add, ← pow_add]
      congr 1
      ring
    rw [hsplit, ← Nat.div_div_eq_div_mul, ← Nat.div_div_eq_div_mul,
      ← Nat.div_div_eq_div_mul, ← Nat.div_div_eq_div_mul,
      Nat.add_mul_div_left _ _ hP, Nat.add_mul_div_left _ _ hP, Nat.div_eq_of_lt hlo,
      Nat.zero_add, Nat.zero_add, Nat.add_mul_div_left _ _ hB, Nat.add_mul_div_left _ _ hB,
      Nat.div_eq_of_lt hx]
    simp

theorem table_split (w t k : Nat) :
    t = t % 2 ^ (w * k) + 2 ^ (w * k) * (field w t k + 2 ^ w * (t / 2 ^ (w * k) / 2 ^ w)) := by
  rw [field_eq, Nat.mod_add_div, Nat.mod_add_div]

theorem setField_split (w t k v : Nat) :
    setField w t k v =
      t % 2 ^ (w * k) + 2 ^ (w * k) * (v + 2 ^ w * (t / 2 ^ (w * k) / 2 ^ w)) := by
  rw [setField_eq]
  have h := table_split w t k
  have e : t - field w t k * 2 ^ (w * k) =
      t % 2 ^ (w * k) + 2 ^ (w * k) * (2 ^ w * (t / 2 ^ (w * k) / 2 ^ w)) := by
    have : t = (t % 2 ^ (w * k) + 2 ^ (w * k) * (2 ^ w * (t / 2 ^ (w * k) / 2 ^ w)))
        + field w t k * 2 ^ (w * k) := by
      nth_rewrite 1 [h]
      ring
    omega
  rw [e]
  ring

theorem field_setField (w t k v j : Nat) (hv : v < 2 ^ w) :
    field w (setField w t k v) j = if j = k then v else field w t j := by
  have hlo : t % 2 ^ (w * k) < 2 ^ (w * k) :=
    Nat.mod_lt _ (Nat.pos_pow_of_pos _ (by norm_num))
  rw [setField_split, field_parts w _ _ v k j hlo hv]
  by_cases hj : j = k
  · rw [if_pos hj, if_pos hj]
  · rw [if_neg hj, if_neg hj]
    conv_rhs => rw [table_split w t k]
    rw [field_parts w _ _ (field w t k) k j hlo (field_lt w t k), if_neg hj]

/-! ## Packed FIFOs -/

theorem NatQueue.toList_length (q : NatQueue) : q.toList.length = q.len := by
  simp [NatQueue.toList]

theorem NatQueue.toList_lt (q : NatQueue) : ∀ x ∈ q.toList, x < 65536 := by
  intro x hx
  simp only [NatQueue.toList, List.mem_map, List.mem_range] at hx
  obtain ⟨i, _, rfl⟩ := hx
  exact field_lt 16 _ _

theorem NatQueue.push_eq (q : NatQueue) (v : Nat) :
    q.push v = ⟨q.bits + 2 ^ (16 * q.len) * (v + 2 ^ 16 * 0), q.len + 1⟩ := by
  show NatQueue.mk (q.bits + v <<< (16 * q.len)) (q.len + 1) = _
  rw [Nat.shiftLeft_eq]
  congr 1
  ring

theorem NatQueue.toList_push (q : NatQueue) (v : Nat) (hq : QueueWf q) (hv : v < 65536) :
    (q.push v).toList = q.toList ++ [v] ∧ QueueWf (q.push v) := by
  have hP : 0 < 2 ^ (16 * q.len) := Nat.pos_pow_of_pos _ (by norm_num)
  rw [NatQueue.push_eq]
  constructor
  · simp only [NatQueue.toList, List.range_succ, List.map_append, List.map_cons, List.map_nil]
    congr 1
    · apply List.map_congr_left
      intro i hi
      rw [List.mem_range] at hi
      rw [field_parts 16 _ _ v q.len i hq (by norm_num; exact hv), if_neg (by omega)]
      simp
    · rw [field_parts 16 _ _ v q.len q.len hq (by norm_num; exact hv), if_pos rfl]
  · unfold QueueWf at hq ⊢
    show q.bits + 2 ^ (16 * q.len) * (v + 2 ^ 16 * 0) < 2 ^ (16 * (q.len + 1))
    have e : 2 ^ (16 * (q.len + 1)) = 2 ^ (16 * q.len) * 65536 := by
      rw [Nat.mul_add, pow_add]
      norm_num
    rw [e]
    have : 2 ^ (16 * q.len) * (v + 2 ^ 16 * 0) ≤ 2 ^ (16 * q.len) * 65535 :=
      Nat.mul_le_mul_left _ (by omega)
    have e2 : 2 ^ (16 * q.len) * 65536 = 2 ^ (16 * q.len) * 65535 + 2 ^ (16 * q.len) := by ring
    omega

theorem NatQueue.pop_eq (q : NatQueue) :
    q.pop = if q.len = 0 then none
      else some (q.bits % 65536, ⟨q.bits / 65536, q.len - 1⟩) := by
  have e2 : Nat.shiftRight q.bits 16 = q.bits / 65536 := by
    show q.bits >>> 16 = _
    rw [Nat.shiftRight_eq_div_pow]
  unfold NatQueue.pop
  rw [e2]
  cases hb : Nat.beq q.len 0 with
  | true =>
    rw [if_pos (Nat.eq_of_beq_eq_true hb)]
    rfl
  | false =>
    rw [if_neg (Nat.ne_of_beq_eq_false hb)]
    rfl

theorem NatQueue.pop_none (q : NatQueue) (h : q.pop = none) : q.toList = [] := by
  rw [NatQueue.pop_eq] at h
  by_cases hl : q.len = 0
  · simp [NatQueue.toList, hl]
  · rw [if_neg hl] at h
    exact absurd h (by simp)

theorem field_succ (t i : Nat) : field 16 t (i + 1) = field 16 (t / 65536) i := by
  have e16 : (2 : Nat) ^ 16 = 65536 := by norm_num
  have e : 2 ^ (16 * (i + 1)) = 65536 * 2 ^ (16 * i) := by
    rw [Nat.mul_succ, pow_add, e16, Nat.mul_comm]
  rw [field_eq, field_eq, e, Nat.div_div_eq_div_mul]

theorem NatQueue.pop_some (q : NatQueue) (hq : QueueWf q) (p : Nat × NatQueue)
    (h : q.pop = some p) : q.toList = p.1 :: p.2.toList ∧ QueueWf p.2 ∧ p.1 < 65536 := by
  rw [NatQueue.pop_eq] at h
  by_cases hl : q.len = 0
  · rw [if_pos hl] at h
    exact absurd h (by simp)
  · rw [if_neg hl, Option.some.injEq] at h
    subst h
    obtain ⟨n, hn⟩ : ∃ n, q.len = n + 1 := ⟨q.len - 1, by omega⟩
    have e1 : q.bits % 65536 = field 16 q.bits 0 := by
      rw [field_eq]
      simp
    refine ⟨?_, ?_, ?_⟩
    · show (List.range q.len).map (fun i => field 16 q.bits i)
        = q.bits % 65536 :: (List.range (q.len - 1)).map (fun i => field 16 (q.bits / 65536) i)
      rw [hn, List.range_succ_eq_map, List.map_cons, List.map_map, e1, Nat.add_sub_cancel]
      congr 1
      apply List.map_congr_left
      intro i _
      exact field_succ _ _
    · unfold QueueWf at hq ⊢
      show q.bits / 65536 < 2 ^ (16 * (q.len - 1))
      have e16 : (2 : Nat) ^ 16 = 65536 := by norm_num
      rw [hn, Nat.mul_succ, pow_add, e16] at hq
      rw [hn, Nat.add_sub_cancel]
      apply Nat.div_lt_of_lt_mul
      rw [Nat.mul_comm]
      exact hq
    · show q.bits % 65536 < 65536
      omega

/-! ## Tables of the view against the tables of the code -/

theorem slotInt_range (k : Nat) (hk : k < 65536) :
    0 ≤ slotInt k ∧ slotInt k < MAX_NODE ∧ 917504 ≤ slotInt k ∧ slotInt k < 983040 ∧
    (slotInt k - 917504).toNat = k := by
  rw [MAX_NODE_eq]
  unfold slotInt
  omega

theorem slotInt_injective (j k : Nat) (h : slotInt j = slotInt k) : j = k := by
  unfold slotInt at h
  omega

theorem handle_lt (a : CacheView) (k : Nat) : a.handle k < 65536 := by
  have := field_lt 16 a.handles k
  unfold CacheView.handle
  omega

theorem handleAt_slotInt (a : CacheView) (k : Nat) (hk : k < 65536) :
    a.handleAt (slotInt k) =
      if a.handle k = 0 then INVALID_HANDLE else ((a.handle k : Nat) : Int) - 1 := by
  obtain ⟨-, -, h1, h2, h3⟩ := slotInt_range k hk
  unfold CacheView.handleAt
  rw [h3]
  by_cases h0 : a.handle k = 0
  · rw [if_pos h0, if_neg (fun h => h.2.2 h0)]
  · rw [if_neg h0, if_pos ⟨h1, h2, h0⟩]

theorem handleAt_congr (a b : CacheView) (h : b.handles = a.handles) :
    b.handleAt = a.handleAt := by
  funext i
  simp only [CacheView.handleAt, CacheView.handle, h]

theorem handleAt_setField (a b : CacheView) (k v : Nat) (hk : k < 65536) (hv : v < 65536)
    (h : b.handles = setField 16 a.handles k v) :
    b.handleAt = setAt a.handleAt (slotInt k)
      (if v = 0 then INVALID_HANDLE else ((v : Nat) : Int) - 1) := by
  obtain ⟨-, -, h1, h2, h3⟩ := slotInt_range k hk
  funext i
  unfold setAt
  by_cases hi : i = slotInt k
  · rw [if_pos hi, hi, handleAt_slotInt b k hk]
    simp only [CacheView.handle, h]
    rw [field_setField 16 _ _ _ _ (by norm_num; exact hv), if_pos rfl]
  · rw [if_neg hi]
    simp only [CacheView.handleAt, CacheView.handle, h]
    by_cases hw : 917504 ≤ i ∧ i < 983040
    · have hne : (i - 917504).toNat ≠ k := by
        intro e
        apply hi
        unfold slotInt
        omega
      rw [field_setField 16 _ _ _ _ (by norm_num; exact hv), if_neg hne]
    · rw [if_neg (fun h => hw ⟨h.1, h.2.1⟩), if_neg (fun h => hw ⟨h.1, h.2.1⟩)]

theorem valueAt_eq (a : CacheView) (h : Int) :
    a.valueAt h = if 0 ≤ h then decodeValue (field 64 a.values h.toNat) else none := by
  unfold CacheView.valueAt decodeValue
  by_cases h0 : 0 ≤ h
  · rw [if_pos h0]
    by_cases h1 : field 64 a.values h.toNat / 4294967296 ≠ 0
    · rw [if_pos ⟨h0, h1⟩, if_pos h1]
    · rw [if_neg (by tauto), if_neg h1]
  · rw [if_neg h0, if_neg (by tauto)]

theorem valueAt_nat (a : CacheView) (h : Nat) :
    a.valueAt (h : Int) = decodeValue (field 64 a.values h) := by
  rw [valueAt_eq, if_pos (by omega), Int.toNat_ofNat]

theorem valueAt_congr (a b : CacheView) (h : b.values = a.values) :
    b.valueAt = a.valueAt := by
  funext i
  simp only [CacheView.valueAt, h]

theorem valueAt_setField (a b : CacheView) (hd e : Nat) (he : e < 2 ^ 64)
    (h : b.values = setField 64 a.values hd e) :
    b.valueAt = setAt a.valueAt (hd : Int) (decodeValue e) := by
  funext i
  unfold setAt
  by_cases hi : i = (hd : Int)
  · rw [if_pos hi, hi, valueAt_nat, h, field_setField 64 _ _ _ _ he, if_pos rfl]
  · rw [if_neg hi, valueAt_eq, valueAt_eq, h]
    by_cases h0 : 0 ≤ i
    · rw [if_pos h0, if_pos h0, field_setField 64 _ _ _ _ he, if_neg (by omega)]
    · rw [if_neg h0, if_neg h0]

theorem alloced_setAt (m : Int → Option CacheValue) (a b : CacheView) (hd e : Nat)
    (ov : Option CacheValue) (he : e < 2 ^ 64)
    (hm : ∀ h, (m h).map (fun v => (v.refcount, v.len)) = a.valueAt h)
    (hb : b.values = setField 64 a.values hd e)
    (hov : ov.map (fun v => (v.refcount, v.len)) = decodeValue e) :
    ∀ h, (setAt m (hd : Int) ov h).map (fun v => (v.refcount, v.len)) = b.valueAt h := by
  intro h
  rw [valueAt_setField a b hd e he hb]
  unfold setAt
  by_cases hh : h = (hd : Int)
  · rw [if_pos hh, if_pos hh, hov]
  · rw [if_neg hh, if_neg hh, hm]

theorem decodeValue_pack (rc len : Nat) (hlen : len < 4294967296) :
    decodeValue ((rc + 1) * 4294967296 + len) = some ((rc : Int), (len : Int)) := by
  unfold decodeValue
  have e1 : ((rc + 1) * 4294967296 + len) / 4294967296 = rc + 1 := by omega
  have e2 : ((rc + 1) * 4294967296 + len) % 4294967296 = len := by omega
  rw [e1, e2, if_pos (by omega)]
  simp

theorem decodeValue_zero : decodeValue 0 = none := by
  simp [decodeValue]

theorem evictCond_view (s : MyfilePartition) (a : CacheView) (h : ViewCache s a) :
    evictCond s = viewEvictCond a := by
  unfold evictCond viewEvictCond maxCache maxCacheLength
  rw [h.nodeCount, h.memoryByte, MAX_CACHE_eq, MAX_CACHE_LENGTH_eq]
  cases h1 : Nat.ble 26624 a.nodeCount <;> cases h2 : Nat.ble 20971520 a.memoryByte <;>
    simp only [Nat.ble_eq, Bool.or_true, Bool.or_false, Bool.true_or, Bool.false_or,
      Bool.or_eq_true, Bool.or_eq_false_iff, decide_eq_true_eq, decide_eq_false_iff_not,
      ← Bool.not_eq_true] at h1 h2 ⊢ <;> omega

/-! ## The eviction loop on the view -/

theorem CacheView.norm_eq (a : CacheView) : a.norm = a := rfl

theorem AllocCacheIndex_view (s : MyfilePartition) (a : CacheView) (h : ViewCache s a) :
    (viewAllocCacheIndex a = none → AllocCacheIndex s = (-1, s)) ∧
    (∀ p, viewAllocCacheIndex a = some p →
      p.1 < 65536 ∧ (AllocCacheIndex s).1 = slotInt p.1 ∧
      ViewCache (AllocCacheIndex s).2 p.2 ∧ SameFiles s (AllocCacheIndex s).2) := by
  have hlen : s.m_prereadCacheFIFO.length = a.preread.len := by
    rw [h.preread, List.length_map, NatQueue.toList_length]
  unfold viewAllocCacheIndex AllocCacheIndex
  cases hb : Nat.ble 1025 a.preread.len with
  | true =>
    have hge : 1025 ≤ a.preread.len := Nat.le_of_ble_eq_true hb
    rw [cond_true, if_pos (by omega)]
    cases hp : a.preread.pop with
    | none =>
      have e := NatQueue.pop_none _ hp
      have hl : s.m_prereadCacheFIFO = [] := by rw [h.preread, e]; rfl
      rw [hl]
      exact ⟨fun _ => rfl, fun p hp2 => (by cases hp2)⟩
    | some q =>
      obtain ⟨e1, e2, e3⟩ := NatQueue.pop_some _ h.preread_wf q hp
      have hl : s.m_prereadCacheFIFO = slotInt q.1 :: q.2.toList.map slotInt := by
        rw [h.preread, e1]
        rfl
      rw [hl]
      refine ⟨fun hn => (by cases hn), fun p hp2 => ?_⟩
      simp only [Option.some.injEq] at hp2
      subst hp2
      exact ⟨e3, rfl, { h with preread := rfl, preread_wf := e2 },
        ⟨rfl, rfl, rfl, rfl, rfl, rfl, rfl, rfl⟩⟩
  | false =>
    have hlt : ¬ 1025 ≤ a.preread.len := Nat.not_le_of_not_ble_eq_true (by rw [hb]; simp)
    rw [cond_false, if_neg (by omega)]
    cases hp : a.access.pop with
    | none =>
      have e := NatQueue.pop_none _ hp
      have hl : s.m_accessCacheFIFO = [] := by rw [h.access, e]; rfl
      rw [hl]
      exact ⟨fun _ => rfl, fun p hp2 => (by cases hp2)⟩
    | some q =>
      obtain ⟨e1, e2, e3⟩ := NatQueue.pop_some _ h.access_wf q hp
      have hl : s.m_accessCacheFIFO = slotInt q.1 :: q.2.toList.map slotInt := by
        rw [h.access, e1]
        rfl
      rw [hl]
      refine ⟨fun hn => (by cases hn), fun p hp2 => ?_⟩
      simp only [Option.some.injEq] at hp2
      subst hp2
      exact ⟨e3, rfl, { h with access := rfl, access_wf := e2 },
        ⟨rfl, rfl, rfl, rfl, rfl, rfl, rfl, rfl⟩⟩

theorem viewCHECK_DELETE_eq (a : CacheView) (k : Nat) :
    viewCHECK_DELETE a k =
      if a.handle k = 0 then Res.ok a
      else if maxCache ≤ a.handle k - 1 then Res.unknown
      else if a.value k / 4294967296 = 0 then Res.ok a
      else if a.value k / 4294967296 = 2 then
        if a.value k % 4294967296 ≤ a.memoryByte ∧ 1 ≤ a.nodeCount then
          Res.ok { a with
            memoryByte := a.memoryByte - a.value k % 4294967296
            values := setField 64 a.values (a.handle k - 1) 0
            freelist := a.freelist.push (a.handle k - 1)
            handles := setField 16 a.handles k 0
            nodeCount := a.nodeCount - 1 }
        else Res.unknown
      else if 3 ≤ a.value k / 4294967296 then Res.ok (a.setValue k (a.value k - 4294967296))
      else Res.unknown := by
  simp only [viewCHECK_DELETE, cond_eq_if, Nat.beq_eq, Nat.ble_eq, Bool.and_eq_true]

theorem viewCHECK_DELETE_ne_undef (a : CacheView) (k : Nat) :
    viewCHECK_DELETE a k ≠ Res.undef := by
  rw [viewCHECK_DELETE_eq]
  split_ifs <;> simp

theorem setValue_free (A : CacheValueAllocator) (hd : Int) (v0 : CacheValue)
    (h : hd < MAX_CACHE) :
    (A.setValue hd v0).free hd =
      { A with m_freelist := A.m_freelist ++ [(hd, v0)], m_alloced := setAt A.m_alloced hd none } := by
  unfold CacheValueAllocator.free CacheValueAllocator.setValue
  rw [if_neg (by omega)]
  simp only [setAt_same, setAt_setAt]

theorem alloced_cases (s : MyfilePartition) (a : CacheView) (h : ViewCache s a) (hd : Nat) :
    (field 64 a.values hd / 4294967296 = 0 ∧ s.m_cacheAllocator.m_alloced hd = none) ∨
    (field 64 a.values hd / 4294967296 ≠ 0 ∧ ∃ cache, s.m_cacheAllocator.m_alloced hd = some cache ∧
      cache.refcount = ((field 64 a.values hd / 4294967296 : Nat) : Int) - 1 ∧
      cache.len = ((field 64 a.values hd % 4294967296 : Nat) : Int)) := by
  have hm := h.alloced hd
  rw [valueAt_nat] at hm
  unfold decodeValue at hm
  by_cases h0 : field 64 a.values hd / 4294967296 = 0
  · left
    rw [if_neg (by simpa using h0), Option.map_eq_none'] at hm
    exact ⟨h0, hm⟩
  · right
    rw [if_pos h0, Option.map_eq_some'] at hm
    obtain ⟨cache, hc, he⟩ := hm
    simp only [Prod.mk.injEq] at he
    exact ⟨h0, cache, hc, he.1, he.2⟩

theorem CHECK_DELETE_view (s : MyfilePartition) (a a1 : CacheView) (k : Nat)
    (h : ViewCache s a) (hk : k < 65536) (hv : viewCHECK_DELETE a k = Res.ok a1) :
    ∃ s1, CHECK_DELETE s (slotInt k) = some s1 ∧ ViewCache s1 a1 := by
  obtain ⟨r0, r1, -, -, -⟩ := slotInt_range k hk
  have hA := handleAt_slotInt a k hk
  have hH := handle_lt a k
  have hV : a.value k < 2 ^ 64 := field_lt 64 _ _
  have hM := MAX_CACHE_eq
  unfold CHECK_DELETE
  rw [h.node]
  simp only
  rw [if_neg (by omega), hA]
  rw [viewCHECK_DELETE_eq] at hv
  unfold maxCache at hv
  by_cases h1 : a.handle k = 0
  · rw [if_pos h1, Res.ok.injEq] at hv
    subst hv
    rw [if_pos h1]
    have : s.m_cacheAllocator.getValue INVALID_HANDLE = none := by
      unfold CacheValueAllocator.getValue
      rw [if_pos INVALID_HANDLE_ge]
    rw [this]
    exact ⟨s, rfl, h⟩
  · rw [if_neg h1] at hv ⊢
    by_cases h2 : 26624 ≤ a.handle k - 1
    · rw [if_pos h2] at hv
      cases hv
    · rw [if_neg h2] at hv
      have ecast : ((a.handle k : Nat) : Int) - 1 = ((a.handle k - 1 : Nat) : Int) := by omega
      rw [ecast]
      have hg : s.m_cacheAllocator.getValue ((a.handle k - 1 : Nat) : Int)
          = s.m_cacheAllocator.m_alloced ((a.handle k - 1 : Nat) : Int) := by
        unfold CacheValueAllocator.getValue
        rw [if_neg (by omega)]
      rw [hg]
      have hval : a.value k = field 64 a.values (a.handle k - 1) := rfl
      rcases alloced_cases s a h (a.handle k - 1) with ⟨c0, c1⟩ | ⟨c0, cache, c1, c2, c3⟩
      · rw [← hval] at c0
        rw [if_pos c0, Res.ok.injEq] at hv
        subst hv
        rw [c1]
        exact ⟨s, rfl, h⟩
      · rw [← hval] at c0 c2 c3
        rw [if_neg c0] at hv
        rw [c1]
        simp only
        by_cases h4 : a.value k / 4294967296 = 2
        · rw [if_pos h4] at hv
          by_cases h5 : a.value k % 4294967296 ≤ a.memoryByte ∧ 1 ≤ a.nodeCount
          · rw [if_pos h5, Res.ok.injEq] at hv
            have et : toInt64 (cache.refcount - 1) = 0 := by
              rw [c2, h4]
              simp only [toInt64]
              omega
            rw [if_pos et]
            refine ⟨_, rfl, ?_⟩
            have hN := h.nodeCount_lt
            have hB := h.memoryByte_lt
            have hq := NatQueue.toList_push a.freelist (a.handle k - 1) h.freelist_wf (by omega)
            have f1 : a1.nodeCount = a.nodeCount - 1 := hv ▸ rfl
            have f2 : a1.memoryByte = a.memoryByte - a.value k % 4294967296 := hv ▸ rfl
            have f3 : a1.access = a.access := hv ▸ rfl
            have f4 : a1.preread = a.preread := hv ▸ rfl
            have f5 : a1.handles = setField 16 a.handles k 0 := hv ▸ rfl
            have f6 : a1.values = setField 64 a.values (a.handle k - 1) 0 := hv ▸ rfl
            have f7 : a1.initHandle = a.initHandle := hv ▸ rfl
            have f8 : a1.freelist = a.freelist.push (a.handle k - 1) := hv ▸ rfl
            exact
              { mode := h.mode
                nodeCount := by
                  show toUInt32 (s.m_cacheNodeCount - 1) = _
                  rw [h.nodeCount, f1]
                  simp only [toUInt32]
                  omega
                memoryByte := by
                  show toUInt32 (s.m_cacheMemoryByte - toUInt32 cache.len) = _
                  rw [h.memoryByte, c3, f2]
                  simp only [toUInt32]
                  omega
                nodeCount_lt := by
                  rw [f1]
                  omega
                memoryByte_lt := by
                  rw [f2]
                  omega
                access := by rw [f3]; exact h.access
                access_wf := by rw [f3]; exact h.access_wf
                preread := by rw [f4]; exact h.preread
                preread_wf := by rw [f4]; exact h.preread_wf
                node := by
                  show some (setAt a.handleAt (slotInt k) INVALID_HANDLE) = some _
                  rw [handleAt_setField a a1 k 0 hk (by norm_num) f5]
                  rfl
                initHandle := by
                  rw [setValue_free _ _ _ (by omega), f7]
                  exact h.initHandle
                freelist := by
                  have hfl : a1.freelist.toList.map (fun (h : Nat) => (Int.ofNat h, CacheValue.new))
                      = a.freelist.toList.map (fun (h : Nat) => (Int.ofNat h, CacheValue.new))
                        ++ [(((a.handle k - 1 : Nat) : Int), CacheValue.new)] := by
                    rw [f8, hq.1, List.map_append]
                    rfl
                  rw [setValue_free _ _ _ (by omega), hfl, ← h.freelist]
                  rfl
                freelist_wf := by rw [f8]; exact hq.2
                alloced := by
                  rw [setValue_free _ _ _ (by omega)]
                  exact alloced_setAt _ a a1 (a.handle k - 1) 0 none (by norm_num) h.alloced f6
                    (by rw [decodeValue_zero]; rfl) }
          · rw [if_neg h5] at hv
            cases hv
        · rw [if_neg h4] at hv
          by_cases h6 : 3 ≤ a.value k / 4294967296
          · rw [if_pos h6, Res.ok.injEq] at hv
            have hrc : a.value k / 4294967296 < 4294967296 := by
              norm_num at hV
              omega
            have et : toInt64 (cache.refcount - 1) = cache.refcount - 1 := by
              rw [c2]
              simp only [toInt64]
              omega
            rw [if_neg (by rw [et, c2]; omega), et]
            refine ⟨_, rfl, ?_⟩
            have f1 : a1.nodeCount = a.nodeCount := hv ▸ rfl
            have f2 : a1.memoryByte = a.memoryByte := hv ▸ rfl
            have f3 : a1.access = a.access := hv ▸ rfl
            have f4 : a1.preread = a.preread := hv ▸ rfl
            have f5 : a1.handles = a.handles := hv ▸ rfl
            have f6 : a1.values
                = setField 64 a.values (a.handle k - 1) (a.value k - 4294967296) := hv ▸ rfl
            have f7 : a1.initHandle = a.initHandle := hv ▸ rfl
            have f8 : a1.freelist = a.freelist := hv ▸ rfl
            exact
              { mode := h.mode
                nodeCount := by rw [f1]; exact h.nodeCount
                memoryByte := by rw [f2]; exact h.memoryByte
                nodeCount_lt := by rw [f1]; exact h.nodeCount_lt
                memoryByte_lt := by rw [f2]; exact h.memoryByte_lt
                access := by rw [f3]; exact h.access
                access_wf := by rw [f3]; exact h.access_wf
                preread := by rw [f4]; exact h.preread
                preread_wf := by rw [f4]; exact h.preread_wf
                node := by rw [handleAt_congr a a1 f5]
                initHandle := by rw [f7]; exact h.initHandle
                freelist := by rw [f8]; exact h.freelist
                freelist_wf := by rw [f8]; exact h.freelist_wf
                alloced := by
                  apply alloced_setAt _ a a1 (a.handle k - 1) (a.value k - 4294967296) _
                    (by omega) h.alloced f6
                  have e : a.value k - 4294967296
                      = (a.value k / 4294967296 - 2 + 1) * 4294967296 + a.value k % 4294967296 := by
                    omega
                  rw [e, decodeValue_pack _ _ (by omega)]
                  simp only [Option.map_some', c2, c3, Option.some.injEq, Prod.mk.injEq]
                  constructor
                  · omega
                  · trivial }
          · rw [if_neg h6] at hv
            cases hv

theorem CHECK_DELETE_minus_one (s : MyfilePartition) : CHECK_DELETE s (-1) = none := by
  unfold CHECK_DELETE
  cases s.m_node with
  | none => rfl
  | some nd =>
    simp only
    rw [if_pos (Or.inl (by decide))]

theorem evictBody_view (s : MyfilePartition) (a : CacheView) (h : ViewCache s a) :
    (viewEvictBody a = Res.undef →
      AllocCacheIndex s = (-1, s) ∧
      CHECK_DELETE (AllocCacheIndex s).2 (AllocCacheIndex s).1 = none) ∧
    (∀ a1, viewEvictBody a = Res.ok a1 →
      ∃ s1, CHECK_DELETE (AllocCacheIndex s).2 (AllocCacheIndex s).1 = some s1 ∧
        ViewCache s1 a1) := by
  obtain ⟨t1, t2⟩ := AllocCacheIndex_view s a h
  unfold viewEvictBody
  cases hp : viewAllocCacheIndex a with
  | none =>
    have e := t1 hp
    refine ⟨fun _ => ⟨e, ?_⟩, fun a1 ha => (by cases ha)⟩
    rw [e]
    exact CHECK_DELETE_minus_one s
  | some p =>
    obtain ⟨p1, p2, p3, -⟩ := t2 p hp
    refine ⟨fun hu => absurd hu (viewCHECK_DELETE_ne_undef _ _), fun a1 ha => ?_⟩
    rw [p2]
    exact CHECK_DELETE_view _ p.2 a1 p.1 p3 p1 ha

theorem evictLoop_view (fuel : Nat) : ∀ (s : MyfilePartition) (a : CacheView), ViewCache s a →
    (viewEvictLoop fuel a = Res.undef → evictLoop fuel s = none) ∧
    (∀ a1, viewEvictLoop fuel a = Res.ok a1 →
      ∃ s1, evictLoop fuel s = some s1 ∧ ViewCache s1 a1) := by
  induction fuel with
  | zero =>
    intro s a h
    have hc := evictCond_view s a h
    unfold viewEvictLoop evictLoop
    cases hb : viewEvictCond a with
    | true =>
      rw [hb] at hc
      rw [hc, cond_true, if_pos rfl]
      exact ⟨fun _ => rfl, fun a1 ha => (by cases ha)⟩
    | false =>
      rw [hb] at hc
      rw [hc, cond_false, if_neg (by simp)]
      refine ⟨fun hu => (by cases hu), fun a1 ha => ?_⟩
      rw [Res.ok.injEq] at ha
      subst ha
      exact ⟨s, rfl, h⟩
  | succ n ih =>
    intro s a h
    have hc := evictCond_view s a h
    obtain ⟨b1, b2⟩ := evictBody_view s a h
    unfold viewEvictLoop evictLoop
    cases hb : viewEvictCond a with
    | true =>
      rw [hb] at hc
      rw [hc, cond_true, if_pos rfl]
      cases hbody : viewEvictBody a with
      | undef =>
        rw [(b1 hbody).2]
        exact ⟨fun _ => rfl, fun a1 ha => (by cases ha)⟩
      | unknown =>
        exact ⟨fun hu => (by cases hu), fun a1 ha => (by cases ha)⟩
      | ok a2 =>
        obtain ⟨s2, e2, v2⟩ := b2 a2 hbody
        rw [e2]
        exact ih s2 a2 v2
    | false =>
      rw [hb] at hc
      rw [hc, cond_false, if_neg (by simp)]
      refine ⟨fun hu => (by cases hu), fun a1 ha => ?_⟩
      rw [Res.ok.injEq] at ha
      subst ha
      exact ⟨s, rfl, h⟩

theorem evictSteps_view (n : Nat) : ∀ (s : MyfilePartition) (a : CacheView), ViewCache s a →
    ∀ a1, viewEvictSteps n a = Res.ok a1 →
      ∃ s1, evictSteps n s = some s1 ∧ ViewCache s1 a1 := by
  induction n with
  | zero =>
    intro s a h a1 ha
    unfold viewEvictSteps at ha
    rw [Res.ok.injEq] at ha
    subst ha
    exact ⟨s, rfl, h⟩
  | succ n ih =>
    intro s a h a1 ha
    have hc := evictCond_view s a h
    obtain ⟨-, b2⟩ := evictBody_view s a h
    unfold viewEvictSteps at ha
    unfold evictSteps
    cases hb : viewEvictCond a with
    | true =>
      rw [hb] at hc ha
      rw [hc, if_pos rfl]
      rw [cond_true] at ha
      cases hbody : viewEvictBody a with
      | undef => rw [hbody] at ha; cases ha
      | unknown => rw [hbody] at ha; cases ha
      | ok a2 =>
        rw [hbody] at ha
        obtain ⟨s2, e2, v2⟩ := b2 a2 hbody
        rw [e2]
        exact ih s2 a2 v2 a1 ha
    | false =>
      rw [hb, cond_false] at ha
      cases ha

/-! ## Insertion into the cache on the view -/

theorem ViewCache.update (s s1 : MyfilePartition) (a a1 : CacheView) (h : ViewCache s a)
    (hmode : s1.m_cacheMode = s.m_cacheMode)
    (hcnt : s1.m_cacheNodeCount = (a1.nodeCount : Int)) (hcnt_lt : a1.nodeCount < 4294967296)
    (hmem : s1.m_cacheMemoryByte = (a1.memoryByte : Int))
    (hmem_lt : a1.memoryByte < 4294967296)
    (hacc : (s1.m_accessCacheFIFO = s.m_accessCacheFIFO ∧ a1.access = a.access) ∨
      (∃ k, k < 65536 ∧ s1.m_accessCacheFIFO = s.m_accessCacheFIFO ++ [slotInt k] ∧
        a1.access = a.access.push k))
    (hpre : (s1.m_prereadCacheFIFO = s.m_prereadCacheFIFO ∧ a1.preread = a.preread) ∨
      (∃ k, k < 65536 ∧ s1.m_prereadCacheFIFO = s.m_prereadCacheFIFO ++ [slotInt k] ∧
        a1.preread = a.preread.push k))
    (hnode : (s1.m_node = s.m_node ∧ a1.handles = a.handles) ∨
      (∃ k v, k < 65536 ∧ v < 65536 ∧ v ≠ 0 ∧ a1.handles = setField 16 a.handles k v ∧
        s1.m_node = some (setAt a.handleAt (slotInt k) (((v : Nat) : Int) - 1))))
    (hinit : s1.m_cacheAllocator.m_initHandle = (a1.initHandle : Int))
    (hfree : s1.m_cacheAllocator.m_freelist
      = a1.freelist.toList.map (fun (h : Nat) => (Int.ofNat h, CacheValue.new)))
    (hfree_wf : QueueWf a1.freelist)
    (halloc : (s1.m_cacheAllocator.m_alloced = s.m_cacheAllocator.m_alloced ∧
        a1.values = a.values) ∨
      (∃ hd e ov, e < 2 ^ 64 ∧ a1.values = setField 64 a.values hd e ∧
        s1.m_cacheAllocator.m_alloced = setAt s.m_cacheAllocator.m_alloced ((hd : Nat) : Int) ov ∧
        ov.map (fun v => (v.refcount, v.len)) = decodeValue e)) :
    ViewCache s1 a1 := by
  refine ⟨hmode.trans h.mode, hcnt, hmem, hcnt_lt, hmem_lt, ?_, ?_, ?_, ?_, ?_, hinit, hfree,
    hfree_wf, ?_⟩
  · rcases hacc with ⟨e1, e2⟩ | ⟨k, hk, e1, e2⟩
    · rw [e1, e2]; exact h.access
    · rw [e1, e2, (NatQueue.toList_push _ k h.access_wf hk).1, List.map_append, h.access]
      rfl
  · rcases hacc with ⟨e1, e2⟩ | ⟨k, hk, e1, e2⟩
    · rw [e2]; exact h.access_wf
    · rw [e2]; exact (NatQueue.toList_push _ k h.access_wf hk).2
  · rcases hpre with ⟨e1, e2⟩ | ⟨k, hk, e1, e2⟩
    · rw [e1, e2]; exact h.preread
    · rw [e1, e2, (NatQueue.toList_push _ k h.preread_wf hk).1, List.map_append, h.preread]
      rfl
  · rcases hpre with ⟨e1, e2⟩ | ⟨k, hk, e1, e2⟩
    · rw [e2]; exact h.preread_wf
    · rw [e2]; exact (NatQueue.toList_push _ k h.preread_wf hk).2
  · rcases hnode with ⟨e1, e2⟩ | ⟨k, v, hk, hv, hv0, e1, e2⟩
    · rw [e1, handleAt_congr a a1 e2]; exact h.node
    · rw [e2, handleAt_setField a a1 k v hk hv e1, if_neg hv0]
  · rcases halloc with ⟨e1, e2⟩ | ⟨hd, e, ov, he, e1, e2, e3⟩
    · intro x
      rw [e1, valueAt_congr a a1 e2]
      exact h.alloced x
    · rw [e2]
      exact alloced_setAt _ a a1 hd e ov he h.alloced e1 e3

theorem viewAlloc_eq (a : CacheView) :
    viewAlloc a =
      match a.freelist.pop with
      | some p =>
        if maxCache ≤ p.1 ∨ ¬ field 64 a.values p.1 = 0 then none
        else some (p.1, { a with freelist := p.2 })
      | none =>
        if maxCache ≤ a.initHandle ∨ ¬ field 64 a.values a.initHandle = 0 then none
        else some (a.initHandle, { a with initHandle := a.initHandle + 1 }) := by
  unfold viewAlloc
  cases a.freelist.pop <;>
    simp only [cond_eq_if, Nat.beq_eq, Nat.ble_eq, Bool.or_eq_true, Bool.not_eq_true',
      ← Bool.not_eq_true]

theorem alloc_view (s : MyfilePartition) (a : CacheView) (h : ViewCache s a)
    (p : Nat × CacheView) (hp : viewAlloc a = some p) :
    p.1 < 26624 ∧ field 64 a.values p.1 = 0 ∧
    s.m_cacheAllocator.alloc.1 = ((p.1 : Nat) : Int) ∧
    s.m_cacheAllocator.alloc.2.m_initHandle = (p.2.initHandle : Int) ∧
    s.m_cacheAllocator.alloc.2.m_freelist
      = p.2.freelist.toList.map (fun (h : Nat) => (Int.ofNat h, CacheValue.new)) ∧
    QueueWf p.2.freelist ∧
    s.m_cacheAllocator.alloc.2.m_alloced
      = setAt s.m_cacheAllocator.m_alloced ((p.1 : Nat) : Int) (some CacheValue.new) ∧
    p.2.nodeCount = a.nodeCount ∧ p.2.memoryByte = a.memoryByte ∧ p.2.access = a.access ∧
    p.2.preread = a.preread ∧ p.2.handles = a.handles ∧ p.2.values = a.values ∧
    p.2.slots = a.slots ∧ p.2.fileKiB = a.fileKiB := by
  have hM := MAX_CACHE_eq
  rw [viewAlloc_eq] at hp
  unfold maxCache at hp
  have hnone : ∀ x : Nat, field 64 a.values x = 0 →
      s.m_cacheAllocator.m_alloced ((x : Nat) : Int) = none := by
    intro x hx
    rcases alloced_cases s a h x with ⟨-, c⟩ | ⟨c, -⟩
    · exact c
    · rw [hx] at c
      exact absurd rfl c
  cases hq : a.freelist.pop with
  | some q =>
    rw [hq] at hp
    simp only at hp
    by_cases hc : 26624 ≤ q.1 ∨ ¬ field 64 a.values q.1 = 0
    · rw [if_pos hc] at hp
      cases hp
    · rw [if_neg hc, Option.some.injEq] at hp
      subst hp
      obtain ⟨e1, e2, e3⟩ := NatQueue.pop_some _ h.freelist_wf q hq
      have hl : s.m_cacheAllocator.m_freelist
          = (Int.ofNat q.1, CacheValue.new)
            :: q.2.toList.map (fun (h : Nat) => (Int.ofNat h, CacheValue.new)) := by
        rw [h.freelist, e1]
        rfl
      have hn := hnone q.1 (by tauto)
      have ea : s.m_cacheAllocator.alloc = (Int.ofNat q.1,
          ⟨s.m_cacheAllocator.m_initHandle,
            setAt s.m_cacheAllocator.m_alloced (Int.ofNat q.1) (some CacheValue.new),
            q.2.toList.map (fun (h : Nat) => (Int.ofNat h, CacheValue.new))⟩) := by
        unfold CacheValueAllocator.alloc
        rw [hl]
        simp only [Int.ofNat_eq_coe, hn, Option.isSome_none, Bool.false_eq_true, if_false]
      rw [ea]
      exact ⟨by omega, by tauto, rfl, h.initHandle, rfl, e2, rfl, rfl, rfl, rfl, rfl, rfl, rfl,
        rfl, rfl⟩
  | none =>
    rw [hq] at hp
    simp only at hp
    by_cases hc : 26624 ≤ a.initHandle ∨ ¬ field 64 a.values a.initHandle = 0
    · rw [if_pos hc] at hp
      cases hp
    · rw [if_neg hc, Option.some.injEq] at hp
      subst hp
      have e := NatQueue.pop_none _ hq
      have hl : s.m_cacheAllocator.m_freelist = [] := by
        rw [h.freelist, e]
        rfl
      have hn := hnone a.initHandle (by tauto)
      have hi := h.initHandle
      have ea : s.m_cacheAllocator.alloc = (((a.initHandle : Nat) : Int),
          ⟨toUInt32 (((a.initHandle : Nat) : Int) + 1),
            setAt s.m_cacheAllocator.m_alloced ((a.initHandle : Nat) : Int) (some CacheValue.new),
            []⟩) := by
        unfold CacheValueAllocator.alloc
        rw [hl]
        simp only [hi, hM, hn, Option.isSome_none, Bool.false_eq_true, if_false]
        rw [if_pos (by omega)]
      rw [ea]
      refine ⟨by omega, by tauto, rfl, ?_, ?_, h.freelist_wf, rfl, rfl, rfl, rfl, rfl, rfl, rfl, rfl,
        rfl⟩
      · show toUInt32 ((a.initHandle : Int) + 1) = ((a.initHandle + 1 : Nat) : Int)
        simp only [toUInt32]
        omega
      · show ([] : List (Int × CacheValue)) = _
        rw [e]
        rfl

theorem cacheBlockStore_push (s : MyfilePartition) (index h : Int) (value : List Int)
    (rw pr : Bool) (cacheV : CacheValue) (hg : s.m_cacheAllocator.getValue h = some cacheV)
    (hrc : cacheV.refcount < 3) :
    cacheBlockStore s index h value rw pr =
      (0, { s with
        m_cacheMemoryByte := if rw then
            toUInt32 (toUInt32 (s.m_cacheMemoryByte - toUInt32 cacheV.len)
              + toUInt32 (toInt32 (byteLen value)))
          else s.m_cacheMemoryByte
        m_prereadCacheFIFO :=
          if pr then s.m_prereadCacheFIFO ++ [index] else s.m_prereadCacheFIFO
        m_accessCacheFIFO :=
          if pr then s.m_accessCacheFIFO else s.m_accessCacheFIFO ++ [index]
        m_cacheAllocator := s.m_cacheAllocator.setValue h
          ⟨toInt64 (cacheV.refcount + 1),
            if rw then toInt32 (byteLen value) else cacheV.len,
            if rw then value else cacheV.data⟩ }) := by
  unfold cacheBlockStore
  rw [hg]
  cases rw <;> simp only [Bool.false_eq_true, if_false, if_true, hrc]

theorem cacheBlockStore_keep (s : MyfilePartition) (index h : Int) (value : List Int)
    (rw pr : Bool) (cacheV : CacheValue) (hg : s.m_cacheAllocator.getValue h = some cacheV)
    (hrc : ¬ cacheV.refcount < 3) :
    cacheBlockStore s index h value rw pr =
      (0, { s with
        m_cacheMemoryByte := if rw then
            toUInt32 (toUInt32 (s.m_cacheMemoryByte - toUInt32 cacheV.len)
              + toUInt32 (toInt32 (byteLen value)))
          else s.m_cacheMemoryByte
        m_cacheAllocator := s.m_cacheAllocator.setValue h
          ⟨cacheV.refcount,
            if rw then toInt32 (byteLen value) else cacheV.len,
            if rw then value else cacheV.data⟩ }) := by
  unfold cacheBlockStore
  rw [hg]
  cases rw <;> simp only [Bool.false_eq_true, if_false, if_true, hrc]

theorem viewCacheStore_eq (a : CacheView) (k n : Nat) (rw pr : Bool) :
    viewCacheStore a k n rw pr =
      if 65536 ≤ k ∨ 2147483648 ≤ n then Res.unknown
      else if a.handle k = 0 then
        match viewAlloc a with
        | none => Res.unknown
        | some p =>
          if 4294967295 ≤ a.nodeCount ∨ 4294967296 ≤ a.memoryByte + n then Res.unknown
          else
            Res.ok { p.2 with
              nodeCount := a.nodeCount + 1
              handles := setField 16 a.handles k (p.1 + 1)
              memoryByte := a.memoryByte + n
              values := setField 64 a.values p.1 (2 * 4294967296 + n)
              preread := if pr then a.preread.push k else a.preread
              access := if pr then a.access else a.access.push k }
      else if pr then Res.ok a
      else if maxCache ≤ a.handle k - 1 ∨ a.value k / 4294967296 = 0 then Res.unknown
      else if rw then
        if ¬ a.value k % 4294967296 ≤ a.memoryByte
            ∨ 4294967296 ≤ a.memoryByte - a.value k % 4294967296 + n then Res.unknown
        else if 4 ≤ a.value k / 4294967296 then
          Res.ok { a.setValue k (a.value k / 4294967296 * 4294967296 + n) with
            memoryByte := a.memoryByte - a.value k % 4294967296 + n }
        else
          Res.ok { a.setValue k ((a.value k / 4294967296 + 1) * 4294967296 + n) with
            memoryByte := a.memoryByte - a.value k % 4294967296 + n
            access := a.access.push k }
      else if 4 ≤ a.value k / 4294967296 then Res.ok a
      else Res.ok { a.setValue k (a.value k + 4294967296) with access := a.access.push k } := by
  unfold viewCacheStore
  cases viewAlloc a <;> cases rw <;> cases pr <;>
    simp only [cond_eq_if, Nat.beq_eq, Nat.ble_eq, Bool.or_eq_true, Bool.not_eq_true',
      ← Bool.not_eq_true, Bool.false_eq_true, if_false, if_true, decide_eq_true_eq,
      Bool.and_eq_true, Bool.true_and, Bool.false_and]

theorem cacheBlock_eq_after (s s1 : MyfilePartition) (nd : Int → Int) (index : Int)
    (value : List Int) (rw pr : Bool) (hm : s.m_cacheMode = CacheMode.CM_CACHE)
    (hn : s.m_node.isSome = true)
    (he : evictLoop (s.m_accessCacheFIFO.length + s.m_prereadCacheFIFO.length + 1) s = some s1)
    (hnd : s1.m_node = some nd) :
    cacheBlock s index value rw pr = cacheBlockAfter s1 nd index value rw pr := by
  unfold cacheBlock cacheBlockAfter
  cases hs : s.m_node with
  | none => rw [hs] at hn; cases hn
  | some nd0 =>
    simp only [hm, ne_eq, not_true_eq_false, if_false, he, hnd]

theorem toUInt32_id (v : Int) (h : 0 ≤ v ∧ v < 4294967296) : toUInt32 v = v := by
  simp only [toUInt32]
  omega

theorem toInt32_id (v : Int) (h : -2147483648 ≤ v ∧ v < 2147483648) : toInt32 v = v := by
  simp only [toInt32]
  omega

theorem memoryByte_store (m l n : Nat) (hl : l ≤ m) (hm : m < 4294967296)
    (hn : n < 2147483648) (hr : m - l + n < 4294967296) :
    toUInt32 (toUInt32 ((m : Int) - toUInt32 (l : Int)) + toUInt32 (toInt32 (n : Int)))
      = ((m - l + n : Nat) : Int) := by
  rw [toInt32_id _ (by omega), toUInt32_id (n : Int) (by omega),
    toUInt32_id (l : Int) (by omega), toUInt32_id ((m : Int) - (l : Int)) (by omega),
    toUInt32_id _ (by omega)]
  omega

theorem cacheStore_alloc_view (s1 : MyfilePartition) (a1 a2 : CacheView) (k n : Nat)
    (value : List Int) (rw pr : Bool) (h : ViewCache s1 a1) (hn : byteLen value = (n : Int))
    (hk : k < 65536) (hn2 : n < 2147483648) (h0 : a1.handle k = 0)
    (p : Nat × CacheView) (hp : viewAlloc a1 = some p)
    (hb : ¬ (4294967295 ≤ a1.nodeCount ∨ 4294967296 ≤ a1.memoryByte + n))
    (hv : ({ p.2 with
        nodeCount := a1.nodeCount + 1
        handles := setField 16 a1.handles k (p.1 + 1)
        memoryByte := a1.memoryByte + n
        values := setField 64 a1.values p.1 (2 * 4294967296 + n)
        preread := if pr then a1.preread.push k else a1.preread
        access := if pr then a1.access else a1.access.push k } : CacheView) = a2) :
    ∃ r, cacheBlockAfter s1 a1.handleAt (slotInt k) value rw pr = some r ∧
      ViewCache r.2 a2 := by
  have hM := MAX_CACHE_eq
  have hA := handleAt_slotInt a1 k hk
  rw [if_pos h0] at hA
  obtain ⟨q1, q2, q3, q4, q5, q6, q7, -⟩ := alloc_view s1 a1 h p hp
  have g1 : a2.nodeCount = a1.nodeCount + 1 := hv ▸ rfl
  have g2 : a2.memoryByte = a1.memoryByte + n := hv ▸ rfl
  have g3 : a2.access = if pr then a1.access else a1.access.push k := hv ▸ rfl
  have g4 : a2.preread = if pr then a1.preread.push k else a1.preread := hv ▸ rfl
  have g5 : a2.handles = setField 16 a1.handles k (p.1 + 1) := hv ▸ rfl
  have g6 : a2.values = setField 64 a1.values p.1 (2 * 4294967296 + n) := hv ▸ rfl
  have g7 : a2.initHandle = p.2.initHandle := hv ▸ rfl
  have g8 : a2.freelist = p.2.freelist := hv ▸ rfl
  have hget : ({ s1 with
        m_cacheAllocator := s1.m_cacheAllocator.alloc.2
        m_cacheNodeCount := toUInt32 (s1.m_cacheNodeCount + 1)
        m_node := some (setAt a1.handleAt (slotInt k) s1.m_cacheAllocator.alloc.1) }
      : MyfilePartition).m_cacheAllocator.getValue s1.m_cacheAllocator.alloc.1
      = some CacheValue.new := by
    show s1.m_cacheAllocator.alloc.2.getValue s1.m_cacheAllocator.alloc.1 = _
    unfold CacheValueAllocator.getValue
    rw [q3, if_neg (by omega), q7, setAt_same]
  unfold cacheBlockAfter
  rw [hA, if_pos rfl]
  simp only [decide_True, Bool.or_true]
  rw [cacheBlockStore_push _ _ _ _ _ _ CacheValue.new hget (by decide)]
  refine ⟨_, rfl, ?_⟩
  have hN := h.nodeCount
  have hB := h.memoryByte
  apply ViewCache.update s1 _ a1 a2 h
  · rfl
  · show toUInt32 (s1.m_cacheNodeCount + 1) = _
    rw [hN, g1]
    simp only [toUInt32]
    omega
  · rw [g1]; omega
  · show toUInt32 (toUInt32 (s1.m_cacheMemoryByte - toUInt32 ((0 : Nat) : Int))
        + toUInt32 (toInt32 (byteLen value))) = _
    rw [hB, g2, hn, memoryByte_store _ 0 n (by omega) h.memoryByte_lt hn2 (by omega)]
    rfl
  · rw [g2]; omega
  · cases pr with
    | true => exact Or.inl ⟨rfl, by rw [g3]; rfl⟩
    | false => exact Or.inr ⟨k, hk, rfl, by rw [g3]; rfl⟩
  · cases pr with
    | true => exact Or.inr ⟨k, hk, rfl, by rw [g4]; rfl⟩
    | false => exact Or.inl ⟨rfl, by rw [g4]; rfl⟩
  · refine Or.inr ⟨k, p.1 + 1, hk, by omega, by omega, g5, ?_⟩
    show some (setAt a1.handleAt (slotInt k) s1.m_cacheAllocator.alloc.1) = _
    rw [q3]
    have e : ((p.1 + 1 : Nat) : Int) - 1 = ((p.1 : Nat) : Int) := by omega
    rw [e]
  · show s1.m_cacheAllocator.alloc.2.m_initHandle = _
    rw [q4, g7]
  · show s1.m_cacheAllocator.alloc.2.m_freelist = _
    rw [q5, g8]
  · rw [g8]; exact q6
  · refine Or.inr ⟨p.1, 2 * 4294967296 + n, some ⟨1, (n : Int), value⟩, ?_, g6, ?_, ?_⟩
    · norm_num
      omega
    · show setAt s1.m_cacheAllocator.alloc.2.m_alloced s1.m_cacheAllocator.alloc.1
        (some ⟨toInt64 (CacheValue.new.refcount + 1), toInt32 (byteLen value), value⟩) = _
      have e1 : toInt64 (CacheValue.new.refcount + 1) = 1 := toInt64_small _ (by decide)
      rw [q7, q3, setAt_setAt, hn, toInt32_id _ (by omega), e1]
    · have e : 2 * 4294967296 + n = (1 + 1) * 4294967296 + n := by ring
      rw [e, decodeValue_pack 1 n (by omega)]
      rfl

theorem cacheStore_hit_view (s1 : MyfilePartition) (a1 a2 : CacheView) (k n : Nat)
    (value : List Int) (rw : Bool) (h : ViewCache s1 a1) (hn : byteLen value = (n : Int))
    (hk : k < 65536) (hn2 : n < 2147483648) (h0 : a1.handle k ≠ 0)
    (hc : ¬ (26624 ≤ a1.handle k - 1 ∨ a1.value k / 4294967296 = 0))
    (hv : (if rw then
        if ¬ a1.value k % 4294967296 ≤ a1.memoryByte
            ∨ 4294967296 ≤ a1.memoryByte - a1.value k % 4294967296 + n then Res.unknown
        else if 4 ≤ a1.value k / 4294967296 then
          Res.ok { a1.setValue k (a1.value k / 4294967296 * 4294967296 + n) with
            memoryByte := a1.memoryByte - a1.value k % 4294967296 + n }
        else
          Res.ok { a1.setValue k ((a1.value k / 4294967296 + 1) * 4294967296 + n) with
            memoryByte := a1.memoryByte - a1.value k % 4294967296 + n
            access := a1.access.push k }
      else if 4 ≤ a1.value k / 4294967296 then Res.ok a1
      else Res.ok { a1.setValue k (a1.value k + 4294967296) with access := a1.access.push k })
      = Res.ok a2) :
    ∃ r, cacheBlockAfter s1 a1.handleAt (slotInt k) value rw false = some r ∧
      ViewCache r.2 a2 := by
  have hM := MAX_CACHE_eq
  have hA := handleAt_slotInt a1 k hk
  rw [if_neg h0] at hA
  have hH := handle_lt a1 k
  have hV : a1.value k < 18446744073709551616 := by
    have := field_lt 64 a1.values (a1.handle k - 1)
    norm_num at this
    exact this
  have hval : a1.value k = field 64 a1.values (a1.handle k - 1) := rfl
  have ecast : ((a1.handle k : Nat) : Int) - 1 = ((a1.handle k - 1 : Nat) : Int) := by omega
  have hI : ((a1.handle k - 1 : Nat) : Int) ≠ INVALID_HANDLE := by
    unfold INVALID_HANDLE
    omega
  obtain ⟨cache, c1, c2, c3⟩ : ∃ cache,
      s1.m_cacheAllocator.m_alloced ((a1.handle k - 1 : Nat) : Int) = some cache ∧
      cache.refcount = ((a1.value k / 4294967296 : Nat) : Int) - 1 ∧
      cache.len = ((a1.value k % 4294967296 : Nat) : Int) := by
    rcases alloced_cases s1 a1 h (a1.handle k - 1) with ⟨c0, -⟩ | ⟨-, c⟩
    · rw [← hval] at c0
      exact absurd (Or.inr c0) hc
    · exact c
  have hget : s1.m_cacheAllocator.getValue ((a1.handle k - 1 : Nat) : Int) = some cache := by
    unfold CacheValueAllocator.getValue
    rw [if_neg (by omega)]
    exact c1
  have hN := h.nodeCount
  have hB := h.memoryByte
  have hBl := h.memoryByte_lt
  unfold cacheBlockAfter
  rw [hA, ecast, if_neg hI, if_neg (by simp)]
  simp only [hI, decide_False, Bool.or_false]
  cases rw with
  | true =>
    rw [if_pos rfl] at hv
    by_cases hm : ¬ a1.value k % 4294967296 ≤ a1.memoryByte
        ∨ 4294967296 ≤ a1.memoryByte - a1.value k % 4294967296 + n
    · rw [if_pos hm] at hv
      cases hv
    · rw [if_neg hm] at hv
      by_cases h4 : 4 ≤ a1.value k / 4294967296
      · rw [if_pos h4, Res.ok.injEq] at hv
        have g2 : a2.memoryByte = a1.memoryByte - a1.value k % 4294967296 + n := hv ▸ rfl
        have g6 : a2.values = setField 64 a1.values (a1.handle k - 1)
            (a1.value k / 4294967296 * 4294967296 + n) := hv ▸ rfl
        rw [cacheBlockStore_keep _ _ _ _ _ _ cache hget (by rw [c2]; omega)]
        refine ⟨_, rfl, ?_⟩
        apply ViewCache.update s1 _ a1 a2 h
        · rfl
        · exact hN.trans (by rw [← hv]; rfl)
        · rw [← hv]; exact h.nodeCount_lt
        · show toUInt32 (toUInt32 (s1.m_cacheMemoryByte - toUInt32 cache.len)
              + toUInt32 (toInt32 (byteLen value))) = _
          rw [hB, g2, hn, c3, memoryByte_store _ _ n (by omega) hBl hn2 (by omega)]
        · rw [g2]; omega
        · exact Or.inl ⟨rfl, hv ▸ rfl⟩
        · exact Or.inl ⟨rfl, hv ▸ rfl⟩
        · exact Or.inl ⟨rfl, hv ▸ rfl⟩
        · exact h.initHandle.trans (by rw [← hv]; rfl)
        · exact h.freelist.trans (by rw [← hv]; rfl)
        · rw [← hv]; exact h.freelist_wf
        · refine Or.inr ⟨a1.handle k - 1, _, _, by omega, g6, rfl, ?_⟩
          have e : a1.value k / 4294967296 * 4294967296 + n
              = (a1.value k / 4294967296 - 1 + 1) * 4294967296 + n := by omega
          rw [e, decodeValue_pack _ n (by omega), hn]
          simp only [Option.map_some', if_true, c2, Option.some.injEq, Prod.mk.injEq]
          constructor
          · omega
          · exact toInt32_id _ (by omega)
      · rw [if_neg h4, Res.ok.injEq] at hv
        have g2 : a2.memoryByte = a1.memoryByte - a1.value k % 4294967296 + n := hv ▸ rfl
        have g6 : a2.values = setField 64 a1.values (a1.handle k - 1)
            ((a1.value k / 4294967296 + 1) * 4294967296 + n) := hv ▸ rfl
        rw [cacheBlockStore_push _ _ _ _ _ _ cache hget (by rw [c2]; omega)]
        refine ⟨_, rfl, ?_⟩
        apply ViewCache.update s1 _ a1 a2 h
        · rfl
        · exact hN.trans (by rw [← hv]; rfl)
        · rw [← hv]; exact h.nodeCount_lt
        · show toUInt32 (toUInt32 (s1.m_cacheMemoryByte - toUInt32 cache.len)
              + toUInt32 (toInt32 (byteLen value))) = _
          rw [hB, g2, hn, c3, memoryByte_store _ _ n (by omega) hBl hn2 (by omega)]
        · rw [g2]; omega
        · exact Or.inr ⟨k, hk, rfl, hv ▸ rfl⟩
        · exact Or.inl ⟨rfl, hv ▸ rfl⟩
        · exact Or.inl ⟨rfl, hv ▸ rfl⟩
        · exact h.initHandle.trans (by rw [← hv]; rfl)
        · exact h.freelist.trans (by rw [← hv]; rfl)
        · rw [← hv]; exact h.freelist_wf
        · refine Or.inr ⟨a1.handle k - 1, _, _, by omega, g6, rfl, ?_⟩
          rw [decodeValue_pack _ n (by omega), hn]
          simp only [Option.map_some', if_true, c2, Option.some.injEq, Prod.mk.injEq]
          constructor
          · rw [toInt64_small _ (by omega)]
            omega
          · exact toInt32_id _ (by omega)
  | false =>
    rw [if_neg (by simp)] at hv
    by_cases h4 : 4 ≤ a1.value k / 4294967296
    · rw [if_pos h4, Res.ok.injEq] at hv
      subst hv
      rw [cacheBlockStore_keep _ _ _ _ _ _ cache hget (by rw [c2]; omega)]
      refine ⟨_, rfl, ?_⟩
      apply ViewCache.update s1 _ a1 a1 h
      · rfl
      · exact hN
      · exact h.nodeCount_lt
      · exact hB
      · exact hBl
      · exact Or.inl ⟨rfl, rfl⟩
      · exact Or.inl ⟨rfl, rfl⟩
      · exact Or.inl ⟨rfl, rfl⟩
      · exact h.initHandle
      · exact h.freelist
      · exact h.freelist_wf
      · refine Or.inl ⟨?_, rfl⟩
        show setAt s1.m_cacheAllocator.m_alloced ((a1.handle k - 1 : Nat) : Int) _ = _
        funext x
        unfold setAt
        by_cases hx : x = ((a1.handle k - 1 : Nat) : Int)
        · rw [if_pos hx, hx, c1]
          rfl
        · rw [if_neg hx]
    · rw [if_neg h4, Res.ok.injEq] at hv
      have g6 : a2.values = setField 64 a1.values (a1.handle k - 1)
          (a1.value k + 4294967296) := hv ▸ rfl
      rw [cacheBlockStore_push _ _ _ _ _ _ cache hget (by rw [c2]; omega)]
      refine ⟨_, rfl, ?_⟩
      apply ViewCache.update s1 _ a1 a2 h
      · rfl
      · exact hN.trans (by rw [← hv]; rfl)
      · rw [← hv]; exact h.nodeCount_lt
      · exact hB.trans (by rw [← hv]; rfl)
      · rw [← hv]; exact hBl
      · exact Or.inr ⟨k, hk, rfl, hv ▸ rfl⟩
      · exact Or.inl ⟨rfl, hv ▸ rfl⟩
      · exact Or.inl ⟨rfl, hv ▸ rfl⟩
      · exact h.initHandle.trans (by rw [← hv]; rfl)
      · exact h.freelist.trans (by rw [← hv]; rfl)
      · rw [← hv]; exact h.freelist_wf
      · refine Or.inr ⟨a1.handle k - 1, _, _, by omega, g6, rfl, ?_⟩
        have e : a1.value k + 4294967296
            = (a1.value k / 4294967296 + 1) * 4294967296 + a1.value k % 4294967296 := by omega
        rw [e, decodeValue_pack _ _ (by omega)]
        simp only [Option.map_some', Bool.false_eq_true, if_false, c2, c3, Option.some.injEq,
          Prod.mk.injEq, and_true]
        rw [toInt64_small _ (by omega)]
        omega

theorem cacheStore_view (s1 : MyfilePartition) (a1 a2 : CacheView) (k n : Nat)
    (value : List Int) (rw pr : Bool) (h : ViewCache s1 a1) (hn : byteLen value = (n : Int))
    (hv : viewCacheStore a1 k n rw pr = Res.ok a2) :
    k < 65536 ∧
    ∃ r, cacheBlockAfter s1 a1.handleAt (slotInt k) value rw pr = some r ∧
      ViewCache r.2 a2 := by
  rw [viewCacheStore_eq] at hv
  unfold maxCache at hv
  by_cases hk : 65536 ≤ k ∨ 2147483648 ≤ n
  · rw [if_pos hk] at hv
    cases hv
  · rw [if_neg hk] at hv
    refine ⟨by omega, ?_⟩
    by_cases h0 : a1.handle k = 0
    · rw [if_pos h0] at hv
      cases hp : viewAlloc a1 with
      | none => rw [hp] at hv; cases hv
      | some p =>
        rw [hp] at hv
        simp only at hv
        by_cases hb : 4294967295 ≤ a1.nodeCount ∨ 4294967296 ≤ a1.memoryByte + n
        · rw [if_pos hb] at hv
          cases hv
        · rw [if_neg hb, Res.ok.injEq] at hv
          exact cacheStore_alloc_view s1 a1 a2 k n value rw pr h hn (by omega) (by omega) h0
            p hp hb hv
    · rw [if_neg h0] at hv
      cases pr with
      | true =>
        rw [if_pos rfl, Res.ok.injEq] at hv
        subst hv
        have hA := handleAt_slotInt a1 k (by omega)
        rw [if_neg h0] at hA
        have hH := handle_lt a1 k
        have hI : ((a1.handle k : Nat) : Int) - 1 ≠ INVALID_HANDLE := by
          unfold INVALID_HANDLE
          omega
        unfold cacheBlockAfter
        rw [hA, if_neg hI, if_pos rfl]
        exact ⟨_, rfl, h⟩
      | false =>
        rw [if_neg (by simp)] at hv
        by_cases hc : 26624 ≤ a1.handle k - 1 ∨ a1.value k / 4294967296 = 0
        · rw [if_pos hc] at hv
          cases hv
        · rw [if_neg hc] at hv
          exact cacheStore_hit_view s1 a1 a2 k n value rw h hn (by omega) (by omega) h0 hc hv

theorem viewCacheStore_ne_undef (a : CacheView) (k n : Nat) (rw pr : Bool) :
    viewCacheStore a k n rw pr ≠ Res.undef := by
  rw [viewCacheStore_eq]
  cases viewAlloc a <;> simp only <;> split_ifs <;> simp

theorem cacheBlock_view (s : MyfilePartition) (a : CacheView) (k n : Nat)
    (value : List Int) (rw pr : Bool) (h : ViewCache s a) (hn : byteLen value = (n : Int)) :
    (viewCacheBlock a k n rw pr = Res.undef →
      cacheBlock s (slotInt k) value rw pr = none) ∧
    (∀ a2, viewCacheBlock a k n rw pr = Res.ok a2 →
      k < 65536 ∧
      ∃ r, cacheBlock s (slotInt k) value rw pr = some r ∧ ViewCache r.2 a2 ∧
        SameFiles s r.2) := by
  have hl : s.m_accessCacheFIFO.length + s.m_prereadCacheFIFO.length + 1
      = a.access.len + a.preread.len + 1 := by
    rw [h.access, h.preread, List.length_map, List.length_map, NatQueue.toList_length,
      NatQueue.toList_length]
  obtain ⟨l1, l2⟩ := evictLoop_view (a.access.len + a.preread.len + 1) s a h
  have hsome : s.m_node.isSome = true := by rw [h.node]; rfl
  unfold viewCacheBlock
  cases hloop : viewEvictLoop (a.access.len + a.preread.len + 1) a with
  | undef =>
    refine ⟨fun _ => ?_, fun a2 ha => (by cases ha)⟩
    have e := l1 hloop
    unfold cacheBlock
    rw [h.node]
    simp only [h.mode, ne_eq, not_true_eq_false, if_false, hl, e]
  | unknown => exact ⟨fun hu => (by cases hu), fun a2 ha => (by cases ha)⟩
  | ok a1 =>
    obtain ⟨s1, e1, v1⟩ := l2 a1 hloop
    rw [← hl] at e1
    have ec := cacheBlock_eq_after s s1 a1.handleAt (slotInt k) value rw pr h.mode hsome e1
      v1.node
    refine ⟨fun hu => absurd hu (viewCacheStore_ne_undef _ _ _ _ _), fun a2 ha => ?_⟩
    obtain ⟨hk, r, er, vr⟩ := cacheStore_view s1 a1 a2 k n value rw pr v1 hn ha
    rw [← ec] at er
    exact ⟨hk, r, er, vr, cacheBlock_sameFiles s _ value rw pr r er⟩

/-! ## The cache code leaves the slot table of the view alone -/

theorem viewAllocCacheIndex_disk (a : CacheView) (p : Nat × CacheView)
    (h : viewAllocCacheIndex a = some p) : p.2.slots = a.slots ∧ p.2.fileKiB = a.fileKiB := by
  unfold viewAllocCacheIndex at h
  cases hb : Nat.ble 1025 a.preread.len with
  | true =>
    rw [hb, cond_true] at h
    cases hp : a.preread.pop with
    | none => rw [hp] at h; cases h
    | some q =>
      rw [hp] at h
      simp only [Option.some.injEq] at h
      subst h
      exact ⟨rfl, rfl⟩
  | false =>
    rw [hb, cond_false] at h
    cases hp : a.access.pop with
    | none => rw [hp] at h; cases h
    | some q =>
      rw [hp] at h
      simp only [Option.some.injEq] at h
      subst h
      exact ⟨rfl, rfl⟩

theorem viewCHECK_DELETE_disk (a a1 : CacheView) (k : Nat)
    (h : viewCHECK_DELETE a k = Res.ok a1) : a1.slots = a.slots ∧ a1.fileKiB = a.fileKiB := by
  rw [viewCHECK_DELETE_eq] at h
  split_ifs at h <;> (rw [Res.ok.injEq] at h; subst h; exact ⟨rfl, rfl⟩)

theorem viewEvictBody_disk (a a1 : CacheView) (h : viewEvictBody a = Res.ok a1) :
    a1.slots = a.slots ∧ a1.fileKiB = a.fileKiB := by
  unfold viewEvictBody at h
  cases hp : viewAllocCacheIndex a with
  | none => rw [hp] at h; cases h
  | some p =>
    rw [hp] at h
    obtain ⟨e1, e2⟩ := viewAllocCacheIndex_disk a p hp
    obtain ⟨e3, e4⟩ := viewCHECK_DELETE_disk p.2 a1 p.1 h
    exact ⟨e3.trans e1, e4.trans e2⟩

theorem viewEvictLoop_disk (fuel : Nat) : ∀ (a a1 : CacheView),
    viewEvictLoop fuel a = Res.ok a1 → a1.slots = a.slots ∧ a1.fileKiB = a.fileKiB := by
  induction fuel with
  | zero =>
    intro a a1 h
    unfold viewEvictLoop at h
    cases hb : viewEvictCond a with
    | true => rw [hb, cond_true] at h; cases h
    | false =>
      rw [hb, cond_false, Res.ok.injEq] at h
      subst h
      exact ⟨rfl, rfl⟩
  | succ n ih =>
    intro a a1 h
    unfold viewEvictLoop at h
    cases hb : viewEvictCond a with
    | true =>
      rw [hb, cond_true] at h
      cases hbody : viewEvictBody a with
      | undef => rw [hbody] at h; cases h
      | unknown => rw [hbody] at h; cases h
      | ok a2 =>
        rw [hbody] at h
        obtain ⟨e1, e2⟩ := viewEvictBody_disk a a2 hbody
        obtain ⟨e3, e4⟩ := ih a2 a1 h
        exact ⟨e3.trans e1, e4.trans e2⟩
    | false =>
      rw [hb, cond_false, Res.ok.injEq] at h
      subst h
      exact ⟨rfl, rfl⟩

theorem viewAlloc_disk (a : CacheView) (p : Nat × CacheView) (h : viewAlloc a = some p) :
    p.2.slots = a.slots ∧ p.2.fileKiB = a.fileKiB := by
  rw [viewAlloc_eq] at h
  cases hq : a.freelist.pop with
  | some q =>
    rw [hq] at h
    simp only at h
    split_ifs at h
    rw [Option.some.injEq] at h
    subst h
    exact ⟨rfl, rfl⟩
  | none =>
    rw [hq] at h
    simp only at h
    split_ifs at h
    rw [Option.some.injEq] at h
    subst h
    exact ⟨rfl, rfl⟩

theorem viewCacheStore_disk (a a1 : CacheView) (k n : Nat) (rw pr : Bool)
    (h : viewCacheStore a k n rw pr = Res.ok a1) :
    a1.slots = a.slots ∧ a1.fileKiB = a.fileKiB := by
  rw [viewCacheStore_eq] at h
  cases hp : viewAlloc a with
  | none =>
    rw [hp] at h
    simp only at h
    split_ifs at h <;> (rw [Res.ok.injEq] at h; subst h; exact ⟨rfl, rfl⟩)
  | some p =>
    obtain ⟨e1, e2⟩ := viewAlloc_disk a p hp
    rw [hp] at h
    simp only at h
    split_ifs at h <;> first
      | (rw [Res.ok.injEq] at h; subst h; exact ⟨e1, e2⟩)
      | (rw [Res.ok.injEq] at h; subst h; exact ⟨rfl, rfl⟩)

theorem viewCacheBlock_disk (a a1 : CacheView) (k n : Nat) (rw pr : Bool)
    (h : viewCacheBlock a k n rw pr = Res.ok a1) :
    a1.slots = a.slots ∧ a1.fileKiB = a.fileKiB := by
  unfold viewCacheBlock at h
  cases hl : viewEvictLoop (a.access.len + a.preread.len + 1) a with
  | undef => rw [hl] at h; cases h
  | unknown => rw [hl] at h; cases h
  | ok a2 =>
    rw [hl] at h
    obtain ⟨e1, e2⟩ := viewEvictLoop_disk _ a a2 hl
    obtain ⟨e3, e4⟩ := viewCacheStore_disk a2 a1 k n rw pr h
    exact ⟨e3.trans e1, e4.trans e2⟩

theorem ViewDisk_congr (crc : List Int → Int) (s t : MyfilePartition) (a b : CacheView)
    (hs : SameFiles s t) (hb : b.slots = a.slots ∧ b.fileKiB = a.fileKiB)
    (h : ViewDisk crc s a) : ViewDisk crc t b := by
  obtain ⟨n1, n2, -⟩ := hs
  have ec : ∀ k, b.capacity k = a.capacity k := fun k => by
    simp only [CacheView.capacity, hb.1]
  have el : ∀ k, b.len k = a.len k := fun k => by simp only [CacheView.len, hb.1]
  have ep : ∀ k, b.pos k = a.pos k := fun k => by simp only [CacheView.pos, hb.1]
  refine ⟨?_, ?_, ?_, ?_⟩
  · rw [n2, hb.2]
    exact h.file
  · intro k hk
    rw [n1, ec]
    exact h.capacity k hk
  · intro k hk
    rw [n1, el]
    exact h.len k hk
  · intro k hk hl
    rw [el] at hl
    obtain ⟨r1, rest, d, r2⟩ := h.record k hk hl
    rw [n1, ep]
    exact ⟨r1, rest, d, RecordOnDisk_congr s t _ _ rest d n1 n2 r2⟩

/-! ## The slot table of the view -/

theorem getLocalIndex_slot (k : Nat) (hk : k < 65536) :
    getLocalIndex (1 + 10 * ((k : Int) / 1024)) 0 ((k : Int) % 1024) = slotInt k := by
  have e1 : cdiv (1 + 10 * ((k : Int) / 1024)) MYSQL_BLOCK_TABLE_NUM = (k : Int) / 1024 := by
    simp only [cdiv, MYSQL_BLOCK_TABLE_NUM]
    split_ifs <;> omega
  have h1 : ¬ ((1 + 10 * ((k : Int) / 1024) < 0) ∨ ((k : Int) % 1024 < 0)) := by omega
  have h2 : ¬ (((k : Int) % 1024 < 0) ∨ ((k : Int) % 1024 ≥ 1024)) := by omega
  have e2 : toInt16 ((k : Int) / 1024) = (k : Int) / 1024 := by
    simp only [toInt16]
    omega
  have e3 : toInt16 ((0 : Int) + 14) = 14 := by
    simp only [toInt16]
    omega
  have h3 : ¬ (((14 : Int) < 0) ∨ ((14 : Int) ≥ 23)) := by omega
  have h4 : ¬ (((k : Int) / 1024 < 0) ∨ ((k : Int) / 1024 ≥ 64)) := by omega
  have e4 : toInt32 ((k : Int) % 1024 + (k : Int) / 1024 * 2 ^ 10 + 14 * 2 ^ 16)
      = 917504 + (k : Int) := by
    simp only [toInt32]
    omega
  unfold getLocalIndex
  simp only [h1, if_false, e1, e2, e3, h2, h3, h4, e4, slotInt]

theorem byteLen_replicate (n : Nat) : byteLen (List.replicate n 0) = (n : Int) := by
  rw [byteLen_eq, List.length_replicate]

theorem slotEntry_lt (p c l : Nat) (hp : p < 4294967296) (hc : c < 65536) (hl : l < 65536) :
    p * 4294967296 + c * 65536 + l < 2 ^ 64 := by
  norm_num
  omega

theorem slotEntry_decode (p c l : Nat) (hc : c < 65536) (hl : l < 65536) :
    (p * 4294967296 + c * 65536 + l) / 65536 % 65536 = c ∧
    (p * 4294967296 + c * 65536 + l) % 65536 = l ∧
    (p * 4294967296 + c * 65536 + l) / 4294967296 = p := by
  omega

/-- The slot fields of the view after entry `k` has been set. -/
theorem slots_setField (a b : CacheView) (k p c l : Nat) (hp : p < 4294967296)
    (hc : c < 65536) (hl : l < 65536)
    (hb : b.slots = setField 64 a.slots k (p * 4294967296 + c * 65536 + l)) :
    (b.capacity k = c ∧ b.len k = l ∧ b.pos k = p) ∧
    ∀ j, j ≠ k → b.capacity j = a.capacity j ∧ b.len j = a.len j ∧ b.pos j = a.pos j := by
  have hlt := slotEntry_lt p c l hp hc hl
  have hd := slotEntry_decode p c l hc hl
  constructor
  · simp only [CacheView.capacity, CacheView.len, CacheView.pos, hb,
      field_setField 64 _ k _ k hlt, if_true]
    exact hd
  · intro j hj
    simp only [CacheView.capacity, CacheView.len, CacheView.pos, hb,
      field_setField 64 _ k _ j hlt, if_neg hj, and_self]

theorem field_new_slots (k : Nat) :
    CacheView.new.capacity k = 0 ∧ CacheView.new.len k = 0 ∧ CacheView.new.pos k = 0 := by
  simp only [CacheView.capacity, CacheView.len, CacheView.pos, CacheView.new, field_zero,
    Nat.zero_div, Nat.zero_mod, and_self]

/-- A record stays on disk when the data file grows at its end and the slot entry
is left alone. -/
theorem RecordOnDisk_append (s t : MyfilePartition) (idx c : Int) (rest d x : List Int)
    (hn : t.node idx = s.node idx) (hf : t.m_datafile = s.m_datafile ++ x)
    (h : RecordOnDisk s idx c rest d) : RecordOnDisk t idx c rest d := by
  obtain ⟨h1, h2, h3, h4, h5, h6, h7, h8⟩ := h
  have hx := byteLen_nonneg x
  have hcap : 0 ≤ (s.node idx).capacity := by
    have := byteLen_nonneg d
    omega
  refine ⟨by rw [hn]; exact h1, by rw [hn]; exact h2, by rw [hn]; exact h3,
    by rw [hn]; exact h4, ?_, h6, h7, ?_⟩
  · rw [hn, hf, byteLen_eq, List.length_append]
    rw [byteLen_eq] at h5
    push_cast
    omega
  · rw [hn, hf]
    have hle : (s.node idx).getPos.toNat ≤ s.m_datafile.length := by
      rw [byteLen_eq] at h5
      omega
    rw [List.drop_append_of_le_length hle]
    exact h8.trans (List.prefix_append _ _)

/-! ## `saveBlock` on the view -/

theorem viewSaveBlock_eq (a : CacheView) (k n : Nat) :
    viewSaveBlock a k n =
      if 65536 ≤ k ∨ 31721 ≤ n then Res.unknown
      else if (n + 24 + 1023) / 1024 * 1024 ≤ a.capacity k then Res.unknown
      else if 2097152 ≤ a.fileKiB then Res.unknown
      else
        viewCacheBlock
          { a with
            slots := setField 64 a.slots k
              (a.fileKiB * 4294967296 + (n + 24 + 1023) / 1024 * 1024 * 65536 + (n + 24))
            fileKiB := a.fileKiB + (n + 24 + 1023) / 1024 }
          k n true false := by
  unfold viewSaveBlock
  simp only [cond_eq_if, Nat.ble_eq, Bool.or_eq_true]

/-- The cache part of the view relation looks at the cache members only. -/
theorem ViewCache_congr (s t : MyfilePartition) (a b : CacheView) (h : ViewCache s a)
    (h1 : t.m_node = s.m_node) (h2 : t.m_cacheMode = s.m_cacheMode)
    (h3 : t.m_cacheNodeCount = s.m_cacheNodeCount)
    (h4 : t.m_cacheMemoryByte = s.m_cacheMemoryByte)
    (h5 : t.m_cacheAllocator = s.m_cacheAllocator)
    (h6 : t.m_accessCacheFIFO = s.m_accessCacheFIFO)
    (h7 : t.m_prereadCacheFIFO = s.m_prereadCacheFIFO)
    (b1 : b.nodeCount = a.nodeCount) (b2 : b.memoryByte = a.memoryByte)
    (b3 : b.access = a.access) (b4 : b.preread = a.preread) (b5 : b.handles = a.handles)
    (b6 : b.values = a.values) (b7 : b.initHandle = a.initHandle)
    (b8 : b.freelist = a.freelist) : ViewCache t b where
  mode := by rw [h2]; exact h.mode
  nodeCount := by rw [h3, b1]; exact h.nodeCount
  memoryByte := by rw [h4, b2]; exact h.memoryByte
  nodeCount_lt := by rw [b1]; exact h.nodeCount_lt
  memoryByte_lt := by rw [b2]; exact h.memoryByte_lt
  access := by rw [h6, b3]; exact h.access
  access_wf := by rw [b3]; exact h.access_wf
  preread := by rw [h7, b4]; exact h.preread
  preread_wf := by rw [b4]; exact h.preread_wf
  node := by rw [h1, handleAt_congr a b b5]; exact h.node
  initHandle := by rw [h5, b7]; exact h.initHandle
  freelist := by rw [h5, b8]; exact h.freelist
  freelist_wf := by rw [b8]; exact h.freelist_wf
  alloced := by rw [h5, valueAt_congr a b b6]; exact h.alloced

/-- The state in which `saveBlock` calls `cacheBlock` after an append, and its
view. -/
theorem saveWrite_view (crc : List Int → Int) (s : MyfilePartition) (a b : CacheView)
    (k n : Nat) (data : List Int) (changed : Bool) (rawtime : Int) (h : ViewOf crc s a)
    (hn : byteLen data = (n : Int)) (hk : k < 65536) (hn2 : n ≤ 31720)
    (hcap : a.capacity k < (n + 24 + 1023) / 1024 * 1024) (hf : a.fileKiB < 2097152)
    (hb : b = { a with
      slots := setField 64 a.slots k
        (a.fileKiB * 4294967296 + (n + 24 + 1023) / 1024 * 1024 * 65536 + (n + 24))
      fileKiB := a.fileKiB + (n + 24 + 1023) / 1024 }) :
    (saveWrite crc s (slotInt k) (byteLen data + 24) (ROUND (byteLen data + 24) 1024) data
      changed rawtime).1 = true ∧
    ViewOf crc (saveWrite crc s (slotInt k) (byteLen data + 24)
      (ROUND (byteLen data + 24) 1024) data changed rawtime).2 b := by
  obtain ⟨hc, hd⟩ := h
  have hr := ROUND_1k (byteLen data + 24) (by omega)
  have eC : ROUND (byteLen data + 24) 1024 = (((n + 24 + 1023) / 1024 * 1024 : Nat) : Int) := by
    rw [hr.2.2.2, hn]
    push_cast
    rfl
  have hcN : (n + 24 + 1023) / 1024 * 1024 ≤ 31744 := by omega
  have hcN2 : n + 24 ≤ (n + 24 + 1023) / 1024 * 1024 := by omega
  have hnode := hd.capacity k hk
  have hfile := hd.file
  have happ : ¬ ((s.node (slotInt k)).capacity ≥ ROUND (byteLen data + 24) 1024 ∧
      s.m_cacheMode ≠ CacheMode.CM_APPEND) := by
    rw [hnode, eC]
    intro hh
    have := hh.1
    omega
  have hal : byteLen s.m_datafile % 1024 = 0 := by omega
  have hsz : byteLen s.m_datafile < 2147483648 := by omega
  obtain ⟨w1, w2, w3, w4, w5⟩ := saveWrite_append crc s (slotInt k) (byteLen data + 24)
    (ROUND (byteLen data + 24) 1024) data changed rawtime happ hal hsz (by omega)
  obtain ⟨-, f2, -, -, f5⟩ := saveWrite_append_file crc s (slotInt k) (byteLen data + 24)
    (ROUND (byteLen data + 24) 1024) data changed rawtime happ hal (by omega) (by omega) w1
  obtain ⟨c1, c2, c3, c4, c5, c6, c7, -, -⟩ := saveWrite_cache crc s (slotInt k)
    (byteLen data + 24) (ROUND (byteLen data + 24) 1024) data changed rawtime
  have hrec := saveWrite_recordOnDisk crc s (slotInt k) data changed rawtime (by omega) hal hsz
    (by rw [hnode]; omega)
    (fun hh => by rw [hnode, eC] at hh; omega) w1
  have hs := slots_setField a b k a.fileKiB ((n + 24 + 1023) / 1024 * 1024) (n + 24)
    (by omega) (by omega) (by omega) (by rw [hb])
  have e16c : toInt16 (ROUND (byteLen data + 24) 1024)
      = (((n + 24 + 1023) / 1024 * 1024 : Nat) : Int) := by
    rw [eC]
    simp only [toInt16]
    omega
  have e16l : toInt16 (byteLen data + 24) = ((n + 24 : Nat) : Int) := by
    rw [hn]
    simp only [toInt16]
    push_cast
    omega
  refine ⟨w1, ?_, ?_⟩
  · exact ViewCache_congr s _ a b hc c1 c2 c3 c4 c5 c6 c7 (by rw [hb]) (by rw [hb])
      (by rw [hb]) (by rw [hb]) (by rw [hb]) (by rw [hb]) (by rw [hb]) (by rw [hb])
  · refine ⟨?_, ?_, ?_, ?_⟩
    · rw [f2, eC, hfile, hb]
      push_cast
      omega
    · intro j hj
      by_cases e : j = k
      · rw [e, w3, e16c, hs.1.1]
      · rw [f5 (slotInt j) (fun hh => e (slotInt_injective j k hh)), (hs.2 j e).1]
        exact hd.capacity j hj
    · intro j hj
      by_cases e : j = k
      · rw [e, w4, e16l, hs.1.2.1]
      · rw [f5 (slotInt j) (fun hh => e (slotInt_injective j k hh)), (hs.2 j e).2.1]
        exact hd.len j hj
    · intro j hj hl
      by_cases e : j = k
      · rw [e, w2, hfile, hs.1.2.2]
        exact ⟨rfl, hdrRest rawtime, data, hrec⟩
      · have hne := f5 (slotInt j) (fun hh => e (slotInt_injective j k hh))
        rw [(hs.2 j e).2.1] at hl
        obtain ⟨r1, rest, d, r2⟩ := hd.record j hj hl
        rw [hne, (hs.2 j e).2.2]
        exact ⟨r1, rest, d, RecordOnDisk_append s _ _ _ rest d _ hne w5 r2⟩

/-- The method `saveBlock` on a state and on its view: an `ok` outcome of the view is
the view of the state that the code returns, and the code has no defined result
where the view has none. -/
theorem saveBlock_view (crc : List Int → Int) (s : MyfilePartition) (a : CacheView)
    (k n : Nat) (data : List Int) (changed : Bool) (rawtime : Int) (h : ViewOf crc s a)
    (hn : byteLen data = (n : Int)) :
    (viewSaveBlock a k n = Res.undef →
      saveBlock crc s (1 + 10 * ((k : Int) / 1024)) 0 ((k : Int) % 1024) data changed rawtime
        = none) ∧
    (∀ a2, viewSaveBlock a k n = Res.ok a2 →
      ∃ r, saveBlock crc s (1 + 10 * ((k : Int) / 1024)) 0 ((k : Int) % 1024) data changed
        rawtime = some r ∧ ViewOf crc r.2 a2) := by
  rw [viewSaveBlock_eq]
  by_cases h1 : 65536 ≤ k ∨ 31721 ≤ n
  · rw [if_pos h1]
    exact ⟨fun hu => (by cases hu), fun a2 ha => (by cases ha)⟩
  rw [if_neg h1]
  by_cases h2 : (n + 24 + 1023) / 1024 * 1024 ≤ a.capacity k
  · rw [if_pos h2]
    exact ⟨fun hu => (by cases hu), fun a2 ha => (by cases ha)⟩
  rw [if_neg h2]
  by_cases h3 : 2097152 ≤ a.fileKiB
  · rw [if_pos h3]
    exact ⟨fun hu => (by cases hu), fun a2 ha => (by cases ha)⟩
  rw [if_neg h3]
  have hk : k < 65536 := by omega
  obtain ⟨w1, wv⟩ := saveWrite_view crc s a _ k n data changed rawtime h hn hk (by omega)
    (by omega) (by omega) rfl
  obtain ⟨i1, i2, -⟩ := slotInt_range k hk
  have hr := ROUND_1k (byteLen data + 24) (by omega)
  have hsave : saveBlock crc s (1 + 10 * ((k : Int) / 1024)) 0 ((k : Int) % 1024) data
      changed rawtime =
      match cacheBlock (saveWrite crc s (slotInt k) (byteLen data + 24)
        (ROUND (byteLen data + 24) 1024) data changed rawtime).2 (slotInt k) data true false with
      | none => none
      | some r => some (true, r.2) := by
    unfold saveBlock
    simp only [getLocalIndex_slot k hk, saveLen_eq data (by omega)]
    rw [if_neg (by omega), if_neg (by simp only [MAX_DATA_LENGTH]; omega), if_neg (by omega),
      if_pos w1]
    all_goals rfl
  obtain ⟨l1, l2⟩ := cacheBlock_view _ _ k n data true false wv.1 hn
  rw [hsave]
  refine ⟨fun hu => ?_, fun a2 ha => ?_⟩
  · rw [l1 hu]
  · obtain ⟨-, r, er, vr, sf⟩ := l2 a2 ha
    rw [er]
    exact ⟨(true, r.2), rfl, vr,
      ViewDisk_congr crc _ r.2 _ a2 sf (viewCacheBlock_disk _ a2 k n true false ha) wv.2⟩

/-! ## A record in the middle of the I/O buffer -/

theorem ProcessReadBuffer_at (crc : List Int → Int) (fuel : Nat) (s : MyfilePartition)
    (rb rp idx c : Int) (rest d : List Int)
    (hbuf : BufHas s.m_buffer rp (le32 24 ++ le32 c ++ le32 (toUInt32 idx) ++ rest ++ d))
    (hrest : rest.length = 12) (hrb : ¬ toUInt64 rb < 24)
    (hidx : 0 ≤ idx ∧ idx < MAX_NODE) (hlen : (s.node idx).len = byteLen d + 24)
    (hcap : ¬ rb < (s.node idx).capacity) (hrp : 0 ≤ rp) (hd : rp + 24 + byteLen d ≤ 65535)
    (hc : 0 ≤ c ∧ c < 4294967296) :
    ProcessReadBuffer crc (fuel + 1) s rb rp idx =
      if c ≠ crcOf crc d then some (ERROR, s)
      else
        match cacheBlock s idx d true (decide (rp ≠ 0)) with
        | none => none
        | some r =>
          match ProcessReadBuffer crc fuel r.2 (toInt32 (rb - (s.node idx).capacity))
              (toInt32 (rp + (s.node idx).capacity)) (toInt32 (idx + 1)) with
          | none => none
          | some r2 => some (d, r2.2) := by
  obtain ⟨h1, hdat⟩ := BufHas_append _ _ _ _ hbuf
  obtain ⟨h2, _⟩ := BufHas_append _ _ _ _ h1
  obtain ⟨h3, hI⟩ := BufHas_append _ _ _ _ h2
  obtain ⟨hH, hC⟩ := BufHas_append _ _ _ _ h3
  have eH : rd32 s.m_buffer rp = 24 := rd32_of_BufHas _ _ _ (by omega) hH
  have eC : rd32 s.m_buffer (rp + 4) = c := by
    have := rd32_of_BufHas _ _ _ hc hC
    simpa [le32] using this
  have eI : rd32 s.m_buffer (rp + 8) = toUInt32 idx := by
    have := rd32_of_BufHas _ _ _ (by simp only [toUInt32]; omega) hI
    simpa [le32] using this
  have hnn := byteLen_nonneg d
  have eN : toUInt32 ((s.node idx).len - 24) = byteLen d := by
    simp only [hlen, toUInt32]
    omega
  have eT : (byteLen d).toNat = d.length := by
    rw [byteLen_eq]
    exact Int.toNat_ofNat _
  have eD : bufSlice s.m_buffer (rp + 24) d.length = d := by
    have := bufSlice_of_BufHas _ _ _ hdat
    simpa [le32, hrest] using this
  have e1 : ¬ toUInt64 rb < 24 := hrb
  have e2 : ¬ (rp < 0 ∨ 65535 < rp + 4) := by omega
  have e3 : ¬ ((65535 : Int) < rp + 12) := by omega
  have e4 : ¬ (idx < 0 ∨ idx ≥ MAX_NODE) := by omega
  have e5 : ¬ (rb < (s.node idx).capacity) := hcap
  have e6 : ¬ ((65535 : Int) < rp + 24 + byteLen d) := by omega
  rw [ProcessReadBuffer]
  simp only [sizeofNodeHeader, MAX_DATA_LENGTH, eH, eI, eC, eN, e1, e2, e3, e4, e5, e6,
    eT, eD, if_false, ne_eq, not_true_eq_false, gt_iff_lt, ite_not]
  all_goals (split_ifs <;> rfl)

/-- A window that ends before the extent of the record does: the record is
answered with "ERROR", the state is left alone. -/
theorem ProcessReadBuffer_small (crc : List Int → Int) (fuel : Nat) (s : MyfilePartition)
    (rb rp idx : Int) (hidx : 0 ≤ idx ∧ idx < MAX_NODE) (hrp : 0 ≤ rp ∧ rp + 12 ≤ 65535)
    (hcap : rb < (s.node idx).capacity) :
    ProcessReadBuffer crc (fuel + 1) s rb rp idx = some (ERROR, s) := by
  have e2 : ¬ (rp < 0 ∨ rp + 4 > MAX_DATA_LENGTH) := by
    simp only [MAX_DATA_LENGTH]
    omega
  have e3 : ¬ (rp + 12 > MAX_DATA_LENGTH) := by
    simp only [MAX_DATA_LENGTH]
    omega
  have e4 : ¬ (idx < 0 ∨ idx ≥ MAX_NODE) := by omega
  rw [ProcessReadBuffer]
  rw [if_neg e2, if_neg e3, if_neg e4, if_pos hcap]
  split_ifs <;> rfl

/-- The bytes of the I/O buffer behind offset `rp`, for a buffer that holds a window
of the data file. -/
theorem BufHas_window (buf : Int → Int) (file l : List Int) (b R rp : Nat)
    (h : BufHas buf 0 ((file.drop b).take R)) (hl : l <+: file.drop (b + rp))
    (hW : rp + l.length ≤ ((file.drop b).take R).length) : BufHas buf (rp : Int) l := by
  intro j hj
  obtain ⟨t, ht⟩ := hl
  have h1 := h (rp + j) (by omega)
  have e : (0 : Int) + ((rp + j : Nat) : Int) = (rp : Int) + (j : Int) := by
    push_cast
    ring
  rw [e] at h1
  rw [h1]
  have hR : rp + j < R := by
    rw [List.length_take] at hW
    omega
  have e2 : l[j]? = (file.drop (b + rp))[j]? := by
    rw [← ht, List.getElem?_append_left hj]
  rw [List.getD_eq_getElem?_getD, List.getD_eq_getElem?_getD, List.getElem?_take, if_pos hR,
    List.getElem?_drop, e2, List.getElem?_drop, Nat.add_assoc]

theorem decide_ne_zero_eq (rp : Nat) : decide ((rp : Int) ≠ 0) = !(Nat.beq rp 0) := by
  cases rp with
  | zero => rfl
  | succ m =>
    have : ((m + 1 : Nat) : Int) ≠ 0 := by omega
    rw [decide_eq_true this]
    rfl

theorem ROUND_8k (c : Nat) (hc : c ≤ 32767) :
    ROUND (c : Int) (4096 * 2) = (((c + 8191) / 8192 * 8192 : Nat) : Int) := by
  simp only [ROUND, toInt32, cdiv]
  split_ifs <;> omega

/-! ## `ProcessReadBuffer` on the view -/

theorem viewProcessReadBuffer_eq (fuel : Nat) (a : CacheView) (rb rp k base : Nat) :
    viewProcessReadBuffer (fuel + 1) a rb rp k base =
      if rb < 24 then Res.ok a
      else if 65536 ≤ k ∨ a.len k < 24 ∨ ¬ a.pos k * 1024 = base * 1024 + rp
          ∨ 32767 < rp + a.capacity k then Res.unknown
      else if rb < a.capacity k then Res.ok a
      else
        match viewCacheBlock a k (a.len k - 24) true (!(Nat.beq rp 0)) with
        | Res.ok a1 =>
          viewProcessReadBuffer fuel a1 (rb - a.capacity k) (rp + a.capacity k) (k + 1) base
        | Res.undef => Res.undef
        | Res.unknown => Res.unknown := by
  rw [viewProcessReadBuffer]
  simp only [cond_eq_if, Nat.blt_eq, Nat.ble_eq, Nat.beq_eq, Bool.or_eq_true,
    Bool.not_eq_true', ← Bool.not_eq_true, decide_eq_true_eq, CacheView.norm_eq, or_assoc]
  all_goals rfl

/-- The state after the miss path has read its window: the view is the same. -/
theorem ViewOf_buffer (crc : List Int → Int) (s : MyfilePartition) (a : CacheView)
    (buf : Int → Int) (h : ViewOf crc s a) : ViewOf crc { s with m_buffer := buf } a := by
  obtain ⟨hc, hd⟩ := h
  refine ⟨ViewCache_congr s _ a a hc rfl rfl rfl rfl rfl rfl rfl rfl rfl rfl rfl rfl rfl rfl rfl,
    hd.file, hd.capacity, hd.len, fun k hk hl => ?_⟩
  obtain ⟨r1, rest, d, r2⟩ := hd.record k hk hl
  exact ⟨r1, rest, d, RecordOnDisk_congr s _ _ _ rest d rfl rfl r2⟩

/-- The method `ProcessReadBuffer` on a state whose I/O buffer holds a window of the
data file, and on its view: an `ok` outcome of the view is the view of the state
that the code returns. -/
theorem ProcessReadBuffer_view (crc : List Int → Int) (base R : Nat) :
    ∀ (fuel : Nat) (s : MyfilePartition) (a : CacheView) (rb rp k : Nat),
      ViewOf crc s a →
      BufHas s.m_buffer 0 ((s.m_datafile.drop (1024 * base)).take R) →
      rp + rb = ((s.m_datafile.drop (1024 * base)).take R).length →
      rp + rb ≤ 32768 →
      ∀ a2, viewProcessReadBuffer fuel a rb rp k base = Res.ok a2 →
        ∃ r, ProcessReadBuffer crc fuel s (rb : Int) (rp : Int) (slotInt k) = some r ∧
          ViewOf crc r.2 a2 := by
  intro fuel
  induction fuel with
  | zero =>
    intro s a rb rp k _ _ _ _ a2 ha
    rw [viewProcessReadBuffer] at ha
    cases ha
  | succ fuel ih =>
    intro s a rb rp k h hbuf hW hlim a2 ha
    rw [viewProcessReadBuffer_eq] at ha
    by_cases c1 : rb < 24
    · rw [if_pos c1, Res.ok.injEq] at ha
      subst ha
      refine ⟨(ERROR, s), ProcessReadBuffer_short crc fuel s _ _ _ ?_, h⟩
      simp only [toUInt64]
      omega
    rw [if_neg c1] at ha
    by_cases c2 : 65536 ≤ k ∨ a.len k < 24 ∨ ¬ a.pos k * 1024 = base * 1024 + rp
        ∨ 32767 < rp + a.capacity k
    · rw [if_pos c2] at ha
      cases ha
    rw [if_neg c2] at ha
    have hk : k < 65536 := by omega
    have hlen24 : 24 ≤ a.len k := by omega
    have hpos : a.pos k * 1024 = base * 1024 + rp := by
      by_contra hh
      exact c2 (Or.inr (Or.inr (Or.inl hh)))
    have hcapv : rp + a.capacity k ≤ 32767 := by omega
    obtain ⟨i1, i2, -⟩ := slotInt_range k hk
    have ecap := h.2.capacity k hk
    have elen := h.2.len k hk
    by_cases c3 : rb < a.capacity k
    · rw [if_pos c3, Res.ok.injEq] at ha
      subst ha
      refine ⟨(ERROR, s), ProcessReadBuffer_small crc fuel s _ _ _ ⟨i1, i2⟩ (by omega) ?_, h⟩
      rw [ecap]
      omega
    rw [if_neg c3] at ha
    obtain ⟨epos, rest, d, hrec⟩ := h.2.record k hk (by omega)
    obtain ⟨r1, r2, r3, r4, r5, r6, r7, r8⟩ := hrec
    have hdn : byteLen d = ((a.len k - 24 : Nat) : Int) := by
      rw [elen] at r1
      omega
    have hdl : d.length + 24 = a.len k := by
      rw [byteLen_eq] at hdn
      omega
    have hlc : a.len k ≤ a.capacity k := by
      rw [elen, ecap] at r2
      omega
    have etn : (s.node (slotInt k)).getPos.toNat = 1024 * base + rp := by
      rw [epos]
      omega
    rw [etn] at r8
    have hL : (le32 24 ++ le32 (crcOf crc d) ++ le32 (toUInt32 (slotInt k)) ++ rest ++ d).length
        = a.len k := by
      simp only [List.length_append, le32, List.length_cons, List.length_nil, r6]
      omega
    have hb := BufHas_window s.m_buffer s.m_datafile _ (1024 * base) R rp hbuf r8
      (by rw [hL, ← hW]; omega)
    have hstep := ProcessReadBuffer_at crc fuel s (rb : Int) (rp : Int) (slotInt k)
      (crcOf crc d) rest d hb r6 (by simp only [toUInt64]; omega) ⟨i1, i2⟩ r1
      (by rw [ecap]; omega) (by omega) (by rw [hdn]; omega) r7
    rw [if_neg (by simp), decide_ne_zero_eq] at hstep
    obtain ⟨-, l2⟩ := cacheBlock_view s a k (a.len k - 24) d true (!(Nat.beq rp 0)) h.1 hdn
    cases hv : viewCacheBlock a k (a.len k - 24) true (!(Nat.beq rp 0)) with
    | undef => rw [hv] at ha; cases ha
    | unknown => rw [hv] at ha; cases ha
    | ok a1 =>
      rw [hv] at ha
      simp only at ha
      obtain ⟨-, r, er, vr, sf⟩ := l2 a1 hv
      have vd := ViewDisk_congr crc s r.2 a a1 sf (viewCacheBlock_disk a a1 k _ _ _ hv) h.2
      obtain ⟨-, sf2, -, sf4, -⟩ := sf
      have e1 : toInt32 ((rb : Int) - (s.node (slotInt k)).capacity)
          = ((rb - a.capacity k : Nat) : Int) := by
        rw [ecap]
        simp only [toInt32]
        omega
      have e2 : toInt32 ((rp : Int) + (s.node (slotInt k)).capacity)
          = ((rp + a.capacity k : Nat) : Int) := by
        rw [ecap]
        simp only [toInt32]
        omega
      have e3 : toInt32 (slotInt k + 1) = slotInt (k + 1) := by
        simp only [toInt32, slotInt]
        omega
      obtain ⟨q, eq, vq⟩ := ih r.2 a1 (rb - a.capacity k) (rp + a.capacity k) (k + 1)
        ⟨vr, vd⟩ (by rw [sf2, sf4]; exact hbuf) (by rw [sf2, ← hW]; omega) (by omega) a2 ha
      rw [hstep, er]
      simp only
      rw [e1, e2, e3, eq]
      exact ⟨(d, q.2), rfl, vq⟩

/-! ## `loadBlock` on the view -/

theorem viewLoadBlock_eq (a : CacheView) (k : Nat) :
    viewLoadBlock a k =
      if 65536 ≤ k then Res.unknown
      else if a.len k = 0 then Res.ok a
      else if ¬ a.handle k = 0 ∨ a.fileKiB < a.pos k then Res.unknown
      else
        viewProcessReadBuffer 65536 a
          (Nat.min ((a.capacity k + 8191) / 8192 * 8192) ((a.fileKiB - a.pos k) * 1024))
          0 k (a.pos k) := by
  unfold viewLoadBlock
  simp only [cond_eq_if, Nat.blt_eq, Nat.ble_eq, Nat.beq_eq, Bool.or_eq_true,
    Bool.not_eq_true', ← Bool.not_eq_true, decide_eq_true_eq]

/-- The method `loadBlock` on a state and on its view: an `ok` outcome of the view is
the view of the state that the code returns. -/
theorem loadBlock_view (crc : List Int → Int) (s : MyfilePartition) (a : CacheView) (k : Nat)
    (h : ViewOf crc s a) :
    ∀ a2, viewLoadBlock a k = Res.ok a2 →
      ∃ r, loadBlock crc s (1 + 10 * ((k : Int) / 1024)) 0 ((k : Int) % 1024) = some r ∧
        ViewOf crc r.2.2 a2 := by
  intro a2 ha
  rw [viewLoadBlock_eq] at ha
  by_cases c1 : 65536 ≤ k
  · rw [if_pos c1] at ha
    cases ha
  rw [if_neg c1] at ha
  have hk : k < 65536 := by omega
  obtain ⟨i1, i2, -⟩ := slotInt_range k hk
  have ecap := h.2.capacity k hk
  have elen := h.2.len k hk
  have hfile := h.2.file
  have hidx : ¬ (getLocalIndex (1 + 10 * ((k : Int) / 1024)) 0 ((k : Int) % 1024) < 0 ∨
      getLocalIndex (1 + 10 * ((k : Int) / 1024)) 0 ((k : Int) % 1024) ≥ MAX_NODE) := by
    rw [getLocalIndex_slot k hk]
    omega
  by_cases c2 : a.len k = 0
  · rw [if_pos c2, Res.ok.injEq] at ha
    subst ha
    refine ⟨([], true, s), ?_, h⟩
    unfold loadBlock
    simp only [getLocalIndex_slot k hk]
    rw [if_neg (by omega), if_pos (by rw [elen, c2]; rfl)]
  rw [if_neg c2] at ha
  by_cases c3 : ¬ a.handle k = 0 ∨ a.fileKiB < a.pos k
  · rw [if_pos c3] at ha
    cases ha
  rw [if_neg c3] at ha
  have hh0 : a.handle k = 0 := by
    by_contra hh
    exact c3 (Or.inl hh)
  have hfp : a.pos k ≤ a.fileKiB := by omega
  obtain ⟨epos, rest, d, hrec⟩ := h.2.record k hk c2
  have r3 := hrec.2.2.1
  have hcap : a.capacity k ≤ 32767 := by
    rw [ecap] at r3
    omega
  have hnc : NotCached s (getLocalIndex (1 + 10 * ((k : Int) / 1024)) 0 ((k : Int) % 1024)) := by
    rw [getLocalIndex_slot k hk]
    intro nd hnd
    rw [h.1.node, Option.some.injEq] at hnd
    rw [← hnd, handleAt_slotInt a k hk, if_pos hh0]
  have hlen : (s.node (getLocalIndex (1 + 10 * ((k : Int) / 1024)) 0 ((k : Int) % 1024))).len
      ≠ 0 := by
    rw [getLocalIndex_slot k hk, elen]
    omega
  rw [loadBlock_miss crc s _ _ _ hidx hlen hnc, getLocalIndex_slot k hk]
  have eR : ROUND (s.node (slotInt k)).capacity (4096 * 2)
      = (((a.capacity k + 8191) / 8192 * 8192 : Nat) : Int) := by
    rw [ecap, ROUND_8k _ hcap]
  have eF : fileRead s.m_datafile (s.node (slotInt k)).getPos
      (ROUND (s.node (slotInt k)).capacity (4096 * 2))
      = (byteLen ((s.m_datafile.drop (1024 * a.pos k)).take
            ((a.capacity k + 8191) / 8192 * 8192)),
          (s.m_datafile.drop (1024 * a.pos k)).take ((a.capacity k + 8191) / 8192 * 8192)) := by
    rw [eR, epos]
    unfold fileRead
    rw [if_neg (by omega), if_neg (by omega)]
    have t1 : ((((a.capacity k + 8191) / 8192 * 8192 : Nat) : Int)).toNat
        = (a.capacity k + 8191) / 8192 * 8192 := Int.toNat_ofNat _
    have t2 : (1024 * (a.pos k : Int)).toNat = 1024 * a.pos k := by omega
    rw [t1, t2]
  have hflen : s.m_datafile.length = 1024 * a.fileKiB := by
    rw [byteLen_eq] at hfile
    omega
  have eW : Nat.min ((a.capacity k + 8191) / 8192 * 8192) ((a.fileKiB - a.pos k) * 1024)
      = ((s.m_datafile.drop (1024 * a.pos k)).take
          ((a.capacity k + 8191) / 8192 * 8192)).length := by
    rw [List.length_take, List.length_drop, hflen]
    show min _ _ = min _ _
    omega
  have hbuf : BufHas (afterRead s (slotInt k)).m_buffer 0
      ((s.m_datafile.drop (1024 * a.pos k)).take ((a.capacity k + 8191) / 8192 * 8192)) := by
    show BufHas (overlay s.m_buffer (fileRead s.m_datafile (s.node (slotInt k)).getPos
      (ROUND (s.node (slotInt k)).capacity (4096 * 2))).2) 0 _
    rw [eF]
    exact BufHas_overlay _ _ _ (List.prefix_refl _)
  have hrb : Nat.min ((a.capacity k + 8191) / 8192 * 8192) ((a.fileKiB - a.pos k) * 1024)
      ≤ 32768 := by
    show min _ _ ≤ _
    omega
  obtain ⟨r, er, vr⟩ := ProcessReadBuffer_view crc (a.pos k)
    ((a.capacity k + 8191) / 8192 * 8192) 65536 (afterRead s (slotInt k)) a _ 0 k
    (ViewOf_buffer crc s a _ h) hbuf (by rw [Nat.zero_add]; exact eW) (by omega) a2 ha
  have e65 : MAX_DATA_LENGTH.toNat + 1 = 65536 := rfl
  rw [eF, e65, byteLen_eq, ← eW]
  rw [Nat.cast_zero] at er
  rw [er]
  exact ⟨(r.1, false, r.2), rfl, vr⟩

/-! ## Runs on the view -/

theorem ViewOf_new (crc : List Int → Int) : ViewOf crc freshCache CacheView.new := by
  have hh : ∀ k, CacheView.new.handle k = 0 := fun k => field_zero 16 k
  have hq : QueueWf ⟨0, 0⟩ := by
    show 0 < 2 ^ (16 * 0)
    norm_num
  refine ⟨?_, ?_⟩
  · refine ⟨rfl, rfl, rfl, by decide, by decide, rfl, hq, rfl, hq, ?_, rfl, rfl, hq, ?_⟩
    · show some (fun _ => INVALID_HANDLE) = some CacheView.new.handleAt
      congr 1
      funext i
      unfold CacheView.handleAt
      rw [if_neg (fun h => h.2.2 (hh _))]
    · intro h
      show (none : Option CacheValue).map _ = _
      unfold CacheView.valueAt
      have e : field 64 CacheView.new.values h.toNat = 0 := field_zero 64 _
      rw [e, if_neg (fun hx => hx.2 rfl)]
      rfl
  · refine ⟨rfl, fun k _ => ?_, fun k _ => ?_, fun k _ hl => ?_⟩
    · rw [(field_new_slots k).1]
      rfl
    · rw [(field_new_slots k).2.1]
      rfl
    · exact absurd (field_new_slots k).2.1 hl

theorem Res.ok_of_isOk (r : Res CacheView) (h : r.isOk = true) : r = Res.ok r.get := by
  cases r with
  | ok a => rfl
  | undef => cases h
  | unknown => cases h

theorem Res.undef_of_isUndef (r : Res CacheView) (h : r.isUndef = true) : r = Res.undef := by
  cases r with
  | ok a => cases h
  | undef => rfl
  | unknown => cases h

/-- One call on a state and on its view: an `ok` outcome of the view is the view of
the state that the code returns. -/
theorem viewCall_view (crc : List Int → Int) (s : MyfilePartition) (a a2 : CacheView)
    (c : ViewCall) (h : ViewOf crc s a) (ha : viewCall a c = Res.ok a2) :
    ∃ s2, applyCall crc s c.toCall = some s2 ∧ ViewOf crc s2 a2 := by
  cases c with
  | save k n =>
    obtain ⟨r, er, vr⟩ := (saveBlock_view crc s a k n (List.replicate n 0) true 0 h
      (byteLen_replicate n)).2 a2 ha
    exact ⟨r.2, applyCall_save crc s r.2 _ _ _ _ _ r.1 _ er, vr⟩
  | load k =>
    obtain ⟨r, er, vr⟩ := loadBlock_view crc s a k h a2 ha
    exact ⟨r.2.2, applyCall_load crc s r.2.2 _ _ _ r.1 r.2.1 er, vr⟩

/-- A sequence of calls on a state and on its view: an `ok` outcome of the view is
the view of the state that the code reaches. -/
theorem viewRun_view (crc : List Int → Int) (calls : List ViewCall) :
    ∀ (s : MyfilePartition) (a a2 : CacheView), ViewOf crc s a →
      viewRun calls a = Res.ok a2 →
      ∃ s2, runCalls crc (calls.map ViewCall.toCall) s = some s2 ∧ ViewOf crc s2 a2 := by
  induction calls with
  | nil =>
    intro s a a2 h ha
    rw [viewRun, Res.ok.injEq] at ha
    subst ha
    exact ⟨s, rfl, h⟩
  | cons c rest ih =>
    intro s a a2 h ha
    rw [viewRun] at ha
    cases hv : viewCall a c with
    | undef => rw [hv] at ha; cases ha
    | unknown => rw [hv] at ha; cases ha
    | ok a1 =>
      rw [hv] at ha
      have hw : Nat.blt a1.norm.weight 0 = false := rfl
      simp only [hw, cond_false, CacheView.norm_eq] at ha
      obtain ⟨s1, e1, v1⟩ := viewCall_view crc s a a1 c h hv
      obtain ⟨s2, e2, v2⟩ := ih s1 a1 a2 v1 ha
      rw [List.map_cons, runCalls_cons crc _ _ s s1 e1]
      exact ⟨s2, e2, v2⟩

/-! ## The run that drains the access FIFO -/

set_option maxRecDepth 100000 in
theorem dryView_facts :
    (viewRun dryCalls CacheView.new).isOk = true ∧
    (viewEvictSteps 757 dryView).isOk = true ∧
    viewEvictCond drainedView = true ∧
    (viewAllocCacheIndex drainedView).isNone = true ∧
    (viewEvictLoop (dryView.access.len + dryView.preread.len + 1) dryView).isUndef = true ∧
    (viewCall dryView (ViewCall.save 757 31720)).isUndef = true ∧
    (dryView.nodeCount, dryView.memoryByte, dryView.access.len, dryView.preread.len)
      = (760, 20999130, 757, 665) ∧
    (drainedView.nodeCount, drainedView.memoryByte, drainedView.access.len,
      drainedView.preread.len) = (665, 20998655, 0, 665) := by
  decide!

theorem dryCalls_length : dryCalls.length = 2180 := by
  simp only [dryCalls, smallSaves, fillerSaves, missLoads, bigSaves, List.length_append,
    List.length_map, List.length_range]

theorem cacheBlock_of_evictLoop_none (s : MyfilePartition) (a : CacheView) (h : ViewCache s a)
    (hl : evictLoop (a.access.len + a.preread.len + 1) s = none) (index : Int)
    (value : List Int) (rw pr : Bool) : cacheBlock s index value rw pr = none := by
  have e : s.m_accessCacheFIFO.length + s.m_prereadCacheFIFO.length + 1
      = a.access.len + a.preread.len + 1 := by
    rw [h.access, h.preread, List.length_map, List.length_map, NatQueue.toList_length,
      NatQueue.toList_length]
  unfold cacheBlock
  rw [h.node]
  simp only [h.mode, ne_eq, not_true_eq_false, if_false, e, hl]

/-- C31 (failing input): a fresh CACHE-mode partition receives 2180 calls of `saveBlock`
and `loadBlock`, all of which return: 760 saves of 5 bytes to the slots
`(1, 0, 0) .. (1, 0, 759)`, 663 saves of 31720 bytes to the next 663 slots, 95 loads
of every eighth of the first slots (each load misses and prefetches the seven
records behind its own) and 662 saves of 31720 bytes to prefetched slots. In the
state `s` reached, `cacheMemoryByte` is 20999130, above `MAX_CACHE_LENGTH`, with 757
tokens in the access FIFO and 665 in the preread FIFO. The eviction loop of the next
`cacheBlock` pops the 757 access tokens: 95 values of 5 bytes are freed, the 662
values of 31720 bytes keep their preread token and stay. In the state `s1` after
these pops `cacheMemoryByte` is 20998655 and the eviction condition still holds, the
access FIFO is empty and the preread FIFO has no more than 1024 entries, so
`AllocCacheIndex` returns -1 and `CHECK_DELETE(m_node[-1])` indexes the
slot-to-handle array at -1: every `cacheBlock` in `s`, and with it the next
`saveBlock`, has no defined result. -/
theorem eviction_indexes_minus_one (crc : List Int → Int) :
    ∃ s s1 : MyfilePartition,
      runCalls crc (dryCalls.map ViewCall.toCall) freshCache = some s ∧
      s.m_cacheMemoryByte = 20999130 ∧ s.m_cacheNodeCount = 760 ∧
      s.m_accessCacheFIFO.length = 757 ∧ s.m_prereadCacheFIFO.length = 665 ∧
      evictSteps 757 s = some s1 ∧
      s1.m_cacheMemoryByte = 20998655 ∧ s1.m_cacheNodeCount = 665 ∧
      evictCond s1 = true ∧
      s1.m_accessCacheFIFO = [] ∧ s1.m_prereadCacheFIFO.length = 665 ∧
      AllocCacheIndex s1 = (-1, s1) ∧
      CHECK_DELETE (AllocCacheIndex s1).2 (AllocCacheIndex s1).1 = none ∧
      (∀ index value rw pr, cacheBlock s index value rw pr = none) ∧
      saveBlock crc s 1 0 757 (List.replicate 31720 0) true 0 = none := by
  obtain ⟨f1, f2, f3, f4, f5, f6, f7, f8⟩ := dryView_facts
  have g1 : viewRun dryCalls CacheView.new = Res.ok dryView := Res.ok_of_isOk _ f1
  have g2 : viewEvictSteps 757 dryView = Res.ok drainedView := Res.ok_of_isOk _ f2
  have g4 : viewAllocCacheIndex drainedView = none := Option.isNone_iff_eq_none.mp f4
  have g5 := Res.undef_of_isUndef _ f5
  have g6 : viewSaveBlock dryView 757 31720 = Res.undef := Res.undef_of_isUndef _ f6
  obtain ⟨s, e1, v⟩ := viewRun_view crc dryCalls freshCache CacheView.new dryView
    (ViewOf_new crc) g1
  obtain ⟨s1, e2, v1⟩ := evictSteps_view 757 s dryView v.1 drainedView g2
  have a1 := (AllocCacheIndex_view s1 drainedView v1).1 g4
  have n1 := (Prod.mk.inj f7).1
  have n2 := (Prod.mk.inj (Prod.mk.inj f7).2).1
  have n3 := (Prod.mk.inj (Prod.mk.inj (Prod.mk.inj f7).2).2).1
  have n4 := (Prod.mk.inj (Prod.mk.inj (Prod.mk.inj f7).2).2).2
  have m1 := (Prod.mk.inj f8).1
  have m2 := (Prod.mk.inj (Prod.mk.inj f8).2).1
  have m3 := (Prod.mk.inj (Prod.mk.inj (Prod.mk.inj f8).2).2).1
  have m4 := (Prod.mk.inj (Prod.mk.inj (Prod.mk.inj f8).2).2).2
  have hsave := (saveBlock_view crc s dryView 757 31720 (List.replicate 31720 0) true 0 v
    (byteLen_replicate 31720)).1 g6
  have ex : (1 : Int) + 10 * (((757 : Nat) : Int) / 1024) = 1 := by norm_num
  have ez : ((757 : Nat) : Int) % 1024 = 757 := by norm_num
  rw [ex, ez] at hsave
  refine ⟨s, s1, e1, ?_, ?_, ?_, ?_, e2, ?_, ?_, ?_, ?_, ?_, a1, ?_, ?_, hsave⟩
  · rw [v.1.memoryByte, n2]
    rfl
  · rw [v.1.nodeCount, n1]
    rfl
  · rw [v.1.access, List.length_map, NatQueue.toList_length, n3]
  · rw [v.1.preread, List.length_map, NatQueue.toList_length, n4]
  · rw [v1.memoryByte, m2]
    rfl
  · rw [v1.nodeCount, m1]
    rfl
  · rw [evictCond_view s1 drainedView v1, f3]
  · rw [v1.access]
    unfold NatQueue.toList
    rw [m3]
    rfl
  · rw [v1.preread, List.length_map, NatQueue.toList_length, m4]
  · rw [a1]
    exact CHECK_DELETE_minus_one s1
  · exact cacheBlock_of_evictLoop_none s dryView v.1
      ((evictLoop_view _ s dryView v.1).1 g5)

/-! ## The eviction loop pops a token per iteration -/

/-- C14 (failing input): let the data file be 1 KiB aligned with a length in
`[2^31, 2^32)` (2 GiB or more), and let `saveBlock(x, y, z, d, changed)` be called for
an in-range coordinate with a payload below the size limit (`|d| + 24` rounded up to
a multiple of 1024 is below 65535) whose slot has no extent of that capacity, so
that the record is to be appended. `setPos` stores the file length in KiB and
`getPos()` multiplies it by 1024 in `int`, which gives a negative offset;
`File::Write` fails, and `saveBlock` returns false with the data file as it was: the
payload is not written, although it is below the limit. -/
theorem saveBlock_below_limit_not_written (crc : List Int → Int) (s : MyfilePartition)
    (x y z : Int) (d : List Int) (changed : Bool) (ts : Int)
    (hidx : 0 ≤ getLocalIndex x y z ∧ getLocalIndex x y z < MAX_NODE)
    (hlim : (byteLen d + 24 + 1023) / 1024 * 1024 < 65535)
    (hfile : 2147483648 ≤ byteLen s.m_datafile ∧ byteLen s.m_datafile < 4294967296)
    (hal : byteLen s.m_datafile % 1024 = 0)
    (hslot : (s.node (getLocalIndex x y z)).capacity < (byteLen d + 24 + 1023) / 1024 * 1024) :
    ∃ s1, saveBlock crc s x y z d changed ts = some (false, s1) ∧
      s1.m_datafile = s.m_datafile ∧
      (s1.node (getLocalIndex x y z)).getPos = byteLen s.m_datafile - 4294967296 ∧
      (s1.node (getLocalIndex x y z)).getPos < 0 := by
  have hnn := byteLen_nonneg d
  have hd : byteLen d + 24 ≤ 64512 := by omega
  have hr := ROUND_1k (byteLen d + 24) (by omega)
  have happ : ¬ ((s.node (getLocalIndex x y z)).capacity ≥ ROUND (byteLen d + 24) 1024 ∧
      s.m_cacheMode ≠ CacheMode.CM_APPEND) := by
    rw [hr.2.2.2]
    intro hh
    have := hh.1
    omega
  have hpos : (appendedNode s (getLocalIndex x y z) (byteLen d + 24)
      (ROUND (byteLen d + 24) 1024) changed).getPos = byteLen s.m_datafile - 4294967296 := by
    simp only [appendedNode, KeyNode.setPos, KeyNode.getPos, toInt32, cdiv]
    split_ifs <;> omega
  have hw : saveWrite crc s (getLocalIndex x y z) (byteLen d + 24)
      (ROUND (byteLen d + 24) 1024) d changed ts
      = saveAppend crc s (getLocalIndex x y z) (byteLen d + 24)
        (ROUND (byteLen d + 24) 1024) d changed ts := by
    unfold saveWrite
    rw [if_neg happ]
  have hfw : fileWrite s.m_datafile (byteLen s.m_datafile - 4294967296)
      (composeRecord crc (getLocalIndex x y z) d ts (ROUND (byteLen d + 24) 1024).toNat)
      = (-1, s.m_datafile) := by
    unfold fileWrite
    rw [if_pos (by omega)]
  have h1 : (saveAppend crc s (getLocalIndex x y z) (byteLen d + 24)
      (ROUND (byteLen d + 24) 1024) d changed ts).1 = false := by
    simp only [saveAppend, hpos, hfw, decide_eq_false_iff_not]
    omega
  have h2 : (saveAppend crc s (getLocalIndex x y z) (byteLen d + 24)
      (ROUND (byteLen d + 24) 1024) d changed ts).2.m_datafile = s.m_datafile := by
    simp only [saveAppend, hpos, hfw]
  have h3 : ((saveAppend crc s (getLocalIndex x y z) (byteLen d + 24)
      (ROUND (byteLen d + 24) 1024) d changed ts).2.node (getLocalIndex x y z)).getPos
      = byteLen s.m_datafile - 4294967296 := by
    simp only [saveAppend, setAt, if_true]
    exact hpos
  refine ⟨(saveAppend crc s (getLocalIndex x y z) (byteLen d + 24)
      (ROUND (byteLen d + 24) 1024) d changed ts).2, ?_, h2, h3, by rw [h3]; omega⟩
  unfold saveBlock
  simp only [saveLen_eq d hd]
  rw [if_neg (by omega), if_neg (by simp only [MAX_DATA_LENGTH]; omega), if_neg (by omega),
    hw, if_neg (by rw [h1]; simp)]

/-! ## Appends up to 2 GiB -/

/-- A save in `CM_APPEND` mode below 2 GiB: the record is appended and the call
returns true. -/
theorem saveBlock_append_mode (crc : List Int → Int) (s : MyfilePartition) (x y z : Int)
    (d : List Int) (changed : Bool) (ts : Int)
    (hidx : 0 ≤ getLocalIndex x y z ∧ getLocalIndex x y z < MAX_NODE)
    (hd : byteLen d + 24 ≤ 64512)
    (hmode : s.m_cacheMode = CacheMode.CM_APPEND) (hn : s.m_node = none)
    (hal : byteLen s.m_datafile % 1024 = 0) (hsz : byteLen s.m_datafile < 2147483648) :
    ∃ s1, saveBlock crc s x y z d changed ts = some (true, s1) ∧
      s1.m_cacheMode = CacheMode.CM_APPEND ∧ s1.m_node = none ∧
      byteLen s1.m_datafile = byteLen s.m_datafile + ROUND (byteLen d + 24) 1024 ∧
      ∀ j, j ≠ getLocalIndex x y z → s1.node j = s.node j := by
  have hnn := byteLen_nonneg d
  have hr := ROUND_1k (byteLen d + 24) (by omega)
  have happ : ¬ ((s.node (getLocalIndex x y z)).capacity ≥ ROUND (byteLen d + 24) 1024 ∧
      s.m_cacheMode ≠ CacheMode.CM_APPEND) := fun hh => hh.2 hmode
  obtain ⟨w1, -⟩ := saveWrite_append crc s (getLocalIndex x y z) (byteLen d + 24)
    (ROUND (byteLen d + 24) 1024) d changed ts happ hal hsz (by omega)
  obtain ⟨-, f2, -, -, f5⟩ := saveWrite_append_file crc s (getLocalIndex x y z)
    (byteLen d + 24) (ROUND (byteLen d + 24) 1024) d changed ts happ hal (by omega) (by omega) w1
  obtain ⟨c1, c2, -⟩ := saveWrite_cache crc s (getLocalIndex x y z) (byteLen d + 24)
    (ROUND (byteLen d + 24) 1024) d changed ts
  refine ⟨(saveWrite crc s (getLocalIndex x y z) (byteLen d + 24)
    (ROUND (byteLen d + 24) 1024) d changed ts).2, ?_, by rw [c2, hmode], by rw [c1, hn], f2, f5⟩
  unfold saveBlock
  simp only [saveLen_eq d hd]
  rw [if_neg (by omega), if_neg (by simp only [MAX_DATA_LENGTH]; omega), if_neg (by omega),
    if_pos w1, cacheBlock_no_cache _ _ _ _ _ (by rw [c1, hn])]

theorem ROUND_31744 : ROUND (byteLen (List.replicate 31720 0) + 24) 1024 = 31744 := by
  rw [byteLen_replicate, (ROUND_1k _ (by norm_num)).2.2.2]
  norm_num

/-- The state after `n` saves of 31720 bytes to the slot `(1,0,0)` of a fresh
`CM_APPEND` partition, for a data file that has been below 2 GiB before the last
save: every save has appended 31744 bytes. -/
theorem appends_grow (crc : List Int → Int) : ∀ n : Nat, n ≤ 67651 →
    ∃ s, runCalls crc (List.replicate n (Call.save 1 0 0 (List.replicate 31720 0) true 0))
        freshAppend = some s ∧
      s.m_cacheMode = CacheMode.CM_APPEND ∧ s.m_node = none ∧
      byteLen s.m_datafile = 31744 * (n : Int) ∧
      s.node (getLocalIndex 1 0 1) = freshAppend.node (getLocalIndex 1 0 1) := by
  intro n
  induction n with
  | zero => exact fun _ => ⟨freshAppend, rfl, rfl, rfl, rfl, rfl⟩
  | succ n ih =>
    intro hn
    obtain ⟨s, e1, m1, m2, m3, m4⟩ := ih (by omega)
    obtain ⟨s1, e2, k1, k2, k3, k4⟩ := saveBlock_append_mode crc s 1 0 0
      (List.replicate 31720 0) true 0 (by decide!) (by rw [byteLen_replicate]; norm_num) m1 m2
      (by omega) (by omega)
    refine ⟨s1, ?_, k1, k2, ?_, ?_⟩
    · rw [List.replicate_succ', runCalls_append, e1]
      show runCalls crc [Call.save 1 0 0 (List.replicate 31720 0) true 0] s = some s1
      rw [runCalls_cons crc _ _ s s1 (applyCall_save crc s s1 _ _ _ _ _ true _ e2)]
      rfl
    · rw [k3, ROUND_31744, m3]
      push_cast
      ring
    · rw [k4 _ (by decide!), m4]

/-- Witness for C14: on a fresh `CM_APPEND` partition, 67651 calls
`saveBlock(1, 0, 0, d, true)` with 31720 bytes each return true and append 31744
bytes each, which makes the data file 2147513344 bytes long, 29696 bytes more than
2 GiB. The call `saveBlock(1, 0, 1, "hello", true)` that follows is below the size
limit, returns false and leaves the data file as it is. -/
theorem saveBlock_below_limit_not_written_witness :
    ∃ s, runCalls demoCrc
        (List.replicate 67651 (Call.save 1 0 0 (List.replicate 31720 0) true 0)) freshAppend
        = some s ∧
      byteLen s.m_datafile = 2147513344 ∧
      (0 ≤ getLocalIndex 1 0 1 ∧ getLocalIndex 1 0 1 < MAX_NODE) ∧
      (byteLen helloBytes + 24 + 1023) / 1024 * 1024 < 65535 ∧
      ∃ s1, saveBlock demoCrc s 1 0 1 helloBytes true 0 = some (false, s1) ∧
        s1.m_datafile = s.m_datafile ∧
        (s1.node (getLocalIndex 1 0 1)).getPos = byteLen s.m_datafile - 4294967296 ∧
        (s1.node (getLocalIndex 1 0 1)).getPos < 0 := by
  obtain ⟨s, e1, -, -, m3, m4⟩ := appends_grow demoCrc 67651 (le_refl _)
  have hlen : byteLen s.m_datafile = 2147513344 := by
    rw [m3]
    norm_num
  exact ⟨s, e1, hlen, by decide!, by decide!,
    saveBlock_below_limit_not_written demoCrc s 1 0 1 helloBytes true 0 (by decide!)
      (by decide!) (by rw [hlen]; decide) (by rw [hlen]; decide)
      (by rw [m4]; decide!)⟩

/-! ## A round trip that returns an older payload -/

/-- C1 (failing input): on the fresh CACHE-mode partition, "hello" is saved at
`(1,0,0)`, "world" at `(1,0,1)` and 2000 bytes at `(1,0,1)`, which moves that slot to
a new extent. Then `saveBlock(1,0,1,"WORLD",true)` returns true; the coordinate is
in range and `|d| + 24 = 29`. After `UnInit` + `Init` of the partition and one
`loadBlock` of the other slot `(1,0,0)`, whose prefetch inserts the abandoned record
"world" for the slot `(1,0,1)`, the call `loadBlock(1,0,1)` returns "world" and not
the payload "WORLD" of the save. -/
theorem roundtrip_returns_older_payload :
    runCalls demoCrc [Call.save 1 0 0 helloBytes true 0, Call.save 1 0 1 worldBytes true 0,
      Call.save 1 0 1 aPayload true 0] freshCache = some afterThree ∧
    (0 ≤ getLocalIndex 1 0 1 ∧ getLocalIndex 1 0 1 < MAX_NODE) ∧
    byteLen upperWorld + 24 < 65535 ∧
    saveBlock demoCrc afterThree 1 0 1 upperWorld true 0 = some (true, afterFour) ∧
    getLocalIndex 1 0 0 ≠ getLocalIndex 1 0 1 ∧
    runCalls demoCrc [Call.init 1 CacheMode.CM_CACHE (fun _ => 0), Call.load 1 0 0] afterFour
      = some afterStaleLoad ∧
    (∃ t, loadBlock demoCrc afterStaleLoad 1 0 1 = some (worldBytes, true, t)) ∧
    worldBytes ≠ upperWorld := by
  refine ⟨?_, by decide!, by decide!, saveBlock_afterFour, by decide!, ?_,
    option_triple_exists _ _ _ staleChain_facts.2.2.2.2.2.2.2, by decide⟩
  · rw [runCalls_cons _ _ _ _ _ (applyCall_save _ _ _ _ _ _ _ _ _ _ saveBlock_afterS2),
      runCalls_cons _ _ _ _ _ (applyCall_save _ _ _ _ _ _ _ _ _ _ saveBlock_afterTwo),
      runCalls_cons _ _ _ _ _ (applyCall_save _ _ _ _ _ _ _ _ _ _ saveBlock_afterThree)]
    rfl
  · rw [runCalls_cons _ _ _ _ _ (applyCall_init _ _ _ _ _ _ Init_afterFour),
      runCalls_cons _ _ _ _ _ (applyCall_load _ _ _ _ _ _ _ _ loadBlock_restartedFour)]
    rfl

end Myfile
